import Mathlib

/-!
# Self collision model of the smpl planner

A shallow embedding of `sbpl_collision_checking/src/self_collision_model.cpp`
(class `SelfCollisionModelImpl`) and theorems about it.

Conventions of the embedding.

* A C++ `double` is a rational number; `Eigen::Vector3d` is `Vector3d`. The
  arithmetic is exact, except in the loops of `normalizeAngle`, whose additions
  and subtractions go through a rounding function `fl` that the theorems leave
  open.
* A sphere state tree is an inductive binary tree. `isLeaf()` (both child
  references equal) is the `leaf` constructor, an interior node carries its two
  children. The meta tree built by `checkVoxelsStateCollisions` is a second
  tree type whose leaves hold the root state of a link's own tree, which is
  what the source stores in `left` and `right` of a meta leaf.
* A `std::vector` used as a stack is a list whose head is `back()`:
  `push_back` is cons, `pop_back` drops the head.
* `m_rcs.updateSphereState` is forward kinematics done lazily; every read of a
  sphere position in the source is preceded by that call, so the embedding
  reads positions from a function of the joint variable positions.
* Code that the source calls but that is not part of the translated file
  (robot collision model and state, sphere tree construction, the distance
  field) is a field of `RobotCollisionModel` or a definition marked
  `Modelled from the spec`.

Behind the self collision model come embeddings of smaller parts of the
planner: the joint limits, the angle normalization, the free-angle search and
the inverse kinematics wrappers of `kdl_robot_model.cpp` (namespace `motion`),
`PlanningParams::init` of `planning_params.cpp` (namespace `manip`), the object
file reader and `main` of `call_planner.cpp` (namespace `call_planner`),
insertion into and removal from the sparse distance map, whose member bodies
are not among the sources and follow the spec, the sphere query `getOccupiedVoxels` of
`occupancy_grid.cpp`, and the debug visualization levels of `visualize.cpp`
(namespace `viz`). Loops that the source runs until a condition holds are
either total functions by well-founded recursion or take a number of
iterations (`fuel`) and return `none` when it does not suffice; the theorems
give a number that does. Library calls (`fscanf`, `atoi`, `atof`, the KDL solver, the parameter
server) are modelled by their documented behaviour or taken as inputs, as the
comment of each definition says.
-/

namespace sbpl
namespace collision

/-! ## Geometry -/

/-- Eigen::Vector3d with rational coordinates. -/
structure Vector3d where
  x : ℚ
  y : ℚ
  z : ℚ
deriving DecidableEq

/-- Difference of two vectors, `a - b`. -/
def Vector3d.sub (a b : Vector3d) : Vector3d :=
  ⟨a.x - b.x, a.y - b.y, a.z - b.z⟩

/-- Eigen `squaredNorm()`. -/
def Vector3d.squaredNorm (v : Vector3d) : ℚ :=
  v.x * v.x + v.y * v.y + v.z * v.z

/-- The lambda `sqrd` of `checkSpheresStateCollision`. -/
def sqrd (d : ℚ) : ℚ := d * d

/-! ## Sphere states and sphere trees -/

/-- A `CollisionSphereState` with the fields of its `CollisionSphereModel`
that the checks read: the name, the radius, and the world position. -/
structure CollisionSphereState where
  name : String
  radius : ℚ
  pos : Vector3d
deriving DecidableEq

/-- The sphere state tree of one link (`CollisionSpheresState::spheres`). -/
inductive SphereStateTree where
  | leaf (s : CollisionSphereState)
  | node (s : CollisionSphereState) (left right : SphereStateTree)
deriving DecidableEq

/-- The sphere stored at the root of a tree. -/
def SphereStateTree.sphere : SphereStateTree → CollisionSphereState
  | .leaf s => s
  | .node s _ _ => s

/-- Member `isLeaf()`. -/
def SphereStateTree.isLeaf : SphereStateTree → Bool
  | .leaf _ => true
  | .node _ _ _ => false

/-- Number of nodes of a tree. -/
def SphereStateTree.size : SphereStateTree → Nat
  | .leaf _ => 1
  | .node _ l r => l.size + r.size + 1

/-- The leaf spheres of a tree, left to right. -/
def SphereStateTree.leaves : SphereStateTree → List CollisionSphereState
  | .leaf s => [s]
  | .node _ l r => l.leaves ++ r.leaves

/-- The meta sphere state tree built by `checkVoxelsStateCollisions` over the
root spheres of the links of the group. A meta leaf is a copy of a link's root
sphere, and its `left` and `right` both refer to the root state of that link's
tree (`link`). -/
inductive MetaStateTree where
  | leaf (s : CollisionSphereState) (link : SphereStateTree)
  | node (s : CollisionSphereState) (left right : MetaStateTree)
deriving DecidableEq

/-- The sphere stored at the root of a meta tree. -/
def MetaStateTree.sphere : MetaStateTree → CollisionSphereState
  | .leaf s _ => s
  | .node s _ _ => s

/-- Number of nodes of a meta tree, the nodes of the link trees included. -/
def MetaStateTree.size : MetaStateTree → Nat
  | .leaf _ link => link.size + 1
  | .node _ l r => l.size + r.size + 1

/-- An element of the stack `q` of `checkVoxelsStateCollisions`: a pointer to
a sphere state of the meta tree (`parent_state->index == -1`) or of the tree of
a link. -/
inductive SphereRef where
  | ofMeta (t : MetaStateTree)
  | ofLink (t : SphereStateTree)
deriving DecidableEq

/-- The sphere a stack element points to. -/
def SphereRef.sphere : SphereRef → CollisionSphereState
  | .ofMeta t => t.sphere
  | .ofLink t => t.sphere

/-- Number of nodes below and including a stack element. -/
def SphereRef.size : SphereRef → Nat
  | .ofMeta t => t.size
  | .ofLink t => t.size

/-! ## Allowed collision matrix -/

/-- The enumeration `collision_detection::AllowedCollision::Type`. -/
inductive AllowedCollisionType where
  | NEVER
  | ALWAYS
  | CONDITIONAL
deriving DecidableEq

/-- The allowed collision matrix: the entries stored for ordered name pairs,
the first match for a pair being its entry. -/
structure AllowedCollisionMatrix where
  entries : List ((String × String) × AllowedCollisionType)
deriving DecidableEq

/-- The first entry stored for the ordered name pair, if there is one. -/
def lookupEntry : List ((String × String) × AllowedCollisionType) → String →
    String → Option AllowedCollisionType
  | [], _, _ => none
  | ((key1, key2), type) :: rest, name1, name2 =>
    if key1 = name1 ∧ key2 = name2 then some type
    else lookupEntry rest name1 name2

/-- Member `getEntry(name1, name2, type)`: `none` when it returns false,
`some type` when it returns true. -/
def AllowedCollisionMatrix.getEntry (acm : AllowedCollisionMatrix)
    (name1 name2 : String) : Option AllowedCollisionType :=
  lookupEntry acm.entries name1 name2

/-- Modelled from the spec: member `setEntry(name1, name2, allowed)` of the
matrix class, which is not part of the translated sources. The spec calls the
matrix a "symmetric labeled relation over link names": the entry, `ALWAYS` when
`allowed` and `NEVER` otherwise, is stored for both orders of the pair and
replaces what was stored for them. -/
def AllowedCollisionMatrix.setEntry (acm : AllowedCollisionMatrix)
    (name1 name2 : String) (allowed : Bool) : AllowedCollisionMatrix :=
  let v :=
    if allowed then AllowedCollisionType.ALWAYS else AllowedCollisionType.NEVER
  { entries := ((name1, name2), v) :: ((name2, name1), v) :: acm.entries }

/-- Modelled from the spec: member `hasEntry(name)` of the matrix class, which
is not part of the translated sources: whether some entry is stored for a pair
that starts with `name`. -/
def AllowedCollisionMatrix.hasEntry (acm : AllowedCollisionMatrix)
    (name : String) : Bool :=
  acm.entries.any fun e => decide (e.1.1 = name)

/-- Modelled from the spec: member `getAllEntryNames(names)` of the matrix
class, which is not part of the translated sources: the names that have an
entry, each once, in increasing order of `std::string` (character by
character). -/
def AllowedCollisionMatrix.getAllEntryNames (acm : AllowedCollisionMatrix) :
    List String :=
  ((acm.entries.map fun e => e.1.1).dedup).insertionSort
    (fun a b => a.data ≤ b.data)

/-- Modelled from the spec: member `setEntry(name, allowed)` of the matrix
class, which is not part of the translated sources: the blanket entry that
pairs `name` with every other name that has an entry. -/
def AllowedCollisionMatrix.setEntryName (acm : AllowedCollisionMatrix)
    (name : String) (allowed : Bool) : AllowedCollisionMatrix :=
  (acm.getAllEntryNames.filter fun e => decide (e ≠ name)).foldl
    (fun m e => m.setEntry name e allowed) acm

/-! ## Sphere tree against sphere tree -/

/-- The two pairs pushed when the first sphere of the pair is split
(`split1`), on top of the stack `q`. -/
def pushSplit1 (sl sr s2s : SphereStateTree)
    (q : List (SphereStateTree × SphereStateTree)) :
    List (SphereStateTree × SphereStateTree) :=
  let cd2l2 := (s2s.sphere.pos.sub sl.sphere.pos).squaredNorm
  let cd2r2 := (s2s.sphere.pos.sub sr.sphere.pos).squaredNorm
  if cd2l2 < cd2r2 then
    -- q.push_back((sr, s2s)); q.push_back((sl, s2s));
    (sl, s2s) :: (sr, s2s) :: q
  else
    -- q.push_back((sl, s2s)); q.push_back((sr, s2s));
    (sr, s2s) :: (sl, s2s) :: q

/-- The two pairs pushed when the second sphere of the pair is split, on top
of the stack `q`. -/
def pushSplit2 (s1s sl sr : SphereStateTree)
    (q : List (SphereStateTree × SphereStateTree)) :
    List (SphereStateTree × SphereStateTree) :=
  let cd1l2 := (s1s.sphere.pos.sub sl.sphere.pos).squaredNorm
  let cd1r2 := (s1s.sphere.pos.sub sr.sphere.pos).squaredNorm
  if cd1l2 < cd1r2 then
    -- q.push_back((s1s, sr)); q.push_back((s1s, sl));
    (s1s, sl) :: (s1s, sr) :: q
  else
    -- q.push_back((s1s, sl)); q.push_back((s1s, sr));
    (s1s, sr) :: (s1s, sl) :: q

/-- Termination measure of the pair stack: the sum over the stack of the
product of the two tree sizes. -/
def pairStackWeight : List (SphereStateTree × SphereStateTree) → Nat
  | [] => 0
  | (a, b) :: q => a.size * b.size + pairStackWeight q

/-- The `while (!q.empty())` loop of `checkSpheresStateCollision`, started on
the stack `q`; the result is the value returned by the function. -/
def spherePairLoop (acm : AllowedCollisionMatrix) :
    List (SphereStateTree × SphereStateTree) → Bool
  | [] => true -- queue exhausted = no collision found
  | (s1s, s2s) :: q =>
    let dx := s2s.sphere.pos.sub s1s.sphere.pos
    let cd2 := dx.squaredNorm
    let cr2 := sqrd (s1s.sphere.radius + s2s.sphere.radius)
    if cd2 > cr2 then
      spherePairLoop acm q
    else
      match s1s, s2s with
      | .leaf s1m, .leaf s2m =>
        match acm.getEntry s1m.name s2m.name with
        | some type =>
          if type ≠ AllowedCollisionType.ALWAYS then false
          else spherePairLoop acm q
        | none => false
      | .leaf s1m, .node _ sl sr =>
        -- s1s->isLeaf(): split sphere 2
        spherePairLoop acm (pushSplit2 (.leaf s1m) sl sr q)
      | .node _ sl sr, .leaf s2m =>
        -- s2s->isLeaf(): split sphere 1
        spherePairLoop acm (pushSplit1 sl sr (.leaf s2m) q)
      | .node s1m l1 r1, .node s2m l2 r2 =>
        if s1m.radius > s2m.radius then
          spherePairLoop acm (pushSplit1 l1 r1 (.node s2m l2 r2) q)
        else
          spherePairLoop acm (pushSplit2 (.node s1m l1 r1) l2 r2 q)
termination_by q => pairStackWeight q
decreasing_by
  all_goals simp_wf
  all_goals
    have hpos : ∀ t : SphereStateTree, 0 < t.size := fun t => by
      cases t <;> simp [SphereStateTree.size]
    try simp only [pushSplit1, pushSplit2]
    try split
    all_goals simp only [pairStackWeight, SphereStateTree.size]
    all_goals first
      | exact Nat.lt_add_of_pos_left (Nat.mul_pos (hpos _) (hpos _))
      | (simp only [Nat.add_mul, Nat.mul_add, Nat.mul_one, Nat.one_mul]; omega)

/-- Function `checkSpheresStateCollision(ss1i, ss2i, ss1, ss2, dist)`; `ss1`
and `ss2` are the two sphere state trees with their positions up to date. The
function never writes `dist`. -/
def checkSpheresStateCollision (acm : AllowedCollisionMatrix)
    (ss1 ss2 : SphereStateTree) : Bool :=
  spherePairLoop acm [(ss1, ss2)]

/-! ## Occupancy grid -/

/-- A batch call issued to the occupancy grid. -/
inductive FieldCall where
  | removePointsFromField (points : List Vector3d)
  | addPointsToField (points : List Vector3d)
deriving DecidableEq

/-- Modelled from the spec: the distance field behind `OccupancyGrid`, which is
not part of the translated sources, as the set of occupied voxel centres
(insertion is union, removal is set difference). `calls` records the batch
calls issued to the grid, oldest first. -/
structure OccupancyGrid where
  occupied : List Vector3d
  calls : List FieldCall
deriving DecidableEq

/-- Member `removePointsFromField(points)`. -/
def OccupancyGrid.removePointsFromField (grid : OccupancyGrid)
    (points : List Vector3d) : OccupancyGrid :=
  { occupied := grid.occupied.filter (fun v => decide (v ∉ points))
    calls := grid.calls ++ [FieldCall.removePointsFromField points] }

/-- Member `addPointsToField(points)`. -/
def OccupancyGrid.addPointsToField (grid : OccupancyGrid)
    (points : List Vector3d) : OccupancyGrid :=
  { occupied := grid.occupied ++ points
    calls := grid.calls ++ [FieldCall.addPointsToField points] }

/-- Modelled from the spec: `CheckSphereCollision(grid, s, padding, obs_dist)`
of `collision_operations.h`, which is not part of the translated sources:
"query `getDistance(s.pos)`; if `d ≥ s.radius + padding`, prune". The first
component is the returned flag (true = clear), the second is `obs_dist`. -/
def CheckSphereCollision (getDistance : Vector3d → ℚ) (s : CollisionSphereState)
    (padding : ℚ) : Bool × ℚ :=
  let obs_dist := getDistance s.pos
  (decide (obs_dist ≥ s.radius + padding), obs_dist)

/-! ## Robot collision model and state -/

/-- The struct `SphereIndex`: a spheres state index and a sphere index. -/
structure SphereIndex where
  ss : Nat
  s : Nat
deriving DecidableEq

/-- The robot collision model `m_rcm` as the self collision model sees it.
The fields are the accessors that `self_collision_model.cpp` calls on
`RobotCollisionModel` and on `RobotCollisionState`, on the sphere tree builder
and on the distance field; their code is not part of the translated file, so
they are parameters of the embedding. -/
structure RobotCollisionModel where
  /-- identity of the model object, compared by `state.model() != m_rcm` -/
  addr : Nat
  linkCount : Nat
  linkName : Nat → String
  /-- index of the joint above a link; joint 0 is the root joint -/
  linkParentJointIndex : Nat → Nat
  linkChildJointIndices : Nat → List Nat
  jointParentLinkIndex : Nat → Nat
  jointChildLinkIndex : Nat → Nat
  hasSpheresModel : Nat → Bool
  jointVarCount : Nat
  groupCount : Int
  groupLinkIndices : Int → List Nat
  linkSpheresStateIndex : Nat → Nat
  groupSpheresStateIndices : Int → List Nat
  groupOutsideVoxelsStateIndices : Int → List Nat
  /-- free function `GatherSphereIndices(m_rcs, gidx)` -/
  gatherSphereIndices : Int → List SphereIndex
  /-- the sphere state tree of a spheres state at given joint variable
  positions, every sphere updated by `updateSphereState` -/
  spheresState : (Nat → ℚ) → Nat → SphereStateTree
  /-- the voxels of a voxels state at given joint variable positions, as
  `updateVoxelsState` computes them -/
  voxelsAt : (Nat → ℚ) → Nat → List Vector3d
  /-- whether a voxels state is below a joint variable in the kinematic tree -/
  jointVarAffectsVoxels : Nat → Nat → Bool
  /-- the meta state tree that `buildFrom` makes of the root states of the
  links of the group -/
  buildMetaTree : List SphereStateTree → MetaStateTree
  /-- the obstacle distance the field reports at a point, given the occupied
  voxel centres -/
  fieldDistance : List Vector3d → Vector3d → ℚ

/-- The parts of a `RobotCollisionState` that the self collision model reads
and writes. -/
structure RobotCollisionState where
  /-- member `model()` -/
  model : Nat
  jointVarPositions : Nat → ℚ
  /-- `voxelsState(vsidx).voxels` -/
  voxels : Nat → List Vector3d
  /-- `voxelsStateDirty(vsidx)` -/
  voxelsDirty : Nat → Bool

/-- Modelled from the spec: `RobotCollisionState::setJointVarPosition`, which
is not part of the translated sources: "marks descendants of joint `i` dirty
but does not compute transforms". -/
def RobotCollisionState.setJointVarPosition (rcm : RobotCollisionModel)
    (rcs : RobotCollisionState) (vidx : Nat) (p : ℚ) : RobotCollisionState :=
  { rcs with
    jointVarPositions := Function.update rcs.jointVarPositions vidx p
    voxelsDirty := fun vsidx =>
      rcs.voxelsDirty vsidx || rcm.jointVarAffectsVoxels vidx vsidx }

/-- Modelled from the spec: `RobotCollisionState::updateVoxelsState`, which is
not part of the translated sources: "transforms all voxel centers for one link
and clears the flag". -/
def RobotCollisionState.updateVoxelsState (rcm : RobotCollisionModel)
    (rcs : RobotCollisionState) (vsidx : Nat) : RobotCollisionState :=
  { rcs with
    voxels := Function.update rcs.voxels vsidx
      (rcm.voxelsAt rcs.jointVarPositions vsidx)
    voxelsDirty := Function.update rcs.voxelsDirty vsidx false }

/-! ## The self collision model -/

/-- The data members of `SelfCollisionModelImpl` (the attached body members,
which no translated function reads, are left out). -/
structure SelfCollisionModelImpl where
  m_grid : OccupancyGrid
  m_rcs : RobotCollisionState
  m_gidx : Int
  m_voxels_indices : List Nat
  m_sphere_indices : List SphereIndex
  m_checked_spheres_states : List (Nat × Nat)
  m_acm : AllowedCollisionMatrix
  m_padding : ℚ

/-- The algorithm `std::sort` on a vector of indices. -/
def sortIndices (l : List Nat) : List Nat :=
  l.insertionSort (fun a b => a ≤ b)

/-- The algorithm `std::set_difference` on two sorted ranges. -/
def set_difference : List Nat → List Nat → List Nat
  | [], _ => []
  | x :: xs, [] => x :: xs
  | x :: xs, y :: ys =>
    if x < y then x :: set_difference xs (y :: ys)
    else if y < x then set_difference (x :: xs) ys
    else set_difference xs ys

/-- Member `setPadding`. -/
def setPadding (self : SelfCollisionModelImpl) (padding : ℚ) :
    SelfCollisionModelImpl :=
  { self with m_padding := padding }

/-- Member `updateCheckedSpheresIndices`. -/
def updateCheckedSpheresIndices (rcm : RobotCollisionModel)
    (self : SelfCollisionModelImpl) : SelfCollisionModelImpl :=
  if self.m_gidx = -1 then
    { self with m_checked_spheres_states := [] }
  else
    let group_link_indices := rcm.groupLinkIndices self.m_gidx
    let pairs := (List.range rcm.linkCount).flatMap fun l1 =>
      let l1_in_group := decide (l1 ∈ group_link_indices)
      let l1_has_spheres := rcm.hasSpheresModel l1
      if !l1_in_group || !l1_has_spheres then []
      else
        (List.range' (l1 + 1) (rcm.linkCount - (l1 + 1))).flatMap fun l2 =>
          let l2_in_group := decide (l2 ∈ group_link_indices)
          let l2_has_spheres := rcm.hasSpheresModel l2
          if !l2_in_group || !l2_has_spheres then []
          else
            match self.m_acm.getEntry (rcm.linkName l1) (rcm.linkName l2) with
            | some type =>
              if type ≠ AllowedCollisionType.ALWAYS then
                [(rcm.linkSpheresStateIndex l1, rcm.linkSpheresStateIndex l2)]
              else []
            | none =>
              [(rcm.linkSpheresStateIndex l1, rcm.linkSpheresStateIndex l2)]
    { self with m_checked_spheres_states := pairs }

/-- The body of the loop of `initAllowedCollisionMatrix` for the link
`lidx`. -/
def initAllowedCollisionMatrixStep (rcm : RobotCollisionModel)
    (acm : AllowedCollisionMatrix) (lidx : Nat) : AllowedCollisionMatrix :=
  let link_name := rcm.linkName lidx
  let acm1 :=
    if !acm.hasEntry link_name then acm.setEntryName link_name false else acm
  let pjidx := rcm.linkParentJointIndex lidx
  let acm2 :=
    if pjidx ≠ 0 then
      let plidx := rcm.jointParentLinkIndex pjidx
      let parent_link_name := rcm.linkName plidx
      let acm1p :=
        if !acm1.hasEntry parent_link_name then
          acm1.setEntryName parent_link_name false
        else acm1
      acm1p.setEntry link_name parent_link_name true
    else acm1
  (rcm.linkChildJointIndices lidx).foldl
    (fun a cjidx =>
      let clidx := rcm.jointChildLinkIndex cjidx
      let child_link_name := rcm.linkName clidx
      let a1 :=
        if !a.hasEntry child_link_name then
          a.setEntryName child_link_name false
        else a
      a1.setEntry link_name child_link_name true)
    acm2

/-- Member `initAllowedCollisionMatrix`. -/
def initAllowedCollisionMatrix (rcm : RobotCollisionModel)
    (self : SelfCollisionModelImpl) : SelfCollisionModelImpl :=
  { self with
    m_acm := (List.range rcm.linkCount).foldl
      (initAllowedCollisionMatrixStep rcm) self.m_acm }

/-- The constructor `SelfCollisionModelImpl(grid, rcm, ab_model)`; `rcs` is the
robot collision state that `m_rcs(rcm)` constructs. -/
def SelfCollisionModelImpl.create (grid : OccupancyGrid)
    (rcm : RobotCollisionModel) (rcs : RobotCollisionState) :
    SelfCollisionModelImpl :=
  initAllowedCollisionMatrix rcm
    { m_grid := grid
      m_rcs := rcs
      m_gidx := -1
      m_voxels_indices := []
      m_sphere_indices := []
      m_checked_spheres_states := []
      m_acm := { entries := [] }
      m_padding := 0 }

/-- The entry written by the body of the two loops of
`updateAllowedCollisionMatrix` for the names `entry1` and `entry2`. -/
def updateAllowedCollisionMatrixStep (acm : AllowedCollisionMatrix)
    (m : AllowedCollisionMatrix) (entry1 entry2 : String) :
    AllowedCollisionMatrix :=
  match acm.getEntry entry1 entry2 with
  | some type =>
    if type ≠ AllowedCollisionType.NEVER then m.setEntry entry1 entry2 false
    else m.setEntry entry1 entry2 true
  | none => m

/-- Member `updateAllowedCollisionMatrix(acm)`. -/
def updateAllowedCollisionMatrix (rcm : RobotCollisionModel)
    (self : SelfCollisionModelImpl) (acm : AllowedCollisionMatrix) :
    SelfCollisionModelImpl :=
  let all_entries := acm.getAllEntryNames
  let m := (List.range all_entries.length).foldl
    (fun m i =>
      (List.range' (i + 1) (all_entries.length - (i + 1))).foldl
        (fun m j =>
          updateAllowedCollisionMatrixStep acm m (all_entries.getD i "")
            (all_entries.getD j ""))
        m)
    self.m_acm
  updateCheckedSpheresIndices rcm { self with m_acm := m }

/-- Member `setAllowedCollisionMatrix(acm)`. -/
def setAllowedCollisionMatrix (rcm : RobotCollisionModel)
    (self : SelfCollisionModelImpl) (acm : AllowedCollisionMatrix) :
    SelfCollisionModelImpl :=
  updateCheckedSpheresIndices rcm { self with m_acm := acm }

/-- The voxels gathered from the voxels states with the given indices. -/
def gatherVoxels (rcs : RobotCollisionState) (indices : List Nat) :
    List Vector3d :=
  indices.flatMap fun vsidx => rcs.voxels vsidx

/-- The local `ovidx_rem` of `updateGroup`: the indices of the voxels states
that were outside the group and must be removed. -/
def ovidxRem (rcm : RobotCollisionModel) (self : SelfCollisionModelImpl)
    (gidx : Int) : List Nat :=
  set_difference (sortIndices self.m_voxels_indices)
    (sortIndices (rcm.groupOutsideVoxelsStateIndices gidx))

/-- The local `ovidx_ins` of `updateGroup`: the indices of the voxels states
that are now outside the group and must be inserted. -/
def ovidxIns (rcm : RobotCollisionModel) (self : SelfCollisionModelImpl)
    (gidx : Int) : List Nat :=
  set_difference (sortIndices (rcm.groupOutsideVoxelsStateIndices gidx))
    (sortIndices self.m_voxels_indices)

/-- Member `updateGroup`. -/
def updateGroup (rcm : RobotCollisionModel) (self : SelfCollisionModelImpl)
    (gidx : Int) : SelfCollisionModelImpl :=
  if gidx = self.m_gidx then self
  else
    let old_ov_indices := sortIndices self.m_voxels_indices
    let new_ov_indices := sortIndices (rcm.groupOutsideVoxelsStateIndices gidx)
    let ovidx_rem := set_difference old_ov_indices new_ov_indices
    let ovidx_ins := set_difference new_ov_indices old_ov_indices
    let v_rem := gatherVoxels self.m_rcs ovidx_rem
    let v_ins := gatherVoxels self.m_rcs ovidx_ins
    let grid1 :=
      if v_rem ≠ [] then self.m_grid.removePointsFromField v_rem
      else self.m_grid
    let grid2 :=
      if v_ins ≠ [] then grid1.addPointsToField v_ins else grid1
    updateCheckedSpheresIndices rcm
      { self with
        m_grid := grid2
        m_voxels_indices := new_ov_indices
        m_sphere_indices := rcm.gatherSphereIndices gidx
        m_gidx := gidx }

/-- Member `copyState`. -/
def copyState (rcm : RobotCollisionModel) (self : SelfCollisionModelImpl)
    (state : RobotCollisionState) : SelfCollisionModelImpl :=
  (List.range rcm.jointVarCount).foldl
    (fun acc vidx =>
      { acc with
        m_rcs := acc.m_rcs.setJointVarPosition rcm vidx
          (state.jointVarPositions vidx) })
    self

/-- The local state of the loop of `updateVoxelsStates`. -/
structure VoxelsUpdate where
  rcs : RobotCollisionState
  v_rem : List Vector3d
  v_ins : List Vector3d

/-- One iteration of the loop of `updateVoxelsStates`. -/
def updateVoxelsStatesStep (rcm : RobotCollisionModel) (acc : VoxelsUpdate)
    (vsidx : Nat) : VoxelsUpdate :=
  if acc.rcs.voxelsDirty vsidx then
    let v_rem := acc.v_rem ++ acc.rcs.voxels vsidx
    let rcs := acc.rcs.updateVoxelsState rcm vsidx
    let v_ins := acc.v_ins ++ rcs.voxels vsidx
    { rcs := rcs, v_rem := v_rem, v_ins := v_ins }
  else acc

/-- Member `updateVoxelsStates`. -/
def updateVoxelsStates (rcm : RobotCollisionModel)
    (self : SelfCollisionModelImpl) : SelfCollisionModelImpl :=
  let acc := self.m_voxels_indices.foldl (updateVoxelsStatesStep rcm)
    { rcs := self.m_rcs, v_rem := [], v_ins := [] }
  let grid1 :=
    if acc.v_rem ≠ [] then self.m_grid.removePointsFromField acc.v_rem
    else self.m_grid
  let grid2 :=
    if acc.v_ins ≠ [] then grid1.addPointsToField acc.v_ins else grid1
  { self with m_grid := grid2, m_rcs := acc.rcs }

/-! ## Spheres against the voxels of the field -/

/-- The outcome of `checkVoxelsStateCollisions`: the returned flag, the value
of `dist` afterwards, and the obstacle distances that `CheckSphereCollision`
reported during the call, in the order of the queries (a ghost output, not a
variable of the source). -/
structure VoxelsCheck where
  ok : Bool
  dist : ℚ
  queried : List ℚ
deriving DecidableEq

/-- Records one more query in front of an outcome. -/
def VoxelsCheck.observe (obs_dist : ℚ) (r : VoxelsCheck) : VoxelsCheck :=
  { r with queried := obs_dist :: r.queried }

/-- Pushes two link sphere states: `if (sl->radius > sr->radius) push sr, sl
else push sl, sr`. -/
def pushLinkChildren (sl sr : SphereStateTree) (q : List SphereRef) :
    List SphereRef :=
  if sl.sphere.radius > sr.sphere.radius then
    SphereRef.ofLink sl :: SphereRef.ofLink sr :: q
  else
    SphereRef.ofLink sr :: SphereRef.ofLink sl :: q

/-- Pushes two meta sphere states, in the same order as `pushLinkChildren`. -/
def pushMetaChildren (sl sr : MetaStateTree) (q : List SphereRef) :
    List SphereRef :=
  if sl.sphere.radius > sr.sphere.radius then
    SphereRef.ofMeta sl :: SphereRef.ofMeta sr :: q
  else
    SphereRef.ofMeta sr :: SphereRef.ofMeta sl :: q

/-- Termination measure of the sphere stack: the number of nodes below the
stacked sphere states. -/
def sphereStackWeight : List SphereRef → Nat
  | [] => 0
  | s :: q => s.size + sphereStackWeight q

/-- The `while (!q.empty())` loop of `checkVoxelsStateCollisions`, started on
the stack `q` with `dist` holding the caller's value. -/
def voxelsLoop (getDistance : Vector3d → ℚ) (padding : ℚ) :
    List SphereRef → ℚ → VoxelsCheck
  | [], dist => { ok := true, dist := dist, queried := [] }
  | s :: q, dist =>
    let chk := CheckSphereCollision getDistance s.sphere padding
    let obs_dist := chk.2
    if chk.1 then
      -- no collision -> ok!
      VoxelsCheck.observe obs_dist (voxelsLoop getDistance padding q dist)
    else
      match s with
      | .ofMeta (.leaf _ (.node _ sl sr)) =>
        -- meta-leaf: sl = s->left->left and sr = s->right->right both exist
        VoxelsCheck.observe obs_dist
          (voxelsLoop getDistance padding (pushLinkChildren sl sr q) dist)
      | .ofMeta (.leaf _ (.leaf _)) =>
        -- meta-leaf over a root without children: sl and sr are both null
        -- and nothing is pushed
        VoxelsCheck.observe obs_dist (voxelsLoop getDistance padding q dist)
      | .ofLink (.leaf _) =>
        -- normal leaf: dist = obs_dist; return false;
        { ok := false, dist := obs_dist, queried := [obs_dist] }
      | .ofMeta (.node _ sl sr) =>
        VoxelsCheck.observe obs_dist
          (voxelsLoop getDistance padding (pushMetaChildren sl sr q) dist)
      | .ofLink (.node _ sl sr) =>
        VoxelsCheck.observe obs_dist
          (voxelsLoop getDistance padding (pushLinkChildren sl sr q) dist)
termination_by q _ => sphereStackWeight q
decreasing_by
  all_goals simp_wf
  all_goals
    have hpos : ∀ t : SphereStateTree, 0 < t.size := fun t => by
      cases t <;> simp [SphereStateTree.size]
    have hposm : ∀ t : MetaStateTree, 0 < t.size := fun t => by
      cases t <;> simp [MetaStateTree.size]
    have hposr : ∀ t : SphereRef, 0 < t.size := fun t => by
      cases t <;> simp [SphereRef.size, hpos, hposm]
    try simp only [pushLinkChildren, pushMetaChildren]
    try split
    all_goals simp only [sphereStackWeight, SphereRef.size, MetaStateTree.size,
      SphereStateTree.size]
    all_goals first
      | omega
      | exact Nat.lt_add_of_pos_left (hposr _)

/-- Member `checkVoxelsStateCollisions(dist)`: the outcome and the model after
the call. -/
def checkVoxelsStateCollisions (rcm : RobotCollisionModel)
    (self : SelfCollisionModelImpl) (dist : ℚ) :
    VoxelsCheck × SelfCollisionModelImpl :=
  let self1 := updateVoxelsStates rcm self
  let group_spheres_state_indices := rcm.groupSpheresStateIndices self1.m_gidx
  -- the root sphere state of each link of the group, updated
  let roots := group_spheres_state_indices.map fun ssidx =>
    rcm.spheresState self1.m_rcs.jointVarPositions ssidx
  let meta_state := rcm.buildMetaTree roots
  (voxelsLoop (rcm.fieldDistance self1.m_grid.occupied) self1.m_padding
    [SphereRef.ofMeta meta_state] dist, self1)

/-! ## Spheres against spheres -/

/-- Member `checkSpheresStateCollisions(dist)`; it never writes `dist`. -/
def checkSpheresStateCollisions (rcm : RobotCollisionModel)
    (self : SelfCollisionModelImpl) : Bool :=
  self.m_checked_spheres_states.all fun ss_pair =>
    checkSpheresStateCollision self.m_acm
      (rcm.spheresState self.m_rcs.jointVarPositions ss_pair.1)
      (rcm.spheresState self.m_rcs.jointVarPositions ss_pair.2)

/-- Member `checkSpheresStateCollisions(aci, dist)`; it never writes `dist`.
The `AllowedCollisionsInterface` is queried through `getEntry` only. -/
def checkSpheresStateCollisionsWith (rcm : RobotCollisionModel)
    (self : SelfCollisionModelImpl) (aci : AllowedCollisionMatrix) : Bool :=
  let group_link_indices := rcm.groupLinkIndices self.m_gidx
  (List.range group_link_indices.length).all fun l1 =>
    let lidx1 := group_link_indices.getD l1 0
    if !rcm.hasSpheresModel lidx1 then true
    else
      (List.range' (l1 + 1) (group_link_indices.length - (l1 + 1))).all fun l2 =>
        let lidx2 := group_link_indices.getD l2 0
        if !rcm.hasSpheresModel lidx2 then true
        else if aci.getEntry (rcm.linkName lidx2) (rcm.linkName lidx1)
            = some AllowedCollisionType.ALWAYS then
          -- collisions allowed between this pair of links
          true
        else
          checkSpheresStateCollision self.m_acm
            (rcm.spheresState self.m_rcs.jointVarPositions
              (rcm.linkSpheresStateIndex lidx1))
            (rcm.spheresState self.m_rcs.jointVarPositions
              (rcm.linkSpheresStateIndex lidx2))

/-! ## checkCollision -/

/-- The outcome of a `checkCollision` call: the returned flag, the value of
`dist` afterwards, the obstacle distances queried from the field during the
call (ghost), and the model after the call. -/
structure CheckOutcome where
  ret : Bool
  dist : ℚ
  queried : List ℚ
  self : SelfCollisionModelImpl

/-- Member `checkCollision(state, gidx, dist)`. -/
def checkCollision (rcm : RobotCollisionModel) (self : SelfCollisionModelImpl)
    (state : RobotCollisionState) (gidx : Int) (dist : ℚ) : CheckOutcome :=
  if state.model ≠ rcm.addr then
    { ret := false, dist := dist, queried := [], self := self }
  else if gidx < 0 ∨ gidx ≥ rcm.groupCount then
    { ret := false, dist := dist, queried := [], self := self }
  else
    let self1 := updateGroup rcm self gidx
    let self2 := copyState rcm self1 state
    let vox := checkVoxelsStateCollisions rcm self2 dist
    if !vox.1.ok || !checkSpheresStateCollisions rcm vox.2 then
      { ret := false, dist := vox.1.dist, queried := vox.1.queried,
        self := vox.2 }
    else
      { ret := true, dist := vox.1.dist, queried := vox.1.queried,
        self := vox.2 }

/-- Member `checkCollision(state, aci, gidx, dist)`. -/
def checkCollisionWith (rcm : RobotCollisionModel)
    (self : SelfCollisionModelImpl) (state : RobotCollisionState)
    (aci : AllowedCollisionMatrix) (gidx : Int) (dist : ℚ) : CheckOutcome :=
  if state.model ≠ rcm.addr then
    { ret := false, dist := dist, queried := [], self := self }
  else if gidx < 0 ∨ gidx ≥ rcm.groupCount then
    { ret := false, dist := dist, queried := [], self := self }
  else
    let self1 := updateGroup rcm self gidx
    let self2 := copyState rcm self1 state
    let vox := checkVoxelsStateCollisions rcm self2 dist
    if !vox.1.ok || !checkSpheresStateCollisionsWith rcm vox.2 aci then
      { ret := false, dist := vox.1.dist, queried := vox.1.queried,
        self := vox.2 }
    else
      { ret := true, dist := vox.1.dist, queried := vox.1.queried,
        self := vox.2 }

/-- A sequence of `checkCollision(state, gidx, dist)` calls, each on the model
left by the one before; the result is the model after the last call. -/
def checkCollisions (rcm : RobotCollisionModel) :
    SelfCollisionModelImpl → List (RobotCollisionState × Int × ℚ) →
    SelfCollisionModelImpl
  | self, [] => self
  | self, (state, gidx, dist) :: rest =>
    checkCollisions rcm (checkCollision rcm self state gidx dist).self rest

/-! ## Predicates used in the statements -/

/-- Two spheres touch or overlap: the squared distance of the centres is at
most the squared sum of the radii (the negation of the pruning test
`cd2 > cr2`). -/
def spheresOverlap (a b : CollisionSphereState) : Prop :=
  (b.pos.sub a.pos).squaredNorm ≤ sqrd (a.radius + b.radius)

instance (a b : CollisionSphereState) : Decidable (spheresOverlap a b) := by
  unfold spheresOverlap
  infer_instance

/-- The ball of `s` contains the ball of `c`: the centre distance plus the
radius of `c` is at most the radius of `s`, written without a square root. -/
def ballContains (s c : CollisionSphereState) : Prop :=
  c.radius ≤ s.radius ∧
    (c.pos.sub s.pos).squaredNorm ≤ sqrd (s.radius - c.radius)

/-- The enclosure invariant of a sphere tree: radii are not negative and the
ball of every interior sphere contains the balls of both its children. -/
def SphereStateTree.Enclosed : SphereStateTree → Prop
  | .leaf s => 0 ≤ s.radius
  | .node s l r =>
    ballContains s l.sphere ∧ ballContains s r.sphere ∧ l.Enclosed ∧ r.Enclosed

/-- Some leaf of the first tree and some leaf of the second touch or overlap
while their name pair has no ALWAYS entry in the allowed collision matrix. -/
def treesCollide (acm : AllowedCollisionMatrix) (t1 t2 : SphereStateTree) :
    Prop :=
  ∃ a ∈ t1.leaves, ∃ b ∈ t2.leaves,
    spheresOverlap a b ∧
      acm.getEntry a.name b.name ≠ some AllowedCollisionType.ALWAYS

/-- Some pair of the stack collides in the sense of `treesCollide`. -/
def stackCollides (acm : AllowedCollisionMatrix)
    (q : List (SphereStateTree × SphereStateTree)) : Prop :=
  ∃ p ∈ q, treesCollide acm p.1 p.2

/-- Every tree on the stack satisfies the enclosure invariant. -/
def stackEnclosed (q : List (SphereStateTree × SphereStateTree)) : Prop :=
  ∀ p ∈ q, p.1.Enclosed ∧ p.2.Enclosed

/-- The allowed collision matrix is symmetric. -/
def AllowedCollisionMatrix.Symmetric (acm : AllowedCollisionMatrix) : Prop :=
  ∀ n1 n2 : String, acm.getEntry n1 n2 = acm.getEntry n2 n1

/-- A `checkCollision` call that passes the two checks on its arguments: the
state is derived from the model and the group index is in range. -/
def validCall (rcm : RobotCollisionModel) (c : RobotCollisionState × Int × ℚ) :
    Prop :=
  c.1.model = rcm.addr ∧ 0 ≤ c.2.1 ∧ c.2.1 < rcm.groupCount

/-- The stored index list belongs to the active group, when there is one. -/
def groupIndicesStored (rcm : RobotCollisionModel)
    (self : SelfCollisionModelImpl) : Prop :=
  0 ≤ self.m_gidx →
    self.m_voxels_indices
      = sortIndices (rcm.groupOutsideVoxelsStateIndices self.m_gidx)

/-- Every occupied voxel of the field is a voxel of a voxels state of the
stored index list. -/
def stampedWithin (self : SelfCollisionModelImpl) : Prop :=
  ∀ v ∈ self.m_grid.occupied,
    ∃ i ∈ self.m_voxels_indices, v ∈ self.m_rcs.voxels i

/-- The occupied voxels of the field are exactly the voxels of the voxels
states of the stored index list. -/
def stampedExactly (self : SelfCollisionModelImpl) : Prop :=
  ∀ v, v ∈ self.m_grid.occupied ↔
    ∃ i ∈ self.m_voxels_indices, v ∈ self.m_rcs.voxels i

/-- Every voxel of voxels state `i` is assigned to `i` by `owner`. -/
def voxelsOwned (owner : Vector3d → Nat) (rcs : RobotCollisionState) : Prop :=
  ∀ i, ∀ v ∈ rcs.voxels i, owner v = i

/-- No voxel is ever shared between two voxels states: one assignment of
voxels to voxels states covers the voxels stored in `rcs` and the voxels that
the kinematics produce at any joint variable positions. -/
def voxelsNeverShared (rcm : RobotCollisionModel) (rcs : RobotCollisionState) :
    Prop :=
  ∃ owner : Vector3d → Nat,
    voxelsOwned owner rcs ∧ ∀ jp i, ∀ v ∈ rcm.voxelsAt jp i, owner v = i

/-- The value `d` is the minimum of the list `l`. -/
def isMinimumOf (d : ℚ) (l : List ℚ) : Prop :=
  d ∈ l ∧ ∀ d' ∈ l, d ≤ d'

/-- The sphere fails the clearance test of `CheckSphereCollision`: the
obstacle distance at its centre is below its radius plus the padding. -/
def failsClearance (getDistance : Vector3d → ℚ) (padding : ℚ)
    (s : CollisionSphereState) : Prop :=
  getDistance s.pos < s.radius + padding

/-- Some leaf sphere of the tree fails the clearance test together with every
sphere above it in the tree. -/
def SphereStateTree.hit (getDistance : Vector3d → ℚ) (padding : ℚ) :
    SphereStateTree → Prop
  | .leaf s => failsClearance getDistance padding s
  | .node s l r =>
    failsClearance getDistance padding s ∧
      (l.hit getDistance padding ∨ r.hit getDistance padding)

/-- Some leaf sphere of a link below the meta node fails the clearance test
together with every sphere above it in the tree of its link and every meta
sphere above the root of that tree; the meta leaf stands for the root of the
link, of which it is a copy. -/
def MetaStateTree.hit (getDistance : Vector3d → ℚ) (padding : ℚ) :
    MetaStateTree → Prop
  | .leaf s (.leaf _) => failsClearance getDistance padding s
  | .leaf s (.node _ l r) =>
    failsClearance getDistance padding s ∧
      (l.hit getDistance padding ∨ r.hit getDistance padding)
  | .node s l r =>
    failsClearance getDistance padding s ∧
      (l.hit getDistance padding ∨ r.hit getDistance padding)

/-- The same as `MetaStateTree.hit`, except that a link whose tree is a single
leaf sphere is never hit. -/
def MetaStateTree.found (getDistance : Vector3d → ℚ) (padding : ℚ) :
    MetaStateTree → Prop
  | .leaf _ (.leaf _) => False
  | .leaf s (.node _ l r) =>
    failsClearance getDistance padding s ∧
      (l.hit getDistance padding ∨ r.hit getDistance padding)
  | .node s l r =>
    failsClearance getDistance padding s ∧
      (l.found getDistance padding ∨ r.found getDistance padding)

/-- What the loop of the environment check finds below a stack element. -/
def SphereRef.found (getDistance : Vector3d → ℚ) (padding : ℚ) :
    SphereRef → Prop
  | .ofMeta t => t.found getDistance padding
  | .ofLink t => t.hit getDistance padding

/-- No link below the meta node has a tree that is a single leaf sphere. -/
def MetaStateTree.noSingleLeafLink : MetaStateTree → Prop
  | .leaf _ (.leaf _) => False
  | .leaf _ (.node _ _ _) => True
  | .node _ l r => l.noSingleLeafLink ∧ r.noSingleLeafLink

/-- The links `l1 < l2` form a pair that the self check has to test: both are
links of the active group, both have a spheres model, and the entry of the
matrix for their names is absent or not `ALWAYS`. -/
def checkedLinkPair (rcm : RobotCollisionModel) (self : SelfCollisionModelImpl)
    (l1 l2 : Nat) : Prop :=
  l1 < l2 ∧ l2 < rcm.linkCount ∧
    l1 ∈ rcm.groupLinkIndices self.m_gidx ∧
    l2 ∈ rcm.groupLinkIndices self.m_gidx ∧
    rcm.hasSpheresModel l1 = true ∧ rcm.hasSpheresModel l2 = true ∧
    self.m_acm.getEntry (rcm.linkName l1) (rcm.linkName l2)
      ≠ some AllowedCollisionType.ALWAYS

/-- The checked pairs are up to date: the list is empty while no group is
active (`m_gidx == -1`), and otherwise it lists, for a list of link pairs that
holds every pair to test exactly once, the spheres state indices of the two
links. -/
def checkedPairsCurrent (rcm : RobotCollisionModel)
    (self : SelfCollisionModelImpl) : Prop :=
  (self.m_gidx = -1 → self.m_checked_spheres_states = []) ∧
    (self.m_gidx ≠ -1 →
      ∃ lps : List (Nat × Nat), lps.Nodup ∧
        (∀ l1 l2, (l1, l2) ∈ lps ↔ checkedLinkPair rcm self l1 l2) ∧
        self.m_checked_spheres_states = lps.map fun p =>
          (rcm.linkSpheresStateIndex p.1, rcm.linkSpheresStateIndex p.2))

/-- The joint `j` connects the parent link `p` to the child link `c`: either
`c` is a link of the model whose parent joint is `j`, not the root joint, and
`p` is the parent link of `j`; or `p` is a link of the model that lists `j`
among its child joints and `c` is the child link of `j`. -/
def jointBetween (rcm : RobotCollisionModel) (j p c : Nat) : Prop :=
  (c < rcm.linkCount ∧ rcm.linkParentJointIndex c = j ∧ j ≠ 0 ∧
      rcm.jointParentLinkIndex j = p) ∨
    (p < rcm.linkCount ∧ j ∈ rcm.linkChildJointIndices p ∧
      rcm.jointChildLinkIndex j = c)

/-- The two children that the environment check pushes for a sphere state
that failed the clearance test: those of an interior node of the meta tree or
of a link tree, and, at a meta leaf, those of the root of the link tree. -/
def SphereRef.children : SphereRef → Option (SphereRef × SphereRef)
  | .ofMeta (.leaf _ (.node _ sl sr)) => some (.ofLink sl, .ofLink sr)
  | .ofMeta (.leaf _ (.leaf _)) => none
  | .ofMeta (.node _ sl sr) => some (.ofMeta sl, .ofMeta sr)
  | .ofLink (.node _ sl sr) => some (.ofLink sl, .ofLink sr)
  | .ofLink (.leaf _) => none

/-! ## Example data -/

/-- An allowed collision matrix with one symmetric ALWAYS entry. -/
def exampleAcm : AllowedCollisionMatrix :=
  { entries :=
      [(("ua0", "fa0"), AllowedCollisionType.ALWAYS),
       (("fa0", "ua0"), AllowedCollisionType.ALWAYS)] }

/-- A sphere tree with two leaves of radius 1/2 under a root of radius 2. -/
def exampleUpperArm : SphereStateTree :=
  .node { name := "ua", radius := 2, pos := ⟨0, 0, 0⟩ }
    (.leaf { name := "ua0", radius := 1 / 2, pos := ⟨-1, 0, 0⟩ })
    (.leaf { name := "ua1", radius := 1 / 2, pos := ⟨1, 0, 0⟩ })

/-- A sphere tree that is a single leaf of radius 1/2. -/
def exampleForearm : SphereStateTree :=
  .leaf { name := "fa0", radius := 1 / 2, pos := ⟨9 / 5, 0, 0⟩ }

/-- A ball around the centre of `a` that contains the balls of `a` and `b`,
with a radius that needs no square root. -/
def exampleCover (a b : CollisionSphereState) : CollisionSphereState :=
  { name := ""
    radius := a.radius + b.radius + |b.pos.x - a.pos.x| + |b.pos.y - a.pos.y|
      + |b.pos.z - a.pos.z|
    pos := a.pos }

/-- A meta tree builder for the examples: one meta leaf per root, chained to
the right. -/
def exampleBuildMetaTree : List SphereStateTree → MetaStateTree
  | [] => .leaf ⟨"", 0, ⟨0, 0, 0⟩⟩ (.leaf ⟨"", 0, ⟨0, 0, 0⟩⟩)
  | [t] => .leaf t.sphere t
  | t :: t2 :: ts =>
    .node (exampleCover t.sphere (exampleBuildMetaTree (t2 :: ts)).sphere)
      (.leaf t.sphere t) (exampleBuildMetaTree (t2 :: ts))

/-- A robot with three links L1, L2, L3 (indices 0, 1, 2) in a chain (joint
`l` joins link `l - 1` to link `l`, joint 0 is the root joint), two groups with
the given links, and one joint variable below which only L3 lies. Every link
has a spheres state and a voxels state with the index of the link. The field
has cells larger than its maximum distance 10, so that it reports 0 at an
occupied voxel centre and 10 elsewhere. -/
def exampleRobot (groupA groupB : List Nat)
    (spheres : (Nat → ℚ) → Nat → SphereStateTree)
    (voxels : (Nat → ℚ) → Nat → List Vector3d) : RobotCollisionModel :=
  { addr := 1
    linkCount := 3
    linkName := fun l => if l = 0 then "L1" else if l = 1 then "L2" else "L3"
    linkParentJointIndex := fun l => l
    linkChildJointIndices := fun l => if l < 2 then [l + 1] else []
    jointParentLinkIndex := fun j => j - 1
    jointChildLinkIndex := fun j => j
    hasSpheresModel := fun _ => true
    jointVarCount := 1
    groupCount := 2
    groupLinkIndices := fun g => if g = 0 then groupA else groupB
    linkSpheresStateIndex := fun l => l
    groupSpheresStateIndices := fun g => if g = 0 then groupA else groupB
    groupOutsideVoxelsStateIndices := fun g =>
      [0, 1, 2].filter fun l => decide (l ∉ (if g = 0 then groupA else groupB))
    gatherSphereIndices := fun _ => []
    spheresState := spheres
    voxelsAt := voxels
    jointVarAffectsVoxels := fun _ vsidx => decide (vsidx = 2)
    buildMetaTree := exampleBuildMetaTree
    fieldDistance := fun occupied p => if p ∈ occupied then 0 else 10 }

/-- A self collision model as its constructor leaves it: no active group, no
voxels stamped, padding 0, every voxels state dirty. -/
def exampleSelf (acm : AllowedCollisionMatrix) : SelfCollisionModelImpl :=
  { m_grid := { occupied := [], calls := [] }
    m_rcs :=
      { model := 1
        jointVarPositions := fun _ => 0
        voxels := fun _ => []
        voxelsDirty := fun _ => true }
    m_gidx := -1
    m_voxels_indices := []
    m_sphere_indices := []
    m_checked_spheres_states := []
    m_acm := acm
    m_padding := 0 }

/-- A collision state of the caller, derived from the model with the given
address, with every joint variable at `x`. -/
def exampleState (addr : Nat) (x : ℚ) : RobotCollisionState :=
  { model := addr
    jointVarPositions := fun _ => x
    voxels := fun _ => []
    voxelsDirty := fun _ => true }

/-- Sphere states of the example: L1 is a single leaf at the origin, L2 the
two leaf tree `exampleUpperArm`, L3 a single leaf that the joint variable
moves along x. -/
def exampleSpheres (jp : Nat → ℚ) (ssidx : Nat) : SphereStateTree :=
  if ssidx = 0 then .leaf { name := "s1", radius := 1 / 2, pos := ⟨0, 5, 0⟩ }
  else if ssidx = 1 then exampleUpperArm
  else .leaf { name := "fa0", radius := 1 / 2, pos := ⟨jp 0, 0, 0⟩ }

/-- Voxels of the example: the voxels of link `i` lie in the plane `z = i`,
and the joint variable moves the voxel of L3 along x. -/
def exampleVoxels (jp : Nat → ℚ) (vsidx : Nat) : List Vector3d :=
  if vsidx = 0 then [⟨0, 20, 0⟩]
  else if vsidx = 1 then [⟨0, 0, 20⟩, ⟨20, 0, 20⟩]
  else if vsidx = 2 then [⟨jp 0, 0, 40⟩]
  else []

/-- The assignment of the voxels of `exampleVoxels` to their voxels states. -/
def exampleOwner (v : Vector3d) : Nat :=
  if v.z = 0 then 0 else if v.z = 20 then 1 else 2

/-- The example robot with the groups A = {L1, L2} and B = {L2, L3}. -/
def exampleRobotAB : RobotCollisionModel :=
  exampleRobot [0, 1] [1, 2] exampleSpheres exampleVoxels

/-- Voxels in which L1 and L2 share the voxel centre (0, 0, 20). -/
def sharedVoxels (jp : Nat → ℚ) (vsidx : Nat) : List Vector3d :=
  if vsidx = 0 then [⟨0, 0, 20⟩]
  else if vsidx = 1 then [⟨0, 0, 20⟩]
  else if vsidx = 2 then [⟨jp 0, 0, 40⟩]
  else []

/-- The example robot with the groups {L3} and {L2, L3} and a voxel shared by
L1 and L2. -/
def sharedRobot : RobotCollisionModel :=
  exampleRobot [2] [1, 2] exampleSpheres sharedVoxels

/-- Voxels in which the voxel of L3 lies at the centre of the sphere of L1
when the joint variable is 0. -/
def bugVoxels (jp : Nat → ℚ) (vsidx : Nat) : List Vector3d :=
  if vsidx = 0 then [⟨0, 20, 0⟩]
  else if vsidx = 1 then [⟨0, 0, 20⟩, ⟨20, 0, 20⟩]
  else if vsidx = 2 then [⟨jp 0, 5, 0⟩]
  else []

/-- The example robot with the groups {L1} and {L2, L3}; the sphere tree of L1
is a single leaf sphere. -/
def bugRobot : RobotCollisionModel :=
  exampleRobot [0] [1, 2] exampleSpheres bugVoxels

end collision

/-! ## Constants shared by the packages -/

/-- The constant `M_PI` of `math.h`, as the double it denotes. -/
def M_PI : ℚ := 884279719003555 / 281474976710656

/-- Conversion of a `double` to `int`: the fractional part is discarded. -/
def truncToInt (x : ℚ) : Int :=
  if 0 ≤ x then ⌊x⌋ else ⌈x⌉

/-- Modelled from the spec: the function `angles::normalize_angle` of
`smpl/angles.h`, which is not part of the translated sources. The spec has
angles "renormalized to (−π, π]": the result is the angle of (−π, π] that
differs from `angle` by a multiple of 2π. -/
def angles.normalize_angle (angle : ℚ) : ℚ :=
  angle - 2 * M_PI * ⌈(angle - M_PI) / (2 * M_PI)⌉

/-! ## KDL robot model -/

namespace motion

/-- The enumeration of the joint types of `urdf::Joint`. -/
inductive JointType where
  | UNKNOWN
  | REVOLUTE
  | CONTINUOUS
  | PRISMATIC
  | FLOATING
  | PLANAR
  | FIXED
deriving DecidableEq

/-- The struct `urdf::JointLimits`. -/
structure JointLimits where
  lower : ℚ
  upper : ℚ
  effort : ℚ
  velocity : ℚ

/-- The struct `urdf::JointSafety`, as far as it is read. -/
structure JointSafety where
  soft_upper_limit : ℚ
  soft_lower_limit : ℚ

/-- The class `urdf::Joint`, as far as it is read; `limits` and `safety` are
pointers that may be null. -/
structure Joint where
  name : String
  type : JointType
  limits : Option JointLimits
  safety : Option JointSafety

/-- The reference parameters of the single joint `getJointLimits`. -/
structure JointLimitsOut where
  min_limit : ℚ
  max_limit : ℚ
  continuous : Bool
  vel_limit : ℚ
  eff_limit : ℚ

/-- Member `getJointLimits(joint_name, min_limit, max_limit, continuous,
vel_limit, eff_limit)`. The list holds the parent joints of the links that the
loop visits, from the chain tip up to the chain root; `out` holds the values
of the reference parameters on entry. The result is `none` when the null
`limits` pointer of a joint is dereferenced. -/
def getJointLimits : List Joint → String → JointLimitsOut →
    Option (Bool × JointLimitsOut)
  | [], _, out => some (false, out)
  | joint :: rest, joint_name, out =>
    if joint.name = joint_name then
      if joint.type ≠ JointType.UNKNOWN ∧ joint.type ≠ JointType.FIXED then
        let out1 : Option JointLimitsOut :=
          if joint.type ≠ JointType.CONTINUOUS then
            match joint.safety with
            | none =>
              joint.limits.map fun l =>
                { out with
                  continuous := false, min_limit := l.lower, max_limit := l.upper }
            | some s =>
              some { out with
                continuous := false
                min_limit := s.soft_lower_limit
                max_limit := s.soft_upper_limit }
          else
            some { out with min_limit := -M_PI, max_limit := M_PI, continuous := true }
        match out1, joint.limits with
        | some o, some l =>
          some (true, { o with vel_limit := l.velocity, eff_limit := l.effort })
        | _, _ => none
      else some (true, out)
    else getJointLimits rest joint_name out

/-- The loop of the member `getJointLimits(joint_names, min_limits, max_limits,
continuous, vel_limits, eff_limits)` over the joint names; the five vectors,
already resized, are one list of records. `c` is the value that the
uninitialised local `bool c` holds. -/
def getJointLimitsLoop (chain : List Joint) (c : Bool) :
    List String → List JointLimitsOut → Option (Bool × List JointLimitsOut)
  | [], outs => some (true, outs)
  | joint_name :: names, outs =>
    let cur := outs.headD
      { min_limit := 0, max_limit := 0, continuous := false, vel_limit := 0,
        eff_limit := 0 }
    if joint_name = "" then some (false, outs)
    else
      match getJointLimits chain joint_name { cur with continuous := c } with
      | none => none
      | some (false, _) => some (false, outs)
      | some (true, out) =>
        match getJointLimitsLoop chain c names outs.tail with
        | none => none
        | some (ok, rest) => some (ok, out :: rest)

/-- The data members of `KDLRobotModel` that hold the joint limits. -/
structure KDLRobotModel where
  planning_joints_ : List String
  min_limits_ : List ℚ
  max_limits_ : List ℚ
  continuous_ : List Bool
  vel_limits_ : List ℚ
  eff_limits_ : List ℚ
  initialized_ : Bool

/-- Member `init` of a freshly constructed model. The steps before the joint
limits (parsing the URDF, building the KDL chain, finding every planning joint
in the chain) run library code and are summed up in the flag `chain_ok`; the
solvers and maps built after the joint limits are left out. -/
def KDLRobotModel.init (chain : List Joint) (chain_ok c : Bool)
    (planning_joints : List String) : Option (Bool × KDLRobotModel) :=
  if !chain_ok then
    some (false,
      { planning_joints_ := [], min_limits_ := [], max_limits_ := [],
        continuous_ := [], vel_limits_ := [], eff_limits_ := [],
        initialized_ := false })
  else
    match getJointLimitsLoop chain c planning_joints
        (List.replicate planning_joints.length
          { min_limit := 0, max_limit := 0, continuous := false, vel_limit := 0,
            eff_limit := 0 }) with
    | none => none
    | some (ok, outs) =>
      some (ok,
        { planning_joints_ := planning_joints
          min_limits_ := outs.map fun o => o.min_limit
          max_limits_ := outs.map fun o => o.max_limit
          continuous_ := outs.map fun o => o.continuous
          vel_limits_ := outs.map fun o => o.vel_limit
          eff_limits_ := outs.map fun o => o.eff_limit
          initialized_ := ok })

/-- Member `hasPosLimit(jidx)`: `return continuous_[jidx]`; `none` when the
index is out of range. -/
def KDLRobotModel.hasPosLimit (self : KDLRobotModel) (jidx : Nat) : Option Bool :=
  self.continuous_[jidx]?

/-- The enumeration `ik_option::IkOption`, with the names that
`kdl_robot_model.cpp` uses. -/
inductive IkOption where
  | UNRESTRICTED
  | RESTRICT_XYZ
deriving DecidableEq

/-- Member `computeIK(pose, start, solution, option)` with one solution. The
member `computeIKSearch`, which runs the KDL solver against the clock, is a
parameter: it maps the pose, the seed, the solution vector on entry and the
timeout to the returned flag and the solution vector on exit. -/
def computeIK (computeIKSearch : List ℚ → List ℚ → List ℚ → ℚ → Bool × List ℚ)
    (pose start solution : List ℚ) (option : IkOption) : Bool × List ℚ :=
  if option = IkOption.RESTRICT_XYZ then (false, solution)
  else computeIKSearch pose start solution (5 / 1000)

/-- Member `computeIK(pose, start, solutions, option)` with a list of
solutions: the returned flag and the list on exit. -/
def computeIKSolutions
    (computeIKSearch : List ℚ → List ℚ → List ℚ → ℚ → Bool × List ℚ)
    (pose start : List ℚ) (solutions : List (List ℚ)) (option : IkOption) :
    Bool × List (List ℚ) :=
  if option = IkOption.RESTRICT_XYZ then (false, solutions)
  else
    let r := computeIKSearch pose start [] (5 / 1000)
    let solutions1 := if r.1 then solutions ++ [r.2] else solutions
    (decide (solutions1.length > 0), solutions1)

/-- Member `normalizeAngles(angles)`, for a `KDL::JntArray` and for a vector
alike: the angle of every continuous joint is replaced by
`angles::normalize_angle` of it. -/
def KDLRobotModel.normalizeAngles (self : KDLRobotModel) (angles : List ℚ) :
    List ℚ :=
  (List.range self.continuous_.length).foldl
    (fun a i =>
      if self.continuous_.getD i false then
        a.set i (sbpl.angles.normalize_angle (a.getD i 0))
      else a)
    angles

/-- Member `getCount(count, max_count, min_count)`: the returned flag and
`count` after the call. The counts are numbers of steps of 0.02 rad between
joint limits, and the `int` arithmetic on them is exact. -/
def getCount (count max_count min_count : Int) : Bool × Int :=
  if count > 0 then
    if -count ≥ min_count then (true, -count)
    else if count + 1 ≤ max_count then (true, count + 1)
    else (false, count)
  else
    if 1 - count ≤ max_count then (true, 1 - count)
    else if count - 1 ≥ min_count then (true, count - 1)
    else (false, count)

/-- Repeated calls of `getCount` on the same variable with the same bounds:
the returned flag and the value of `count` after each of the first `n` calls,
the first of which finds the value `count`. -/
def getCountCalls (max_count min_count : Int) : Nat → Int → List (Bool × Int)
  | 0, _ => []
  | n + 1, count =>
    getCount count max_count min_count ::
      getCountCalls max_count min_count n
        (getCount count max_count min_count).2

/-- The local `search_discretization_angle` of `computeIKSearch`, 0.02. -/
def search_discretization_angle : ℚ := 1 / 50

/-- The `while (loop_time < timeout)` loop of `computeIKSearch`, run for at
most `fuel` iterations (`none` when it has not returned by then). The KDL
solver `ik_solver_->CartToJnt` is a parameter that maps the seed `jnt_pos_in_`
and the pose to its return code and `jnt_pos_out_`; `elapsed i` is the value of
`(ros::Time::now() - start_time).toSec()` read in iteration `i`. The state of
the loop is the iteration number, `jnt_pos_in_`, `count` and `loop_time`. -/
def computeIKSearchLoop (self : KDLRobotModel)
    (CartToJnt : List ℚ → List ℚ → Int × List ℚ) (elapsed : Nat → ℚ)
    (free_angle_ : Nat) (pose start solution : List ℚ)
    (timeout initial_guess : ℚ)
    (num_positive_increments num_negative_increments : Int) :
    Nat → Nat → List ℚ → Int → ℚ → Option (Bool × List ℚ)
  | 0, _, _, _, _ => none
  | fuel + 1, i, jnt_pos_in_, count, loop_time =>
    if loop_time < timeout then
      if (CartToJnt jnt_pos_in_ pose).1 ≥ 0 then
        some (true,
          self.normalizeAngles
            ((List.range start.length).map fun k =>
              (CartToJnt jnt_pos_in_ pose).2.getD k 0))
      else if !(getCount count num_positive_increments
          (-num_negative_increments)).1 then
        some (false, solution)
      else
        computeIKSearchLoop self CartToJnt elapsed free_angle_ pose start
          solution timeout initial_guess num_positive_increments
          num_negative_increments fuel (i + 1)
          (jnt_pos_in_.set free_angle_
            (initial_guess + search_discretization_angle *
              (getCount count num_positive_increments
                (-num_negative_increments)).2))
          (getCount count num_positive_increments
            (-num_negative_increments)).2
          (elapsed i)
    else some (false, solution)

/-- The seed of `computeIKSearch`: the member `jnt_pos_in_` with the entries
of `start` written over its first entries, normalized. -/
def seedJntPosIn (self : KDLRobotModel) (jnt_pos_in_ start : List ℚ) : List ℚ :=
  self.normalizeAngles
    ((List.range start.length).foldl (fun j i => j.set i (start.getD i 0))
      jnt_pos_in_)

/-- Member `computeIKSearch(pose, start, solution, timeout)`: the returned flag
and `solution` after the call, `none` when the loop has not returned after
`fuel` iterations. `jnt_pos_in_` is the value of the member on entry and
`free_angle_` the index of the free angle. -/
def computeIKSearch (self : KDLRobotModel)
    (CartToJnt : List ℚ → List ℚ → Int × List ℚ) (elapsed : Nat → ℚ)
    (free_angle_ : Nat) (jnt_pos_in_ : List ℚ) (fuel : Nat)
    (pose start solution : List ℚ) (timeout : ℚ) :
    Option (Bool × List ℚ) :=
  let seed := seedJntPosIn self jnt_pos_in_ start
  let initial_guess := seed.getD free_angle_ 0
  let num_positive_increments :=
    truncToInt ((self.max_limits_.getD free_angle_ 0 - initial_guess)
      / search_discretization_angle)
  let num_negative_increments :=
    truncToInt ((initial_guess - self.min_limits_.getD free_angle_ 0)
      / search_discretization_angle)
  computeIKSearchLoop self CartToJnt elapsed free_angle_ pose start solution
    timeout initial_guess num_positive_increments num_negative_increments
    fuel 0 seed 0 0

/-- The place of a value of `count` in the order in which `getCount` visits
the integers: 0, 1, -1, 2, -2, ... -/
def getCountRank (count : Int) : Int :=
  if count > 0 then 2 * count - 1 else -2 * count

/-- The number of integers of [`min_count`, `max_count`] that come after
`count` in the order of `getCountRank`. -/
def getCountLeft (count max_count min_count : Int) : Nat :=
  if count > 0 then
    (max_count - count).toNat + (-min_count - count + 1).toNat
  else (max_count + count).toNat + (count - min_count).toNat

/-- The values that `count` takes in repeated calls of `getCount`, up to the
first call that returns false or up to `n` calls. -/
def getCountTrace (max_count min_count : Int) : Nat → Int → List Int
  | 0, _ => []
  | n + 1, count =>
    if (getCount count max_count min_count).1 then
      (getCount count max_count min_count).2 ::
        getCountTrace max_count min_count n
          (getCount count max_count min_count).2
    else []

/-- The function `std::fmod(x, y)`: `x` minus `y` times the quotient `x / y`
with its fractional part discarded. -/
def fmod (x y : ℚ) : ℚ :=
  x - y * (truncToInt (x / y) : ℚ)

/-- The loop `while (a > a_max) a -= 2.0 * M_PI;` of `normalizeAngle`. The
subtraction is a double operation: `fl` maps the exact difference to the double
that is stored. `none` when the loop has not ended after `fuel` rounds. -/
def normalizeAngleDown (fl : ℚ → ℚ) : Nat → ℚ → ℚ → Option ℚ
  | 0, a, a_max => if a > a_max then none else some a
  | fuel + 1, a, a_max =>
    if a > a_max then normalizeAngleDown fl fuel (fl (a - 2 * M_PI)) a_max
    else some a

/-- The loop `while (a < a_min) a += 2.0 * M_PI;` of `normalizeAngle`, with the
rounding `fl` of the double addition. `none` when the loop has not ended after
`fuel` rounds. -/
def normalizeAngleUp (fl : ℚ → ℚ) : Nat → ℚ → ℚ → Option ℚ
  | 0, a, a_min => if a < a_min then none else some a
  | fuel + 1, a, a_min =>
    if a < a_min then normalizeAngleUp fl fuel (fl (a + 2 * M_PI)) a_min
    else some a

/-- Member `normalizeAngle(a, a_min, a_max)`. The product `2.0 * M_PI` and the
result of `std::fmod` are doubles without rounding; the additions and
subtractions of the two loops are rounded by `fl`. -/
def normalizeAngle (fl : ℚ → ℚ) (fuel : Nat) (a a_min a_max : ℚ) : Option ℚ :=
  -- normalize to [-2*pi, 2*pi] range
  let a1 := if |a| > 2 * M_PI then fmod a (2 * M_PI) else a
  (normalizeAngleDown fl fuel a1 a_max).bind fun a2 =>
    normalizeAngleUp fl fuel a2 a_min

/-- The last loop of `normalizeAnglesIntoRange`, over the indices `i` that are
left: the returned flag and `angles` after the loop. The function
`angles::normalize_angle` of `smpl/angles.h`, which is not part of the
translated sources, is the parameter `normalize_angle`. -/
def normalizeAnglesIntoRangeLoop (fl normalize_angle : ℚ → ℚ) (fuel : Nat)
    (angle_mins angle_maxs : List ℚ) : List Nat → List ℚ → Option (Bool × List ℚ)
  | [], angles => some (true, angles)
  | i :: rest, angles =>
    let min_angle_norm := normalize_angle (angle_mins.getD i 0)
    (normalizeAngle fl fuel (angles.getD i 0) (angle_mins.getD i 0)
        min_angle_norm).bind fun a =>
      let angles1 := angles.set i a
      if angles1.getD i 0 < angle_mins.getD i 0 ∨
          angles1.getD i 0 > angle_maxs.getD i 0 then
        some (false, angles1)
      else
        normalizeAnglesIntoRangeLoop fl normalize_angle fuel angle_mins angle_maxs
          rest angles1

/-- Member `normalizeAnglesIntoRange(angles, angle_mins, angle_maxs)`: the
returned flag and `angles` after the call. -/
def normalizeAnglesIntoRange (fl normalize_angle : ℚ → ℚ) (fuel : Nat)
    (angles angle_mins angle_maxs : List ℚ) : Option (Bool × List ℚ) :=
  let dim := angles.length
  if angle_mins.length ≠ dim ∨ angle_maxs.length ≠ dim then some (false, angles)
  else if (List.range dim).any fun i =>
      decide (angle_mins.getD i 0 > angle_maxs.getD i 0) then
    some (false, angles)
  else
    normalizeAnglesIntoRangeLoop fl normalize_angle fuel angle_mins angle_maxs
      (List.range dim) angles

/-- Member `checkJointLimits(angles, verbose)`: the returned flag and the
caller's vector `angles` after the call. The member works on the copy `a`. -/
def KDLRobotModel.checkJointLimits (self : KDLRobotModel)
    (fl normalize_angle : ℚ → ℚ) (fuel : Nat) (angles : List ℚ) :
    Option (Bool × List ℚ) :=
  let a := angles
  (normalizeAnglesIntoRange fl normalize_angle fuel a self.min_limits_
      self.max_limits_).bind fun r =>
    if !r.1 then some (false, angles)
    else some (true, angles)

/-- A robot model with one planning joint with the limits -10 and 2. -/
def exampleWideJoint : KDLRobotModel :=
  { planning_joints_ := ["j1"], min_limits_ := [-10], max_limits_ := [2],
    continuous_ := [false], vel_limits_ := [1], eff_limits_ := [1],
    initialized_ := true }

/-- A robot model with one planning joint with the limits -10 and -9. -/
def exampleTurnedJoint : KDLRobotModel :=
  { planning_joints_ := ["j1"], min_limits_ := [-10], max_limits_ := [-9],
    continuous_ := [false], vel_limits_ := [1], eff_limits_ := [1],
    initialized_ := true }

end motion

/-! ## Planning parameters -/

namespace manip

/-- The data members of `PlanningParams` that `init` computes from the joint
list and the discretization. -/
structure PlanningParams where
  planning_joints_ : List String
  num_joints_ : Int
  coord_vals_ : List ℚ
  coord_delta_ : List ℚ
deriving DecidableEq

/-- How a call of `PlanningParams::init` ends: it returns, or it indexes
`coord_vals_` and `coord_delta_` at `i` beyond their size, or it divides by
the zero `coord_vals_[i]`. -/
inductive InitOutcome where
  | returned (ret : Bool) (self : PlanningParams)
  | outOfRange (i : Nat)
  | zeroDivide (i : Nat)
deriving DecidableEq

/-- The call `v.resize(n, 0)` on a vector of doubles. -/
def resize (v : List ℚ) (n : Nat) : List ℚ :=
  (v ++ List.replicate (n - v.length) 0).take n

/-- The loop `for (int i = 0; i < num_joints_; ++i) coord_delta_[i] =
(2.0 * M_PI) / coord_vals_[i]`, from index `i` on for `n` more rounds: the
vector `coord_delta_` at the end, or the outcome that stops the loop. -/
def fillCoordDelta (coord_vals : List ℚ) :
    Nat → Nat → List ℚ → Except InitOutcome (List ℚ)
  | 0, _, coord_delta => .ok coord_delta
  | n + 1, i, coord_delta =>
    match coord_vals[i]? with
    | none => .error (InitOutcome.outOfRange i)
    | some v =>
      if v = 0 then .error (InitOutcome.zeroDivide i)
      else fillCoordDelta coord_vals n (i + 1) (coord_delta.set i (2 * M_PI / v))

/-- Member `init(ns)`, as far as the joints and the discretization go.
`planning_joints` holds the words that `operator>>` extracts from the
parameter `planning/planning_joints`; `discretization` is `none` when the
parameter `planning/discretization` is not set and otherwise holds the value
of `atof` on each of its words. -/
def PlanningParams.init (self : PlanningParams) (planning_joints : List String)
    (discretization : Option (List ℚ)) : InitOutcome :=
  let joints := self.planning_joints_
    ++ planning_joints.filter fun jname => decide (jname.length ≠ 0)
  let num_joints : Int := joints.length
  match discretization with
  | some vals =>
    let coord_vals := self.coord_vals_ ++ vals
    let coord_delta := resize self.coord_delta_ coord_vals.length
    match fillCoordDelta coord_vals num_joints.toNat 0 coord_delta with
    | .error outcome => outcome
    | .ok delta =>
      InitOutcome.returned true
        { planning_joints_ := joints
          num_joints_ := num_joints
          coord_vals_ := coord_vals
          coord_delta_ := delta }
  | none =>
    InitOutcome.returned false
      { self with planning_joints_ := joints, num_joints_ := num_joints }

end manip

/-! ## The test program `call_planner` -/

namespace call_planner

/-- The C library predicate `isspace` in the "C" locale: the space and the
control characters 9 to 13. -/
def isspace (c : Char) : Bool :=
  c.toNat = 32 || (9 ≤ c.toNat && c.toNat ≤ 13)

/-- A `FILE*` opened for reading: the characters not read yet and the
end-of-file indicator that `feof` returns. -/
structure CFile where
  rest : List Char
  eof : Bool

/-- The leading white space of the input is dropped. -/
def skipSpace : List Char → List Char
  | [] => []
  | c :: cs => if isspace c then skipSpace cs else c :: cs

/-- The characters up to the next white space, and the input from there. -/
def readWord : List Char → List Char × List Char
  | [] => ([], [])
  | c :: cs =>
    if isspace c then ([], c :: cs)
    else ((c :: (readWord cs).1), (readWord cs).2)

/-- The C library call `fscanf(f, "%s", sTemp)`: white space is skipped, then
the characters up to the next white space are stored in `sTemp`. At the end of
the input before any character of a word the call returns `EOF` and leaves
`sTemp` alone; the end-of-file indicator is set as soon as reading runs into
the end of the input, also right behind a word. The result is the returned
value, `sTemp` and the file afterwards. -/
def fscanf_s (f : CFile) (sTemp : List Char) : Int × List Char × CFile :=
  match skipSpace f.rest with
  | [] => (-1, sTemp, { rest := [], eof := true })
  | c :: cs =>
    ((1 : Int), (readWord (c :: cs)).1,
      { rest := (readWord (c :: cs)).2
        eof := f.eof || (readWord (c :: cs)).2.isEmpty })

/-- The value of the leading decimal digits of the input, added to ten times
`acc` for each digit, and the input behind them. -/
def readDigits : List Char → Nat → Nat × List Char
  | [], acc => (acc, [])
  | c :: cs, acc =>
    if c.isDigit then readDigits cs (acc * 10 + (c.toNat - 48))
    else (acc, c :: cs)

/-- The C library function `atoi`: optional white space, an optional sign and
decimal digits; the conversion stops at the first other character. -/
def atoi (s : List Char) : Int :=
  match skipSpace s with
  | '-' :: cs => -((readDigits cs 0).1 : Int)
  | '+' :: cs => ((readDigits cs 0).1 : Int)
  | cs => ((readDigits cs 0).1 : Int)

/-- The value of the decimal digits behind the decimal point, the first of
them counting `scale`. -/
def readFraction : List Char → ℚ → ℚ
  | [], _ => 0
  | c :: cs, scale =>
    if c.isDigit then ((c.toNat - 48 : Nat) : ℚ) * scale + readFraction cs (scale / 10)
    else 0

/-- The C library function `atof` on decimal notation: optional white space, an
optional sign, digits and an optional fraction; exponents, hexadecimal
notation, infinities and NaN are not covered. -/
def atof (s : List Char) : ℚ :=
  let unsigned : List Char → ℚ := fun cs =>
    match (readDigits cs 0).2 with
    | '.' :: frac => ((readDigits cs 0).1 : ℚ) + readFraction frac (1 / 10)
    | _ => ((readDigits cs 0).1 : ℚ)
  match skipSpace s with
  | '-' :: cs => -unsigned cs
  | '+' :: cs => unsigned cs
  | cs => unsigned cs

/-- The message `geometry_msgs::Point`. -/
structure Point where
  x : ℚ
  y : ℚ
  z : ℚ
deriving DecidableEq

/-- The message `geometry_msgs::Quaternion`. -/
structure Quaternion where
  x : ℚ
  y : ℚ
  z : ℚ
  w : ℚ
deriving DecidableEq

/-- The message `geometry_msgs::Pose`. -/
structure Pose where
  position : Point
  orientation : Quaternion
deriving DecidableEq

/-- The kinds of `shape_msgs::SolidPrimitive`. -/
inductive PrimitiveType where
  | BOX
  | SPHERE
  | CYLINDER
  | CONE
deriving DecidableEq

/-- The message `shape_msgs::SolidPrimitive`. -/
structure SolidPrimitive where
  type : PrimitiveType
  dimensions : List ℚ
deriving DecidableEq

/-- The message `moveit_msgs::CollisionObject`, without the time stamp; the
operation is always `ADD`. -/
structure CollisionObject where
  id : String
  frame_id : String
  primitives : List SolidPrimitive
  primitive_poses : List Pose
deriving DecidableEq

/-- Function `getCollisionCube(pose, dims, frame_id, id)`. -/
def getCollisionCube (pose : Pose) (dims : List ℚ) (frame_id id : String) :
    CollisionObject :=
  let box_object : SolidPrimitive :=
    { type := PrimitiveType.BOX
      dimensions := [dims.getD 0 0, dims.getD 1 0, dims.getD 2 0] }
  { id := id, frame_id := frame_id, primitives := [box_object],
    primitive_poses := [pose] }

/-- Function `getCollisionCubes(objects, object_ids, frame_id)`. -/
def getCollisionCubes (objects : List (List ℚ)) (object_ids : List String)
    (frame_id : String) : List CollisionObject :=
  if object_ids.length ≠ objects.length then []
  else
    (List.range objects.length).map fun i =>
      let o := objects.getD i []
      let pose : Pose :=
        { position := { x := o.getD 0 0, y := o.getD 1 0, z := o.getD 2 0 }
          orientation := { x := 0, y := 0, z := 0, w := 1 } }
      let dims := [o.getD 3 0, o.getD 4 0, o.getD 5 0]
      getCollisionCube pose dims frame_id (object_ids.getD i "")

/-- The loop `for (int j = 0; j < 6; ++j)` of `getCollisionObjects`, from
index `j` on for `n` more rounds, filling the vector `object` of one record:
the file, `sTemp` and the vector afterwards. -/
def readValues : Nat → Nat → CFile → List Char → List ℚ →
    CFile × List Char × List ℚ
  | 0, _, f, sTemp, object => (f, sTemp, object)
  | n + 1, j, f, sTemp, object =>
    let r := fscanf_s f sTemp
    let object1 :=
      if !r.2.2.eof && r.2.1.length ≠ 0 then object.set j (atof r.2.1)
      else object
    readValues n (j + 1) r.2.2 r.2.1 object1

/-- The loop `for (int i = 0; i < num_obs; ++i)` of `getCollisionObjects`,
for `n` more records: the identifiers and the vectors of the records read. -/
def readObjects : Nat → CFile → List Char → List String × List (List ℚ)
  | 0, _, _ => ([], [])
  | n + 1, f, sTemp =>
    let r := fscanf_s f sTemp
    let id := String.mk r.2.1
    let v := readValues 6 0 r.2.2 r.2.1 (List.replicate 6 0)
    let rest := readObjects n v.1 v.2.1
    (id :: rest.1, v.2.2 :: rest.2)

/-- Function `getCollisionObjects(filename, frame_id)`. `file` is `none` when
`fopen` fails and holds the characters of the file otherwise; `sTemp` is the
content of the uninitialised buffer. The result is `none` when
`objects.resize(num_obs)` is called with a negative count and throws. Words
are taken to fit the buffer of 1024 characters. -/
def getCollisionObjects (file : Option (List Char)) (sTemp : List Char)
    (frame_id : String) : Option (List CollisionObject) :=
  match file with
  | none => some []
  | some content =>
    let r := fscanf_s { rest := content, eof := false } sTemp
    let num_obs := atoi r.2.1
    if num_obs < 0 then none
    else
      let read := readObjects num_obs.toNat r.2.2 r.2.1
      some (getCollisionCubes read.2 read.1 frame_id)

/-- The outcomes of the steps of `main` that can end the program early or that
decide whether a plan was found; they run the robot model, the collision
space, the planner and the parameter server. -/
structure MainSteps where
  /-- result of `rm->init(urdf, planning_joints)` -/
  rm_init : Bool
  /-- result of `cc->init(group_name)` -/
  cc_init : Bool
  /-- result of `cc->setPlanningJoints(planning_joints)` -/
  cc_setPlanningJoints : Bool
  /-- result of `planner->init()` -/
  planner_init : Bool
  /-- result of `getInitialConfiguration(ph, scene->robot_state)` -/
  getInitialConfiguration : Bool
  /-- result of `planner->solve(scene, req, res)` -/
  solve : Bool

/-- The conversion of a `bool` to the `int` that `main` returns. -/
def boolToInt (b : Bool) : Int := if b then 1 else 0

/-- Function `main`: the value it returns, which is the exit code of the
program. -/
def main (steps : MainSteps) : Int :=
  if !steps.rm_init then boolToInt false
  else if !steps.cc_init then boolToInt false
  else if !steps.cc_setPlanningJoints then boolToInt false
  else if !steps.planner_init then boolToInt false
  else if !steps.getInitialConfiguration then 0
  else
    -- if (!planner->solve(scene, req, res)) ROS_ERROR(...) else publish(...)
    let _plan_found := steps.solve
    0

end call_planner

/-! ## Sparse distance map

The file `sparse_distance_map.h` declares the class; the bodies of its members
are not part of the translated sources, so the members below follow the
description of the propagation distance field in the spec. -/

/-- The type `Eigen::Vector3i`: the coordinates of a grid cell, or an offset
between two cells. -/
abbrev Vector3i : Type := Int × Int × Int

/-- Modelled from the spec: the struct `SparseDistanceMap::Cell`, whose use is
not part of the translated sources: "integer grid coordinates of nearest known
obstacle cell", "squared distance in cells" and "propagation direction tag".
The distance kept here is the tentative one (`dist_new`), which is the one a
cell ends up with (`dist`) when it has left the open list. -/
structure SparseDistanceMap.Cell where
  obs : Option Vector3i
  dist : Nat
  dir : Vector3i

/-- Modelled from the spec: the data members of `SparseDistanceMap`, whose use
is not part of the translated sources. `neighborOffsets` stands for the tables
`m_neighbors`, `m_indices` and `m_neighbor_ranges`: the offsets of the
neighbours that a cell with a given update direction propagates to. The open
list `m_open` holds its buckets one after the other, lowest bucket first; the
raise stack `m_rem_stack` holds the raised cells whose neighbours are still to
be examined, top first. -/
structure SparseDistanceMap where
  m_cell_count_x : Nat
  m_cell_count_y : Nat
  m_cell_count_z : Nat
  m_dmax_sqrd_int : Nat
  neighborOffsets : Vector3i → List Vector3i
  m_cells : Vector3i → SparseDistanceMap.Cell
  m_open : List (Nat × Vector3i)
  m_rem_stack : List Vector3i

/-- Modelled from the spec: member `distance(nx, ny, nz, s)`, which is not part
of the translated sources: "d = (n - s.obs)²", the squared Euclidean distance
of two cells, counted in cells. -/
def sqrdCellDistance (a b : Vector3i) : Nat :=
  ((a.1 - b.1) * (a.1 - b.1) + (a.2.1 - b.2.1) * (a.2.1 - b.2.1)
    + (a.2.2 - b.2.2) * (a.2.2 - b.2.2)).toNat

/-- Modelled from the spec: the table `m_neighbors`, which is filled by code
that is not part of the translated sources, without its offset (0, 0, 0): the
26 offsets to the neighbours of a cell. -/
def neighbors26 : List Vector3i :=
  [(-1, -1, -1), (-1, -1, 0), (-1, -1, 1), (-1, 0, -1), (-1, 0, 0), (-1, 0, 1),
   (-1, 1, -1), (-1, 1, 0), (-1, 1, 1), (0, -1, -1), (0, -1, 0), (0, -1, 1),
   (0, 0, -1), (0, 0, 1), (0, 1, -1), (0, 1, 0), (0, 1, 1), (1, -1, -1),
   (1, -1, 0), (1, -1, 1), (1, 0, -1), (1, 0, 0), (1, 0, 1), (1, 1, -1),
   (1, 1, 0), (1, 1, 1)]

/-- Modelled from the spec: member `isCellValid(x, y, z)`, which is not part of
the translated sources: the cell lies inside the grid. -/
def SparseDistanceMap.isCellValid (m : SparseDistanceMap) (p : Vector3i) : Bool :=
  decide (0 ≤ p.1) && decide (p.1 < m.m_cell_count_x) && decide (0 ≤ p.2.1)
    && decide (p.2.1 < m.m_cell_count_y) && decide (0 ≤ p.2.2)
    && decide (p.2.2 < m.m_cell_count_z)

/-- The cells of a grid with one more cell written. -/
def SparseDistanceMap.setCell (cells : Vector3i → SparseDistanceMap.Cell)
    (p : Vector3i) (c : SparseDistanceMap.Cell) :
    Vector3i → SparseDistanceMap.Cell :=
  fun q => if q = p then c else cells q

/-- Modelled from the spec: member `updateVertex(c, cx, cy, cz)`, which is not
part of the translated sources: "reinsert n into bucket d". The entry goes
behind the entries of the buckets up to `d`. -/
def SparseDistanceMap.updateVertex :
    List (Nat × Vector3i) → Nat → Vector3i → List (Nat × Vector3i)
  | [], d, n => [(d, n)]
  | e :: es, d, n =>
    if e.1 ≤ d then e :: SparseDistanceMap.updateVertex es d n
    else (d, n) :: e :: es

/-- Modelled from the spec: the body of the loop of member `lower(s, sx, sy,
sz)` for one neighbour offset, which is not part of the translated sources:
"compute d = (n - s.obs)²; if d < n.dist and d < dmax_sqrd, set n.obs = s.obs,
n.dist_new = d, reinsert n into bucket d with the source→neighbor direction
recorded". Neighbours outside the grid are skipped; `o` is `s.obs`. -/
def SparseDistanceMap.lowerNeighbor (s o : Vector3i) (m : SparseDistanceMap)
    (offset : Vector3i) : SparseDistanceMap :=
  let n : Vector3i := (s.1 + offset.1, s.2.1 + offset.2.1, s.2.2 + offset.2.2)
  if m.isCellValid n then
    let d := sqrdCellDistance n o
    if d < (m.m_cells n).dist ∧ d < m.m_dmax_sqrd_int then
      { m with
        m_cells := SparseDistanceMap.setCell m.m_cells n
          { obs := some o, dist := d, dir := offset }
        m_open := SparseDistanceMap.updateVertex m.m_open d n }
    else m
  else m

/-- Modelled from the spec: member `lower(s, sx, sy, sz)`, which is not part of
the translated sources: "for each allowed neighbor n (per the source
direction)" the step `lowerNeighbor`. -/
def SparseDistanceMap.lower (m : SparseDistanceMap) (s : Vector3i) :
    SparseDistanceMap :=
  match (m.m_cells s).obs with
  | none => m
  | some o =>
    (m.neighborOffsets (m.m_cells s).dir).foldl
      (SparseDistanceMap.lowerNeighbor s o) m

/-- Modelled from the spec: one round of the loop of member `propagate()`,
which is not part of the translated sources: "pop the lowest non-empty bucket;
... a cell is processed when popped only if its bucket matches dist_new; stale
entries are discarded". -/
def SparseDistanceMap.propagateStep (m : SparseDistanceMap) : SparseDistanceMap :=
  match m.m_open with
  | [] => m
  | e :: es =>
    if (m.m_cells e.2).dist = e.1 then
      SparseDistanceMap.lower { m with m_open := es } e.2
    else { m with m_open := es }

/-- Modelled from the spec: at most `fuel` rounds of the loop of member
`propagate()`, which is not part of the translated sources; the loop stops
when the open list is empty. -/
def SparseDistanceMap.propagateFuel : Nat → SparseDistanceMap → SparseDistanceMap
  | 0, m => m
  | fuel + 1, m =>
    match m.m_open with
    | [] => m
    | _ :: _ => SparseDistanceMap.propagateFuel fuel m.propagateStep

/-- The cells of the grid. -/
def SparseDistanceMap.cellList (m : SparseDistanceMap) : List Vector3i :=
  (List.range m.m_cell_count_x).flatMap fun (x : Nat) =>
    (List.range m.m_cell_count_y).flatMap fun (y : Nat) =>
      (List.range m.m_cell_count_z).map fun (z : Nat) =>
        ((x : Int), (y : Int), (z : Int))

/-- A bound on the number of rounds that `propagate()` can still make: every
round takes an entry from the open list, and every entry put on it lowers the
distance of a cell. -/
def SparseDistanceMap.roundsBound (m : SparseDistanceMap) : Nat :=
  2 * (m.cellList.map fun p => (m.m_cells p).dist).sum + m.m_open.length

/-- Modelled from the spec: member `propagate()`, which is not part of the
translated sources: "repeatedly pop the lowest non-empty bucket" until the open
list is empty. -/
def SparseDistanceMap.propagate (m : SparseDistanceMap) : SparseDistanceMap :=
  SparseDistanceMap.propagateFuel m.roundsBound m

/-- Modelled from the spec: the body of the loop of `addPointsToMap` for one
point, which is not part of the translated sources: "for each added cell p:
set p.obs = p, p.dist_new = 0, enqueue in bucket 0"; "out-of-bounds obstacle
points are ignored". The point is given by the cell it falls into. -/
def SparseDistanceMap.addPoint (m : SparseDistanceMap) (p : Vector3i) :
    SparseDistanceMap :=
  if m.isCellValid p then
    { m with
      m_cells := SparseDistanceMap.setCell m.m_cells p
        { obs := some p, dist := 0, dir := (0, 0, 0) }
      m_open := SparseDistanceMap.updateVertex m.m_open 0 p }
  else m

/-- Modelled from the spec: member `addPointsToMap(points)`, which is not part
of the translated sources: every point is added, then the distances are
propagated. -/
def SparseDistanceMap.addPointsToMap (m : SparseDistanceMap)
    (points : List Vector3i) : SparseDistanceMap :=
  (points.foldl SparseDistanceMap.addPoint m).propagate

/-- Modelled from the spec: the map after the constructor or `reset()`, which
are not part of the translated sources: "all cells set to dist = dmax_sqrd,
obs = null, empty buckets". The grid has the given numbers of cells and
propagates up to `dmax_int` cells. -/
def SparseDistanceMap.create (cell_count_x cell_count_y cell_count_z : Nat)
    (dmax_int : Nat) (neighborOffsets : Vector3i → List Vector3i) :
    SparseDistanceMap :=
  { m_cell_count_x := cell_count_x
    m_cell_count_y := cell_count_y
    m_cell_count_z := cell_count_z
    m_dmax_sqrd_int := dmax_int * dmax_int
    neighborOffsets := neighborOffsets
    m_cells := fun _ =>
      { obs := none, dist := dmax_int * dmax_int, dir := (0, 0, 0) }
    m_open := []
    m_rem_stack := [] }

/-- Modelled from the spec: the raising of one cell in `removePointsFromMap`
and in `raise`, which are not part of the translated sources: "set dist =
dmax_sqrd, obs = null, push onto a raise stack". -/
def SparseDistanceMap.raiseCell (m : SparseDistanceMap) (p : Vector3i) :
    SparseDistanceMap :=
  { m with
    m_cells := SparseDistanceMap.setCell m.m_cells p
      { obs := none, dist := m.m_dmax_sqrd_int, dir := (m.m_cells p).dir }
    m_rem_stack := p :: m.m_rem_stack }

/-- Modelled from the spec: member `waveout(n, nx, ny, nz)`, which is not part
of the translated sources: the cell "becomes a new propagation source (a
wavefront re-seed)": it is put on the open list, in the bucket of its
distance. -/
def SparseDistanceMap.waveout (m : SparseDistanceMap) (n : Vector3i) :
    SparseDistanceMap :=
  { m with m_open := SparseDistanceMap.updateVertex m.m_open (m.m_cells n).dist n }

/-- Modelled from the spec: the test "a neighbor's obs pointed into the removed
region" for the cell `n`, made by code that is not part of the translated
sources: the cell names a nearest obstacle, and the cell it names is no longer
an obstacle, that is, it does not name itself as its nearest obstacle. -/
def SparseDistanceMap.pointsIntoRemoved (m : SparseDistanceMap) (n : Vector3i) :
    Bool :=
  match (m.m_cells n).obs with
  | none => false
  | some o => decide ((m.m_cells o).obs ≠ some o)

/-- Modelled from the spec: the body of the loop of member `raise(s, sx, sy,
sz)` for one neighbour offset, which is not part of the translated sources: "if
a neighbor's obs pointed into the removed region it is also raised; otherwise
it becomes a new propagation source". Neighbours outside the grid are
skipped. -/
def SparseDistanceMap.raiseNeighbor (s : Vector3i) (m : SparseDistanceMap)
    (offset : Vector3i) : SparseDistanceMap :=
  let n : Vector3i := (s.1 + offset.1, s.2.1 + offset.2.1, s.2.2 + offset.2.2)
  if m.isCellValid n then
    if m.pointsIntoRemoved n then m.raiseCell n else m.waveout n
  else m

/-- Modelled from the spec: member `raise(s, sx, sy, sz)`, which is not part of
the translated sources: "for each raised cell, examine its 26 neighbors". -/
def SparseDistanceMap.raise (m : SparseDistanceMap) (s : Vector3i) :
    SparseDistanceMap :=
  neighbors26.foldl (SparseDistanceMap.raiseNeighbor s) m

/-- Modelled from the spec: at most `fuel` rounds of the loop of member
`propagateRemovals()`, which is not part of the translated sources: the top of
the raise stack is taken off and its neighbours are examined, until the stack
is empty. -/
def SparseDistanceMap.propagateRemovalsFuel :
    Nat → SparseDistanceMap → SparseDistanceMap
  | 0, m => m
  | fuel + 1, m =>
    match m.m_rem_stack with
    | [] => m
    | s :: rest =>
      SparseDistanceMap.propagateRemovalsFuel fuel
        (SparseDistanceMap.raise { m with m_rem_stack := rest } s)

/-- A bound on the number of rounds that `propagateRemovals()` can still make:
every round takes a cell from the raise stack, and every cell put on it has
lost its nearest obstacle. -/
def SparseDistanceMap.raiseBound (m : SparseDistanceMap) : Nat :=
  2 * (m.cellList.map fun p => if (m.m_cells p).obs.isSome then 1 else 0).sum
    + m.m_rem_stack.length

/-- Modelled from the spec: member `propagateRemovals()`, which is not part of
the translated sources: the raise pass, until the raise stack is empty. -/
def SparseDistanceMap.propagateRemovals (m : SparseDistanceMap) : SparseDistanceMap :=
  SparseDistanceMap.propagateRemovalsFuel m.raiseBound m

/-- Modelled from the spec: the body of the loop of `removePointsFromMap` for
one point, which is not part of the translated sources: the cell of the point
is raised; "out-of-bounds obstacle points are ignored". The point is given by
the cell it falls into. -/
def SparseDistanceMap.removePoint (m : SparseDistanceMap) (p : Vector3i) :
    SparseDistanceMap :=
  if m.isCellValid p then m.raiseCell p else m

/-- Modelled from the spec: member `removePointsFromMap(points)`, which is not
part of the translated sources: the cells of the points are raised, the raise
pass examines the neighbours of the raised cells, and "after the raise pass,
run lower to relax distances". -/
def SparseDistanceMap.removePointsFromMap (m : SparseDistanceMap)
    (points : List Vector3i) : SparseDistanceMap :=
  (points.foldl SparseDistanceMap.removePoint m).propagateRemovals.propagate

/-- Modelled from the spec: member `updatePointsInMap(old_points, new_points)`,
which is not part of the translated sources: "implemented as remove(old) then
add(new)". -/
def SparseDistanceMap.updatePointsInMap (m : SparseDistanceMap)
    (old_points new_points : List Vector3i) : SparseDistanceMap :=
  (m.removePointsFromMap old_points).addPointsToMap new_points

/-- A call of one of the three members that change the map. -/
inductive SparseDistanceMap.Call where
  | addPointsToMap (points : List Vector3i)
  | removePointsFromMap (points : List Vector3i)
  | updatePointsInMap (old_points new_points : List Vector3i)

/-- The map after a call. -/
def SparseDistanceMap.call (m : SparseDistanceMap) :
    SparseDistanceMap.Call → SparseDistanceMap
  | .addPointsToMap points => m.addPointsToMap points
  | .removePointsFromMap points => m.removePointsFromMap points
  | .updatePointsInMap old_points new_points =>
    m.updatePointsInMap old_points new_points

/-- Whether a call is an `addPointsToMap`. -/
def SparseDistanceMap.Call.isAdd : SparseDistanceMap.Call → Bool
  | .addPointsToMap _ => true
  | _ => false

/-- The cells that hold a point after a call, given the cells that held one
before it: added points are occupied, removed points are not. -/
def SparseDistanceMap.Call.occupied (occupied : List Vector3i) :
    SparseDistanceMap.Call → List Vector3i
  | .addPointsToMap points => occupied ++ points
  | .removePointsFromMap points => occupied.filter fun p => decide (p ∉ points)
  | .updatePointsInMap old_points new_points =>
    (occupied.filter fun p => decide (p ∉ old_points)) ++ new_points

/-- The cells that hold a point after a sequence of calls on a fresh map. -/
def occupiedCells (calls : List SparseDistanceMap.Call) : List Vector3i :=
  calls.foldl SparseDistanceMap.Call.occupied []

/-- The cells that a call adds a point to. -/
def SparseDistanceMap.Call.added : SparseDistanceMap.Call → List Vector3i
  | .addPointsToMap points => points
  | .removePointsFromMap _ => []
  | .updatePointsInMap _ new_points => new_points

/-- The cells that a sequence of calls has added a point to at some time. -/
def addedCells (calls : List SparseDistanceMap.Call) : List Vector3i :=
  calls.flatMap SparseDistanceMap.Call.added

/-- Modelled from the spec: member `getCellSquaredDistance(x, y, z)`, which is
not part of the translated sources: the squared distance stored for a cell of
the grid, counted in cells. -/
def SparseDistanceMap.getCellSquaredDistance (m : SparseDistanceMap)
    (p : Vector3i) : Nat :=
  (m.m_cells p).dist

/-- The invariant of the cells during insertion, for the set `occupied` of the
cells that hold an added point: the distance of a cell is at most
`m_dmax_sqrd_int`, and the cell has no obstacle and the distance
`m_dmax_sqrd_int`, or it refers to an occupied cell of the grid and holds the
squared distance to it; the occupied cells are exactly the cells with distance
0 and refer to themselves; the open list holds cells of the grid. -/
def SparseDistanceMap.Sound (m : SparseDistanceMap) (occupied : Vector3i → Prop) :
    Prop :=
  (∀ p, m.isCellValid p = true →
      (m.m_cells p).dist ≤ m.m_dmax_sqrd_int ∧
      (((m.m_cells p).obs = none ∧ (m.m_cells p).dist = m.m_dmax_sqrd_int) ∨
        ∃ o, (m.m_cells p).obs = some o ∧ m.isCellValid o = true ∧ occupied o ∧
          (m.m_cells p).dist = sqrdCellDistance p o)) ∧
    (∀ p, m.isCellValid p = true → occupied p →
      (m.m_cells p).obs = some p ∧ (m.m_cells p).dist = 0) ∧
    (∀ p, m.isCellValid p = true → (m.m_cells p).dist = 0 → occupied p) ∧
    (∀ e ∈ m.m_open, m.isCellValid e.2 = true)

/-- The neighbour of the cell `s` at the offset `offset`. -/
def neighborCell (s offset : Vector3i) : Vector3i :=
  (s.1 + offset.1, s.2.1 + offset.2.1, s.2.2 + offset.2.2)

/-- The invariant of the cells under all three calls, for the set `ever` of the
cells that have held an added point at some time: the map propagates over at
least one cell; a cell of the grid has no obstacle and the distance
`m_dmax_sqrd_int`, or it names a cell of the grid that has held a point and
stores the squared distance to it, which is below `m_dmax_sqrd_int`; the open
list holds cells of the grid, and the obstacle that such a cell names is an
obstacle still; the raise stack holds cells of the grid. -/
def SparseDistanceMap.Labelled (m : SparseDistanceMap) (ever : Vector3i → Prop) :
    Prop :=
  0 < m.m_dmax_sqrd_int ∧
    (∀ p, m.isCellValid p = true →
      ((m.m_cells p).obs = none ∧ (m.m_cells p).dist = m.m_dmax_sqrd_int) ∨
        ∃ o, (m.m_cells p).obs = some o ∧ m.isCellValid o = true ∧ ever o ∧
          (m.m_cells p).dist = sqrdCellDistance p o ∧
          (m.m_cells p).dist < m.m_dmax_sqrd_int) ∧
    (∀ e ∈ m.m_open, m.isCellValid e.2 = true ∧
      ∀ o, (m.m_cells e.2).obs = some o → (m.m_cells o).obs = some o) ∧
    (∀ s ∈ m.m_rem_stack, m.isCellValid s = true)

/-- The cells of the grid that name themselves as their nearest obstacle are
the cells of the set `occupied`. -/
def SparseDistanceMap.Occupies (m : SparseDistanceMap) (occupied : Vector3i → Prop) :
    Prop :=
  ∀ p, m.isCellValid p = true → ((m.m_cells p).obs = some p ↔ occupied p)

/-- Every cell of the grid that names an obstacle `o` has handed it on, or is
still to do so: the cell is one of `hole` (the cell that `lower` is working
on), or it is on the open list in the bucket of its distance, or every
neighbour `n` that its update direction allows is one of `raised` (the cell
that `raise` is working on), is on the raise stack, stores a distance of at
most the squared distance from `n` to `o`, or lies `m_dmax_sqrd_int` or more
from `o`. -/
def SparseDistanceMap.Handed (m : SparseDistanceMap) (hole raised : Vector3i → Prop) :
    Prop :=
  ∀ s, m.isCellValid s = true → ∀ o, (m.m_cells s).obs = some o →
    hole s ∨ ((m.m_cells s).dist, s) ∈ m.m_open ∨
      ∀ offset ∈ m.neighborOffsets (m.m_cells s).dir,
        m.isCellValid (neighborCell s offset) = true →
          raised (neighborCell s offset) ∨ neighborCell s offset ∈ m.m_rem_stack ∨
            (m.m_cells (neighborCell s offset)).dist
              ≤ sqrdCellDistance (neighborCell s offset) o ∨
            m.m_dmax_sqrd_int ≤ sqrdCellDistance (neighborCell s offset) o

/-- The three invariants together. -/
def SparseDistanceMap.Consistent (m : SparseDistanceMap)
    (occupied ever hole raised : Vector3i → Prop) : Prop :=
  m.Labelled ever ∧ m.Occupies occupied ∧ m.Handed hole raised

/-- A cell that names an obstacle is on the open list, in the bucket of its
distance. -/
def SparseDistanceMap.Waiting (m : SparseDistanceMap) (t : Vector3i) : Prop :=
  ∀ o, (m.m_cells t).obs = some o → ((m.m_cells t).dist, t) ∈ m.m_open

/-- Two maps have the same grid, the same maximum distance and the same table
of neighbour offsets. -/
def SparseDistanceMap.SameGrid (m m' : SparseDistanceMap) : Prop :=
  m'.m_cell_count_x = m.m_cell_count_x ∧ m'.m_cell_count_y = m.m_cell_count_y ∧
    m'.m_cell_count_z = m.m_cell_count_z ∧ m'.m_dmax_sqrd_int = m.m_dmax_sqrd_int ∧
    m'.neighborOffsets = m.neighborOffsets

/-- The offset from the cell `p` to its neighbour in the direction of the cell
`o`: every coordinate moves by one towards `o`, or stays when it is that of
`o`. -/
def offsetTowards (p o : Vector3i) : Vector3i :=
  ((o.1 - p.1).sign, (o.2.1 - p.2.1).sign, (o.2.2 - p.2.2).sign)

/-- Whether the cells of `path` follow one another as neighbours, the first
being a neighbour of `s`. -/
def isNeighborPath : Vector3i → List Vector3i → Bool
  | _, [] => true
  | s, x :: xs =>
    neighbors26.any (fun offset => decide (x = neighborCell s offset)) &&
      isNeighborPath x xs

/-- No cell on the raise stack is a neighbour of the cell `p`, and no neighbour
of `p` in the grid names a cell that is no obstacle: the raise pass will not
reach `p`. -/
def SparseDistanceMap.Shielded (m : SparseDistanceMap) (p : Vector3i) : Prop :=
  (∀ c ∈ m.m_rem_stack, ∀ offset ∈ neighbors26, neighborCell c offset ≠ p) ∧
    ∀ c, (∃ offset ∈ neighbors26, neighborCell c offset = p) →
      m.isCellValid c = true → ¬ m.pointsIntoRemoved c = true

/-! ## Occupancy grid of the planner -/

/-- The values taken by the variable of `for (int v = lo; v < hi; ++v)`, in
order. -/
def intRange (lo hi : Int) : List Int :=
  (List.range (hi - lo).toNat).map fun (i : Nat) => lo + (i : Int)

/-- Member `OccupancyGrid::getOccupiedVoxels(x_center, y_center, z_center,
radius, voxels)`; the result is `voxels` after the call. The members
`getResolution`, `worldToGrid`, `gridToWorld` and `getCell` are declared in the
header of the class, which is not part of the translated sources, and are
parameters here; a `geometry_msgs::Point` is the triple of its coordinates. -/
def OccupancyGrid.getOccupiedVoxels (getResolution : ℚ)
    (worldToGrid : ℚ → ℚ → ℚ → Int × Int × Int)
    (gridToWorld : Int → Int → Int → ℚ × ℚ × ℚ)
    (getCell : Int → Int → Int → Nat)
    (x_center y_center z_center radius : ℚ) (voxels : List (ℚ × ℚ × ℚ)) :
    List (ℚ × ℚ × ℚ) :=
  let c := worldToGrid x_center y_center z_center
  let x_c := c.1
  let y_c := c.2.1
  let z_c := c.2.2
  let radius_c := truncToInt (radius / getResolution + 1 / 2)
  voxels ++
    (intRange (z_c - radius_c) (z_c + radius_c)).flatMap fun z =>
      (intRange (y_c - radius_c) (y_c + radius_c)).flatMap fun y =>
        (intRange (x_c - radius_c) (x_c + radius_c)).filterMap fun x =>
          if getCell x y z = 0 then some (gridToWorld x y z) else none

/-- A grid of resolution 1 with its origin at the corner of cell (0, 0, 0). -/
def exampleWorldToGrid (x y z : ℚ) : Int × Int × Int :=
  (⌊x⌋, ⌊y⌋, ⌊z⌋)

/-- The centre of a cell of the grid of `exampleWorldToGrid`. -/
def exampleGridToWorld (x y z : Int) : ℚ × ℚ × ℚ :=
  ((x : ℚ) + 1 / 2, (y : ℚ) + 1 / 2, (z : ℚ) + 1 / 2)

/-! ## Debug visualization levels and locations -/

namespace viz

/-- Modelled from the spec: the enumeration `levels::Level` of
`smpl/debug/visualize.h`, which is not part of the translated sources, with the
five levels that `to_cstring` and `ParseVisualizationConfigLine` name, in
increasing order. -/
inductive Level where
  | Debug
  | Info
  | Warn
  | Error
  | Fatal
deriving DecidableEq

/-- The value of an enumerator, which `<=` compares. -/
def Level.toNat : Level → Nat
  | .Debug => 0
  | .Info => 1
  | .Warn => 2
  | .Error => 3
  | .Fatal => 4

/-- Function `to_cstring(level)`; a string is the list of its characters. -/
def to_cstring : Level → List Char
  | .Debug => "DEBUG".toList
  | .Info => "INFO".toList
  | .Warn => "WARN".toList
  | .Error => "ERROR".toList
  | .Fatal => "FATAL".toList

/-- The offset in `s` of the first character that is one of `chars`. -/
def findFirstIn (chars : List Char) : List Char → Option Nat
  | [] => none
  | c :: rest =>
    if c ∈ chars then some 0 else (findFirstIn chars rest).map fun k => k + 1

/-- Member `std::string::find_first_of(chars, pos)`; `none` is `npos`. -/
def find_first_of (line chars : List Char) (pos : Nat) : Option Nat :=
  (findFirstIn chars (line.drop pos)).map fun k => pos + k

/-- Member `std::string::substr(pos, len)`. -/
def substr (line : List Char) (pos len : Nat) : List Char :=
  (line.drop pos).take len

/-- The `while (!done)` loop of `ParseVisualizationConfigLine`, run for at
most `fuel` iterations: `split` and `level` when the loop ends, `none` when it
has not ended by then. The state of the loop is `split`, `level` and `last`. -/
def ParseVisualizationConfigLineLoop (line : List Char) :
    Nat → List (List Char) → Level → Nat → Option (List (List Char) × Level)
  | 0, _, _, _ => none
  | fuel + 1, split, level, last =>
    match find_first_of line ['.', '='] last with
    | none =>
      -- no remaining . or =
      some ([], level)
    | some next =>
      if line.getD next ' ' = '.' then
        if last = next then some ([], level)
        else
          ParseVisualizationConfigLineLoop line fuel
            (split ++ [substr line last (next - last)]) level (next + 1)
      else if line.getD next ' ' = '=' then
        if last = next then some ([], level)
        else
          let split1 := split ++ [substr line last (next - last)]
          -- parse the right hand side
          let rhs := line.drop (next + 1)
          if rhs = "DEBUG".toList then some (split1, Level.Debug)
          else if rhs = "INFO".toList then some (split1, Level.Info)
          else if rhs = "WARN".toList then some (split1, Level.Warn)
          else if rhs = "ERROR".toList then some (split1, Level.Error)
          else if rhs = "FATAL".toList then some (split1, Level.Fatal)
          else some ([], level)
      else ParseVisualizationConfigLineLoop line fuel split level last

/-- Function `ParseVisualizationConfigLine(line, split, level)`: the returned
flag, `split` and `level` after the call. The loop is given one iteration per
character of the line and one more; `none` stands for a loop still running
after them. The value of `split` on entry is cleared. -/
def ParseVisualizationConfigLine (line : List Char) (_split : List (List Char))
    (level : Level) : Option (Bool × List (List Char) × Level) :=
  (ParseVisualizationConfigLineLoop line (line.length + 1) [] level 0).map
    fun r => (!r.1.isEmpty, r.1, r.2)

/-- Modelled from the spec: the structure `VizLocation` of
`smpl/debug/visualize.h`, which is not part of the translated sources, with the
members that `visualize.cpp` uses. The `handle`, a pointer to the entry of
`g_visualizations` for a name, is that name; the member `next` is kept in the
list of the registered locations. -/
structure VizLocation where
  handle : List Char
  level : Level
  enabled : Bool
  initialized : Bool

/-- The global variables of `visualize.cpp` and the memory that holds the
`VizLocation` objects. The map `g_visualizations` gives the level of the
`DebugViz` stored for a name, if one is stored. `locations` gives the object at
an address, and `registry` is the singly linked list of locations from
`g_loc_head` to `g_loc_tail`, as the list of their addresses. -/
structure VizGlobals where
  g_visualizations : List Char → Option Level
  g_initialized : Bool
  locations : Nat → VizLocation
  registry : List Nat

/-- The state in which the program starts: nothing stored, no location
registered, every location object zero-initialized. -/
def VizGlobals.start : VizGlobals :=
  { g_visualizations := fun _ => none
    g_initialized := false
    locations := fun _ =>
      { handle := [], level := Level.Debug, enabled := false,
        initialized := false }
    registry := [] }

/-- The level that `g_visualizations[name]` holds: that of the stored
`DebugViz`, or that of a new `DebugViz`, `Info`, when none is stored. -/
def VizGlobals.levelOf (s : VizGlobals) (name : List Char) : Level :=
  (s.g_visualizations name).getD Level.Info

/-- The expression `g_visualizations[name]` of `std::unordered_map`, which
stores a new `DebugViz` for a name that has none. -/
def VizGlobals.index (s : VizGlobals) (name : List Char) : VizGlobals :=
  match s.g_visualizations name with
  | some _ => s
  | none =>
    { s with
      g_visualizations := Function.update s.g_visualizations name
        (some Level.Info) }

/-- What the body of the loop of `Initialize` does with one line of the
configuration file. -/
def InitializeStep (m : List Char → Option Level) (line : List Char) :
    List Char → Option Level :=
  -- `level` is not initialized; it is read only after the parse has set it
  match ParseVisualizationConfigLine line [] Level.Info with
  | some (true, split, level) =>
    Function.update m (List.intercalate ['.'] split) (some level)
  | _ => m

/-- Function `impl::Initialize()`. `config` holds the lines that the loop
reads from the file named by `SMPL_VISUALIZE_CONFIG_FILE`, and is `none` when
the variable is not set or the file cannot be opened. -/
def Initialize (config : Option (List (List Char))) (s : VizGlobals) :
    VizGlobals :=
  if s.g_initialized then s
  else
    match config with
    | some lines =>
      { s with
        g_visualizations := lines.foldl InitializeStep s.g_visualizations
        g_initialized := true }
    | none => { s with g_initialized := true }

/-- Function `impl::GetHandle(name)`: the handle and the globals after the
call. -/
def GetHandle (config : Option (List (List Char))) (s : VizGlobals)
    (name : List Char) : List Char × VizGlobals :=
  (name, (Initialize config s).index name)

/-- Function `impl::IsEnabledFor(handle, level)`: the returned flag and the
globals after the call. -/
def IsEnabledFor (config : Option (List (List Char))) (s : VizGlobals)
    (handle : List Char) (level : Level) : Bool × VizGlobals :=
  let s1 := Initialize config s
  (decide ((s1.levelOf handle).toNat ≤ level.toNat), s1)

/-- Function `impl::SetVisualizationLevel(name, level)`: the returned flag and
the globals after the call. -/
def SetVisualizationLevel (config : Option (List (List Char)))
    (s : VizGlobals) (name : List Char) (level : Level) : Bool × VizGlobals :=
  let s1 := (Initialize config s).index name
  if s1.levelOf name ≠ level then
    (true,
      { s1 with
        g_visualizations := Function.update s1.g_visualizations name
          (some level) })
  else (false, s1)

/-- Function `CheckLocationEnabledNoLock(loc)`. -/
def CheckLocationEnabledNoLock (config : Option (List (List Char)))
    (s : VizGlobals) (loc : Nat) : VizGlobals :=
  let r := IsEnabledFor config s (s.locations loc).handle (s.locations loc).level
  { r.2 with
    locations := Function.update r.2.locations loc
      { r.2.locations loc with enabled := r.1 } }

/-- Function `InitializeVizLocation(loc, name, level)`. -/
def InitializeVizLocation (config : Option (List (List Char)))
    (s : VizGlobals) (loc : Nat) (name : List Char) (level : Level) :
    VizGlobals :=
  if (s.locations loc).initialized then s
  else
    let h := GetHandle config s name
    let s1 : VizGlobals :=
      { h.2 with
        locations := Function.update h.2.locations loc
          { h.2.locations loc with handle := h.1, level := level }
        -- g_loc_tail->next = loc; g_loc_tail = loc;
        registry := h.2.registry ++ [loc] }
    let s2 := CheckLocationEnabledNoLock config s1 loc
    { s2 with
      locations := Function.update s2.locations loc
        { s2.locations loc with initialized := true } }

/-- Function `NotifyLevelsChanged()`. -/
def NotifyLevelsChanged (config : Option (List (List Char)))
    (s : VizGlobals) : VizGlobals :=
  s.registry.foldl (CheckLocationEnabledNoLock config) s

/-- Function `set_visualization_level(name, level)`: the returned flag and the
globals after the call. -/
def set_visualization_level (config : Option (List (List Char)))
    (s : VizGlobals) (name : List Char) (level : Level) : Bool × VizGlobals :=
  let r := SetVisualizationLevel config s name level
  let changed := r.1
  if changed then (changed, NotifyLevelsChanged config r.2)
  else (changed, r.2)

/-- A call of one of the two functions that change the registry. -/
inductive VizCall where
  | InitializeVizLocation (loc : Nat) (name : List Char) (level : Level)
  | set_visualization_level (name : List Char) (level : Level)

/-- The globals after a call. -/
def VizCall.run (config : Option (List (List Char))) (s : VizGlobals) :
    VizCall → VizGlobals
  | .InitializeVizLocation loc name level =>
    viz.InitializeVizLocation config s loc name level
  | .set_visualization_level name level =>
    (viz.set_visualization_level config s name level).2

/-- The condition of the registry: the flag `enabled` of a location agrees
with the level of its named visualization. -/
def VizGlobals.locationCurrent (s : VizGlobals) (loc : Nat) : Prop :=
  (s.locations loc).enabled
    = decide ((s.levelOf (s.locations loc).handle).toNat
        ≤ (s.locations loc).level.toNat)

/-- The form `w1.w2. ... .wn=L` of a line: the words joined with '.', then '='
and the name of the level. -/
def configLine (words : List (List Char)) (level : Level) : List Char :=
  List.intercalate ['.'] words ++ '=' :: to_cstring level

/-- A word of a configuration line: not empty, with neither '.' nor '='. -/
def isWord (w : List Char) : Prop :=
  w ≠ [] ∧ ∀ c ∈ w, c ∉ ['.', '=']

end viz

namespace collision

/-! ## One iteration of the pair stack loop -/

/-- What one iteration of the `while (!q.empty())` loop of
`checkSpheresStateCollision` does: the function returns `result`, or the loop
goes on with the stack `q`. An empty stack ends the loop and the function
returns `true`. -/
inductive PairStep where
  | done (result : Bool)
  | next (q : List (SphereStateTree × SphereStateTree))
deriving DecidableEq

/-- The body of the `while (!q.empty())` loop of `checkSpheresStateCollision`
on the stack `q`, whose head is `q.back()`. -/
def spherePairStep (acm : AllowedCollisionMatrix) :
    List (SphereStateTree × SphereStateTree) → PairStep
  | [] => .done true
  | (s1s, s2s) :: q =>
    let dx := s2s.sphere.pos.sub s1s.sphere.pos
    let cd2 := dx.squaredNorm
    let cr2 := sqrd (s1s.sphere.radius + s2s.sphere.radius)
    if cd2 > cr2 then
      -- no collision between spheres -> back out
      .next q
    else
      match s1s, s2s with
      | .leaf s1m, .leaf s2m =>
        match acm.getEntry s1m.name s2m.name with
        | some type =>
          if type ≠ AllowedCollisionType.ALWAYS then .done false
          else .next q
        | none => .done false
      | .leaf s1m, .node _ sl sr =>
        -- split1 = false
        .next (pushSplit2 (.leaf s1m) sl sr q)
      | .node _ sl sr, .leaf s2m =>
        -- split1 = true
        .next (pushSplit1 sl sr (.leaf s2m) q)
      | .node s1m l1 r1, .node s2m l2 r2 =>
        if s1m.radius > s2m.radius then
          .next (pushSplit1 l1 r1 (.node s2m l2 r2) q)
        else
          .next (pushSplit2 (.node s1m l1 r1) l2 r2 q)

/-- The loop of `checkSpheresStateCollision` run for at most `fuel + 1`
iterations: `none` when the loop has not ended by then. -/
def spherePairLoopFuel (acm : AllowedCollisionMatrix) :
    Nat → List (SphereStateTree × SphereStateTree) → Option Bool
  | 0, q =>
    match spherePairStep acm q with
    | .done result => some result
    | .next _ => none
  | fuel + 1, q =>
    match spherePairStep acm q with
    | .done result => some result
    | .next q' => spherePairLoopFuel acm fuel q'

/-- Depth of a sphere state tree: the number of edges on its longest branch. -/
def SphereStateTree.depth : SphereStateTree → Nat
  | .leaf _ => 0
  | .node _ l r => max l.depth r.depth + 1

/-- The children (`left`, `right`) of a sphere state; a leaf has none. -/
def SphereStateTree.children : SphereStateTree → List SphereStateTree
  | .leaf _ => []
  | .node _ l r => [l, r]

/-- The combined remaining depth of the pair stack: a pair of combined depth
`d` counts `2 ^ (d + 1) - 1`, the most iterations its descent can take. -/
def pairDepthWeight : List (SphereStateTree × SphereStateTree) → Nat
  | [] => 0
  | (a, b) :: q => 2 ^ (a.depth + b.depth + 1) - 1 + pairDepthWeight q

/-- The squared distance between the centres of the two spheres of a pair. -/
def pairCentreDist (p : SphereStateTree × SphereStateTree) : ℚ :=
  (p.2.sphere.pos.sub p.1.sphere.pos).squaredNorm

/-- The condition under which the spheres of a pair overlap in the loop:
`cd2 > cr2` does not hold. -/
def pairOverlaps (p : SphereStateTree × SphereStateTree) : Prop :=
  ¬ (pairCentreDist p > sqrd (p.1.sphere.radius + p.2.sphere.radius))

/-- A sphere tree with a root of radius 2, the radius of the root of
`exampleUpperArm`, centred one unit away from it. -/
def exampleTwinArm : SphereStateTree :=
  .node { name := "tw", radius := 2, pos := ⟨1, 0, 0⟩ }
    (.leaf { name := "tw0", radius := 1 / 2, pos := ⟨0, 0, 0⟩ })
    (.leaf { name := "tw1", radius := 1 / 2, pos := ⟨2, 0, 0⟩ })

/-- The model of `exampleRobotAB` after a check of group B (index 1) followed
by a check of group A (index 0), both at joint position 9/5: group A is active,
voxels state 2 is the one outside it, and voxels states 0 and 2 both hold the
voxels computed by the two checks. -/
def exampleSwitched : SelfCollisionModelImpl :=
  checkCollisions exampleRobotAB (exampleSelf exampleAcm)
    [(exampleState 1 (9 / 5), 1, 42), (exampleState 1 (9 / 5), 0, 42)]

/-! ## Frame lemmas -/

theorem copyState_foldl_frame (rcm : RobotCollisionModel)
    (state : RobotCollisionState) (l : List Nat) (self : SelfCollisionModelImpl) :
    let r := l.foldl
      (fun acc vidx =>
        { acc with
          m_rcs := acc.m_rcs.setJointVarPosition rcm vidx
            (state.jointVarPositions vidx) })
      self
    r.m_grid = self.m_grid ∧ r.m_gidx = self.m_gidx ∧
      r.m_voxels_indices = self.m_voxels_indices ∧
      r.m_sphere_indices = self.m_sphere_indices ∧
      r.m_checked_spheres_states = self.m_checked_spheres_states ∧
      r.m_acm = self.m_acm ∧ r.m_padding = self.m_padding ∧
      r.m_rcs.voxels = self.m_rcs.voxels ∧ r.m_rcs.model = self.m_rcs.model := by
  induction l generalizing self with
  | nil => simp
  | cons vidx l ih =>
    simp only [List.foldl_cons]
    have h := ih
      { self with
        m_rcs := self.m_rcs.setJointVarPosition rcm vidx
          (state.jointVarPositions vidx) }
    simpa [RobotCollisionState.setJointVarPosition] using h

theorem copyState_frame (rcm : RobotCollisionModel)
    (self : SelfCollisionModelImpl) (state : RobotCollisionState) :
    (copyState rcm self state).m_grid = self.m_grid ∧
      (copyState rcm self state).m_gidx = self.m_gidx ∧
      (copyState rcm self state).m_voxels_indices = self.m_voxels_indices ∧
      (copyState rcm self state).m_sphere_indices = self.m_sphere_indices ∧
      (copyState rcm self state).m_checked_spheres_states
        = self.m_checked_spheres_states ∧
      (copyState rcm self state).m_acm = self.m_acm ∧
      (copyState rcm self state).m_padding = self.m_padding ∧
      (copyState rcm self state).m_rcs.voxels = self.m_rcs.voxels ∧
      (copyState rcm self state).m_rcs.model = self.m_rcs.model :=
  copyState_foldl_frame rcm state _ self

theorem updateVoxelsStatesStep_foldl_frame (rcm : RobotCollisionModel)
    (l : List Nat) (acc : VoxelsUpdate) :
    (l.foldl (updateVoxelsStatesStep rcm) acc).rcs.jointVarPositions
        = acc.rcs.jointVarPositions ∧
      (l.foldl (updateVoxelsStatesStep rcm) acc).rcs.model = acc.rcs.model := by
  induction l generalizing acc with
  | nil => simp
  | cons vsidx l ih =>
    simp only [List.foldl_cons]
    rw [(ih _).1, (ih _).2]
    unfold updateVoxelsStatesStep
    split <;> simp [RobotCollisionState.updateVoxelsState]

theorem updateVoxelsStates_frame (rcm : RobotCollisionModel)
    (self : SelfCollisionModelImpl) :
    (updateVoxelsStates rcm self).m_gidx = self.m_gidx ∧
      (updateVoxelsStates rcm self).m_voxels_indices = self.m_voxels_indices ∧
      (updateVoxelsStates rcm self).m_sphere_indices = self.m_sphere_indices ∧
      (updateVoxelsStates rcm self).m_checked_spheres_states
        = self.m_checked_spheres_states ∧
      (updateVoxelsStates rcm self).m_acm = self.m_acm ∧
      (updateVoxelsStates rcm self).m_padding = self.m_padding ∧
      (updateVoxelsStates rcm self).m_rcs.jointVarPositions
        = self.m_rcs.jointVarPositions := by
  refine ⟨rfl, rfl, rfl, rfl, rfl, rfl, ?_⟩
  exact (updateVoxelsStatesStep_foldl_frame rcm _ _).1

theorem checkVoxelsStateCollisions_self (rcm : RobotCollisionModel)
    (self : SelfCollisionModelImpl) (dist : ℚ) :
    (checkVoxelsStateCollisions rcm self dist).2 = updateVoxelsStates rcm self :=
  rfl

theorem updateCheckedSpheresIndices_frame (rcm : RobotCollisionModel)
    (self : SelfCollisionModelImpl) :
    (updateCheckedSpheresIndices rcm self).m_grid = self.m_grid ∧
      (updateCheckedSpheresIndices rcm self).m_rcs = self.m_rcs ∧
      (updateCheckedSpheresIndices rcm self).m_gidx = self.m_gidx ∧
      (updateCheckedSpheresIndices rcm self).m_voxels_indices
        = self.m_voxels_indices ∧
      (updateCheckedSpheresIndices rcm self).m_sphere_indices
        = self.m_sphere_indices ∧
      (updateCheckedSpheresIndices rcm self).m_acm = self.m_acm ∧
      (updateCheckedSpheresIndices rcm self).m_padding = self.m_padding := by
  unfold updateCheckedSpheresIndices
  split <;> simp

theorem checkCollision_valid_self (rcm : RobotCollisionModel)
    (self : SelfCollisionModelImpl) (state : RobotCollisionState) (gidx : Int)
    (dist : ℚ) (h : validCall rcm (state, gidx, dist)) :
    (checkCollision rcm self state gidx dist).self
      = updateVoxelsStates rcm (copyState rcm (updateGroup rcm self gidx) state) := by
  obtain ⟨hm, hlo, hhi⟩ := h
  have hgid : ¬ (gidx < 0 ∨ gidx ≥ rcm.groupCount) := by
    simp only at hlo hhi
    omega
  unfold checkCollision
  rw [if_neg (by simpa using hm), if_neg hgid]
  simp only [checkVoxelsStateCollisions_self]
  split <;> rfl

theorem checkCollision_valid_outcome (rcm : RobotCollisionModel)
    (self : SelfCollisionModelImpl) (state : RobotCollisionState) (gidx : Int)
    (dist : ℚ) (h : validCall rcm (state, gidx, dist)) :
    (checkCollision rcm self state gidx dist).dist
        = (checkVoxelsStateCollisions rcm
            (copyState rcm (updateGroup rcm self gidx) state) dist).1.dist ∧
      (checkCollision rcm self state gidx dist).queried
        = (checkVoxelsStateCollisions rcm
            (copyState rcm (updateGroup rcm self gidx) state) dist).1.queried ∧
      (checkCollision rcm self state gidx dist).ret
        = ((checkVoxelsStateCollisions rcm
            (copyState rcm (updateGroup rcm self gidx) state) dist).1.ok &&
          checkSpheresStateCollisions rcm
            (updateVoxelsStates rcm
              (copyState rcm (updateGroup rcm self gidx) state))) := by
  obtain ⟨hm, hlo, hhi⟩ := h
  have hgid : ¬ (gidx < 0 ∨ gidx ≥ rcm.groupCount) := by
    simp only at hlo hhi
    omega
  unfold checkCollision
  rw [if_neg (by simpa using hm), if_neg hgid]
  simp only [checkVoxelsStateCollisions_self]
  split
  · rename_i hc
    refine ⟨rfl, rfl, ?_⟩
    simp only [Bool.or_eq_true, Bool.not_eq_true'] at hc
    rcases hc with hc | hc <;> simp [hc]
  · rename_i hc
    refine ⟨rfl, rfl, ?_⟩
    simp only [Bool.or_eq_true, Bool.not_eq_true', not_or, Bool.not_eq_false] at hc
    simp [hc.1, hc.2]

theorem checkCollisions_append (rcm : RobotCollisionModel)
    (calls : List (RobotCollisionState × Int × ℚ))
    (c : RobotCollisionState × Int × ℚ) (self : SelfCollisionModelImpl) :
    checkCollisions rcm self (calls ++ [c])
      = (checkCollision rcm (checkCollisions rcm self calls) c.1 c.2.1 c.2.2).self := by
  induction calls generalizing self with
  | nil => rfl
  | cons a calls ih =>
    obtain ⟨s, g, d⟩ := a
    simp only [List.cons_append, checkCollisions]
    exact ih _

/-! ## Geometry of enclosing balls -/

theorem sq_triangle (u1 u2 u3 v1 v2 v3 α β : ℚ) (hα : 0 ≤ α) (hβ : 0 ≤ β)
    (hu : u1 * u1 + u2 * u2 + u3 * u3 ≤ α * α)
    (hv : v1 * v1 + v2 * v2 + v3 * v3 ≤ β * β) :
    (u1 + v1) * (u1 + v1) + (u2 + v2) * (u2 + v2) + (u3 + v3) * (u3 + v3)
      ≤ (α + β) * (α + β) := by
  have hU : 0 ≤ u1 * u1 + u2 * u2 + u3 * u3 := by
    nlinarith [mul_self_nonneg u1, mul_self_nonneg u2, mul_self_nonneg u3]
  have hV : 0 ≤ v1 * v1 + v2 * v2 + v3 * v3 := by
    nlinarith [mul_self_nonneg v1, mul_self_nonneg v2, mul_self_nonneg v3]
  have hCS : (u1 * v1 + u2 * v2 + u3 * v3) * (u1 * v1 + u2 * v2 + u3 * v3)
      ≤ (u1 * u1 + u2 * u2 + u3 * u3) * (v1 * v1 + v2 * v2 + v3 * v3) := by
    nlinarith [sq_nonneg (u1 * v2 - u2 * v1), sq_nonneg (u1 * v3 - u3 * v1),
      sq_nonneg (u2 * v3 - u3 * v2)]
  have hUV : (u1 * u1 + u2 * u2 + u3 * u3) * (v1 * v1 + v2 * v2 + v3 * v3)
      ≤ (α * α) * (β * β) :=
    mul_le_mul hu hv hV (mul_self_nonneg α)
  have hD : u1 * v1 + u2 * v2 + u3 * v3 ≤ α * β := by
    by_contra hlt
    push_neg at hlt
    have hab : 0 ≤ α * β := mul_nonneg hα hβ
    nlinarith
  nlinarith

theorem ballContains_refl (s : CollisionSphereState) : ballContains s s := by
  simp [ballContains, Vector3d.sub, Vector3d.squaredNorm, sqrd]

theorem ballContains_trans {s c l : CollisionSphereState}
    (h1 : ballContains s c) (h2 : ballContains c l) : ballContains s l := by
  obtain ⟨hr1, hd1⟩ := h1
  obtain ⟨hr2, hd2⟩ := h2
  refine ⟨le_trans hr2 hr1, ?_⟩
  simp only [Vector3d.sub, Vector3d.squaredNorm, sqrd] at hd1 hd2 ⊢
  have h := sq_triangle (l.pos.x - c.pos.x) (l.pos.y - c.pos.y)
    (l.pos.z - c.pos.z) (c.pos.x - s.pos.x) (c.pos.y - s.pos.y)
    (c.pos.z - s.pos.z) (c.radius - l.radius) (s.radius - c.radius)
    (by linarith) (by linarith) hd2 hd1
  have e1 : l.pos.x - c.pos.x + (c.pos.x - s.pos.x) = l.pos.x - s.pos.x := by ring
  have e2 : l.pos.y - c.pos.y + (c.pos.y - s.pos.y) = l.pos.y - s.pos.y := by ring
  have e3 : l.pos.z - c.pos.z + (c.pos.z - s.pos.z) = l.pos.z - s.pos.z := by ring
  have e4 : c.radius - l.radius + (s.radius - c.radius) = s.radius - l.radius := by
    ring
  rw [e1, e2, e3, e4] at h
  exact h

/-- A sphere overlapping a sphere inside the ball of `s` overlaps `s`. -/
theorem spheresOverlap_lift_left {s l x : CollisionSphereState}
    (h : ballContains s l) (hl : 0 ≤ l.radius) (hx : 0 ≤ x.radius)
    (ho : spheresOverlap l x) : spheresOverlap s x := by
  obtain ⟨hr, hd⟩ := h
  simp only [spheresOverlap, Vector3d.sub, Vector3d.squaredNorm, sqrd] at hd ho ⊢
  have h := sq_triangle (x.pos.x - l.pos.x) (x.pos.y - l.pos.y)
    (x.pos.z - l.pos.z) (l.pos.x - s.pos.x) (l.pos.y - s.pos.y)
    (l.pos.z - s.pos.z) (l.radius + x.radius) (s.radius - l.radius)
    (by linarith) (by linarith) ho hd
  have e1 : x.pos.x - l.pos.x + (l.pos.x - s.pos.x) = x.pos.x - s.pos.x := by ring
  have e2 : x.pos.y - l.pos.y + (l.pos.y - s.pos.y) = x.pos.y - s.pos.y := by ring
  have e3 : x.pos.z - l.pos.z + (l.pos.z - s.pos.z) = x.pos.z - s.pos.z := by ring
  have e4 : l.radius + x.radius + (s.radius - l.radius) = s.radius + x.radius := by
    ring
  rw [e1, e2, e3, e4] at h
  exact h

theorem spheresOverlap_comm {a b : CollisionSphereState} :
    spheresOverlap a b ↔ spheresOverlap b a := by
  simp only [spheresOverlap, Vector3d.sub, Vector3d.squaredNorm, sqrd]
  have e1 : (b.pos.x - a.pos.x) * (b.pos.x - a.pos.x)
      + (b.pos.y - a.pos.y) * (b.pos.y - a.pos.y)
      + (b.pos.z - a.pos.z) * (b.pos.z - a.pos.z)
      = (a.pos.x - b.pos.x) * (a.pos.x - b.pos.x)
      + (a.pos.y - b.pos.y) * (a.pos.y - b.pos.y)
      + (a.pos.z - b.pos.z) * (a.pos.z - b.pos.z) := by ring
  have e2 : (a.radius + b.radius) * (a.radius + b.radius)
      = (b.radius + a.radius) * (b.radius + a.radius) := by ring
  rw [e1, e2]

theorem spheresOverlap_lift_right {s l x : CollisionSphereState}
    (h : ballContains s l) (hl : 0 ≤ l.radius) (hx : 0 ≤ x.radius)
    (ho : spheresOverlap x l) : spheresOverlap x s :=
  spheresOverlap_comm.mp
    (spheresOverlap_lift_left h hl hx (spheresOverlap_comm.mp ho))

theorem SphereStateTree.Enclosed.radius_nonneg {t : SphereStateTree}
    (h : t.Enclosed) : 0 ≤ t.sphere.radius := by
  induction t with
  | leaf s => exact h
  | node s l r ihl _ =>
    obtain ⟨hl, _, hel, _⟩ := h
    exact le_trans (ihl hel) hl.1

/-- In a tree with the enclosure invariant every leaf has a radius that is not
negative and lies inside the ball of the root. -/
theorem SphereStateTree.Enclosed.leaf_in_root {t : SphereStateTree}
    (h : t.Enclosed) :
    ∀ a ∈ t.leaves, 0 ≤ a.radius ∧ ballContains t.sphere a := by
  induction t with
  | leaf s =>
    intro a ha
    simp only [SphereStateTree.leaves, List.mem_singleton] at ha
    subst ha
    exact ⟨h, ballContains_refl _⟩
  | node s l r ihl ihr =>
    obtain ⟨hl, hr, hel, her⟩ := h
    intro a ha
    simp only [SphereStateTree.leaves, List.mem_append] at ha
    rcases ha with ha | ha
    · exact ⟨(ihl hel a ha).1, ballContains_trans hl (ihl hel a ha).2⟩
    · exact ⟨(ihr her a ha).1, ballContains_trans hr (ihr her a ha).2⟩

/-- With the enclosure invariant, colliding leaves make the roots overlap. -/
theorem treesCollide_roots_overlap {acm : AllowedCollisionMatrix}
    {t1 t2 : SphereStateTree} (h1 : t1.Enclosed) (h2 : t2.Enclosed)
    (h : treesCollide acm t1 t2) : spheresOverlap t1.sphere t2.sphere := by
  obtain ⟨a, ha, b, hb, hab, _⟩ := h
  obtain ⟨ha0, hac⟩ := h1.leaf_in_root a ha
  obtain ⟨hb0, hbc⟩ := h2.leaf_in_root b hb
  have h3 : spheresOverlap t1.sphere b := spheresOverlap_lift_left hac ha0 hb0 hab
  exact spheresOverlap_lift_right hbc hb0 h1.radius_nonneg h3

/-! ## The pair loop finds exactly the colliding leaf pairs -/

theorem treesCollide_leaf_leaf (acm : AllowedCollisionMatrix)
    (a b : CollisionSphereState) :
    treesCollide acm (.leaf a) (.leaf b) ↔
      spheresOverlap a b ∧
        acm.getEntry a.name b.name ≠ some AllowedCollisionType.ALWAYS := by
  simp [treesCollide, SphereStateTree.leaves]

theorem treesCollide_node_left (acm : AllowedCollisionMatrix)
    (s : CollisionSphereState) (l r t2 : SphereStateTree) :
    treesCollide acm (.node s l r) t2 ↔
      treesCollide acm l t2 ∨ treesCollide acm r t2 := by
  simp only [treesCollide, SphereStateTree.leaves, List.mem_append]
  constructor
  · rintro ⟨a, ha | ha, h⟩
    · exact Or.inl ⟨a, ha, h⟩
    · exact Or.inr ⟨a, ha, h⟩
  · rintro (⟨a, ha, h⟩ | ⟨a, ha, h⟩)
    · exact ⟨a, Or.inl ha, h⟩
    · exact ⟨a, Or.inr ha, h⟩

theorem treesCollide_node_right (acm : AllowedCollisionMatrix)
    (s : CollisionSphereState) (t1 l r : SphereStateTree) :
    treesCollide acm t1 (.node s l r) ↔
      treesCollide acm t1 l ∨ treesCollide acm t1 r := by
  simp only [treesCollide, SphereStateTree.leaves, List.mem_append]
  constructor
  · rintro ⟨a, ha, b, hb | hb, h⟩
    · exact Or.inl ⟨a, ha, b, hb, h⟩
    · exact Or.inr ⟨a, ha, b, hb, h⟩
  · rintro (⟨a, ha, b, hb, h⟩ | ⟨a, ha, b, hb, h⟩)
    · exact ⟨a, ha, b, Or.inl hb, h⟩
    · exact ⟨a, ha, b, Or.inr hb, h⟩

theorem stackCollides_cons (acm : AllowedCollisionMatrix)
    (p : SphereStateTree × SphereStateTree)
    (q : List (SphereStateTree × SphereStateTree)) :
    stackCollides acm (p :: q) ↔ treesCollide acm p.1 p.2 ∨ stackCollides acm q := by
  simp [stackCollides]

theorem stackCollides_pushSplit1 (acm : AllowedCollisionMatrix)
    (s : CollisionSphereState) (sl sr s2s : SphereStateTree)
    (q : List (SphereStateTree × SphereStateTree)) :
    stackCollides acm (pushSplit1 sl sr s2s q) ↔
      stackCollides acm ((.node s sl sr, s2s) :: q) := by
  simp only [pushSplit1]
  split <;>
    simp only [stackCollides_cons, treesCollide_node_left] <;> tauto

theorem stackCollides_pushSplit2 (acm : AllowedCollisionMatrix)
    (s : CollisionSphereState) (s1s sl sr : SphereStateTree)
    (q : List (SphereStateTree × SphereStateTree)) :
    stackCollides acm (pushSplit2 s1s sl sr q) ↔
      stackCollides acm ((s1s, .node s sl sr) :: q) := by
  simp only [pushSplit2]
  split <;>
    simp only [stackCollides_cons, treesCollide_node_right] <;> tauto

theorem stackEnclosed_cons (p : SphereStateTree × SphereStateTree)
    (q : List (SphereStateTree × SphereStateTree)) :
    stackEnclosed (p :: q) ↔ (p.1.Enclosed ∧ p.2.Enclosed) ∧ stackEnclosed q := by
  simp [stackEnclosed]

theorem stackEnclosed_pushSplit1 {s : CollisionSphereState}
    {sl sr s2s : SphereStateTree} {q : List (SphereStateTree × SphereStateTree)}
    (h : stackEnclosed ((.node s sl sr, s2s) :: q)) :
    stackEnclosed (pushSplit1 sl sr s2s q) := by
  rw [stackEnclosed_cons] at h
  obtain ⟨⟨⟨_, _, hl, hr⟩, h2⟩, hq⟩ := h
  simp only [pushSplit1]
  split <;> simp only [stackEnclosed_cons] <;> exact ⟨⟨by assumption, h2⟩, ⟨by assumption, h2⟩, hq⟩

theorem stackEnclosed_pushSplit2 {s : CollisionSphereState}
    {s1s sl sr : SphereStateTree} {q : List (SphereStateTree × SphereStateTree)}
    (h : stackEnclosed ((s1s, .node s sl sr) :: q)) :
    stackEnclosed (pushSplit2 s1s sl sr q) := by
  rw [stackEnclosed_cons] at h
  obtain ⟨⟨h1, ⟨_, _, hl, hr⟩⟩, hq⟩ := h
  simp only [pushSplit2]
  split <;> simp only [stackEnclosed_cons] <;> exact ⟨⟨h1, by assumption⟩, ⟨h1, by assumption⟩, hq⟩

theorem spherePairLoop_cons_prune (acm : AllowedCollisionMatrix)
    (a b : SphereStateTree) (q : List (SphereStateTree × SphereStateTree))
    (h : (b.sphere.pos.sub a.sphere.pos).squaredNorm
      > sqrd (a.sphere.radius + b.sphere.radius)) :
    spherePairLoop acm ((a, b) :: q) = spherePairLoop acm q := by
  rw [spherePairLoop.eq_def]
  simp only [if_pos h]

/-- The loop returns false exactly when some stacked pair of trees has a pair
of colliding leaves, provided the trees satisfy the enclosure invariant. -/
theorem spherePairLoop_false_iff (acm : AllowedCollisionMatrix)
    (q : List (SphereStateTree × SphereStateTree)) (hq : stackEnclosed q) :
    spherePairLoop acm q = false ↔ stackCollides acm q := by
  induction q using spherePairLoop.induct acm with
  | case1 => simp [spherePairLoop, stackCollides]
  | case2 a b q dx cd2 cr2 hprune ih =>
    rw [stackEnclosed_cons] at hq
    have hno : ¬ treesCollide acm a b := by
      intro hc
      have := treesCollide_roots_overlap hq.1.1 hq.1.2 hc
      simp only [spheresOverlap] at this
      exact absurd this (not_le.mpr hprune)
    rw [spherePairLoop_cons_prune acm a b q hprune, ih hq.2, stackCollides_cons]
    simp [hno]
  | case3 q a b type hget hne dx cd2 cr2 hov =>
    rw [spherePairLoop, if_neg hov]
    simp only [hget, if_pos hne, true_iff, stackCollides_cons]
    left
    rw [treesCollide_leaf_leaf]
    refine ⟨not_lt.mp hov, ?_⟩
    rw [hget]
    simpa using hne
  | case4 q a b type hget hne dx cd2 cr2 hov ih =>
    rw [stackEnclosed_cons] at hq
    have hty : type = AllowedCollisionType.ALWAYS := by simpa using hne
    rw [spherePairLoop, if_neg hov]
    simp only [hget, if_neg hne]
    rw [ih hq.2, stackCollides_cons, treesCollide_leaf_leaf, hget, hty]
    simp
  | case5 q a b hget dx cd2 cr2 hov =>
    rw [spherePairLoop, if_neg hov]
    simp only [hget, true_iff, stackCollides_cons]
    left
    rw [treesCollide_leaf_leaf]
    refine ⟨not_lt.mp hov, ?_⟩
    rw [hget]
    simp
  | case6 q s s1 l r dx cd2 cr2 hov ih =>
    rw [spherePairLoop, if_neg hov]
    rw [ih (stackEnclosed_pushSplit2 hq), stackCollides_pushSplit2]
  | case7 q s l r s1 dx cd2 cr2 hov ih =>
    rw [spherePairLoop, if_neg hov]
    rw [ih (stackEnclosed_pushSplit1 hq), stackCollides_pushSplit1]
  | case8 q a a1 a2 b b1 b2 hrad dx cd2 cr2 hov ih =>
    rw [spherePairLoop, if_neg hov]
    simp only [if_pos hrad]
    rw [ih (stackEnclosed_pushSplit1 hq), stackCollides_pushSplit1]
  | case9 q a a1 a2 b b1 b2 hrad dx cd2 cr2 hov ih =>
    rw [spherePairLoop, if_neg hov]
    simp only [if_neg hrad]
    rw [ih (stackEnclosed_pushSplit2 hq), stackCollides_pushSplit2]

theorem pairCheck_false_iff_treesCollide
    (acm : AllowedCollisionMatrix) (ss1 ss2 : SphereStateTree)
    (h1 : ss1.Enclosed) (h2 : ss2.Enclosed) :
    checkSpheresStateCollision acm ss1 ss2 = false ↔ treesCollide acm ss1 ss2 := by
  unfold checkSpheresStateCollision
  rw [spherePairLoop_false_iff acm _ (by simp [stackEnclosed, h1, h2])]
  simp [stackCollides]

/-! ## Sorting and set difference of index lists -/

theorem mem_sortIndices (l : List Nat) (i : Nat) : i ∈ sortIndices l ↔ i ∈ l :=
  (List.perm_insertionSort _ l).mem_iff

theorem sortIndices_sorted (l : List Nat) :
    List.Sorted (fun a b => a ≤ b) (sortIndices l) :=
  List.sorted_insertionSort _ l

theorem sortIndices_perm (l : List Nat) : (sortIndices l).Perm l :=
  List.perm_insertionSort _ l

theorem sortIndices_strict (l : List Nat) (h : l.Nodup) :
    List.Sorted (fun a b => a < b) (sortIndices l) :=
  (sortIndices_sorted l).lt_of_le ((sortIndices_perm l).nodup_iff.mpr h)

theorem set_difference_subset (a b : List Nat) (i : Nat) :
    i ∈ set_difference a b → i ∈ a := by
  induction a, b using set_difference.induct with
  | case1 b => simp [set_difference]
  | case2 x xs => simp [set_difference]
  | case3 x xs y ys hlt ih =>
    rw [set_difference, if_pos hlt]
    intro h
    rcases List.mem_cons.mp h with h | h
    · exact List.mem_cons.mpr (Or.inl h)
    · exact List.mem_cons.mpr (Or.inr (ih h))
  | case4 x xs y ys hlt hgt ih =>
    rw [set_difference, if_neg hlt, if_pos hgt]
    exact ih
  | case5 x xs y ys hlt hgt ih =>
    rw [set_difference, if_neg hlt, if_neg hgt]
    intro h
    exact List.mem_cons.mpr (Or.inr (ih h))

theorem mem_set_difference_of_not_mem (a b : List Nat) (i : Nat) :
    i ∈ a → i ∉ b → i ∈ set_difference a b := by
  induction a, b using set_difference.induct with
  | case1 b => simp
  | case2 x xs => simp [set_difference]
  | case3 x xs y ys hlt ih =>
    rw [set_difference, if_pos hlt]
    intro h hb
    rcases List.mem_cons.mp h with h | h
    · exact List.mem_cons.mpr (Or.inl h)
    · exact List.mem_cons.mpr (Or.inr (ih h hb))
  | case4 x xs y ys hlt hgt ih =>
    rw [set_difference, if_neg hlt, if_pos hgt]
    intro h hb
    exact ih h (fun hys => hb (List.mem_cons.mpr (Or.inr hys)))
  | case5 x xs y ys hlt hgt ih =>
    rw [set_difference, if_neg hlt, if_neg hgt]
    intro h hb
    have hxy : x = y := by omega
    rcases List.mem_cons.mp h with h | h
    · exact absurd (List.mem_cons.mpr (Or.inl (h.trans hxy))) hb
    · exact ih h (fun hys => hb (List.mem_cons.mpr (Or.inr hys)))

theorem not_mem_of_mem_set_difference (a b : List Nat) (i : Nat)
    (ha : List.Sorted (fun x y => x < y) a)
    (hb : List.Sorted (fun x y => x ≤ y) b) :
    i ∈ set_difference a b → i ∉ b := by
  induction a, b using set_difference.induct with
  | case1 b => simp [set_difference]
  | case2 x xs => simp
  | case3 x xs y ys hlt ih =>
    rw [set_difference, if_pos hlt]
    rw [List.sorted_cons] at ha
    have hb' := List.sorted_cons.mp hb
    intro h
    rcases List.mem_cons.mp h with h | h
    · subst h
      intro hmem
      rcases List.mem_cons.mp hmem with h2 | h2
      · omega
      · have := hb'.1 i h2
        omega
    · exact ih ha.2 hb h
  | case4 x xs y ys hlt hgt ih =>
    rw [set_difference, if_neg hlt, if_pos hgt]
    have hb' := List.sorted_cons.mp hb
    intro h hmem
    have hin := set_difference_subset _ _ i h
    have ha' := List.sorted_cons.mp ha
    rcases List.mem_cons.mp hmem with h2 | h2
    · rcases List.mem_cons.mp hin with h3 | h3
      · omega
      · have := ha'.1 i h3
        omega
    · exact ih ha hb'.2 h h2
  | case5 x xs y ys hlt hgt ih =>
    rw [set_difference, if_neg hlt, if_neg hgt]
    have hb' := List.sorted_cons.mp hb
    have ha' := List.sorted_cons.mp ha
    intro h hmem
    have hin := set_difference_subset _ _ i h
    rcases List.mem_cons.mp hmem with h2 | h2
    · have := ha'.1 i hin
      omega
    · exact ih ha'.2 hb'.2 h h2

/-- On duplicate free index lists, sorting and `set_difference` compute the
set difference. -/
theorem mem_set_difference_sort (a b : List Nat) (ha : a.Nodup) (i : Nat) :
    i ∈ set_difference (sortIndices a) (sortIndices b) ↔ i ∈ a ∧ i ∉ b := by
  constructor
  · intro h
    refine ⟨(mem_sortIndices a i).mp (set_difference_subset _ _ i h), ?_⟩
    intro hb
    exact not_mem_of_mem_set_difference _ _ i (sortIndices_strict a ha)
      (sortIndices_sorted b) h ((mem_sortIndices b i).mpr hb)
  · rintro ⟨h1, h2⟩
    exact mem_set_difference_of_not_mem _ _ i ((mem_sortIndices a i).mpr h1)
      (fun h => h2 ((mem_sortIndices b i).mp h))

theorem mem_gatherVoxels (rcs : RobotCollisionState) (indices : List Nat)
    (v : Vector3d) :
    v ∈ gatherVoxels rcs indices ↔ ∃ i ∈ indices, v ∈ rcs.voxels i := by
  simp [gatherVoxels, List.mem_flatMap]

/-! ## updateGroup -/

theorem updateGroup_same (rcm : RobotCollisionModel)
    (self : SelfCollisionModelImpl) (gidx : Int) (h : gidx = self.m_gidx) :
    updateGroup rcm self gidx = self := by
  simp [updateGroup, h]

theorem updateGroup_switch (rcm : RobotCollisionModel)
    (self : SelfCollisionModelImpl) (gidx : Int) (h : gidx ≠ self.m_gidx) :
    (updateGroup rcm self gidx).m_gidx = gidx ∧
      (updateGroup rcm self gidx).m_voxels_indices
        = sortIndices (rcm.groupOutsideVoxelsStateIndices gidx) ∧
      (updateGroup rcm self gidx).m_rcs = self.m_rcs ∧
      (updateGroup rcm self gidx).m_acm = self.m_acm ∧
      (updateGroup rcm self gidx).m_padding = self.m_padding ∧
      (updateGroup rcm self gidx).m_grid.occupied
        = self.m_grid.occupied.filter
            (fun v => decide (v ∉ gatherVoxels self.m_rcs (ovidxRem rcm self gidx)))
          ++ gatherVoxels self.m_rcs (ovidxIns rcm self gidx) ∧
      (updateGroup rcm self gidx).m_grid.calls
        = self.m_grid.calls
          ++ (if gatherVoxels self.m_rcs (ovidxRem rcm self gidx) = [] then []
              else [FieldCall.removePointsFromField
                (gatherVoxels self.m_rcs (ovidxRem rcm self gidx))])
          ++ (if gatherVoxels self.m_rcs (ovidxIns rcm self gidx) = [] then []
              else [FieldCall.addPointsToField
                (gatherVoxels self.m_rcs (ovidxIns rcm self gidx))]) := by
  unfold updateGroup
  rw [if_neg h]
  simp only [(updateCheckedSpheresIndices_frame rcm _).1,
    (updateCheckedSpheresIndices_frame rcm _).2.1,
    (updateCheckedSpheresIndices_frame rcm _).2.2.1,
    (updateCheckedSpheresIndices_frame rcm _).2.2.2.1,
    (updateCheckedSpheresIndices_frame rcm _).2.2.2.2.2.1,
    (updateCheckedSpheresIndices_frame rcm _).2.2.2.2.2.2]
  refine ⟨trivial, trivial, trivial, trivial, trivial, ?_, ?_⟩
  · unfold ovidxRem ovidxIns
    by_cases h1 : gatherVoxels self.m_rcs
        (set_difference (sortIndices self.m_voxels_indices)
          (sortIndices (rcm.groupOutsideVoxelsStateIndices gidx))) = [] <;>
      by_cases h2 : gatherVoxels self.m_rcs
        (set_difference (sortIndices (rcm.groupOutsideVoxelsStateIndices gidx))
          (sortIndices self.m_voxels_indices)) = [] <;>
      simp [h1, h2, OccupancyGrid.removePointsFromField,
        OccupancyGrid.addPointsToField]
  · unfold ovidxRem ovidxIns
    by_cases h1 : gatherVoxels self.m_rcs
        (set_difference (sortIndices self.m_voxels_indices)
          (sortIndices (rcm.groupOutsideVoxelsStateIndices gidx))) = [] <;>
      by_cases h2 : gatherVoxels self.m_rcs
        (set_difference (sortIndices (rcm.groupOutsideVoxelsStateIndices gidx))
          (sortIndices self.m_voxels_indices)) = [] <;>
      simp [h1, h2, OccupancyGrid.removePointsFromField,
        OccupancyGrid.addPointsToField]

/-! ## updateVoxelsStates -/

theorem updateVoxelsStatesStep_dirty (rcm : RobotCollisionModel)
    (acc : VoxelsUpdate) (a : Nat) (h : acc.rcs.voxelsDirty a = true) :
    (updateVoxelsStatesStep rcm acc a).v_rem = acc.v_rem ++ acc.rcs.voxels a ∧
      (updateVoxelsStatesStep rcm acc a).v_ins
        = acc.v_ins ++ rcm.voxelsAt acc.rcs.jointVarPositions a ∧
      (updateVoxelsStatesStep rcm acc a).rcs.jointVarPositions
        = acc.rcs.jointVarPositions ∧
      (∀ k, (updateVoxelsStatesStep rcm acc a).rcs.voxels k
        = if k = a then rcm.voxelsAt acc.rcs.jointVarPositions a
          else acc.rcs.voxels k) ∧
      (∀ k, (updateVoxelsStatesStep rcm acc a).rcs.voxelsDirty k
        = if k = a then false else acc.rcs.voxelsDirty k) := by
  unfold updateVoxelsStatesStep
  rw [if_pos h]
  refine ⟨rfl, ?_, rfl, ?_, ?_⟩
  · simp [RobotCollisionState.updateVoxelsState]
  · intro k
    simp [RobotCollisionState.updateVoxelsState, Function.update_apply]
  · intro k
    simp [RobotCollisionState.updateVoxelsState, Function.update_apply]

theorem updateVoxelsStatesStep_clean (rcm : RobotCollisionModel)
    (acc : VoxelsUpdate) (a : Nat) (h : ¬ acc.rcs.voxelsDirty a = true) :
    updateVoxelsStatesStep rcm acc a = acc := by
  unfold updateVoxelsStatesStep
  rw [if_neg h]

/-- What the loop of `updateVoxelsStates` computes: the voxels states of the
list that were dirty are recomputed, their old voxels are gathered in `v_rem`
and their new voxels in `v_ins`. -/
theorem updateVoxelsStatesStep_foldl (rcm : RobotCollisionModel) (l : List Nat)
    (acc : VoxelsUpdate) :
    (∀ k, (l.foldl (updateVoxelsStatesStep rcm) acc).rcs.voxels k
        = if k ∈ l ∧ acc.rcs.voxelsDirty k = true
          then rcm.voxelsAt acc.rcs.jointVarPositions k
          else acc.rcs.voxels k) ∧
      (∀ v, v ∈ (l.foldl (updateVoxelsStatesStep rcm) acc).v_rem ↔
        v ∈ acc.v_rem ∨
          ∃ i ∈ l, acc.rcs.voxelsDirty i = true ∧ v ∈ acc.rcs.voxels i) ∧
      (∀ v, v ∈ (l.foldl (updateVoxelsStatesStep rcm) acc).v_ins ↔
        v ∈ acc.v_ins ∨
          ∃ i ∈ l, acc.rcs.voxelsDirty i = true ∧
            v ∈ rcm.voxelsAt acc.rcs.jointVarPositions i) := by
  induction l generalizing acc with
  | nil => simp
  | cons a l ih =>
    simp only [List.foldl_cons]
    by_cases hd : acc.rcs.voxelsDirty a = true
    · obtain ⟨hrem, hins, hjp, hvox, hdirty⟩ := updateVoxelsStatesStep_dirty rcm acc a hd
      obtain ⟨ih1, ih2, ih3⟩ := ih (updateVoxelsStatesStep rcm acc a)
      refine ⟨?_, ?_, ?_⟩
      · intro k
        rw [ih1 k, hjp, hvox k, hdirty k]
        by_cases hk : k = a
        · subst hk
          simp [hd]
        · simp [hk]
      · intro v
        rw [ih2 v, hrem, List.mem_append]
        constructor
        · rintro ((h | h) | ⟨i, hi, hdi, hv⟩)
          · exact Or.inl h
          · exact Or.inr ⟨a, List.mem_cons_self _ _, hd, h⟩
          · rw [hdirty i] at hdi
            by_cases hia : i = a
            · simp [hia] at hdi
            · rw [if_neg hia] at hdi
              rw [hvox i, if_neg hia] at hv
              exact Or.inr ⟨i, List.mem_cons_of_mem _ hi, hdi, hv⟩
        · rintro (h | ⟨i, hi, hdi, hv⟩)
          · exact Or.inl (Or.inl h)
          · by_cases hia : i = a
            · subst hia
              exact Or.inl (Or.inr hv)
            · rcases List.mem_cons.mp hi with h | h
              · exact absurd h hia
              · refine Or.inr ⟨i, h, ?_, ?_⟩
                · rw [hdirty i, if_neg hia]
                  exact hdi
                · rw [hvox i, if_neg hia]
                  exact hv
      · intro v
        rw [ih3 v, hins, List.mem_append, hjp]
        constructor
        · rintro ((h | h) | ⟨i, hi, hdi, hv⟩)
          · exact Or.inl h
          · exact Or.inr ⟨a, List.mem_cons_self _ _, hd, h⟩
          · rw [hdirty i] at hdi
            by_cases hia : i = a
            · simp [hia] at hdi
            · rw [if_neg hia] at hdi
              exact Or.inr ⟨i, List.mem_cons_of_mem _ hi, hdi, hv⟩
        · rintro (h | ⟨i, hi, hdi, hv⟩)
          · exact Or.inl (Or.inl h)
          · by_cases hia : i = a
            · subst hia
              exact Or.inl (Or.inr hv)
            · rcases List.mem_cons.mp hi with h | h
              · exact absurd h hia
              · refine Or.inr ⟨i, h, ?_, hv⟩
                rw [hdirty i, if_neg hia]
                exact hdi
    · rw [updateVoxelsStatesStep_clean rcm acc a hd]
      obtain ⟨ih1, ih2, ih3⟩ := ih acc
      refine ⟨?_, ?_, ?_⟩
      · intro k
        rw [ih1 k]
        by_cases hk : k = a
        · subst hk
          simp [hd]
        · simp [hk]
      · intro v
        rw [ih2 v]
        constructor
        · rintro (h | ⟨i, hi, hdi, hv⟩)
          · exact Or.inl h
          · exact Or.inr ⟨i, List.mem_cons_of_mem _ hi, hdi, hv⟩
        · rintro (h | ⟨i, hi, hdi, hv⟩)
          · exact Or.inl h
          · rcases List.mem_cons.mp hi with h | h
            · subst h
              exact absurd hdi hd
            · exact Or.inr ⟨i, h, hdi, hv⟩
      · intro v
        rw [ih3 v]
        constructor
        · rintro (h | ⟨i, hi, hdi, hv⟩)
          · exact Or.inl h
          · exact Or.inr ⟨i, List.mem_cons_of_mem _ hi, hdi, hv⟩
        · rintro (h | ⟨i, hi, hdi, hv⟩)
          · exact Or.inl h
          · rcases List.mem_cons.mp hi with h | h
            · subst h
              exact absurd hdi hd
            · exact Or.inr ⟨i, h, hdi, hv⟩

/-- The field after `updateVoxelsStates`: a voxel is occupied when it is a new
voxel of a voxels state of the list that was dirty, or it was occupied before
and is not an old voxel of such a state. -/
theorem updateVoxelsStates_occupied (rcm : RobotCollisionModel)
    (self : SelfCollisionModelImpl) (v : Vector3d) :
    v ∈ (updateVoxelsStates rcm self).m_grid.occupied ↔
      (v ∈ self.m_grid.occupied ∧
          ¬ ∃ i ∈ self.m_voxels_indices, self.m_rcs.voxelsDirty i = true ∧
            v ∈ self.m_rcs.voxels i) ∨
        ∃ i ∈ self.m_voxels_indices, self.m_rcs.voxelsDirty i = true ∧
          v ∈ rcm.voxelsAt self.m_rcs.jointVarPositions i := by
  obtain ⟨_, h2, h3⟩ := updateVoxelsStatesStep_foldl rcm self.m_voxels_indices
    { rcs := self.m_rcs, v_rem := [], v_ins := [] }
  simp only [List.not_mem_nil, false_or] at h2 h3
  unfold updateVoxelsStates
  simp only []
  by_cases hr : (self.m_voxels_indices.foldl (updateVoxelsStatesStep rcm)
      { rcs := self.m_rcs, v_rem := [], v_ins := [] }).v_rem = [] <;>
    by_cases hi : (self.m_voxels_indices.foldl (updateVoxelsStatesStep rcm)
      { rcs := self.m_rcs, v_rem := [], v_ins := [] }).v_ins = []
  · have h2' := h2 v
    have h3' := h3 v
    rw [hr] at h2'
    rw [hi] at h3'
    simp only [List.not_mem_nil, false_iff] at h2' h3'
    simp [hr, hi, h2', h3']
  · have h2' := h2 v
    rw [hr] at h2'
    simp only [List.not_mem_nil, false_iff] at h2'
    simp [hr, hi, h2', OccupancyGrid.addPointsToField, h3 v]
  · have h3' := h3 v
    rw [hi] at h3'
    simp only [List.not_mem_nil, false_iff] at h3'
    simp [hr, hi, h3', OccupancyGrid.removePointsFromField, h2 v]
  · simp [hr, hi, OccupancyGrid.removePointsFromField,
      OccupancyGrid.addPointsToField, h2 v, h3 v]

theorem updateVoxelsStates_voxels (rcm : RobotCollisionModel)
    (self : SelfCollisionModelImpl) (k : Nat) :
    (updateVoxelsStates rcm self).m_rcs.voxels k
      = if k ∈ self.m_voxels_indices ∧ self.m_rcs.voxelsDirty k = true
        then rcm.voxelsAt self.m_rcs.jointVarPositions k
        else self.m_rcs.voxels k :=
  (updateVoxelsStatesStep_foldl rcm self.m_voxels_indices
    { rcs := self.m_rcs, v_rem := [], v_ins := [] }).1 k

/-! ## The voxels stamped into the field -/

theorem updateGroup_stampedWithin (rcm : RobotCollisionModel)
    (self : SelfCollisionModelImpl) (gidx : Int) (h : stampedWithin self) :
    stampedWithin (updateGroup rcm self gidx) := by
  by_cases hg : gidx = self.m_gidx
  · rw [updateGroup_same rcm self gidx hg]
    exact h
  · obtain ⟨_, hidx, hrcs, _, _, hocc, _⟩ := updateGroup_switch rcm self gidx hg
    intro v hv
    rw [hocc, List.mem_append, List.mem_filter] at hv
    simp only [hidx, hrcs]
    rcases hv with ⟨hv, hnot⟩ | hv
    · obtain ⟨i, hi, hvi⟩ := h v hv
      refine ⟨i, ?_, hvi⟩
      by_contra hni
      have hrem : i ∈ ovidxRem rcm self gidx :=
        mem_set_difference_of_not_mem _ _ i ((mem_sortIndices _ i).mpr hi) hni
      simp only [decide_eq_true_eq] at hnot
      exact hnot ((mem_gatherVoxels _ _ v).mpr ⟨i, hrem, hvi⟩)
    · obtain ⟨i, hi, hvi⟩ := (mem_gatherVoxels _ _ v).mp hv
      exact ⟨i, set_difference_subset _ _ i hi, hvi⟩

theorem updateGroup_stampedExactly (rcm : RobotCollisionModel)
    (self : SelfCollisionModelImpl) (gidx : Int) (owner : Vector3d → Nat)
    (hown : voxelsOwned owner self.m_rcs) (hnodup : self.m_voxels_indices.Nodup)
    (h : stampedExactly self) : stampedExactly (updateGroup rcm self gidx) := by
  by_cases hg : gidx = self.m_gidx
  · rw [updateGroup_same rcm self gidx hg]
    exact h
  · have hw := updateGroup_stampedWithin rcm self gidx (fun v hv => (h v).mp hv)
    obtain ⟨_, hidx, hrcs, _, _, hocc, _⟩ := updateGroup_switch rcm self gidx hg
    intro v
    refine ⟨hw v, ?_⟩
    simp only [hidx, hrcs, hocc, List.mem_append, List.mem_filter]
    rintro ⟨i, hi, hvi⟩
    by_cases hold : i ∈ self.m_voxels_indices
    · left
      refine ⟨(h v).mpr ⟨i, hold, hvi⟩, ?_⟩
      simp only [decide_eq_true_eq]
      intro hrem
      obtain ⟨j, hj, hvj⟩ := (mem_gatherVoxels _ _ v).mp hrem
      have hji : j = i := by rw [← hown j v hvj, hown i v hvi]
      subst hji
      exact not_mem_of_mem_set_difference _ _ j (sortIndices_strict _ hnodup)
        (sortIndices_sorted _) hj hi
    · right
      refine (mem_gatherVoxels _ _ v).mpr ⟨i, ?_, hvi⟩
      exact mem_set_difference_of_not_mem _ _ i hi
        (fun hs => hold ((mem_sortIndices _ i).mp hs))

theorem updateVoxelsStates_stampedWithin (rcm : RobotCollisionModel)
    (self : SelfCollisionModelImpl) (h : stampedWithin self) :
    stampedWithin (updateVoxelsStates rcm self) := by
  intro v hv
  rw [updateVoxelsStates_occupied] at hv
  simp only [(updateVoxelsStates_frame rcm self).2.1]
  rcases hv with ⟨hv, hnot⟩ | ⟨i, hi, hd, hvi⟩
  · obtain ⟨i, hi, hvi⟩ := h v hv
    refine ⟨i, hi, ?_⟩
    rw [updateVoxelsStates_voxels]
    by_cases hd : self.m_rcs.voxelsDirty i = true
    · exact absurd ⟨i, hi, hd, hvi⟩ hnot
    · simp [hd, hvi]
  · refine ⟨i, hi, ?_⟩
    rw [updateVoxelsStates_voxels]
    simp [hi, hd, hvi]

theorem updateVoxelsStates_voxelsOwned (rcm : RobotCollisionModel)
    (self : SelfCollisionModelImpl) (owner : Vector3d → Nat)
    (hown : voxelsOwned owner self.m_rcs)
    (hkin : ∀ jp i, ∀ v ∈ rcm.voxelsAt jp i, owner v = i) :
    voxelsOwned owner (updateVoxelsStates rcm self).m_rcs := by
  intro i v hv
  rw [updateVoxelsStates_voxels] at hv
  split at hv
  · exact hkin _ i v hv
  · exact hown i v hv

theorem updateVoxelsStates_stampedExactly (rcm : RobotCollisionModel)
    (self : SelfCollisionModelImpl) (owner : Vector3d → Nat)
    (hown : voxelsOwned owner self.m_rcs) (h : stampedExactly self) :
    stampedExactly (updateVoxelsStates rcm self) := by
  have hw := updateVoxelsStates_stampedWithin rcm self (fun v hv => (h v).mp hv)
  intro v
  refine ⟨hw v, ?_⟩
  simp only [(updateVoxelsStates_frame rcm self).2.1, updateVoxelsStates_occupied]
  rintro ⟨i, hi, hvi⟩
  rw [updateVoxelsStates_voxels] at hvi
  by_cases hd : self.m_rcs.voxelsDirty i = true
  · right
    rw [if_pos ⟨hi, hd⟩] at hvi
    exact ⟨i, hi, hd, hvi⟩
  · left
    rw [if_neg (fun hc => hd hc.2)] at hvi
    refine ⟨(h v).mpr ⟨i, hi, hvi⟩, ?_⟩
    rintro ⟨j, _, hdj, hvj⟩
    have hji : j = i := by rw [← hown j v hvj, hown i v hvi]
    subst hji
    exact hd hdj

theorem copyState_stampedWithin (rcm : RobotCollisionModel)
    (self : SelfCollisionModelImpl) (state : RobotCollisionState)
    (h : stampedWithin self) : stampedWithin (copyState rcm self state) := by
  have hc := copyState_frame rcm self state
  simpa only [stampedWithin, hc.1, hc.2.2.1, hc.2.2.2.2.2.2.2.1] using h

theorem copyState_stampedExactly (rcm : RobotCollisionModel)
    (self : SelfCollisionModelImpl) (state : RobotCollisionState)
    (h : stampedExactly self) : stampedExactly (copyState rcm self state) := by
  have hc := copyState_frame rcm self state
  simpa only [stampedExactly, hc.1, hc.2.2.1, hc.2.2.2.2.2.2.2.1] using h

theorem copyState_voxelsOwned (rcm : RobotCollisionModel)
    (self : SelfCollisionModelImpl) (state : RobotCollisionState)
    (owner : Vector3d → Nat) (h : voxelsOwned owner self.m_rcs) :
    voxelsOwned owner (copyState rcm self state).m_rcs := by
  have hc := copyState_frame rcm self state
  simpa only [voxelsOwned, hc.2.2.2.2.2.2.2.1] using h

/-- After a valid call the active group is the checked group and the stored
index list is the sorted list of the voxels states outside it. -/
theorem checkCollision_valid_group (rcm : RobotCollisionModel)
    (self : SelfCollisionModelImpl) (state : RobotCollisionState) (gidx : Int)
    (dist : ℚ) (h : validCall rcm (state, gidx, dist))
    (hs : groupIndicesStored rcm self) :
    (checkCollision rcm self state gidx dist).self.m_gidx = gidx ∧
      (checkCollision rcm self state gidx dist).self.m_voxels_indices
        = sortIndices (rcm.groupOutsideVoxelsStateIndices gidx) := by
  rw [checkCollision_valid_self rcm self state gidx dist h,
    (updateVoxelsStates_frame rcm _).1, (updateVoxelsStates_frame rcm _).2.1,
    (copyState_frame rcm _ state).2.1, (copyState_frame rcm _ state).2.2.1]
  by_cases hg : gidx = self.m_gidx
  · rw [updateGroup_same rcm self gidx hg]
    refine ⟨hg.symm, ?_⟩
    have h0 : 0 ≤ self.m_gidx := by
      rw [← hg]
      exact h.2.1
    rw [hs h0, hg]
  · exact ⟨(updateGroup_switch rcm self gidx hg).1,
      (updateGroup_switch rcm self gidx hg).2.1⟩

theorem checkCollision_valid_stampedWithin (rcm : RobotCollisionModel)
    (self : SelfCollisionModelImpl) (state : RobotCollisionState) (gidx : Int)
    (dist : ℚ) (h : validCall rcm (state, gidx, dist))
    (hw : stampedWithin self) :
    stampedWithin (checkCollision rcm self state gidx dist).self := by
  rw [checkCollision_valid_self rcm self state gidx dist h]
  exact updateVoxelsStates_stampedWithin rcm _
    (copyState_stampedWithin rcm _ state (updateGroup_stampedWithin rcm self gidx hw))

theorem checkCollision_valid_stampedExactly (rcm : RobotCollisionModel)
    (self : SelfCollisionModelImpl) (state : RobotCollisionState) (gidx : Int)
    (dist : ℚ) (owner : Vector3d → Nat)
    (hkin : ∀ jp i, ∀ v ∈ rcm.voxelsAt jp i, owner v = i)
    (h : validCall rcm (state, gidx, dist))
    (hown : voxelsOwned owner self.m_rcs) (hnodup : self.m_voxels_indices.Nodup)
    (he : stampedExactly self) :
    stampedExactly (checkCollision rcm self state gidx dist).self ∧
      voxelsOwned owner (checkCollision rcm self state gidx dist).self.m_rcs := by
  rw [checkCollision_valid_self rcm self state gidx dist h]
  have hown1 : voxelsOwned owner (updateGroup rcm self gidx).m_rcs := by
    by_cases hg : gidx = self.m_gidx
    · rw [updateGroup_same rcm self gidx hg]
      exact hown
    · rw [(updateGroup_switch rcm self gidx hg).2.2.1]
      exact hown
  have hown2 := copyState_voxelsOwned rcm _ state owner hown1
  exact ⟨updateVoxelsStates_stampedExactly rcm _ owner hown2
      (copyState_stampedExactly rcm _ state
        (updateGroup_stampedExactly rcm self gidx owner hown hnodup he)),
    updateVoxelsStates_voxelsOwned rcm _ owner hown2 hkin⟩

theorem checkCollisions_stampedWithin (rcm : RobotCollisionModel)
    (calls : List (RobotCollisionState × Int × ℚ)) (self : SelfCollisionModelImpl)
    (hcalls : ∀ c ∈ calls, validCall rcm c) (hs : groupIndicesStored rcm self)
    (hw : stampedWithin self) :
    groupIndicesStored rcm (checkCollisions rcm self calls) ∧
      stampedWithin (checkCollisions rcm self calls) := by
  induction calls generalizing self with
  | nil => exact ⟨hs, hw⟩
  | cons a calls ih =>
    obtain ⟨s, g, d⟩ := a
    simp only [checkCollisions]
    have hv : validCall rcm (s, g, d) := hcalls _ (List.mem_cons_self _ _)
    have hgrp := checkCollision_valid_group rcm self s g d hv hs
    refine ih _ (fun c hc => hcalls c (List.mem_cons_of_mem _ hc)) ?_
      (checkCollision_valid_stampedWithin rcm self s g d hv hw)
    intro _
    rw [hgrp.2, hgrp.1]

theorem checkCollisions_stampedExactly (rcm : RobotCollisionModel)
    (calls : List (RobotCollisionState × Int × ℚ)) (self : SelfCollisionModelImpl)
    (owner : Vector3d → Nat)
    (hkin : ∀ jp i, ∀ v ∈ rcm.voxelsAt jp i, owner v = i)
    (hnd : ∀ g, (rcm.groupOutsideVoxelsStateIndices g).Nodup)
    (hcalls : ∀ c ∈ calls, validCall rcm c) (hs : groupIndicesStored rcm self)
    (hown : voxelsOwned owner self.m_rcs) (hnodup : self.m_voxels_indices.Nodup)
    (he : stampedExactly self) :
    groupIndicesStored rcm (checkCollisions rcm self calls) ∧
      voxelsOwned owner (checkCollisions rcm self calls).m_rcs ∧
      (checkCollisions rcm self calls).m_voxels_indices.Nodup ∧
      stampedExactly (checkCollisions rcm self calls) := by
  induction calls generalizing self with
  | nil => exact ⟨hs, hown, hnodup, he⟩
  | cons a calls ih =>
    obtain ⟨s, g, d⟩ := a
    simp only [checkCollisions]
    have hv : validCall rcm (s, g, d) := hcalls _ (List.mem_cons_self _ _)
    have hgrp := checkCollision_valid_group rcm self s g d hv hs
    have hex := checkCollision_valid_stampedExactly rcm self s g d owner hkin hv
      hown hnodup he
    refine ih _ (fun c hc => hcalls c (List.mem_cons_of_mem _ hc)) ?_ hex.2 ?_ hex.1
    · intro _
      rw [hgrp.2, hgrp.1]
    · rw [hgrp.2]
      exact (sortIndices_perm _).nodup_iff.mpr (hnd g)

/-! ## What the environment check does to `dist` -/

theorem VoxelsCheck.observe_ok (d : ℚ) (r : VoxelsCheck) :
    (VoxelsCheck.observe d r).ok = r.ok := rfl

theorem VoxelsCheck.observe_dist (d : ℚ) (r : VoxelsCheck) :
    (VoxelsCheck.observe d r).dist = r.dist := rfl

theorem VoxelsCheck.observe_getLast (d : ℚ) (r : VoxelsCheck)
    (h : r.queried.getLast? = some r.dist) :
    (VoxelsCheck.observe d r).queried.getLast? = some (VoxelsCheck.observe d r).dist := by
  unfold VoxelsCheck.observe
  cases hq : r.queried with
  | nil => rw [hq] at h; simp at h
  | cons a l =>
    rw [hq] at h
    simp only [List.getLast?_cons_cons]
    exact h

/-- The loop of the environment check leaves `dist` alone when it reports no
collision, and otherwise stores the distance queried last. -/
theorem voxelsLoop_dist (getDistance : Vector3d → ℚ) (padding : ℚ)
    (q : List SphereRef) (dist : ℚ) :
    ((voxelsLoop getDistance padding q dist).ok = true →
        (voxelsLoop getDistance padding q dist).dist = dist) ∧
      ((voxelsLoop getDistance padding q dist).ok = false →
        (voxelsLoop getDistance padding q dist).queried.getLast?
          = some (voxelsLoop getDistance padding q dist).dist) := by
  induction q, dist using voxelsLoop.induct getDistance padding with
  | case1 dist => simp [voxelsLoop]
  | case2 s q dist chk hclear ih =>
    have e : voxelsLoop getDistance padding (s :: q) dist
        = VoxelsCheck.observe chk.2 (voxelsLoop getDistance padding q dist) := by
      rw [voxelsLoop.eq_def]
      exact if_pos hclear
    rw [e]
    exact ⟨ih.1, fun h => VoxelsCheck.observe_getLast _ _ (ih.2 h)⟩
  | case3 q dist s s1 sl sr chk hclear ih =>
    rw [voxelsLoop, if_neg hclear]
    exact ⟨ih.1, fun h => VoxelsCheck.observe_getLast _ _ (ih.2 h)⟩
  | case4 q dist s s1 chk hclear ih =>
    rw [voxelsLoop, if_neg hclear]
    exact ⟨ih.1, fun h => VoxelsCheck.observe_getLast _ _ (ih.2 h)⟩
  | case5 q dist s chk hclear =>
    rw [voxelsLoop, if_neg hclear]
    simp
  | case6 q dist s sl sr chk hclear ih =>
    rw [voxelsLoop, if_neg hclear]
    exact ⟨ih.1, fun h => VoxelsCheck.observe_getLast _ _ (ih.2 h)⟩
  | case7 q dist s sl sr chk hclear ih =>
    rw [voxelsLoop, if_neg hclear]
    exact ⟨ih.1, fun h => VoxelsCheck.observe_getLast _ _ (ih.2 h)⟩

/-! ## What the environment check finds -/

theorem CheckSphereCollision_clear_iff (getDistance : Vector3d → ℚ)
    (padding : ℚ) (s : CollisionSphereState) :
    (CheckSphereCollision getDistance s padding).1 = true ↔
      ¬ failsClearance getDistance padding s := by
  simp [CheckSphereCollision, failsClearance]

theorem metaTree_found_sphere {getDistance : Vector3d → ℚ} {padding : ℚ}
    {t : MetaStateTree} (h : t.found getDistance padding) :
    failsClearance getDistance padding t.sphere := by
  match t, h with
  | .leaf _ (.node _ _ _), h => exact h.1
  | .node _ _ _, h => exact h.1

theorem linkTree_hit_sphere {getDistance : Vector3d → ℚ} {padding : ℚ}
    {t : SphereStateTree} (h : t.hit getDistance padding) :
    failsClearance getDistance padding t.sphere := by
  match t, h with
  | .leaf _, h => exact h
  | .node _ _ _, h => exact h.1

theorem sphereRef_found_sphere {getDistance : Vector3d → ℚ} {padding : ℚ}
    {s : SphereRef} (h : s.found getDistance padding) :
    failsClearance getDistance padding s.sphere := by
  cases s with
  | ofMeta t => exact metaTree_found_sphere h
  | ofLink t => exact linkTree_hit_sphere h

theorem exists_found_pushLinkChildren (getDistance : Vector3d → ℚ) (padding : ℚ)
    (sl sr : SphereStateTree) (q : List SphereRef) :
    (∃ s ∈ pushLinkChildren sl sr q, s.found getDistance padding) ↔
      (sl.hit getDistance padding ∨ sr.hit getDistance padding) ∨
        ∃ s ∈ q, s.found getDistance padding := by
  simp only [pushLinkChildren]
  split <;> simp only [List.exists_mem_cons_iff, SphereRef.found] <;> tauto

theorem exists_found_pushMetaChildren (getDistance : Vector3d → ℚ) (padding : ℚ)
    (sl sr : MetaStateTree) (q : List SphereRef) :
    (∃ s ∈ pushMetaChildren sl sr q, s.found getDistance padding) ↔
      (sl.found getDistance padding ∨ sr.found getDistance padding) ∨
        ∃ s ∈ q, s.found getDistance padding := by
  simp only [pushMetaChildren]
  split <;> simp only [List.exists_mem_cons_iff, SphereRef.found] <;> tauto

/-- The loop of the environment check reports a collision exactly when it
finds one below some stack element. -/
theorem voxelsLoop_ok_false_iff (getDistance : Vector3d → ℚ) (padding : ℚ)
    (q : List SphereRef) (dist : ℚ) :
    (voxelsLoop getDistance padding q dist).ok = false ↔
      ∃ s ∈ q, s.found getDistance padding := by
  induction q, dist using voxelsLoop.induct getDistance padding with
  | case1 dist => simp [voxelsLoop]
  | case2 s q dist chk hclear ih =>
    have e : voxelsLoop getDistance padding (s :: q) dist
        = VoxelsCheck.observe chk.2 (voxelsLoop getDistance padding q dist) := by
      rw [voxelsLoop.eq_def]
      exact if_pos hclear
    have hno : ¬ s.found getDistance padding := fun h =>
      (CheckSphereCollision_clear_iff _ _ _).mp hclear (sphereRef_found_sphere h)
    rw [e, VoxelsCheck.observe_ok, ih, List.exists_mem_cons_iff]
    simp [hno]
  | case3 q dist s s1 sl sr chk hclear ih =>
    have hf : failsClearance getDistance padding s := by
      by_contra hc
      exact hclear ((CheckSphereCollision_clear_iff _ _ _).mpr hc)
    rw [voxelsLoop, if_neg hclear, VoxelsCheck.observe_ok, ih,
      exists_found_pushLinkChildren, List.exists_mem_cons_iff]
    simp only [SphereRef.found, MetaStateTree.found, hf, true_and]
  | case4 q dist s s1 chk hclear ih =>
    rw [voxelsLoop, if_neg hclear, VoxelsCheck.observe_ok, ih,
      List.exists_mem_cons_iff]
    simp only [SphereRef.found, MetaStateTree.found, false_or]
  | case5 q dist s chk hclear =>
    have hf : failsClearance getDistance padding s := by
      by_contra hc
      exact hclear ((CheckSphereCollision_clear_iff _ _ _).mpr hc)
    rw [voxelsLoop, if_neg hclear, List.exists_mem_cons_iff]
    simp only [SphereRef.found, SphereStateTree.hit, hf, true_or]
  | case6 q dist s sl sr chk hclear ih =>
    have hf : failsClearance getDistance padding s := by
      by_contra hc
      exact hclear ((CheckSphereCollision_clear_iff _ _ _).mpr hc)
    rw [voxelsLoop, if_neg hclear, VoxelsCheck.observe_ok, ih,
      exists_found_pushMetaChildren, List.exists_mem_cons_iff]
    simp only [SphereRef.found, MetaStateTree.found, hf, true_and]
  | case7 q dist s sl sr chk hclear ih =>
    have hf : failsClearance getDistance padding s := by
      by_contra hc
      exact hclear ((CheckSphereCollision_clear_iff _ _ _).mpr hc)
    rw [voxelsLoop, if_neg hclear, VoxelsCheck.observe_ok, ih,
      exists_found_pushLinkChildren, List.exists_mem_cons_iff]
    simp only [SphereRef.found, SphereStateTree.hit, hf, true_and]

/-- When no link of the group has a tree that is a single leaf sphere, the
loop finds exactly the leaf spheres that fail the clearance test together with
every sphere above them. -/
theorem metaTree_found_iff_hit (getDistance : Vector3d → ℚ) (padding : ℚ)
    (t : MetaStateTree) (h : t.noSingleLeafLink) :
    t.found getDistance padding ↔ t.hit getDistance padding := by
  induction t with
  | leaf s link =>
    cases link with
    | leaf _ => exact absurd h (by simp [MetaStateTree.noSingleLeafLink])
    | node _ l r => simp [MetaStateTree.found, MetaStateTree.hit]
  | node s l r ihl ihr =>
    simp only [MetaStateTree.noSingleLeafLink] at h
    simp only [MetaStateTree.found, MetaStateTree.hit, ihl h.1, ihr h.2]

/-- The environment check of a meta tree without single leaf links reports a
collision exactly when some leaf sphere fails the clearance test together with
every sphere above it. -/
theorem voxelsLoop_meta_false_iff_hit (getDistance : Vector3d → ℚ)
    (padding : ℚ) (t : MetaStateTree) (dist : ℚ) (h : t.noSingleLeafLink) :
    (voxelsLoop getDistance padding [SphereRef.ofMeta t] dist).ok = false ↔
      t.hit getDistance padding := by
  rw [voxelsLoop_ok_false_iff, ← metaTree_found_iff_hit getDistance padding t h]
  simp [SphereRef.found]

/-! ## Facts about the example data -/

theorem exampleUpperArm_enclosed : exampleUpperArm.Enclosed := by
  norm_num [exampleUpperArm, SphereStateTree.Enclosed, ballContains,
    SphereStateTree.sphere, Vector3d.sub, Vector3d.squaredNorm, sqrd]

theorem exampleForearm_enclosed : exampleForearm.Enclosed := by
  norm_num [exampleForearm, SphereStateTree.Enclosed]

theorem exampleAcm_symmetric : exampleAcm.Symmetric := by
  intro n1 n2
  simp only [exampleAcm, AllowedCollisionMatrix.getEntry, lookupEntry]
  by_cases h1 : "ua0" = n1 <;> by_cases h2 : "fa0" = n1 <;>
    by_cases h3 : "ua0" = n2 <;> by_cases h4 : "fa0" = n2 <;>
    simp [h1, h2, h3, h4]

theorem exampleRobot_outside_nodup (groupA groupB : List Nat)
    (spheres : (Nat → ℚ) → Nat → SphereStateTree)
    (voxels : (Nat → ℚ) → Nat → List Vector3d) (g : Int) :
    ((exampleRobot groupA groupB spheres voxels).groupOutsideVoxelsStateIndices
      g).Nodup := by
  simp only [exampleRobot]
  exact List.Nodup.filter _ (by decide)

theorem exampleRobotAB_neverShared :
    voxelsNeverShared exampleRobotAB (exampleSelf exampleAcm).m_rcs := by
  refine ⟨exampleOwner, ?_, ?_⟩
  · intro i v hv
    simp [exampleSelf] at hv
  · intro jp i v hv
    simp only [exampleRobotAB, exampleRobot, exampleVoxels] at hv
    split at hv
    · simp only [List.mem_singleton] at hv
      subst hv
      simp_all [exampleOwner]
    · split at hv
      · simp only [List.mem_cons, List.mem_singleton, List.not_mem_nil, or_false] at hv
        rcases hv with hv | hv <;> subst hv <;> simp_all [exampleOwner]
      · split at hv
        · simp only [List.mem_singleton] at hv
          subst hv
          simp_all [exampleOwner]
        · simp at hv

set_option maxHeartbeats 2000000 in
theorem exampleRobotAB_final_occupied :
    (checkCollisions exampleRobotAB (exampleSelf exampleAcm)
      ([(exampleState 1 0, 0, 42)] ++ [(exampleState 1 (9 / 5), 1, 42)])).m_grid.occupied
      = [⟨0, 20, 0⟩] := by
  simp only [List.singleton_append, checkCollisions]
  rw [checkCollision_valid_self _ _ _ _ _ ⟨rfl, by decide, by decide⟩,
    checkCollision_valid_self _ _ _ _ _ ⟨rfl, by decide, by decide⟩]
  simp [exampleRobotAB, exampleRobot, exampleState, exampleSelf, updateGroup,
    sortIndices, set_difference, gatherVoxels, updateCheckedSpheresIndices,
    copyState, updateVoxelsStates, updateVoxelsStatesStep,
    RobotCollisionState.setJointVarPosition, RobotCollisionState.updateVoxelsState,
    OccupancyGrid.addPointsToField, OccupancyGrid.removePointsFromField,
    exampleVoxels, List.range, List.range.loop, Function.update]

set_option maxHeartbeats 2000000 in
theorem exampleRobotAB_groupA_voxels :
    (checkVoxelsStateCollisions exampleRobotAB
      (copyState exampleRobotAB
        (updateGroup exampleRobotAB (exampleSelf exampleAcm) 0)
        (exampleState 1 (9 / 5))) 42).1
      = { ok := true, dist := 42, queried := [10] } := by
  simp [exampleRobotAB, exampleRobot, exampleState, exampleSelf, updateGroup,
    sortIndices, set_difference, gatherVoxels, updateCheckedSpheresIndices,
    copyState, checkVoxelsStateCollisions, updateVoxelsStates,
    updateVoxelsStatesStep, RobotCollisionState.setJointVarPosition,
    RobotCollisionState.updateVoxelsState, OccupancyGrid.addPointsToField,
    OccupancyGrid.removePointsFromField, exampleSpheres, exampleVoxels,
    exampleBuildMetaTree, exampleCover, exampleUpperArm, List.range,
    List.range.loop, Function.update]
  norm_num [set_difference, voxelsLoop, CheckSphereCollision,
    VoxelsCheck.observe, SphereRef.sphere, MetaStateTree.sphere,
    SphereStateTree.sphere, List.range']

set_option maxHeartbeats 2000000 in
theorem exampleRobotAB_groupA_spheres :
    checkSpheresStateCollisions exampleRobotAB
      (updateVoxelsStates exampleRobotAB
        (copyState exampleRobotAB
          (updateGroup exampleRobotAB (exampleSelf exampleAcm) 0)
          (exampleState 1 (9 / 5)))) = true := by
  simp [exampleRobotAB, exampleRobot, exampleState, exampleSelf, updateGroup,
    sortIndices, set_difference, gatherVoxels, updateCheckedSpheresIndices,
    copyState, checkSpheresStateCollisions, updateVoxelsStates,
    updateVoxelsStatesStep, RobotCollisionState.setJointVarPosition,
    RobotCollisionState.updateVoxelsState, OccupancyGrid.addPointsToField,
    OccupancyGrid.removePointsFromField, exampleSpheres, exampleVoxels,
    exampleUpperArm, List.range, List.range.loop, Function.update, List.range',
    exampleAcm, AllowedCollisionMatrix.getEntry, lookupEntry]
  norm_num [checkSpheresStateCollision, spherePairLoop, pushSplit1, pushSplit2,
    SphereStateTree.sphere, Vector3d.sub, Vector3d.squaredNorm, sqrd]

set_option maxHeartbeats 2000000 in
theorem exampleRobotAB_groupB_voxels :
    (checkVoxelsStateCollisions exampleRobotAB
      (copyState exampleRobotAB
        (updateGroup exampleRobotAB (exampleSelf exampleAcm) 1)
        (exampleState 1 (9 / 5))) 42).1
      = { ok := true, dist := 42, queried := [10] } := by
  simp [exampleRobotAB, exampleRobot, exampleState, exampleSelf, updateGroup,
    sortIndices, set_difference, gatherVoxels, updateCheckedSpheresIndices,
    copyState, checkVoxelsStateCollisions, updateVoxelsStates,
    updateVoxelsStatesStep, RobotCollisionState.setJointVarPosition,
    RobotCollisionState.updateVoxelsState, OccupancyGrid.addPointsToField,
    OccupancyGrid.removePointsFromField, exampleSpheres, exampleVoxels,
    exampleBuildMetaTree, exampleCover, exampleUpperArm, List.range,
    List.range.loop, Function.update]
  have habs : |(9 : ℚ) / 5| = 9 / 5 := abs_of_pos (by norm_num)
  norm_num [set_difference, voxelsLoop, CheckSphereCollision,
    VoxelsCheck.observe, SphereRef.sphere, MetaStateTree.sphere,
    SphereStateTree.sphere, List.range', habs]

set_option maxHeartbeats 2000000 in
theorem exampleRobotAB_groupB_spheres :
    checkSpheresStateCollisions exampleRobotAB
      (updateVoxelsStates exampleRobotAB
        (copyState exampleRobotAB
          (updateGroup exampleRobotAB (exampleSelf exampleAcm) 1)
          (exampleState 1 (9 / 5)))) = false := by
  simp [exampleRobotAB, exampleRobot, exampleState, exampleSelf, updateGroup,
    sortIndices, set_difference, gatherVoxels, updateCheckedSpheresIndices,
    copyState, checkSpheresStateCollisions, updateVoxelsStates,
    updateVoxelsStatesStep, RobotCollisionState.setJointVarPosition,
    RobotCollisionState.updateVoxelsState, OccupancyGrid.addPointsToField,
    OccupancyGrid.removePointsFromField, exampleSpheres, exampleVoxels,
    exampleUpperArm, List.range, List.range.loop, Function.update, List.range',
    exampleAcm, AllowedCollisionMatrix.getEntry, lookupEntry]
  norm_num [checkSpheresStateCollision, spherePairLoop, pushSplit1, pushSplit2,
    SphereStateTree.sphere, Vector3d.sub, Vector3d.squaredNorm, sqrd,
    AllowedCollisionMatrix.getEntry, lookupEntry]
  simp

theorem sharedRobot_final_occupied :
    (checkCollisions sharedRobot (exampleSelf exampleAcm)
      [(exampleState 1 0, 0, 42), (exampleState 1 0, 1, 42)]).m_grid.occupied = [] := by
  simp only [checkCollisions]
  rw [checkCollision_valid_self _ _ _ _ _ ⟨rfl, by decide, by decide⟩,
    checkCollision_valid_self _ _ _ _ _ ⟨rfl, by decide, by decide⟩]
  simp [sharedRobot, exampleRobot, exampleState, exampleSelf, updateGroup,
    sortIndices, set_difference, gatherVoxels, updateCheckedSpheresIndices,
    copyState, updateVoxelsStates, updateVoxelsStatesStep,
    RobotCollisionState.setJointVarPosition, RobotCollisionState.updateVoxelsState,
    OccupancyGrid.addPointsToField, OccupancyGrid.removePointsFromField,
    sharedVoxels, List.range, List.range.loop, Function.update]

theorem sharedRobot_final_voxels :
    (checkCollisions sharedRobot (exampleSelf exampleAcm)
      [(exampleState 1 0, 0, 42), (exampleState 1 0, 1, 42)]).m_rcs.voxels 0
      = [⟨0, 0, 20⟩] := by
  simp only [checkCollisions]
  rw [checkCollision_valid_self _ _ _ _ _ ⟨rfl, by decide, by decide⟩,
    checkCollision_valid_self _ _ _ _ _ ⟨rfl, by decide, by decide⟩]
  simp [sharedRobot, exampleRobot, exampleState, exampleSelf, updateGroup,
    sortIndices, set_difference, gatherVoxels, updateCheckedSpheresIndices,
    copyState, updateVoxelsStates, updateVoxelsStatesStep,
    RobotCollisionState.setJointVarPosition, RobotCollisionState.updateVoxelsState,
    OccupancyGrid.addPointsToField, OccupancyGrid.removePointsFromField,
    sharedVoxels, List.range, List.range.loop, Function.update]

set_option maxHeartbeats 2000000 in
theorem bugRobot_groupA_voxels :
    (checkVoxelsStateCollisions bugRobot
      (copyState bugRobot (updateGroup bugRobot (exampleSelf exampleAcm) 0)
        (exampleState 1 0)) 42).1
      = { ok := true, dist := 42, queried := [0] } := by
  simp [bugRobot, exampleRobot, exampleState, exampleSelf, updateGroup,
    sortIndices, set_difference, gatherVoxels, updateCheckedSpheresIndices,
    copyState, checkVoxelsStateCollisions, updateVoxelsStates,
    updateVoxelsStatesStep, RobotCollisionState.setJointVarPosition,
    RobotCollisionState.updateVoxelsState, OccupancyGrid.addPointsToField,
    OccupancyGrid.removePointsFromField, exampleSpheres, bugVoxels,
    exampleBuildMetaTree, exampleCover, exampleUpperArm, List.range,
    List.range.loop, Function.update]
  norm_num [set_difference, voxelsLoop, CheckSphereCollision,
    VoxelsCheck.observe, SphereRef.sphere, MetaStateTree.sphere,
    SphereStateTree.sphere, List.range']

set_option maxHeartbeats 2000000 in
theorem bugRobot_groupA_occupied :
    (updateVoxelsStates bugRobot
      (copyState bugRobot (updateGroup bugRobot (exampleSelf exampleAcm) 0)
        (exampleState 1 0))).m_grid.occupied
      = [⟨0, 0, 20⟩, ⟨20, 0, 20⟩, ⟨0, 5, 0⟩] := by
  simp [bugRobot, exampleRobot, exampleState, exampleSelf, updateGroup,
    sortIndices, set_difference, gatherVoxels, updateCheckedSpheresIndices,
    copyState, updateVoxelsStates,
    updateVoxelsStatesStep, RobotCollisionState.setJointVarPosition,
    RobotCollisionState.updateVoxelsState, OccupancyGrid.addPointsToField,
    OccupancyGrid.removePointsFromField, bugVoxels, List.range,
    List.range.loop, Function.update]

set_option maxHeartbeats 2000000 in
theorem bugRobot_groupA_spheres :
    checkSpheresStateCollisions bugRobot
      (updateVoxelsStates bugRobot
        (copyState bugRobot (updateGroup bugRobot (exampleSelf exampleAcm) 0)
          (exampleState 1 0))) = true := by
  simp [bugRobot, exampleRobot, exampleState, exampleSelf, updateGroup,
    sortIndices, set_difference, gatherVoxels, updateCheckedSpheresIndices,
    copyState, checkSpheresStateCollisions, updateVoxelsStates,
    updateVoxelsStatesStep, RobotCollisionState.setJointVarPosition,
    RobotCollisionState.updateVoxelsState, OccupancyGrid.addPointsToField,
    OccupancyGrid.removePointsFromField, exampleSpheres, bugVoxels,
    exampleUpperArm, List.range, List.range.loop, Function.update, List.range',
    exampleAcm, AllowedCollisionMatrix.getEntry, lookupEntry]

/-! ## C1 -/

/-- C1: for a collision state derived from the model and a group index in
range, `checkCollision(state, g, dist)` returns true exactly when the
environment check reports no collision and the pair check reports no collision
for every pair of the checked-pairs list of the group. -/
theorem checkCollision_true_iff (rcm : RobotCollisionModel)
    (self : SelfCollisionModelImpl) (state : RobotCollisionState) (gidx : Int)
    (dist : ℚ) (hmodel : state.model = rcm.addr) (hlo : 0 ≤ gidx)
    (hhi : gidx < rcm.groupCount) :
    (checkCollision rcm self state gidx dist).ret = true ↔
      (checkVoxelsStateCollisions rcm
          (copyState rcm (updateGroup rcm self gidx) state) dist).1.ok = true ∧
        ∀ ss_pair ∈ (updateGroup rcm self gidx).m_checked_spheres_states,
          checkSpheresStateCollision (updateGroup rcm self gidx).m_acm
            (rcm.spheresState
              (copyState rcm (updateGroup rcm self gidx) state).m_rcs.jointVarPositions
              ss_pair.1)
            (rcm.spheresState
              (copyState rcm (updateGroup rcm self gidx) state).m_rcs.jointVarPositions
              ss_pair.2) = true := by
  have hgid : ¬ (gidx < 0 ∨ gidx ≥ rcm.groupCount) := by omega
  have hc := copyState_frame rcm (updateGroup rcm self gidx) state
  have hu := updateVoxelsStates_frame rcm
    (copyState rcm (updateGroup rcm self gidx) state)
  unfold checkCollision
  rw [if_neg (by simpa using hmodel), if_neg hgid]
  simp only [checkVoxelsStateCollisions_self]
  split
  · rename_i h
    simp only [Bool.or_eq_true, Bool.not_eq_true', checkSpheresStateCollisions,
      hu.2.2.2.1, hu.2.2.2.2.1, hu.2.2.2.2.2.2, hc.2.2.2.2.1, hc.2.2.2.2.2.1] at h
    constructor
    · intro h0
      simp at h0
    · rintro ⟨h1, h2⟩
      rcases h with h | h
      · rw [h1] at h
        simp at h
      · have h3 := List.all_eq_true.mpr h2
        rw [h3] at h
        simp at h
  · rename_i h
    simp only [Bool.or_eq_true, Bool.not_eq_true', checkSpheresStateCollisions,
      hu.2.2.2.1, hu.2.2.2.2.1, hu.2.2.2.2.2.2, hc.2.2.2.2.1, hc.2.2.2.2.2.1,
      not_or, Bool.not_eq_false] at h
    simp only [true_iff]
    exact ⟨h.1, List.all_eq_true.mp h.2⟩

theorem checkCollision_true_iff_witness :
    (exampleState 1 (9 / 5)).model = exampleRobotAB.addr ∧ (0 : Int) ≤ 1 ∧
      (1 : Int) < exampleRobotAB.groupCount ∧
      ((checkCollision exampleRobotAB (exampleSelf exampleAcm)
          (exampleState 1 (9 / 5)) 1 42).ret = true ↔
        (checkVoxelsStateCollisions exampleRobotAB
            (copyState exampleRobotAB
              (updateGroup exampleRobotAB (exampleSelf exampleAcm) 1)
              (exampleState 1 (9 / 5))) 42).1.ok = true ∧
          ∀ ss_pair ∈ (updateGroup exampleRobotAB (exampleSelf exampleAcm) 1).m_checked_spheres_states,
            checkSpheresStateCollision
              (updateGroup exampleRobotAB (exampleSelf exampleAcm) 1).m_acm
              (exampleRobotAB.spheresState
                (copyState exampleRobotAB
                  (updateGroup exampleRobotAB (exampleSelf exampleAcm) 1)
                  (exampleState 1 (9 / 5))).m_rcs.jointVarPositions ss_pair.1)
              (exampleRobotAB.spheresState
                (copyState exampleRobotAB
                  (updateGroup exampleRobotAB (exampleSelf exampleAcm) 1)
                  (exampleState 1 (9 / 5))).m_rcs.jointVarPositions ss_pair.2)
              = true) :=
  ⟨rfl, by decide, by decide,
    checkCollision_true_iff exampleRobotAB (exampleSelf exampleAcm)
      (exampleState 1 (9 / 5)) 1 42 rfl (by decide) (by decide)⟩

/-! ## C2 -/

/-- C2, failing input: L1 is the only link of group 0 and its sphere tree is a
single leaf sphere of radius 1/2 at (0, 5, 0); L3, outside the group, has a
voxel at that very point. In `checkCollision(state, 0, dist)` on a freshly
constructed model the field reports distance 0 at the sphere, so the leaf
sphere of L1 fails the clearance test together with the meta leaf above it, yet
the environment check reports no collision and `checkCollision` returns true:
at the meta leaf of L1 both children of the root are null and nothing is
pushed. -/
theorem checkVoxelsStateCollisions_misses_single_leaf_link :
    validCall bugRobot (exampleState 1 0, 0, 42) ∧
      bugRobot.groupSpheresStateIndices 0 = [0] ∧
      (∀ jp, bugRobot.spheresState jp 0
        = .leaf { name := "s1", radius := 1 / 2, pos := ⟨0, 5, 0⟩ }) ∧
      (checkCollision bugRobot (exampleSelf exampleAcm) (exampleState 1 0)
        0 42).self.m_grid.occupied = [⟨0, 0, 20⟩, ⟨20, 0, 20⟩, ⟨0, 5, 0⟩] ∧
      (CheckSphereCollision
        (bugRobot.fieldDistance
          (checkCollision bugRobot (exampleSelf exampleAcm) (exampleState 1 0)
            0 42).self.m_grid.occupied)
        { name := "s1", radius := 1 / 2, pos := ⟨0, 5, 0⟩ }
        (checkCollision bugRobot (exampleSelf exampleAcm) (exampleState 1 0)
          0 42).self.m_padding).1 = false ∧
      (bugRobot.buildMetaTree
          [.leaf { name := "s1", radius := 1 / 2, pos := ⟨0, 5, 0⟩ }]).hit
        (bugRobot.fieldDistance [⟨0, 0, 20⟩, ⟨20, 0, 20⟩, ⟨0, 5, 0⟩]) 0 ∧
      (checkVoxelsStateCollisions bugRobot
        (copyState bugRobot (updateGroup bugRobot (exampleSelf exampleAcm) 0)
          (exampleState 1 0)) 42).1
        = { ok := true, dist := 42, queried := [0] } ∧
      (checkCollision bugRobot (exampleSelf exampleAcm) (exampleState 1 0)
        0 42).ret = true := by
  have hv : validCall bugRobot (exampleState 1 0, 0, 42) :=
    ⟨rfl, by decide, by decide⟩
  have hocc : (checkCollision bugRobot (exampleSelf exampleAcm) (exampleState 1 0)
      0 42).self.m_grid.occupied = [⟨0, 0, 20⟩, ⟨20, 0, 20⟩, ⟨0, 5, 0⟩] := by
    rw [checkCollision_valid_self _ _ _ _ _ hv, bugRobot_groupA_occupied]
  refine ⟨hv, rfl, fun jp => rfl, hocc, ?_, ?_, bugRobot_groupA_voxels, ?_⟩
  · rw [hocc, checkCollision_valid_self _ _ _ _ _ hv,
      (updateVoxelsStates_frame _ _).2.2.2.2.2.1, (copyState_frame _ _ _).2.2.2.2.2.2.1,
      (updateGroup_switch _ _ _ (by decide)).2.2.2.2.1]
    norm_num [CheckSphereCollision, bugRobot, exampleRobot, exampleSelf]
  · norm_num [bugRobot, exampleRobot, exampleBuildMetaTree, MetaStateTree.hit,
      SphereStateTree.sphere, failsClearance]
  · rw [(checkCollision_valid_outcome _ _ _ _ _ hv).2.2, bugRobot_groupA_voxels,
      bugRobot_groupA_spheres]
    rfl

/-! ## C3 -/

/-- C6, counterexample: L1 and L2 share a voxel. After a check of the group
{L3} and a check of the group {L2, L3}, both valid, on a model constructed over
an empty field, the field is empty although L1, which is outside the group
checked last, has a voxel: the voxel was removed together with the voxels of
L2. -/
theorem checkCollisions_shared_voxel_lost :
    (exampleSelf exampleAcm).m_gidx = -1 ∧
      (exampleSelf exampleAcm).m_grid.occupied = [] ∧
      (∀ c ∈ [(exampleState 1 0, (0 : Int), (42 : ℚ)), (exampleState 1 0, 1, 42)],
        validCall sharedRobot c) ∧
      ¬ (∀ v, v ∈ (checkCollisions sharedRobot (exampleSelf exampleAcm)
            [(exampleState 1 0, 0, 42), (exampleState 1 0, 1, 42)]).m_grid.occupied ↔
          ∃ i ∈ sharedRobot.groupOutsideVoxelsStateIndices 1,
            v ∈ (checkCollisions sharedRobot (exampleSelf exampleAcm)
              [(exampleState 1 0, 0, 42), (exampleState 1 0, 1, 42)]).m_rcs.voxels i) := by
  refine ⟨rfl, rfl, ?_, ?_⟩
  · intro c hc
    simp only [List.mem_cons, List.mem_singleton, List.not_mem_nil, or_false] at hc
    rcases hc with hc | hc <;> subst hc <;> exact ⟨rfl, by decide, by decide⟩
  · intro h
    have h1 := (h ⟨0, 0, 20⟩).mpr ⟨0, by decide, by
      rw [sharedRobot_final_voxels]
      exact List.mem_singleton.mpr rfl⟩
    rw [sharedRobot_final_occupied] at h1
    exact absurd h1 (List.not_mem_nil _)

/-- C6 (amended): after any sequence of `checkCollision` calls with states of
the model and group indices in range, on a model constructed over an empty
field, every voxel in the field is a voxel of a voxels state outside the most
recently checked group; and when the index lists of the groups have no
repetition and no voxel is ever shared between two voxels states, the field
holds exactly the voxels of the voxels states outside the most recently checked
group. -/
theorem checkCollisions_stamped_voxels (rcm : RobotCollisionModel)
    (self : SelfCollisionModelImpl)
    (calls : List (RobotCollisionState × Int × ℚ))
    (state : RobotCollisionState) (gidx : Int) (dist : ℚ)
    (hgidx : self.m_gidx = -1) (hidx : self.m_voxels_indices = [])
    (hocc : self.m_grid.occupied = [])
    (hcalls : ∀ c ∈ calls, validCall rcm c)
    (hlast : validCall rcm (state, gidx, dist)) :
    (∀ v ∈ (checkCollisions rcm self (calls ++ [(state, gidx, dist)])).m_grid.occupied,
        ∃ i ∈ rcm.groupOutsideVoxelsStateIndices gidx,
          v ∈ (checkCollisions rcm self (calls ++ [(state, gidx, dist)])).m_rcs.voxels i) ∧
      ((∀ g, (rcm.groupOutsideVoxelsStateIndices g).Nodup) →
        voxelsNeverShared rcm self.m_rcs →
        ∀ v, v ∈ (checkCollisions rcm self (calls ++ [(state, gidx, dist)])).m_grid.occupied ↔
          ∃ i ∈ rcm.groupOutsideVoxelsStateIndices gidx,
            v ∈ (checkCollisions rcm self (calls ++ [(state, gidx, dist)])).m_rcs.voxels i) := by
  have hs : groupIndicesStored rcm self := by
    intro h0
    rw [hgidx] at h0
    exact absurd h0 (by decide)
  have hw : stampedWithin self := by
    intro v hv
    rw [hocc] at hv
    exact absurd hv (List.not_mem_nil v)
  have he : stampedExactly self := by
    intro v
    rw [hocc, hidx]
    simp
  rw [checkCollisions_append]
  constructor
  · obtain ⟨hs1, hw1⟩ := checkCollisions_stampedWithin rcm calls self hcalls hs hw
    have hgrp := checkCollision_valid_group rcm _ state gidx dist hlast hs1
    have hfin := checkCollision_valid_stampedWithin rcm _ state gidx dist hlast hw1
    intro v hv
    obtain ⟨i, hi, hvi⟩ := hfin v hv
    rw [hgrp.2] at hi
    exact ⟨i, (mem_sortIndices _ i).mp hi, hvi⟩
  · rintro hnd ⟨owner, hown, hkin⟩
    have hnil : self.m_voxels_indices.Nodup := by
      rw [hidx]
      exact List.nodup_nil
    obtain ⟨hs1, hown1, hnd1, he1⟩ := checkCollisions_stampedExactly rcm calls self
      owner hkin hnd hcalls hs hown hnil he
    have hgrp := checkCollision_valid_group rcm _ state gidx dist hlast hs1
    have hfin := (checkCollision_valid_stampedExactly rcm _ state gidx dist owner
      hkin hlast hown1 hnd1 he1).1
    intro v
    rw [hfin v, hgrp.2]
    constructor
    · rintro ⟨i, hi, hvi⟩
      exact ⟨i, (mem_sortIndices _ i).mp hi, hvi⟩
    · rintro ⟨i, hi, hvi⟩
      exact ⟨i, (mem_sortIndices _ i).mpr hi, hvi⟩

theorem checkCollisions_stamped_voxels_witness :
    (exampleSelf exampleAcm).m_gidx = -1 ∧
      (exampleSelf exampleAcm).m_voxels_indices = [] ∧
      (exampleSelf exampleAcm).m_grid.occupied = [] ∧
      (∀ c ∈ [(exampleState 1 0, (0 : Int), (42 : ℚ))], validCall exampleRobotAB c) ∧
      validCall exampleRobotAB (exampleState 1 (9 / 5), 1, 42) ∧
      (∀ g, (exampleRobotAB.groupOutsideVoxelsStateIndices g).Nodup) ∧
      voxelsNeverShared exampleRobotAB (exampleSelf exampleAcm).m_rcs ∧
      (checkCollisions exampleRobotAB (exampleSelf exampleAcm)
        ([(exampleState 1 0, 0, 42)] ++ [(exampleState 1 (9 / 5), 1, 42)])).m_grid.occupied
        = [⟨0, 20, 0⟩] ∧
      ∀ v, v ∈ (checkCollisions exampleRobotAB (exampleSelf exampleAcm)
            ([(exampleState 1 0, 0, 42)] ++ [(exampleState 1 (9 / 5), 1, 42)])).m_grid.occupied ↔
          ∃ i ∈ exampleRobotAB.groupOutsideVoxelsStateIndices 1,
            v ∈ (checkCollisions exampleRobotAB (exampleSelf exampleAcm)
              ([(exampleState 1 0, 0, 42)] ++ [(exampleState 1 (9 / 5), 1, 42)])).m_rcs.voxels i :=
  have hA : ∀ c ∈ [(exampleState 1 0, (0 : Int), (42 : ℚ))], validCall exampleRobotAB c := by
    intro c hc
    simp only [List.mem_singleton] at hc
    subst hc
    exact ⟨rfl, by decide, by decide⟩
  have hB : validCall exampleRobotAB (exampleState 1 (9 / 5), 1, 42) :=
    ⟨rfl, by decide, by decide⟩
  ⟨rfl, rfl, rfl, hA, hB, exampleRobot_outside_nodup _ _ _ _,
    exampleRobotAB_neverShared, exampleRobotAB_final_occupied,
    (checkCollisions_stamped_voxels exampleRobotAB (exampleSelf exampleAcm)
      [(exampleState 1 0, 0, 42)] (exampleState 1 (9 / 5)) 1 42 rfl rfl rfl hA hB).2
      (exampleRobot_outside_nodup _ _ _ _) exampleRobotAB_neverShared⟩

/-! ## C7 -/

set_option maxHeartbeats 4000000 in
theorem exampleSwitched_fields :
    exampleSwitched.m_gidx = 0 ∧
      exampleSwitched.m_voxels_indices = [2] ∧
      exampleSwitched.m_rcs.voxels 0 = [⟨0, 20, 0⟩] ∧
      exampleSwitched.m_rcs.voxels 2 = [⟨9 / 5, 0, 40⟩] ∧
      exampleSwitched.m_grid.occupied = [⟨9 / 5, 0, 40⟩] := by
  simp only [exampleSwitched, checkCollisions]
  rw [checkCollision_valid_self _ _ _ _ _ ⟨rfl, by decide, by decide⟩,
    checkCollision_valid_self _ _ _ _ _ ⟨rfl, by decide, by decide⟩]
  simp [exampleRobotAB, exampleRobot, exampleState, exampleSelf, updateGroup,
    sortIndices, set_difference, gatherVoxels, updateCheckedSpheresIndices,
    copyState, updateVoxelsStates, updateVoxelsStatesStep,
    RobotCollisionState.setJointVarPosition, RobotCollisionState.updateVoxelsState,
    OccupancyGrid.addPointsToField, OccupancyGrid.removePointsFromField,
    exampleVoxels, List.range, List.range.loop, Function.update]

theorem eq_singleton_of_sorted_of_mem (l : List Nat) (a : Nat)
    (hs : List.Sorted (fun a b => a < b) l) (h : ∀ i, i ∈ l ↔ i = a) :
    l = [a] := by
  match l, hs, h with
  | [], _, h => exact absurd ((h a).mpr rfl) (List.not_mem_nil a)
  | [x], _, h =>
    have := (h x).mp (List.mem_singleton.mpr rfl)
    rw [this]
  | x :: y :: t, hs, h =>
    have hx := (h x).mp (List.mem_cons_self _ _)
    have hy := (h y).mp (List.mem_cons_of_mem _ (List.mem_cons_self _ _))
    have hlt : x < y := List.rel_of_sorted_cons hs y (List.mem_cons_self _ _)
    omega

theorem set_difference_sublist (a b : List Nat) :
    (set_difference a b).Sublist a := by
  induction a, b using set_difference.induct with
  | case1 b => simp [set_difference]
  | case2 x xs => simp [set_difference]
  | case3 x xs y ys hlt ih =>
    rw [set_difference, if_pos hlt]
    exact ih.cons₂ x
  | case4 x xs y ys hlt hgt ih =>
    rw [set_difference, if_neg hlt, if_pos hgt]
    exact ih
  | case5 x xs y ys hlt hgt ih =>
    rw [set_difference, if_neg hlt, if_neg hgt]
    exact ih.cons x

/-- C7: `updateGroup(g)`, called when the stored index list of the voxels
states outside the group is `S_old` and `S_new = groupOutsideVoxelsStateIndices(g)`
(both without repetition), does nothing when `g` is already the active group.
Otherwise there are two ascending index lists `rem` and `ins`, holding exactly
the indices of `S_old \ S_new` and of `S_new \ S_old`, with no index in common,
such that the grid receives, after the calls it had received before, one
`removePointsFromField` with the voxels of the states in `rem` (none when there
is no such voxel) followed by one `addPointsToField` with the voxels of the
states in `ins` (none when there is no such voxel), and nothing else; a voxel
is occupied afterwards exactly when it was occupied and belongs to no state of
`S_old \ S_new`, or belongs to a state of `S_new \ S_old`; the voxels states
themselves are untouched, the stored index list is `S_new` sorted ascending and
the active group is `g`. -/
theorem updateGroup_switches_voxels (rcm : RobotCollisionModel)
    (self : SelfCollisionModelImpl) (gidx : Int)
    (hold : self.m_voxels_indices.Nodup)
    (hnew : (rcm.groupOutsideVoxelsStateIndices gidx).Nodup) :
    (gidx = self.m_gidx → updateGroup rcm self gidx = self) ∧
      (gidx ≠ self.m_gidx →
        ∃ rem ins : List Nat,
          (∀ i, i ∈ rem ↔
            i ∈ self.m_voxels_indices ∧
              i ∉ rcm.groupOutsideVoxelsStateIndices gidx) ∧
          (∀ i, i ∈ ins ↔
            i ∈ rcm.groupOutsideVoxelsStateIndices gidx ∧
              i ∉ self.m_voxels_indices) ∧
          List.Sorted (fun a b => a < b) rem ∧
          List.Sorted (fun a b => a < b) ins ∧
          (∀ i, i ∈ rem → i ∉ ins) ∧
          (updateGroup rcm self gidx).m_grid.calls
            = self.m_grid.calls
              ++ (if rem.flatMap self.m_rcs.voxels = [] then []
                  else [FieldCall.removePointsFromField
                    (rem.flatMap self.m_rcs.voxels)])
              ++ (if ins.flatMap self.m_rcs.voxels = [] then []
                  else [FieldCall.addPointsToField
                    (ins.flatMap self.m_rcs.voxels)]) ∧
          (∀ v, v ∈ (updateGroup rcm self gidx).m_grid.occupied ↔
            (v ∈ self.m_grid.occupied ∧
                ∀ i, i ∈ self.m_voxels_indices →
                  i ∉ rcm.groupOutsideVoxelsStateIndices gidx →
                  v ∉ self.m_rcs.voxels i) ∨
              ∃ i, i ∈ rcm.groupOutsideVoxelsStateIndices gidx ∧
                i ∉ self.m_voxels_indices ∧ v ∈ self.m_rcs.voxels i) ∧
          (updateGroup rcm self gidx).m_rcs = self.m_rcs ∧
          (updateGroup rcm self gidx).m_voxels_indices.Perm
            (rcm.groupOutsideVoxelsStateIndices gidx) ∧
          List.Sorted (fun a b => a ≤ b)
            (updateGroup rcm self gidx).m_voxels_indices ∧
          (updateGroup rcm self gidx).m_gidx = gidx) := by
  refine ⟨updateGroup_same rcm self gidx, fun h => ?_⟩
  have hs := updateGroup_switch rcm self gidx h
  have hrem := mem_set_difference_sort self.m_voxels_indices
    (rcm.groupOutsideVoxelsStateIndices gidx) hold
  have hins := mem_set_difference_sort (rcm.groupOutsideVoxelsStateIndices gidx)
    self.m_voxels_indices hnew
  refine ⟨ovidxRem rcm self gidx, ovidxIns rcm self gidx, hrem, hins,
    (sortIndices_strict _ hold).sublist (set_difference_sublist _ _),
    (sortIndices_strict _ hnew).sublist (set_difference_sublist _ _),
    ?_, hs.2.2.2.2.2.2, ?_, hs.2.2.1, ?_, ?_, hs.1⟩
  · intro i hi hi'
    exact ((hrem i).mp hi).2 ((hins i).mp hi').1
  · intro v
    rw [hs.2.2.2.2.2.1]
    simp only [List.mem_append, List.mem_filter, decide_eq_true_eq,
      mem_gatherVoxels, not_exists, not_and]
    constructor
    · rintro (⟨hv, hno⟩ | ⟨i, hi, hvi⟩)
      · exact Or.inl ⟨hv, fun i hi1 hi2 => hno i ((hrem i).mpr ⟨hi1, hi2⟩)⟩
      · exact Or.inr ⟨i, ((hins i).mp hi).1, ((hins i).mp hi).2, hvi⟩
    · rintro (⟨hv, hno⟩ | ⟨i, hi1, hi2, hvi⟩)
      · exact Or.inl ⟨hv, fun i hi =>
          hno i ((hrem i).mp hi).1 ((hrem i).mp hi).2⟩
      · exact Or.inr ⟨i, (hins i).mpr ⟨hi1, hi2⟩, hvi⟩
  · rw [hs.2.1]
    exact sortIndices_perm _
  · rw [hs.2.1]
    exact sortIndices_sorted _

theorem updateGroup_switches_voxels_witness :
    exampleSwitched.m_voxels_indices.Nodup ∧
      (exampleRobotAB.groupOutsideVoxelsStateIndices 1).Nodup ∧
      (1 : Int) ≠ exampleSwitched.m_gidx ∧
      exampleSwitched.m_grid.occupied = [⟨9 / 5, 0, 40⟩] ∧
      (updateGroup exampleRobotAB exampleSwitched 1).m_grid.calls
        = exampleSwitched.m_grid.calls ++
          [FieldCall.removePointsFromField [⟨9 / 5, 0, 40⟩],
            FieldCall.addPointsToField [⟨0, 20, 0⟩]] ∧
      (∀ v, v ∈ (updateGroup exampleRobotAB exampleSwitched 1).m_grid.occupied ↔
        v = ⟨0, 20, 0⟩) ∧
      (updateGroup exampleRobotAB exampleSwitched 1).m_voxels_indices.Perm [0] ∧
      (updateGroup exampleRobotAB exampleSwitched 1).m_gidx = 1 := by
  obtain ⟨hg, hvi, hv0, hv2, hocc⟩ := exampleSwitched_fields
  have hnew : exampleRobotAB.groupOutsideVoxelsStateIndices 1 = [0] := by decide
  have hold : exampleSwitched.m_voxels_indices.Nodup := by rw [hvi]; decide
  have hne : (1 : Int) ≠ exampleSwitched.m_gidx := by rw [hg]; decide
  obtain ⟨rem, ins, hrem, hins, srem, sins, -, hcalls, hoccupied, -, hperm, -, hgidx⟩ :=
    (updateGroup_switches_voxels exampleRobotAB exampleSwitched 1 hold
      (by rw [hnew]; decide)).2 hne
  have hr : rem = [2] := eq_singleton_of_sorted_of_mem rem 2 srem (fun i => by
    rw [hrem i, hvi, hnew]; simp; omega)
  have hi : ins = [0] := eq_singleton_of_sorted_of_mem ins 0 sins (fun i => by
    rw [hins i, hvi, hnew]; simp; omega)
  refine ⟨hold, by rw [hnew]; decide, hne, hocc, ?_, ?_, hnew ▸ hperm, hgidx⟩
  · rw [hcalls, hr, hi]
    simp [hv0, hv2]
  · intro v
    rw [hoccupied v, hvi, hnew, hocc]
    simp [hv0, hv2]

/-! ## C8 -/

/-- C8: `checkCollision` returns false whenever the group index is negative
or at least `groupCount`, or the state was derived from a different collision
model, and then leaves the model as it was (the active group, the index list of
the voxels states outside the group, the checked-pairs list, the internal joint
positions and the distance field) and does not write `dist`. This holds for the
overload without and the overload with an `AllowedCollisionsInterface`. -/
theorem checkCollision_rejects (rcm : RobotCollisionModel)
    (self : SelfCollisionModelImpl) (state : RobotCollisionState)
    (aci : AllowedCollisionMatrix) (gidx : Int) (dist : ℚ)
    (h : gidx < 0 ∨ gidx ≥ rcm.groupCount ∨ state.model ≠ rcm.addr) :
    ((checkCollision rcm self state gidx dist).ret = false ∧
        (checkCollision rcm self state gidx dist).dist = dist ∧
        (checkCollision rcm self state gidx dist).self = self) ∧
      ((checkCollisionWith rcm self state aci gidx dist).ret = false ∧
        (checkCollisionWith rcm self state aci gidx dist).dist = dist ∧
        (checkCollisionWith rcm self state aci gidx dist).self = self) := by
  unfold checkCollision checkCollisionWith
  by_cases hm : state.model ≠ rcm.addr
  · simp [if_pos hm]
  · have hg : gidx < 0 ∨ gidx ≥ rcm.groupCount := by
      rcases h with h | h | h
      · exact Or.inl h
      · exact Or.inr h
      · exact absurd h hm
    simp [if_neg hm, if_pos hg]

theorem checkCollision_rejects_witness :
    ((7 : Int) < 0 ∨ (7 : Int) ≥ exampleRobotAB.groupCount ∨
        (exampleState 1 0).model ≠ exampleRobotAB.addr) ∧
      (checkCollision exampleRobotAB (exampleSelf exampleAcm) (exampleState 1 0)
        7 42).ret = false ∧
      (checkCollision exampleRobotAB (exampleSelf exampleAcm) (exampleState 1 0)
        7 42).dist = 42 ∧
      (checkCollision exampleRobotAB (exampleSelf exampleAcm) (exampleState 1 0)
        7 42).self = exampleSelf exampleAcm :=
  ⟨Or.inr (Or.inl (by decide)),
    (checkCollision_rejects exampleRobotAB (exampleSelf exampleAcm)
      (exampleState 1 0) exampleAcm 7 42 (Or.inr (Or.inl (by decide)))).1⟩

/-! ## C9 -/

/-- C9, counterexample: a call with the group index 7, which does not exist,
and a valid call that detects a collision between the spheres of L2 and L3
have the same outcome: both return false and both leave `dist` at the value 42
it had on entry. -/
theorem checkCollision_rejection_indistinguishable :
    (7 : Int) ≥ exampleRobotAB.groupCount ∧
      validCall exampleRobotAB (exampleState 1 (9 / 5), 1, 42) ∧
      (checkVoxelsStateCollisions exampleRobotAB
        (copyState exampleRobotAB
          (updateGroup exampleRobotAB (exampleSelf exampleAcm) 1)
          (exampleState 1 (9 / 5))) 42).1.ok = true ∧
      checkSpheresStateCollisions exampleRobotAB
        (updateVoxelsStates exampleRobotAB
          (copyState exampleRobotAB
            (updateGroup exampleRobotAB (exampleSelf exampleAcm) 1)
            (exampleState 1 (9 / 5)))) = false ∧
      (checkCollision exampleRobotAB (exampleSelf exampleAcm)
          (exampleState 1 (9 / 5)) 7 42).ret
        = (checkCollision exampleRobotAB (exampleSelf exampleAcm)
          (exampleState 1 (9 / 5)) 1 42).ret ∧
      (checkCollision exampleRobotAB (exampleSelf exampleAcm)
          (exampleState 1 (9 / 5)) 7 42).dist
        = (checkCollision exampleRobotAB (exampleSelf exampleAcm)
          (exampleState 1 (9 / 5)) 1 42).dist := by
  have hv : validCall exampleRobotAB (exampleState 1 (9 / 5), 1, 42) :=
    ⟨rfl, by decide, by decide⟩
  have hbad : ¬ ((exampleState 1 (9 / 5)).model ≠ exampleRobotAB.addr) :=
    fun h => h rfl
  have h7 : (7 : Int) < 0 ∨ (7 : Int) ≥ exampleRobotAB.groupCount :=
    Or.inr (by decide)
  refine ⟨by decide, hv, ?_, exampleRobotAB_groupB_spheres, ?_, ?_⟩
  · rw [exampleRobotAB_groupB_voxels]
  · rw [(checkCollision_valid_outcome _ _ _ _ _ hv).2.2, exampleRobotAB_groupB_voxels,
      exampleRobotAB_groupB_spheres]
    unfold checkCollision
    rw [if_neg hbad, if_pos h7]
    rfl
  · rw [(checkCollision_valid_outcome _ _ _ _ _ hv).1, exampleRobotAB_groupB_voxels]
    unfold checkCollision
    rw [if_neg hbad, if_pos h7]

/-- C9 (amended): `checkCollision` for an invalid group index or a model
mismatch returns false and leaves `dist` unchanged, with no explanation code;
a valid call whose environment check passes and whose pair check finds a
collision between spheres also returns false and leaves `dist` unchanged, so
the return value and `dist` do not tell the two apart. -/
theorem checkCollision_rejection_outcome (rcm : RobotCollisionModel)
    (self self' : SelfCollisionModelImpl) (state state' : RobotCollisionState)
    (gidx gidx' : Int) (dist : ℚ)
    (hbad : gidx' < 0 ∨ gidx' ≥ rcm.groupCount ∨ state'.model ≠ rcm.addr)
    (hvalid : validCall rcm (state, gidx, dist))
    (henv : (checkVoxelsStateCollisions rcm
      (copyState rcm (updateGroup rcm self gidx) state) dist).1.ok = true)
    (hself : checkSpheresStateCollisions rcm
      (updateVoxelsStates rcm (copyState rcm (updateGroup rcm self gidx) state))
        = false) :
    ((checkCollision rcm self' state' gidx' dist).ret = false ∧
        (checkCollision rcm self' state' gidx' dist).dist = dist) ∧
      ((checkCollision rcm self state gidx dist).ret = false ∧
        (checkCollision rcm self state gidx dist).dist = dist) := by
  constructor
  · unfold checkCollision
    by_cases hm : state'.model ≠ rcm.addr
    · simp [if_pos hm]
    · have hg : gidx' < 0 ∨ gidx' ≥ rcm.groupCount := by
        rcases hbad with h | h | h
        · exact Or.inl h
        · exact Or.inr h
        · exact absurd h hm
      simp [if_neg hm, if_pos hg]
  · obtain ⟨hd, _, hr⟩ := checkCollision_valid_outcome rcm self state gidx dist hvalid
    refine ⟨?_, ?_⟩
    · rw [hr, henv, hself]
      rfl
    · rw [hd]
      unfold checkVoxelsStateCollisions at henv ⊢
      exact (voxelsLoop_dist _ _ _ _).1 henv

theorem checkCollision_rejection_outcome_witness :
    ((7 : Int) < 0 ∨ (7 : Int) ≥ exampleRobotAB.groupCount ∨
        (exampleState 1 0).model ≠ exampleRobotAB.addr) ∧
      validCall exampleRobotAB (exampleState 1 (9 / 5), 1, 42) ∧
      (checkVoxelsStateCollisions exampleRobotAB
        (copyState exampleRobotAB
          (updateGroup exampleRobotAB (exampleSelf exampleAcm) 1)
          (exampleState 1 (9 / 5))) 42).1.ok = true ∧
      checkSpheresStateCollisions exampleRobotAB
        (updateVoxelsStates exampleRobotAB
          (copyState exampleRobotAB
            (updateGroup exampleRobotAB (exampleSelf exampleAcm) 1)
            (exampleState 1 (9 / 5)))) = false ∧
      ((checkCollision exampleRobotAB (exampleSelf exampleAcm) (exampleState 1 0)
          7 42).ret = false ∧
        (checkCollision exampleRobotAB (exampleSelf exampleAcm) (exampleState 1 0)
          7 42).dist = 42) ∧
      ((checkCollision exampleRobotAB (exampleSelf exampleAcm)
          (exampleState 1 (9 / 5)) 1 42).ret = false ∧
        (checkCollision exampleRobotAB (exampleSelf exampleAcm)
          (exampleState 1 (9 / 5)) 1 42).dist = 42) :=
  have hbad : (7 : Int) < 0 ∨ (7 : Int) ≥ exampleRobotAB.groupCount ∨
      (exampleState 1 0).model ≠ exampleRobotAB.addr := Or.inr (Or.inl (by decide))
  have hv : validCall exampleRobotAB (exampleState 1 (9 / 5), 1, 42) :=
    ⟨rfl, by decide, by decide⟩
  have henv : (checkVoxelsStateCollisions exampleRobotAB
      (copyState exampleRobotAB
        (updateGroup exampleRobotAB (exampleSelf exampleAcm) 1)
        (exampleState 1 (9 / 5))) 42).1.ok = true := by
    rw [exampleRobotAB_groupB_voxels]
  ⟨hbad, hv, henv, exampleRobotAB_groupB_spheres,
    checkCollision_rejection_outcome exampleRobotAB (exampleSelf exampleAcm)
      (exampleSelf exampleAcm) (exampleState 1 (9 / 5)) (exampleState 1 0) 1 7 42
      hbad hv henv exampleRobotAB_groupB_spheres⟩

/-! ## C10 -/

/-- C10, counterexample: a valid call on the group {L1, L2} is free of
collisions; the only distance queried from the field during the call is 10,
but `dist` still holds the value 42 it had on entry, which is not the minimum
of the queried distances. -/
theorem checkCollision_dist_not_minimum :
    validCall exampleRobotAB (exampleState 1 (9 / 5), 0, 42) ∧
      (checkCollision exampleRobotAB (exampleSelf exampleAcm)
        (exampleState 1 (9 / 5)) 0 42).ret = true ∧
      (checkCollision exampleRobotAB (exampleSelf exampleAcm)
        (exampleState 1 (9 / 5)) 0 42).queried = [10] ∧
      (checkCollision exampleRobotAB (exampleSelf exampleAcm)
        (exampleState 1 (9 / 5)) 0 42).dist = 42 ∧
      ¬ isMinimumOf
        (checkCollision exampleRobotAB (exampleSelf exampleAcm)
          (exampleState 1 (9 / 5)) 0 42).dist
        (checkCollision exampleRobotAB (exampleSelf exampleAcm)
          (exampleState 1 (9 / 5)) 0 42).queried := by
  have hv : validCall exampleRobotAB (exampleState 1 (9 / 5), 0, 42) :=
    ⟨rfl, by decide, by decide⟩
  obtain ⟨hd, hq, hr⟩ := checkCollision_valid_outcome exampleRobotAB
    (exampleSelf exampleAcm) (exampleState 1 (9 / 5)) 0 42 hv
  rw [exampleRobotAB_groupA_voxels] at hd hq hr
  rw [exampleRobotAB_groupA_spheres] at hr
  refine ⟨hv, hr, hq, hd, ?_⟩
  rw [hd, hq]
  intro h
  have := h.1
  norm_num at this

/-- C10 (amended): in a `checkCollision` call with valid inputs, `dist` is
written only when the environment check finds a leaf sphere that fails the
clearance test: the call then returns false and `dist` holds the obstacle
distance of that sphere, the distance queried last. When the environment check
passes, in particular when the result is free of collisions, `dist` keeps the
value it had on entry. -/
theorem checkCollision_dist_written (rcm : RobotCollisionModel)
    (self : SelfCollisionModelImpl) (state : RobotCollisionState) (gidx : Int)
    (dist : ℚ) (h : validCall rcm (state, gidx, dist)) :
    ((checkVoxelsStateCollisions rcm
          (copyState rcm (updateGroup rcm self gidx) state) dist).1.ok = true →
        (checkCollision rcm self state gidx dist).dist = dist) ∧
      ((checkCollision rcm self state gidx dist).ret = true →
        (checkCollision rcm self state gidx dist).dist = dist) ∧
      ((checkVoxelsStateCollisions rcm
          (copyState rcm (updateGroup rcm self gidx) state) dist).1.ok = false →
        (checkCollision rcm self state gidx dist).ret = false ∧
          (checkCollision rcm self state gidx dist).queried.getLast?
            = some (checkCollision rcm self state gidx dist).dist) := by
  obtain ⟨hd, hq, hr⟩ := checkCollision_valid_outcome rcm self state gidx dist h
  have hloop := voxelsLoop_dist
    (rcm.fieldDistance
      (updateVoxelsStates rcm
        (copyState rcm (updateGroup rcm self gidx) state)).m_grid.occupied)
    (updateVoxelsStates rcm
      (copyState rcm (updateGroup rcm self gidx) state)).m_padding
    [SphereRef.ofMeta (rcm.buildMetaTree
      ((rcm.groupSpheresStateIndices
        (updateVoxelsStates rcm
          (copyState rcm (updateGroup rcm self gidx) state)).m_gidx).map
        fun ssidx => rcm.spheresState
          (updateVoxelsStates rcm
            (copyState rcm (updateGroup rcm self gidx) state)).m_rcs.jointVarPositions
          ssidx))] dist
  have hok : (checkVoxelsStateCollisions rcm
      (copyState rcm (updateGroup rcm self gidx) state) dist).1.ok = true →
      (checkCollision rcm self state gidx dist).dist = dist := by
    intro henv
    rw [hd]
    exact hloop.1 henv
  refine ⟨hok, ?_, ?_⟩
  · intro hret
    apply hok
    rw [hr] at hret
    simp only [Bool.and_eq_true] at hret
    exact hret.1
  · intro henv
    refine ⟨?_, ?_⟩
    · rw [hr, henv]
      rfl
    · rw [hd, hq]
      exact hloop.2 henv

theorem checkCollision_dist_written_witness :
    validCall exampleRobotAB (exampleState 1 (9 / 5), 0, 42) ∧
      (checkVoxelsStateCollisions exampleRobotAB
        (copyState exampleRobotAB
          (updateGroup exampleRobotAB (exampleSelf exampleAcm) 0)
          (exampleState 1 (9 / 5))) 42).1.ok = true ∧
      (checkCollision exampleRobotAB (exampleSelf exampleAcm)
        (exampleState 1 (9 / 5)) 0 42).dist = 42 :=
  have hv : validCall exampleRobotAB (exampleState 1 (9 / 5), 0, 42) :=
    ⟨rfl, by decide, by decide⟩
  have henv : (checkVoxelsStateCollisions exampleRobotAB
      (copyState exampleRobotAB
        (updateGroup exampleRobotAB (exampleSelf exampleAcm) 0)
        (exampleState 1 (9 / 5))) 42).1.ok = true := by
    rw [exampleRobotAB_groupA_voxels]
  ⟨hv, henv,
    (checkCollision_dist_written exampleRobotAB (exampleSelf exampleAcm)
      (exampleState 1 (9 / 5)) 0 42 hv).1 henv⟩

/-! ## The checked pairs -/

theorem nodup_flatMap_of_key {α β : Type} (l : List α) (f : α → List β)
    (key : β → α) (hl : l.Nodup) (hf : ∀ a ∈ l, (f a).Nodup)
    (hk : ∀ a, ∀ b ∈ f a, key b = a) : (l.flatMap f).Nodup := by
  rw [List.nodup_flatMap]
  refine ⟨hf, ?_⟩
  refine List.Pairwise.imp ?_ hl
  intro a a' hne b hb hb'
  exact hne ((hk a b hb).symm.trans (hk a' b hb'))

/-- The link pairs that `updateCheckedSpheresIndices` walks through, in the
order of its two loops. -/
theorem updateCheckedSpheresIndices_current (rcm : RobotCollisionModel)
    (self : SelfCollisionModelImpl) :
    checkedPairsCurrent rcm (updateCheckedSpheresIndices rcm self) := by
  by_cases hg : self.m_gidx = -1
  · have e : updateCheckedSpheresIndices rcm self
        = { self with m_checked_spheres_states := [] } := by
      unfold updateCheckedSpheresIndices
      rw [if_pos hg]
    rw [e]
    exact ⟨fun _ => rfl, fun h => absurd hg h⟩
  · refine ⟨fun h => absurd ((updateCheckedSpheresIndices_frame rcm self).2.2.1 ▸ h) hg,
      fun _ => ?_⟩
    let inner : Nat → Nat → List (Nat × Nat) := fun l1 l2 =>
      if !decide (l2 ∈ rcm.groupLinkIndices self.m_gidx) || !rcm.hasSpheresModel l2 then []
      else
        match self.m_acm.getEntry (rcm.linkName l1) (rcm.linkName l2) with
        | some type => if type ≠ AllowedCollisionType.ALWAYS then [(l1, l2)] else []
        | none => [(l1, l2)]
    let outer : Nat → List (Nat × Nat) := fun l1 =>
      if !decide (l1 ∈ rcm.groupLinkIndices self.m_gidx) || !rcm.hasSpheresModel l1 then []
      else (List.range' (l1 + 1) (rcm.linkCount - (l1 + 1))).flatMap (inner l1)
    have hinner : ∀ l1 l2 p, p ∈ inner l1 l2 ↔
        p = (l1, l2) ∧ l2 ∈ rcm.groupLinkIndices self.m_gidx ∧
          rcm.hasSpheresModel l2 = true ∧
          self.m_acm.getEntry (rcm.linkName l1) (rcm.linkName l2)
            ≠ some AllowedCollisionType.ALWAYS := by
      intro l1 l2 p
      simp only [inner]
      by_cases h2 : l2 ∈ rcm.groupLinkIndices self.m_gidx <;>
        cases hs : rcm.hasSpheresModel l2 <;>
        cases he : self.m_acm.getEntry (rcm.linkName l1) (rcm.linkName l2) with
        | none => simp [h2]
        | some t => by_cases ht : t = AllowedCollisionType.ALWAYS <;> simp [h2, ht]
    have houter : ∀ l1 p, p ∈ outer l1 ↔
        l1 ∈ rcm.groupLinkIndices self.m_gidx ∧ rcm.hasSpheresModel l1 = true ∧
          ∃ l2, l1 < l2 ∧ l2 < rcm.linkCount ∧ p ∈ inner l1 l2 := by
      intro l1 p
      simp only [outer]
      by_cases h1 : l1 ∈ rcm.groupLinkIndices self.m_gidx <;>
        cases hs : rcm.hasSpheresModel l1 <;> simp [h1, List.mem_flatMap, List.mem_range']
      constructor
      · rintro ⟨l2, ⟨i, hi, rfl⟩, hp⟩
        exact ⟨_, by omega, by omega, hp⟩
      · rintro ⟨l2, h12, h2n, hp⟩
        exact ⟨l2, ⟨l2 - (l1 + 1), by omega, by omega⟩, hp⟩
    refine ⟨(List.range rcm.linkCount).flatMap outer, ?_, ?_, ?_⟩
    · refine nodup_flatMap_of_key _ _ Prod.fst (List.nodup_range _) ?_ ?_
      · intro l1 _
        simp only [outer]
        split
        · exact List.nodup_nil
        · refine nodup_flatMap_of_key _ _ Prod.snd (List.nodup_range' _ _) ?_ ?_
          · intro l2 _
            simp only [inner]
            split
            · exact List.nodup_nil
            · split
              · split
                · exact List.nodup_singleton _
                · exact List.nodup_nil
              · exact List.nodup_singleton _
          · intro l2 p hp
            rw [((hinner l1 l2 p).mp hp).1]
      · intro l1 p hp
        obtain ⟨_, _, l2, _, _, hp2⟩ := (houter l1 p).mp hp
        rw [((hinner l1 l2 p).mp hp2).1]
    · intro l1 l2
      rw [List.mem_flatMap]
      simp only [List.mem_range, houter, hinner, checkedLinkPair,
        (updateCheckedSpheresIndices_frame rcm self).2.2.1,
        (updateCheckedSpheresIndices_frame rcm self).2.2.2.2.2.1, Prod.mk.injEq]
      constructor
      · rintro ⟨a, han, ha, has, b, hab, hbn, ⟨rfl, rfl⟩, hb, hbs, he⟩
        exact ⟨hab, hbn, ha, hb, has, hbs, he⟩
      · rintro ⟨h12, h2n, h1, h2, hs1, hs2, he⟩
        exact ⟨l1, by omega, h1, hs1, l2, h12, h2n, ⟨rfl, rfl⟩, h2, hs2, he⟩
    · unfold updateCheckedSpheresIndices
      rw [if_neg hg]
      simp only [List.map_flatMap]
      refine congrArg _ (funext fun l1 => ?_)
      simp only [outer]
      split
      · rfl
      · simp only [List.map_flatMap]
        refine congrArg _ (funext fun l2 => ?_)
        simp only [inner]
        split
        · rfl
        · cases he : self.m_acm.getEntry (rcm.linkName l1) (rcm.linkName l2) with
          | none => rfl
          | some t => by_cases ht : t = AllowedCollisionType.ALWAYS <;> simp [ht]

theorem checkedPairsCurrent_congr (rcm : RobotCollisionModel)
    (self self' : SelfCollisionModelImpl) (hg : self'.m_gidx = self.m_gidx)
    (ha : self'.m_acm = self.m_acm)
    (hc : self'.m_checked_spheres_states = self.m_checked_spheres_states)
    (h : checkedPairsCurrent rcm self) : checkedPairsCurrent rcm self' := by
  unfold checkedPairsCurrent checkedLinkPair at *
  rw [hg, ha, hc]
  exact h

theorem updateGroup_current (rcm : RobotCollisionModel)
    (self : SelfCollisionModelImpl) (gidx : Int)
    (h : gidx = self.m_gidx → checkedPairsCurrent rcm self) :
    checkedPairsCurrent rcm (updateGroup rcm self gidx) := by
  unfold updateGroup
  by_cases hg : gidx = self.m_gidx
  · rw [if_pos hg]
    exact h hg
  · rw [if_neg hg]
    exact updateCheckedSpheresIndices_current rcm _

theorem checkCollision_current (rcm : RobotCollisionModel)
    (self : SelfCollisionModelImpl) (state : RobotCollisionState) (gidx : Int)
    (dist : ℚ) (h : checkedPairsCurrent rcm self) :
    checkedPairsCurrent rcm (checkCollision rcm self state gidx dist).self := by
  by_cases hv : validCall rcm (state, gidx, dist)
  · rw [checkCollision_valid_self _ _ _ _ _ hv]
    have hu := updateGroup_current rcm self gidx (fun _ => h)
    refine checkedPairsCurrent_congr rcm _ _ ?_ ?_ ?_ hu
    · rw [(updateVoxelsStates_frame _ _).1, (copyState_frame _ _ _).2.1]
    · rw [(updateVoxelsStates_frame _ _).2.2.2.2.1, (copyState_frame _ _ _).2.2.2.2.2.1]
    · rw [(updateVoxelsStates_frame _ _).2.2.2.1, (copyState_frame _ _ _).2.2.2.2.1]
  · have e : (checkCollision rcm self state gidx dist).self = self := by
      unfold checkCollision
      by_cases hm : state.model ≠ rcm.addr
      · rw [if_pos hm]
      · rw [if_neg hm]
        by_cases hg : gidx < 0 ∨ gidx ≥ rcm.groupCount
        · rw [if_pos hg]
        · exfalso
          apply hv
          refine ⟨by simpa using hm, ?_, ?_⟩ <;> simp only <;> omega
    rw [e]
    exact h

/-! ## C11 -/

/-- C11: the list of checked pairs is up to date (`checkedPairsCurrent`: empty
while no group is active, otherwise the spheres state index pairs of exactly
the link pairs `l1 < l2` of the active group that both have a spheres model and
whose entry is absent or not `ALWAYS`, every such link pair listed once) in the
freshly constructed model, after every `updateGroup` that switches the group,
after every `setAllowedCollisionMatrix` and after every
`updateAllowedCollisionMatrix`; `setPadding` and `checkCollision` keep it up to
date. -/
theorem checkedPairs_current (rcm : RobotCollisionModel)
    (self : SelfCollisionModelImpl) :
    (∀ (grid : OccupancyGrid) (rcs : RobotCollisionState),
        checkedPairsCurrent rcm (SelfCollisionModelImpl.create grid rcm rcs)) ∧
      (∀ gidx : Int, gidx ≠ self.m_gidx →
        checkedPairsCurrent rcm (updateGroup rcm self gidx)) ∧
      (∀ acm : AllowedCollisionMatrix,
        checkedPairsCurrent rcm (setAllowedCollisionMatrix rcm self acm)) ∧
      (∀ acm : AllowedCollisionMatrix,
        checkedPairsCurrent rcm (updateAllowedCollisionMatrix rcm self acm)) ∧
      (checkedPairsCurrent rcm self →
        (∀ padding : ℚ, checkedPairsCurrent rcm (setPadding self padding)) ∧
        ∀ (state : RobotCollisionState) (gidx : Int) (dist : ℚ),
          checkedPairsCurrent rcm
            (checkCollision rcm self state gidx dist).self) := by
  refine ⟨fun grid rcs => ⟨fun _ => rfl, fun h => absurd rfl h⟩,
    fun gidx hg => updateGroup_current rcm self gidx (fun h => absurd h hg),
    fun acm => updateCheckedSpheresIndices_current rcm _,
    fun acm => updateCheckedSpheresIndices_current rcm _,
    fun h => ⟨fun padding => checkedPairsCurrent_congr rcm self _ rfl rfl rfl h,
      fun state gidx dist => checkCollision_current rcm self state gidx dist h⟩⟩

theorem checkedPairs_current_witness :
    (0 : Int) ≠ (exampleSelf exampleAcm).m_gidx ∧
      checkedPairsCurrent exampleRobotAB
        (updateGroup exampleRobotAB (exampleSelf exampleAcm) 0) ∧
      (updateGroup exampleRobotAB (exampleSelf exampleAcm) 0).m_checked_spheres_states
        = [(0, 1)] :=
  ⟨by decide,
    (checkedPairs_current exampleRobotAB (exampleSelf exampleAcm)).2.1 0 (by decide),
    by
      simp [exampleRobotAB, exampleRobot, exampleSelf, updateGroup,
        updateCheckedSpheresIndices, exampleAcm, AllowedCollisionMatrix.getEntry,
        lookupEntry, List.range, List.range.loop, List.range']⟩

/-! ## Entries of the allowed collision matrix -/

theorem getEntry_setEntry (m : AllowedCollisionMatrix) (n1 n2 a b : String)
    (allowed : Bool) :
    (m.setEntry n1 n2 allowed).getEntry a b
      = if n1 = a ∧ n2 = b then
          some (if allowed then AllowedCollisionType.ALWAYS
            else AllowedCollisionType.NEVER)
        else if n2 = a ∧ n1 = b then
          some (if allowed then AllowedCollisionType.ALWAYS
            else AllowedCollisionType.NEVER)
        else m.getEntry a b := by
  simp only [AllowedCollisionMatrix.setEntry, AllowedCollisionMatrix.getEntry,
    lookupEntry]

theorem lookupEntry_some_mem {l : List ((String × String) × AllowedCollisionType)}
    {a b : String} {t : AllowedCollisionType} (h : lookupEntry l a b = some t) :
    ((a, b), t) ∈ l := by
  induction l with
  | nil => simp [lookupEntry] at h
  | cons e l ih =>
    obtain ⟨⟨k1, k2⟩, v⟩ := e
    simp only [lookupEntry] at h
    split at h
    · rename_i hk
      obtain ⟨rfl, rfl⟩ := hk
      simp only [Option.some.injEq] at h
      subst h
      exact List.mem_cons_self _ _
    · exact List.mem_cons_of_mem _ (ih h)

theorem hasEntry_iff (m : AllowedCollisionMatrix) (n : String) :
    m.hasEntry n = true ↔ ∃ e ∈ m.entries, e.1.1 = n := by
  simp [AllowedCollisionMatrix.hasEntry]

theorem hasEntry_setEntry (m : AllowedCollisionMatrix) (n1 n2 n : String)
    (allowed : Bool) :
    (m.setEntry n1 n2 allowed).hasEntry n = true ↔
      n = n1 ∨ n = n2 ∨ m.hasEntry n = true := by
  simp only [hasEntry_iff, AllowedCollisionMatrix.setEntry, List.exists_mem_cons_iff]
  constructor
  · rintro (h | h | h)
    · exact Or.inl h.symm
    · exact Or.inr (Or.inl h.symm)
    · exact Or.inr (Or.inr h)
  · rintro (h | h | h)
    · exact Or.inl h.symm
    · exact Or.inr (Or.inl h.symm)
    · exact Or.inr (Or.inr h)

/-- Every name of a stored pair has an entry of its own; `setEntry` keeps it
so. -/
theorem setEntry_closed (m : AllowedCollisionMatrix) (n1 n2 : String)
    (allowed : Bool)
    (h : ∀ e ∈ m.entries, m.hasEntry e.1.2 = true) :
    ∀ e ∈ (m.setEntry n1 n2 allowed).entries,
      (m.setEntry n1 n2 allowed).hasEntry e.1.2 = true := by
  intro e he
  rw [hasEntry_setEntry]
  simp only [AllowedCollisionMatrix.setEntry, List.mem_cons] at he
  rcases he with rfl | rfl | he
  · exact Or.inr (Or.inl rfl)
  · exact Or.inl rfl
  · exact Or.inr (Or.inr (h e he))

theorem setEntry_foldl (name : String) (allowed : Bool) (l : List String)
    (m : AllowedCollisionMatrix)
    (h : ∀ e ∈ m.entries, m.hasEntry e.1.2 = true) :
    (∀ e ∈ (l.foldl (fun m e => m.setEntry name e allowed) m).entries,
        (l.foldl (fun m e => m.setEntry name e allowed) m).hasEntry e.1.2 = true) ∧
      ∀ a b, a ≠ name → b ≠ name →
        (l.foldl (fun m e => m.setEntry name e allowed) m).getEntry a b
          = m.getEntry a b := by
  induction l generalizing m with
  | nil => exact ⟨h, fun _ _ _ _ => rfl⟩
  | cons x l ih =>
    simp only [List.foldl_cons]
    obtain ⟨h1, h2⟩ := ih (m.setEntry name x allowed) (setEntry_closed m name x allowed h)
    refine ⟨h1, fun a b ha hb => ?_⟩
    rw [h2 a b ha hb, getEntry_setEntry, if_neg (fun hc => ha hc.1.symm),
      if_neg (fun hc => hb hc.2.symm)]

/-- The blanket entry for a name without an entry keeps every stored entry. -/
theorem blanket_keeps (m : AllowedCollisionMatrix) (name : String)
    (h : ∀ e ∈ m.entries, m.hasEntry e.1.2 = true) :
    (∀ e ∈ (if !m.hasEntry name then m.setEntryName name false else m).entries,
        (if !m.hasEntry name then m.setEntryName name false else m).hasEntry e.1.2
          = true) ∧
      ∀ a b t, m.getEntry a b = some t →
        (if !m.hasEntry name then m.setEntryName name false else m).getEntry a b
          = some t := by
  by_cases hn : m.hasEntry name = true
  · simp only [hn, Bool.not_true, Bool.false_eq_true, if_false]
    exact ⟨h, fun _ _ _ ht => ht⟩
  · rw [if_pos (by simpa using hn)]
    obtain ⟨h1, h2⟩ := setEntry_foldl name false
      (m.getAllEntryNames.filter fun e => decide (e ≠ name)) m h
    refine ⟨h1, fun a b t ht => ?_⟩
    have hmem := lookupEntry_some_mem ht
    have ha : a ≠ name := fun hc =>
      hn ((hasEntry_iff m name).mpr ⟨_, hmem, hc⟩)
    have hb : b ≠ name := fun hc => hn (hc ▸ h _ hmem)
    unfold AllowedCollisionMatrix.setEntryName
    rw [h2 a b ha hb, ht]

/-- A guarded blanket entry for `other` followed by `setEntry(link, other,
true)`: stored `ALWAYS` entries stay, and the pair is `ALWAYS` in both
orders. -/
theorem linkEntry_spec (m : AllowedCollisionMatrix) (link other : String)
    (h : ∀ e ∈ m.entries, m.hasEntry e.1.2 = true) :
    (∀ e ∈ ((if !m.hasEntry other then m.setEntryName other false
          else m).setEntry link other true).entries,
        ((if !m.hasEntry other then m.setEntryName other false
          else m).setEntry link other true).hasEntry e.1.2 = true) ∧
      (∀ a b, m.getEntry a b = some AllowedCollisionType.ALWAYS →
        ((if !m.hasEntry other then m.setEntryName other false
          else m).setEntry link other true).getEntry a b
          = some AllowedCollisionType.ALWAYS) ∧
      ((if !m.hasEntry other then m.setEntryName other false
          else m).setEntry link other true).getEntry link other
        = some AllowedCollisionType.ALWAYS ∧
      ((if !m.hasEntry other then m.setEntryName other false
          else m).setEntry link other true).getEntry other link
        = some AllowedCollisionType.ALWAYS := by
  obtain ⟨h1, h2⟩ := blanket_keeps m other h
  refine ⟨setEntry_closed _ _ _ _ h1, fun a b hab => ?_, ?_, ?_⟩
  · rw [getEntry_setEntry]
    split
    · rfl
    · split
      · rfl
      · exact h2 a b _ hab
  · rw [getEntry_setEntry, if_pos ⟨rfl, rfl⟩]
    rfl
  · rw [getEntry_setEntry]
    split
    · rfl
    · rw [if_pos ⟨rfl, rfl⟩]
      rfl

theorem childEntries_spec (rcm : RobotCollisionModel) (link_name : String)
    (cs : List Nat) (m : AllowedCollisionMatrix)
    (h : ∀ e ∈ m.entries, m.hasEntry e.1.2 = true) :
    (∀ e ∈ (cs.foldl
          (fun a cjidx =>
            (if !a.hasEntry (rcm.linkName (rcm.jointChildLinkIndex cjidx)) then
              a.setEntryName (rcm.linkName (rcm.jointChildLinkIndex cjidx)) false
            else a).setEntry link_name
              (rcm.linkName (rcm.jointChildLinkIndex cjidx)) true) m).entries,
        (cs.foldl
          (fun a cjidx =>
            (if !a.hasEntry (rcm.linkName (rcm.jointChildLinkIndex cjidx)) then
              a.setEntryName (rcm.linkName (rcm.jointChildLinkIndex cjidx)) false
            else a).setEntry link_name
              (rcm.linkName (rcm.jointChildLinkIndex cjidx)) true) m).hasEntry e.1.2
          = true) ∧
      (∀ a b, m.getEntry a b = some AllowedCollisionType.ALWAYS →
        (cs.foldl
          (fun a cjidx =>
            (if !a.hasEntry (rcm.linkName (rcm.jointChildLinkIndex cjidx)) then
              a.setEntryName (rcm.linkName (rcm.jointChildLinkIndex cjidx)) false
            else a).setEntry link_name
              (rcm.linkName (rcm.jointChildLinkIndex cjidx)) true) m).getEntry a b
          = some AllowedCollisionType.ALWAYS) ∧
      ∀ cj ∈ cs,
        (cs.foldl
          (fun a cjidx =>
            (if !a.hasEntry (rcm.linkName (rcm.jointChildLinkIndex cjidx)) then
              a.setEntryName (rcm.linkName (rcm.jointChildLinkIndex cjidx)) false
            else a).setEntry link_name
              (rcm.linkName (rcm.jointChildLinkIndex cjidx)) true) m).getEntry
            link_name (rcm.linkName (rcm.jointChildLinkIndex cj))
          = some AllowedCollisionType.ALWAYS ∧
        (cs.foldl
          (fun a cjidx =>
            (if !a.hasEntry (rcm.linkName (rcm.jointChildLinkIndex cjidx)) then
              a.setEntryName (rcm.linkName (rcm.jointChildLinkIndex cjidx)) false
            else a).setEntry link_name
              (rcm.linkName (rcm.jointChildLinkIndex cjidx)) true) m).getEntry
            (rcm.linkName (rcm.jointChildLinkIndex cj)) link_name
          = some AllowedCollisionType.ALWAYS := by
  induction cs generalizing m with
  | nil => exact ⟨h, fun _ _ hab => hab, fun _ hc => absurd hc (List.not_mem_nil _)⟩
  | cons c cs ih =>
    simp only [List.foldl_cons]
    obtain ⟨s1, s2, s3, s4⟩ :=
      linkEntry_spec m link_name (rcm.linkName (rcm.jointChildLinkIndex c)) h
    obtain ⟨i1, i2, i3⟩ := ih _ s1
    refine ⟨i1, fun a b hab => i2 a b (s2 a b hab), fun cj hcj => ?_⟩
    rcases List.mem_cons.mp hcj with rfl | hcj
    · exact ⟨i2 _ _ s3, i2 _ _ s4⟩
    · exact i3 cj hcj

theorem initAllowedCollisionMatrixStep_spec (rcm : RobotCollisionModel)
    (m : AllowedCollisionMatrix) (lidx : Nat)
    (h : ∀ e ∈ m.entries, m.hasEntry e.1.2 = true) :
    (∀ e ∈ (initAllowedCollisionMatrixStep rcm m lidx).entries,
        (initAllowedCollisionMatrixStep rcm m lidx).hasEntry e.1.2 = true) ∧
      (∀ a b, m.getEntry a b = some AllowedCollisionType.ALWAYS →
        (initAllowedCollisionMatrixStep rcm m lidx).getEntry a b
          = some AllowedCollisionType.ALWAYS) ∧
      (rcm.linkParentJointIndex lidx ≠ 0 →
        (initAllowedCollisionMatrixStep rcm m lidx).getEntry (rcm.linkName lidx)
            (rcm.linkName
              (rcm.jointParentLinkIndex (rcm.linkParentJointIndex lidx)))
          = some AllowedCollisionType.ALWAYS ∧
        (initAllowedCollisionMatrixStep rcm m lidx).getEntry
            (rcm.linkName
              (rcm.jointParentLinkIndex (rcm.linkParentJointIndex lidx)))
            (rcm.linkName lidx)
          = some AllowedCollisionType.ALWAYS) ∧
      ∀ cj ∈ rcm.linkChildJointIndices lidx,
        (initAllowedCollisionMatrixStep rcm m lidx).getEntry (rcm.linkName lidx)
            (rcm.linkName (rcm.jointChildLinkIndex cj))
          = some AllowedCollisionType.ALWAYS ∧
        (initAllowedCollisionMatrixStep rcm m lidx).getEntry
            (rcm.linkName (rcm.jointChildLinkIndex cj)) (rcm.linkName lidx)
          = some AllowedCollisionType.ALWAYS := by
  obtain ⟨b1, b2⟩ := blanket_keeps m (rcm.linkName lidx) h
  unfold initAllowedCollisionMatrixStep
  simp only
  by_cases hp : rcm.linkParentJointIndex lidx ≠ 0
  · rw [if_pos hp]
    obtain ⟨s1, s2, s3, s4⟩ := linkEntry_spec _ (rcm.linkName lidx)
      (rcm.linkName (rcm.jointParentLinkIndex (rcm.linkParentJointIndex lidx))) b1
    obtain ⟨i1, i2, i3⟩ := childEntries_spec rcm (rcm.linkName lidx)
      (rcm.linkChildJointIndices lidx) _ s1
    exact ⟨i1, fun a b hab => i2 a b (s2 a b (b2 a b _ hab)),
      fun _ => ⟨i2 _ _ s3, i2 _ _ s4⟩, i3⟩
  · rw [if_neg hp]
    obtain ⟨i1, i2, i3⟩ := childEntries_spec rcm (rcm.linkName lidx)
      (rcm.linkChildJointIndices lidx) _ b1
    exact ⟨i1, fun a b hab => i2 a b (b2 a b _ hab), fun hc => absurd hc hp, i3⟩

theorem initAllowedCollisionMatrix_foldl_spec (rcm : RobotCollisionModel)
    (l : List Nat) (m : AllowedCollisionMatrix)
    (h : ∀ e ∈ m.entries, m.hasEntry e.1.2 = true) :
    (∀ e ∈ (l.foldl (initAllowedCollisionMatrixStep rcm) m).entries,
        (l.foldl (initAllowedCollisionMatrixStep rcm) m).hasEntry e.1.2 = true) ∧
      (∀ a b, m.getEntry a b = some AllowedCollisionType.ALWAYS →
        (l.foldl (initAllowedCollisionMatrixStep rcm) m).getEntry a b
          = some AllowedCollisionType.ALWAYS) ∧
      ∀ lidx ∈ l,
        (rcm.linkParentJointIndex lidx ≠ 0 →
          (l.foldl (initAllowedCollisionMatrixStep rcm) m).getEntry
              (rcm.linkName lidx)
              (rcm.linkName
                (rcm.jointParentLinkIndex (rcm.linkParentJointIndex lidx)))
            = some AllowedCollisionType.ALWAYS ∧
          (l.foldl (initAllowedCollisionMatrixStep rcm) m).getEntry
              (rcm.linkName
                (rcm.jointParentLinkIndex (rcm.linkParentJointIndex lidx)))
              (rcm.linkName lidx)
            = some AllowedCollisionType.ALWAYS) ∧
        ∀ cj ∈ rcm.linkChildJointIndices lidx,
          (l.foldl (initAllowedCollisionMatrixStep rcm) m).getEntry
              (rcm.linkName lidx) (rcm.linkName (rcm.jointChildLinkIndex cj))
            = some AllowedCollisionType.ALWAYS ∧
          (l.foldl (initAllowedCollisionMatrixStep rcm) m).getEntry
              (rcm.linkName (rcm.jointChildLinkIndex cj)) (rcm.linkName lidx)
            = some AllowedCollisionType.ALWAYS := by
  induction l generalizing m with
  | nil => exact ⟨h, fun _ _ hab => hab, fun _ hc => absurd hc (List.not_mem_nil _)⟩
  | cons x l ih =>
    simp only [List.foldl_cons]
    obtain ⟨s1, s2, s3, s4⟩ := initAllowedCollisionMatrixStep_spec rcm m x h
    obtain ⟨i1, i2, i3⟩ := ih _ s1
    refine ⟨i1, fun a b hab => i2 a b (s2 a b hab), fun lidx hl => ?_⟩
    rcases List.mem_cons.mp hl with rfl | hl
    · exact ⟨fun hp => ⟨i2 _ _ (s3 hp).1, i2 _ _ (s3 hp).2⟩,
        fun cj hcj => ⟨i2 _ _ (s4 cj hcj).1, i2 _ _ (s4 cj hcj).2⟩⟩
    · exact i3 lidx hl

/-! ## C12 -/

/-- C12: after the construction of the self collision model, for every joint
`j` that connects a parent link `p` to a child link `c` of the model (the root
joint 0 has no parent link), the entry of the allowed collision matrix for the
names of `p` and `c` is `ALWAYS`, in either order. This is the matrix when
`initAllowedCollisionMatrix` has finished, so no blanket `NEVER` entry written
for a link met later in the loop has replaced it. -/
theorem create_adjacent_links_always (grid : OccupancyGrid)
    (rcm : RobotCollisionModel) (rcs : RobotCollisionState) (j p c : Nat)
    (h : jointBetween rcm j p c) :
    (SelfCollisionModelImpl.create grid rcm rcs).m_acm.getEntry (rcm.linkName p)
        (rcm.linkName c) = some AllowedCollisionType.ALWAYS ∧
      (SelfCollisionModelImpl.create grid rcm rcs).m_acm.getEntry (rcm.linkName c)
        (rcm.linkName p) = some AllowedCollisionType.ALWAYS := by
  have hspec := (initAllowedCollisionMatrix_foldl_spec rcm (List.range rcm.linkCount)
    { entries := [] } (fun _ he => absurd he (List.not_mem_nil _))).2.2
  have e : (SelfCollisionModelImpl.create grid rcm rcs).m_acm
      = (List.range rcm.linkCount).foldl (initAllowedCollisionMatrixStep rcm)
          { entries := [] } := rfl
  rw [e]
  rcases h with ⟨hc, hpj, hj0, hpl⟩ | ⟨hp, hcj, hcl⟩
  · have := (hspec c (List.mem_range.mpr hc)).1 (by rw [hpj]; exact hj0)
    rw [hpj, hpl] at this
    exact ⟨this.2, this.1⟩
  · have := (hspec p (List.mem_range.mpr hp)).2 j hcj
    rw [hcl] at this
    exact this

theorem create_adjacent_links_always_witness :
    jointBetween exampleRobotAB 1 0 1 ∧
      (SelfCollisionModelImpl.create { occupied := [], calls := [] }
          exampleRobotAB (exampleState 1 0)).m_acm.getEntry
          (exampleRobotAB.linkName 0) (exampleRobotAB.linkName 1)
        = some AllowedCollisionType.ALWAYS ∧
      (SelfCollisionModelImpl.create { occupied := [], calls := [] }
          exampleRobotAB (exampleState 1 0)).m_acm.getEntry
          (exampleRobotAB.linkName 1) (exampleRobotAB.linkName 0)
        = some AllowedCollisionType.ALWAYS :=
  have hj : jointBetween exampleRobotAB 1 0 1 :=
    Or.inl ⟨by decide, rfl, by decide, rfl⟩
  ⟨hj, create_adjacent_links_always _ exampleRobotAB _ 1 0 1 hj⟩

/-! ## Padding and the model -/

theorem updateGroup_setPadding (rcm : RobotCollisionModel)
    (self : SelfCollisionModelImpl) (gidx : Int) (p : ℚ) :
    updateGroup rcm (setPadding self p) gidx
      = setPadding (updateGroup rcm self gidx) p := by
  unfold updateGroup
  by_cases h : gidx = self.m_gidx
  · simp [setPadding, h]
  · have h2 : ¬ gidx = (setPadding self p).m_gidx := h
    rw [if_neg h, if_neg h2]
    simp only [setPadding, updateCheckedSpheresIndices]
    split <;> rfl

theorem copyState_setPadding (rcm : RobotCollisionModel)
    (self : SelfCollisionModelImpl) (state : RobotCollisionState) (p : ℚ) :
    copyState rcm (setPadding self p) state
      = setPadding (copyState rcm self state) p := by
  unfold copyState
  generalize List.range rcm.jointVarCount = l
  induction l generalizing self with
  | nil => rfl
  | cons vidx l ih =>
    simp only [List.foldl_cons]
    exact ih
      { self with
        m_rcs := self.m_rcs.setJointVarPosition rcm vidx
          (state.jointVarPositions vidx) }

theorem updateVoxelsStates_setPadding (rcm : RobotCollisionModel)
    (self : SelfCollisionModelImpl) (p : ℚ) :
    updateVoxelsStates rcm (setPadding self p)
      = setPadding (updateVoxelsStates rcm self) p :=
  rfl

theorem checkCollision_self_setPadding (rcm : RobotCollisionModel)
    (self : SelfCollisionModelImpl) (state : RobotCollisionState) (gidx : Int)
    (dist p : ℚ) :
    (checkCollision rcm (setPadding self p) state gidx dist).self
      = setPadding (checkCollision rcm self state gidx dist).self p := by
  by_cases hv : validCall rcm (state, gidx, dist)
  · rw [checkCollision_valid_self _ _ _ _ _ hv, checkCollision_valid_self _ _ _ _ _ hv,
      updateGroup_setPadding, copyState_setPadding, updateVoxelsStates_setPadding]
  · unfold checkCollision
    by_cases hm : state.model ≠ rcm.addr
    · rw [if_pos hm, if_pos hm]
    · rw [if_neg hm, if_neg hm]
      by_cases hg : gidx < 0 ∨ gidx ≥ rcm.groupCount
      · rw [if_pos hg, if_pos hg]
      · exfalso
        apply hv
        refine ⟨by simpa using hm, ?_, ?_⟩ <;> simp only <;> omega

/-! ## C13 -/

/-- C13: the padding has no influence on the self check. The result of
`checkSpheresStateCollisions`, which is `checkSpheresStateCollision` on every
checked pair, is the same after `setPadding` with any value as before it, and
the self check run on the model that a `checkCollision` call leaves behind has
the same result for any two paddings set before the call. -/
theorem checkSpheresStateCollisions_setPadding (rcm : RobotCollisionModel)
    (self : SelfCollisionModelImpl) (p p' : ℚ) :
    checkSpheresStateCollisions rcm (setPadding self p)
        = checkSpheresStateCollisions rcm self ∧
      (setPadding self p).m_acm = self.m_acm ∧
      (setPadding self p).m_checked_spheres_states
        = self.m_checked_spheres_states ∧
      ∀ (state : RobotCollisionState) (gidx : Int) (dist : ℚ),
        checkSpheresStateCollisions rcm
            (checkCollision rcm (setPadding self p) state gidx dist).self
          = checkSpheresStateCollisions rcm
            (checkCollision rcm (setPadding self p') state gidx dist).self := by
  refine ⟨rfl, rfl, rfl, fun state gidx dist => ?_⟩
  rw [checkCollision_self_setPadding, checkCollision_self_setPadding]
  rfl

end collision

/-! ## Insertion into the sparse distance map -/

theorem sqrdCellDistance_eq_zero {a b : Vector3i} (h : sqrdCellDistance a b = 0) :
    a = b := by
  obtain ⟨a1, a2, a3⟩ := a
  obtain ⟨b1, b2, b3⟩ := b
  unfold sqrdCellDistance at h
  simp only at h
  have h1 := mul_self_nonneg (a1 - b1)
  have h2 := mul_self_nonneg (a2 - b2)
  have h3 := mul_self_nonneg (a3 - b3)
  have hs : (a1 - b1) * (a1 - b1) + (a2 - b2) * (a2 - b2) + (a3 - b3) * (a3 - b3) = 0 := by
    have := Int.toNat_eq_zero.mp h
    omega
  have e1 : (a1 - b1) * (a1 - b1) = 0 := by omega
  have e2 : (a2 - b2) * (a2 - b2) = 0 := by omega
  have e3 : (a3 - b3) * (a3 - b3) = 0 := by omega
  have f1 : a1 = b1 := by
    have := mul_self_eq_zero.mp e1
    omega
  have f2 : a2 = b2 := by
    have := mul_self_eq_zero.mp e2
    omega
  have f3 : a3 = b3 := by
    have := mul_self_eq_zero.mp e3
    omega
  rw [f1, f2, f3]

theorem updateVertex_length (l : List (Nat × Vector3i)) (d : Nat) (n : Vector3i) :
    (SparseDistanceMap.updateVertex l d n).length = l.length + 1 := by
  induction l with
  | nil => rfl
  | cons e es ih =>
    unfold SparseDistanceMap.updateVertex
    split
    · simp [ih]
    · simp

theorem mem_updateVertex {l : List (Nat × Vector3i)} {d : Nat} {n : Vector3i}
    {e : Nat × Vector3i} (h : e ∈ SparseDistanceMap.updateVertex l d n) :
    e = (d, n) ∨ e ∈ l := by
  induction l with
  | nil =>
    simp only [SparseDistanceMap.updateVertex, List.mem_singleton] at h
    exact Or.inl h
  | cons x xs ih =>
    unfold SparseDistanceMap.updateVertex at h
    split at h
    · rcases List.mem_cons.mp h with h | h
      · exact Or.inr (h ▸ List.mem_cons_self _ _)
      · rcases ih h with h | h
        · exact Or.inl h
        · exact Or.inr (List.mem_cons_of_mem _ h)
    · rcases List.mem_cons.mp h with h | h
      · exact Or.inl h
      · exact Or.inr h

theorem lowerNeighbor_frame (s o : Vector3i) (m : SparseDistanceMap)
    (offset : Vector3i) :
    (SparseDistanceMap.lowerNeighbor s o m offset).m_cell_count_x = m.m_cell_count_x ∧
      (SparseDistanceMap.lowerNeighbor s o m offset).m_cell_count_y
        = m.m_cell_count_y ∧
      (SparseDistanceMap.lowerNeighbor s o m offset).m_cell_count_z
        = m.m_cell_count_z ∧
      (SparseDistanceMap.lowerNeighbor s o m offset).m_dmax_sqrd_int
        = m.m_dmax_sqrd_int ∧
      (SparseDistanceMap.lowerNeighbor s o m offset).neighborOffsets
        = m.neighborOffsets := by
  unfold SparseDistanceMap.lowerNeighbor
  simp only
  split
  · split <;> exact ⟨rfl, rfl, rfl, rfl, rfl⟩
  · exact ⟨rfl, rfl, rfl, rfl, rfl⟩

theorem isCellValid_congr (m m' : SparseDistanceMap)
    (hx : m'.m_cell_count_x = m.m_cell_count_x)
    (hy : m'.m_cell_count_y = m.m_cell_count_y)
    (hz : m'.m_cell_count_z = m.m_cell_count_z) (p : Vector3i) :
    m'.isCellValid p = m.isCellValid p := by
  unfold SparseDistanceMap.isCellValid
  rw [hx, hy, hz]

theorem lowerNeighbor_sound (s o : Vector3i) (m : SparseDistanceMap)
    (offset : Vector3i) (occupied : Vector3i → Prop) (ho : occupied o)
    (hov : m.isCellValid o = true) (h : m.Sound occupied) :
    (SparseDistanceMap.lowerNeighbor s o m offset).Sound occupied := by
  obtain ⟨ha, hb, hc, hd⟩ := h
  unfold SparseDistanceMap.lowerNeighbor
  simp only
  split
  · rename_i hn
    split
    · rename_i hlt
      refine ⟨fun p hp => ?_, fun p hp hocc => ?_, fun p hp h0 => ?_, fun e he => ?_⟩
      · have hp' : m.isCellValid p = true := hp
        by_cases hpn : p = (s.1 + offset.1, s.2.1 + offset.2.1, s.2.2 + offset.2.2)
        · subst hpn
          simp only [SparseDistanceMap.setCell, if_true]
          exact ⟨le_of_lt hlt.2, Or.inr ⟨o, rfl, hov, ho, rfl⟩⟩
        · simp only [SparseDistanceMap.setCell, if_neg hpn]
          exact ha p hp'
      · have hp' : m.isCellValid p = true := hp
        by_cases hpn : p = (s.1 + offset.1, s.2.1 + offset.2.1, s.2.2 + offset.2.2)
        · subst hpn
          have := (hb _ hp' hocc).2
          omega
        · simp only [SparseDistanceMap.setCell, if_neg hpn]
          exact hb p hp' hocc
      · have hp' : m.isCellValid p = true := hp
        by_cases hpn : p = (s.1 + offset.1, s.2.1 + offset.2.1, s.2.2 + offset.2.2)
        · subst hpn
          simp only [SparseDistanceMap.setCell, if_true] at h0
          rw [sqrdCellDistance_eq_zero h0]
          exact ho
        · simp only [SparseDistanceMap.setCell, if_neg hpn] at h0
          exact hc p hp' h0
      · rcases mem_updateVertex he with rfl | he
        · exact hn
        · exact hd e he
    · exact ⟨ha, hb, hc, hd⟩
  · exact ⟨ha, hb, hc, hd⟩

theorem lowerNeighbor_foldl_sound (s o : Vector3i) (offsets : List Vector3i)
    (m : SparseDistanceMap) (occupied : Vector3i → Prop) (ho : occupied o)
    (hov : m.isCellValid o = true) (h : m.Sound occupied) :
    (offsets.foldl (SparseDistanceMap.lowerNeighbor s o) m).Sound occupied := by
  induction offsets generalizing m with
  | nil => exact h
  | cons x xs ih =>
    simp only [List.foldl_cons]
    refine ih _ ?_ (lowerNeighbor_sound s o m x occupied ho hov h)
    obtain ⟨hx, hy, hz, _, _⟩ := lowerNeighbor_frame s o m x
    rw [isCellValid_congr _ _ hx hy hz]
    exact hov

theorem lower_sound (m : SparseDistanceMap) (s : Vector3i)
    (occupied : Vector3i → Prop) (hs : m.isCellValid s = true)
    (h : m.Sound occupied) : (m.lower s).Sound occupied := by
  unfold SparseDistanceMap.lower
  split
  · exact h
  · rename_i o ho
    rcases (h.1 s hs).2 with ⟨hn, _⟩ | ⟨o', ho', hov, hocc, _⟩
    · rw [hn] at ho
      cases ho
    · rw [ho'] at ho
      have e : o' = o := Option.some.inj ho
      subst e
      exact lowerNeighbor_foldl_sound s o' _ m occupied hocc hov h

theorem propagateStep_sound (m : SparseDistanceMap) (occupied : Vector3i → Prop)
    (h : m.Sound occupied) : m.propagateStep.Sound occupied := by
  unfold SparseDistanceMap.propagateStep
  split
  · exact h
  · rename_i e es he
    have hrest : SparseDistanceMap.Sound { m with m_open := es } occupied :=
      ⟨h.1, h.2.1, h.2.2.1, fun x hx => h.2.2.2 x (he ▸ List.mem_cons_of_mem _ hx)⟩
    split
    · exact lower_sound _ e.2 occupied (h.2.2.2 e (he ▸ List.mem_cons_self _ _)) hrest
    · exact hrest

theorem propagateFuel_sound (fuel : Nat) (m : SparseDistanceMap)
    (occupied : Vector3i → Prop) (h : m.Sound occupied) :
    (SparseDistanceMap.propagateFuel fuel m).Sound occupied := by
  induction fuel generalizing m with
  | zero => exact h
  | succ fuel ih =>
    unfold SparseDistanceMap.propagateFuel
    split
    · exact h
    · exact ih _ (propagateStep_sound m occupied h)

theorem mem_cellList (m : SparseDistanceMap) (p : Vector3i) :
    p ∈ m.cellList ↔ m.isCellValid p = true := by
  obtain ⟨x, y, z⟩ := p
  simp only [SparseDistanceMap.cellList, List.mem_flatMap, List.mem_map, List.mem_range,
    SparseDistanceMap.isCellValid, Bool.and_eq_true, decide_eq_true_eq, Prod.mk.injEq]
  constructor
  · rintro ⟨a, ha, b, hb, c, hc, rfl, rfl, rfl⟩
    omega
  · rintro ⟨⟨⟨⟨⟨hx0, hx⟩, hy0⟩, hy⟩, hz0⟩, hz⟩
    exact ⟨x.toNat, by omega, y.toNat, by omega, z.toNat, by omega, by omega, by omega,
      by omega⟩

theorem cellList_nodup (m : SparseDistanceMap) : m.cellList.Nodup := by
  unfold SparseDistanceMap.cellList
  refine collision.nodup_flatMap_of_key _ _ (fun p => p.1.toNat) (List.nodup_range _) ?_ ?_
  · intro x _
    refine collision.nodup_flatMap_of_key _ _ (fun p => p.2.1.toNat) (List.nodup_range _)
      ?_ ?_
    · intro y _
      refine (List.nodup_range _).map ?_
      intro a b hab
      simp only [Prod.mk.injEq, Nat.cast_inj, true_and] at hab
      exact hab
    · intro y p hp
      simp only [List.mem_map] at hp
      obtain ⟨z, _, rfl⟩ := hp
      simp
  · intro x p hp
    simp only [List.mem_flatMap, List.mem_map] at hp
    obtain ⟨y, _, z, _, rfl⟩ := hp
    simp

theorem sum_setCell (cells : Vector3i → SparseDistanceMap.Cell) (n : Vector3i)
    (c : SparseDistanceMap.Cell) (l : List Vector3i) (hl : l.Nodup) (hn : n ∈ l) :
    (l.map fun p => (SparseDistanceMap.setCell cells n c p).dist).sum + (cells n).dist
      = (l.map fun p => (cells p).dist).sum + c.dist := by
  induction l with
  | nil => simp at hn
  | cons x xs ih =>
    have hx : x ∉ xs := (List.nodup_cons.mp hl).1
    have hxs : xs.Nodup := (List.nodup_cons.mp hl).2
    simp only [List.map_cons, List.sum_cons]
    by_cases hxn : x = n
    · subst hxn
      have hrest : (xs.map fun p => (SparseDistanceMap.setCell cells x c p).dist)
          = xs.map fun p => (cells p).dist := by
        refine List.map_congr_left fun p hp => ?_
        have : p ≠ x := fun h => hx (h ▸ hp)
        simp [SparseDistanceMap.setCell, this]
      rw [hrest]
      simp only [SparseDistanceMap.setCell, if_true]
      omega
    · have hn' : n ∈ xs := by
        rcases List.mem_cons.mp hn with h | h
        · exact absurd h.symm hxn
        · exact h
      have := ih hxs hn'
      simp only [SparseDistanceMap.setCell, if_neg hxn]
      simp only [SparseDistanceMap.setCell] at this
      omega

theorem cellList_congr (m m' : SparseDistanceMap)
    (hx : m'.m_cell_count_x = m.m_cell_count_x)
    (hy : m'.m_cell_count_y = m.m_cell_count_y)
    (hz : m'.m_cell_count_z = m.m_cell_count_z) : m'.cellList = m.cellList := by
  unfold SparseDistanceMap.cellList
  rw [hx, hy, hz]

theorem lowerNeighbor_roundsBound (s o : Vector3i) (m : SparseDistanceMap)
    (offset : Vector3i) :
    (SparseDistanceMap.lowerNeighbor s o m offset).roundsBound ≤ m.roundsBound := by
  unfold SparseDistanceMap.lowerNeighbor
  simp only
  split
  · rename_i hn
    split
    · rename_i hlt
      have hmem := (mem_cellList m _).mpr hn
      have hsum := sum_setCell m.m_cells _
        { obs := some o,
          dist := sqrdCellDistance
            (s.1 + offset.1, s.2.1 + offset.2.1, s.2.2 + offset.2.2) o,
          dir := offset } m.cellList (cellList_nodup m) hmem
      simp only at hsum
      unfold SparseDistanceMap.roundsBound
      simp only [updateVertex_length]
      have hcl : SparseDistanceMap.cellList
          { m with
            m_cells := SparseDistanceMap.setCell m.m_cells
              (s.1 + offset.1, s.2.1 + offset.2.1, s.2.2 + offset.2.2)
              { obs := some o,
                dist := sqrdCellDistance
                  (s.1 + offset.1, s.2.1 + offset.2.1, s.2.2 + offset.2.2) o,
                dir := offset }
            m_open := SparseDistanceMap.updateVertex m.m_open
              (sqrdCellDistance
                (s.1 + offset.1, s.2.1 + offset.2.1, s.2.2 + offset.2.2) o)
              (s.1 + offset.1, s.2.1 + offset.2.1, s.2.2 + offset.2.2) }
          = m.cellList := rfl
      rw [hcl]
      have h1 := hlt.1
      omega
    · exact le_refl _
  · exact le_refl _

theorem lowerNeighbor_foldl_roundsBound (s o : Vector3i) (offsets : List Vector3i)
    (m : SparseDistanceMap) :
    (offsets.foldl (SparseDistanceMap.lowerNeighbor s o) m).roundsBound
      ≤ m.roundsBound := by
  induction offsets generalizing m with
  | nil => exact le_refl _
  | cons x xs ih =>
    simp only [List.foldl_cons]
    exact le_trans (ih _) (lowerNeighbor_roundsBound s o m x)

theorem lower_roundsBound (m : SparseDistanceMap) (s : Vector3i) :
    (m.lower s).roundsBound ≤ m.roundsBound := by
  unfold SparseDistanceMap.lower
  split
  · exact le_refl _
  · exact lowerNeighbor_foldl_roundsBound s _ _ m

theorem propagateStep_roundsBound (m : SparseDistanceMap) (h : m.m_open ≠ []) :
    m.propagateStep.roundsBound < m.roundsBound := by
  unfold SparseDistanceMap.propagateStep
  split
  · rename_i he
    exact absurd he h
  · rename_i e es he
    have hpop : SparseDistanceMap.roundsBound { m with m_open := es } < m.roundsBound := by
      unfold SparseDistanceMap.roundsBound
      have hcl : SparseDistanceMap.cellList { m with m_open := es } = m.cellList := rfl
      rw [hcl, he]
      simp
    split
    · exact lt_of_le_of_lt (lower_roundsBound _ _) hpop
    · exact hpop

theorem propagateFuel_open (fuel : Nat) (m : SparseDistanceMap)
    (h : m.roundsBound ≤ fuel) :
    (SparseDistanceMap.propagateFuel fuel m).m_open = [] := by
  induction fuel generalizing m with
  | zero =>
    unfold SparseDistanceMap.propagateFuel
    unfold SparseDistanceMap.roundsBound at h
    exact List.length_eq_zero.mp (by omega)
  | succ fuel ih =>
    unfold SparseDistanceMap.propagateFuel
    split
    · rename_i he
      exact he
    · rename_i e es he
      have := propagateStep_roundsBound m (by rw [he]; exact List.cons_ne_nil _ _)
      exact ih _ (by omega)

/-- The loop of `propagate()` ends: the rounds bound is enough fuel. -/
theorem propagate_open (m : SparseDistanceMap) : m.propagate.m_open = [] :=
  propagateFuel_open _ m (le_refl _)

theorem sound_mono (m : SparseDistanceMap) (occupied occupied' : Vector3i → Prop)
    (hsub : ∀ p, occupied p → occupied' p)
    (hnew : ∀ p, m.isCellValid p = true → occupied' p → occupied p)
    (h : m.Sound occupied) : m.Sound occupied' := by
  obtain ⟨ha, hb, hc, hd⟩ := h
  refine ⟨fun p hp => ⟨(ha p hp).1, ?_⟩, fun p hp hocc => hb p hp (hnew p hp hocc),
    fun p hp h0 => hsub p (hc p hp h0), hd⟩
  rcases (ha p hp).2 with h | ⟨o, h1, h2, h3, h4⟩
  · exact Or.inl h
  · exact Or.inr ⟨o, h1, h2, hsub o h3, h4⟩

theorem addPoint_sound (m : SparseDistanceMap) (p : Vector3i)
    (occupied : Vector3i → Prop) (h : m.Sound occupied) :
    (m.addPoint p).Sound (fun q => occupied q ∨ q = p) := by
  unfold SparseDistanceMap.addPoint
  split
  · rename_i hp
    obtain ⟨ha, hb, hc, hd⟩ := h
    refine ⟨fun q hq => ?_, fun q hq hocc => ?_, fun q hq h0 => ?_, fun e he => ?_⟩
    · have hq' : m.isCellValid q = true := hq
      by_cases hqp : q = p
      · subst hqp
        simp only [SparseDistanceMap.setCell, if_true]
        exact ⟨Nat.zero_le _, Or.inr ⟨q, rfl, hp, Or.inr rfl, by
          simp [sqrdCellDistance]⟩⟩
      · simp only [SparseDistanceMap.setCell, if_neg hqp]
        refine ⟨(ha q hq').1, ?_⟩
        rcases (ha q hq').2 with h | ⟨o, h1, h2, h3, h4⟩
        · exact Or.inl h
        · exact Or.inr ⟨o, h1, h2, Or.inl h3, h4⟩
    · have hq' : m.isCellValid q = true := hq
      by_cases hqp : q = p
      · subst hqp
        simp [SparseDistanceMap.setCell]
      · simp only [SparseDistanceMap.setCell, if_neg hqp]
        rcases hocc with hocc | hocc
        · exact hb q hq' hocc
        · exact absurd hocc hqp
    · have hq' : m.isCellValid q = true := hq
      by_cases hqp : q = p
      · exact Or.inr hqp
      · simp only [SparseDistanceMap.setCell, if_neg hqp] at h0
        exact Or.inl (hc q hq' h0)
    · rcases mem_updateVertex he with rfl | he
      · exact hp
      · exact hd e he
  · rename_i hp
    refine sound_mono m occupied _ (fun q hq => Or.inl hq) ?_ h
    intro q hq hocc
    rcases hocc with hocc | hocc
    · exact hocc
    · rw [hocc] at hq
      exact absurd hq hp

theorem addPoint_foldl_sound (points : List Vector3i) (m : SparseDistanceMap)
    (occupied : Vector3i → Prop) (h : m.Sound occupied) :
    (points.foldl SparseDistanceMap.addPoint m).Sound
      (fun q => occupied q ∨ q ∈ points) := by
  induction points generalizing m occupied with
  | nil =>
    exact sound_mono m occupied _ (fun q hq => Or.inl hq)
      (fun q _ hq => hq.elim id (fun h => absurd h (List.not_mem_nil _))) h
  | cons x xs ih =>
    simp only [List.foldl_cons]
    have := ih (m.addPoint x) _ (addPoint_sound m x occupied h)
    refine sound_mono _ _ _ ?_ ?_ this
    · rintro q ((hq | hq) | hq)
      · exact Or.inl hq
      · exact Or.inr (hq ▸ List.mem_cons_self _ _)
      · exact Or.inr (List.mem_cons_of_mem _ hq)
    · rintro q _ (hq | hq)
      · exact Or.inl (Or.inl hq)
      · rcases List.mem_cons.mp hq with hq | hq
        · exact Or.inl (Or.inr hq)
        · exact Or.inr hq

theorem addPointsToMap_sound (m : SparseDistanceMap) (points : List Vector3i)
    (occupied : Vector3i → Prop) (h : m.Sound occupied) :
    (m.addPointsToMap points).Sound (fun q => occupied q ∨ q ∈ points) :=
  propagateFuel_sound _ _ _ (addPoint_foldl_sound points m occupied h)

theorem lowerNeighbor_foldl_frame (s o : Vector3i) (offsets : List Vector3i)
    (m : SparseDistanceMap) :
    (offsets.foldl (SparseDistanceMap.lowerNeighbor s o) m).m_cell_count_x
        = m.m_cell_count_x ∧
      (offsets.foldl (SparseDistanceMap.lowerNeighbor s o) m).m_cell_count_y
        = m.m_cell_count_y ∧
      (offsets.foldl (SparseDistanceMap.lowerNeighbor s o) m).m_cell_count_z
        = m.m_cell_count_z ∧
      (offsets.foldl (SparseDistanceMap.lowerNeighbor s o) m).m_dmax_sqrd_int
        = m.m_dmax_sqrd_int := by
  induction offsets generalizing m with
  | nil => exact ⟨rfl, rfl, rfl, rfl⟩
  | cons x xs ih =>
    simp only [List.foldl_cons]
    obtain ⟨h1, h2, h3, h4, _⟩ := lowerNeighbor_frame s o m x
    obtain ⟨i1, i2, i3, i4⟩ := ih (SparseDistanceMap.lowerNeighbor s o m x)
    exact ⟨i1.trans h1, i2.trans h2, i3.trans h3, i4.trans h4⟩

theorem create_sound (cell_count_x cell_count_y cell_count_z dmax_int : Nat)
    (neighborOffsets : Vector3i → List Vector3i) (hd : 0 < dmax_int) :
    (SparseDistanceMap.create cell_count_x cell_count_y cell_count_z dmax_int
      neighborOffsets).Sound (fun _ => False) := by
  refine ⟨fun p _ => ⟨le_refl _, Or.inl ⟨rfl, rfl⟩⟩, fun p _ h => absurd h id,
    fun p _ h0 => ?_, fun e he => absurd he (List.not_mem_nil _)⟩
  have : dmax_int * dmax_int = 0 := h0
  have := Nat.mul_pos hd hd
  omega

/-! ## The sparse distance map under all three calls -/

theorem setCell_same (cells : Vector3i → SparseDistanceMap.Cell) (n : Vector3i)
    (c : SparseDistanceMap.Cell) : SparseDistanceMap.setCell cells n c n = c := by
  simp [SparseDistanceMap.setCell]

theorem setCell_other (cells : Vector3i → SparseDistanceMap.Cell) (n p : Vector3i)
    (c : SparseDistanceMap.Cell) (h : p ≠ n) :
    SparseDistanceMap.setCell cells n c p = cells p := by
  simp [SparseDistanceMap.setCell, h]

theorem sqrdCellDistance_self (a : Vector3i) : sqrdCellDistance a a = 0 := by
  simp [sqrdCellDistance]

theorem updateVertex_mem_self (l : List (Nat × Vector3i)) (d : Nat) (n : Vector3i) :
    (d, n) ∈ SparseDistanceMap.updateVertex l d n := by
  induction l with
  | nil => simp [SparseDistanceMap.updateVertex]
  | cons e es ih =>
    unfold SparseDistanceMap.updateVertex
    split
    · exact List.mem_cons_of_mem _ ih
    · exact List.mem_cons_self _ _

theorem updateVertex_mem_of_mem {l : List (Nat × Vector3i)} (d : Nat) (n : Vector3i)
    {e : Nat × Vector3i} (h : e ∈ l) : e ∈ SparseDistanceMap.updateVertex l d n := by
  induction l with
  | nil => exact absurd h (List.not_mem_nil _)
  | cons x xs ih =>
    unfold SparseDistanceMap.updateVertex
    split
    · rcases List.mem_cons.mp h with h | h
      · exact h ▸ List.mem_cons_self _ _
      · exact List.mem_cons_of_mem _ (ih h)
    · exact List.mem_cons_of_mem _ h

/-- A cell of the grid that names itself stores the distance 0. -/
theorem labelled_obstacle_dist {m : SparseDistanceMap} {ever : Vector3i → Prop}
    (h : m.Labelled ever) {o : Vector3i} (ho : m.isCellValid o = true)
    (hobs : (m.m_cells o).obs = some o) : (m.m_cells o).dist = 0 := by
  rcases h.2.1 o ho with ⟨hn, _⟩ | ⟨o', ho', _, _, hd, _⟩
  · rw [hn] at hobs
    cases hobs
  · rw [ho'] at hobs
    cases hobs
    rw [hd, sqrdCellDistance_self]

/-- The distance that a cell of the grid stores for the obstacle it names. -/
theorem labelled_dist_eq {m : SparseDistanceMap} {ever : Vector3i → Prop}
    (h : m.Labelled ever) {p o : Vector3i} (hp : m.isCellValid p = true)
    (hobs : (m.m_cells p).obs = some o) :
    m.isCellValid o = true ∧ ever o ∧ (m.m_cells p).dist = sqrdCellDistance p o ∧
      (m.m_cells p).dist < m.m_dmax_sqrd_int := by
  rcases h.2.1 p hp with ⟨hn, _⟩ | ⟨o', ho', h1, h2, h3, h4⟩
  · rw [hn] at hobs
    cases hobs
  · rw [ho'] at hobs
    cases hobs
    exact ⟨h1, h2, h3, h4⟩

/-- The step of `lowerNeighbor` that writes a cell keeps the invariants. -/
theorem consistent_lowerCell (m : SparseDistanceMap)
    (occupied ever hole raised : Vector3i → Prop) (n o dir : Vector3i)
    (h : m.Consistent occupied ever hole raised) (hn : m.isCellValid n = true)
    (ho : m.isCellValid o = true) (hev : ever o)
    (hobs : (m.m_cells o).obs = some o)
    (h1 : sqrdCellDistance n o < (m.m_cells n).dist)
    (h2 : sqrdCellDistance n o < m.m_dmax_sqrd_int) :
    SparseDistanceMap.Consistent
      { m with
        m_cells := SparseDistanceMap.setCell m.m_cells n
          { obs := some o, dist := sqrdCellDistance n o, dir := dir }
        m_open := SparseDistanceMap.updateVertex m.m_open (sqrdCellDistance n o) n }
      occupied ever hole raised := by
  obtain ⟨hl, hocc, hh⟩ := h
  have hodist := labelled_obstacle_dist hl ho hobs
  have hon : o ≠ n := by
    rintro rfl
    omega
  have hnobst : (m.m_cells n).obs ≠ some n := by
    intro hc
    have := labelled_obstacle_dist hl hn hc
    omega
  refine ⟨⟨hl.1, fun p hp => ?_, fun e he => ?_, hl.2.2.2⟩, fun p hp => ?_,
    fun s hs os hos => ?_⟩
  · have hp' : m.isCellValid p = true := hp
    by_cases hpn : p = n
    · subst hpn
      exact Or.inr ⟨o, by simp [SparseDistanceMap.setCell], ho, hev,
        by simp [SparseDistanceMap.setCell], by simpa [SparseDistanceMap.setCell] using h2⟩
    · simp only [setCell_other _ _ _ _ hpn]
      exact hl.2.1 p hp'
  · have hmem := mem_updateVertex he
    have hval : m.isCellValid e.2 = true := by
      rcases hmem with rfl | he'
      · exact hn
      · exact (hl.2.2.1 e he').1
    refine ⟨hval, fun oe hoe => ?_⟩
    by_cases hen : e.2 = n
    · rw [hen] at hoe
      simp only [setCell_same] at hoe
      cases hoe
      simp only [setCell_other _ _ _ _ hon]
      exact hobs
    · simp only [setCell_other _ _ _ _ hen] at hoe
      have he' : e ∈ m.m_open := by
        rcases hmem with rfl | he'
        · exact absurd rfl hen
        · exact he'
      have hv := (hl.2.2.1 e he').2 oe hoe
      have hoen : oe ≠ n := by
        rintro rfl
        exact hnobst hv
      simp only [setCell_other _ _ _ _ hoen]
      exact hv
  · have hp' : m.isCellValid p = true := hp
    by_cases hpn : p = n
    · subst hpn
      simp only [setCell_same]
      constructor
      · intro hc
        cases hc
        exact absurd rfl hon
      · intro hc
        exact absurd ((hocc p hp').mpr hc) hnobst
    · simp only [setCell_other _ _ _ _ hpn]
      exact hocc p hp'
  · have hs' : m.isCellValid s = true := hs
    by_cases hsn : s = n
    · subst hsn
      right; left
      simp only [setCell_same]
      exact updateVertex_mem_self _ _ _
    · simp only [setCell_other _ _ _ _ hsn] at hos ⊢
      rcases hh s hs' os hos with h | h | h
      · exact Or.inl h
      · exact Or.inr (Or.inl (updateVertex_mem_of_mem _ _ h))
      · refine Or.inr (Or.inr fun offset hoff hv => ?_)
        rcases h offset hoff hv with h | h | h | h
        · exact Or.inl h
        · exact Or.inr (Or.inl h)
        · refine Or.inr (Or.inr (Or.inl ?_))
          by_cases hnn : neighborCell s offset = n
          · rw [hnn] at h ⊢
            simp only [setCell_same]
            omega
          · simp only [setCell_other _ _ _ _ hnn]
            exact h
        · exact Or.inr (Or.inr (Or.inr h))

/-- The step of `addPoint` that writes a cell keeps the invariants, with one
more occupied cell. -/
theorem consistent_addCell (m : SparseDistanceMap)
    (occupied ever hole raised : Vector3i → Prop) (p : Vector3i)
    (h : m.Consistent occupied ever hole raised) (hp : m.isCellValid p = true) :
    SparseDistanceMap.Consistent
      { m with
        m_cells := SparseDistanceMap.setCell m.m_cells p
          { obs := some p, dist := 0, dir := (0, 0, 0) }
        m_open := SparseDistanceMap.updateVertex m.m_open 0 p }
      (fun q => occupied q ∨ q = p) (fun q => ever q ∨ q = p) hole raised := by
  obtain ⟨hl, hocc, hh⟩ := h
  refine ⟨⟨hl.1, fun q hq => ?_, fun e he => ?_, hl.2.2.2⟩, fun q hq => ?_,
    fun s hs os hos => ?_⟩
  · have hq' : m.isCellValid q = true := hq
    by_cases hqp : q = p
    · subst hqp
      exact Or.inr ⟨q, by simp [SparseDistanceMap.setCell], hp, Or.inr rfl,
        by simp [SparseDistanceMap.setCell, sqrdCellDistance_self],
        by simpa [SparseDistanceMap.setCell] using hl.1⟩
    · simp only [setCell_other _ _ _ _ hqp]
      rcases hl.2.1 q hq' with h | ⟨o, h1, h2, h3, h4, h5⟩
      · exact Or.inl h
      · exact Or.inr ⟨o, h1, h2, Or.inl h3, h4, h5⟩
  · have hmem := mem_updateVertex he
    have hval : m.isCellValid e.2 = true := by
      rcases hmem with rfl | he'
      · exact hp
      · exact (hl.2.2.1 e he').1
    refine ⟨hval, fun oe hoe => ?_⟩
    by_cases hoep : oe = p
    · subst hoep
      simp only [setCell_same]
    · simp only [setCell_other _ _ _ _ hoep]
      by_cases hep : e.2 = p
      · rw [hep] at hoe
        simp only [setCell_same] at hoe
        cases hoe
        exact absurd rfl hoep
      · simp only [setCell_other _ _ _ _ hep] at hoe
        have he' : e ∈ m.m_open := by
          rcases hmem with rfl | he'
          · exact absurd rfl hep
          · exact he'
        exact (hl.2.2.1 e he').2 oe hoe
  · have hq' : m.isCellValid q = true := hq
    by_cases hqp : q = p
    · subst hqp
      exact ⟨fun _ => Or.inr rfl, fun _ => by simp [SparseDistanceMap.setCell]⟩
    · simp only [setCell_other _ _ _ _ hqp]
      rw [hocc q hq']
      exact ⟨fun h => Or.inl h, fun h => h.elim id (fun h => absurd h hqp)⟩
  · have hs' : m.isCellValid s = true := hs
    by_cases hsp : s = p
    · subst hsp
      right; left
      simp only [setCell_same]
      exact updateVertex_mem_self _ _ _
    · simp only [setCell_other _ _ _ _ hsp] at hos ⊢
      rcases hh s hs' os hos with h | h | h
      · exact Or.inl h
      · exact Or.inr (Or.inl (updateVertex_mem_of_mem _ _ h))
      · refine Or.inr (Or.inr fun offset hoff hv => ?_)
        rcases h offset hoff hv with h | h | h | h
        · exact Or.inl h
        · exact Or.inr (Or.inl h)
        · refine Or.inr (Or.inr (Or.inl ?_))
          by_cases hnn : neighborCell s offset = p
          · rw [hnn]
            simp only [setCell_same]
            exact Nat.zero_le _
          · simp only [setCell_other _ _ _ _ hnn]
            exact h
        · exact Or.inr (Or.inr (Or.inr h))

/-- Raising a cell keeps the invariants, the cell being occupied no longer,
when the open list is empty or the cell is no obstacle. -/
theorem consistent_raiseCell (m : SparseDistanceMap)
    (occupied ever hole raised : Vector3i → Prop) (n : Vector3i)
    (h : m.Consistent occupied ever hole raised) (hn : m.isCellValid n = true)
    (hx : m.m_open = [] ∨ (m.m_cells n).obs ≠ some n) :
    (m.raiseCell n).Consistent (fun q => occupied q ∧ q ≠ n) ever hole raised := by
  obtain ⟨hl, hocc, hh⟩ := h
  unfold SparseDistanceMap.raiseCell
  refine ⟨⟨hl.1, fun q hq => ?_, fun e he => ?_, fun s hs => ?_⟩, fun q hq => ?_,
    fun s hs os hos => ?_⟩
  · have hq' : m.isCellValid q = true := hq
    by_cases hqn : q = n
    · subst hqn
      exact Or.inl ⟨by simp [SparseDistanceMap.setCell],
        by simp [SparseDistanceMap.setCell]⟩
    · simp only [setCell_other _ _ _ _ hqn]
      exact hl.2.1 q hq'
  · have he' : e ∈ m.m_open := he
    refine ⟨(hl.2.2.1 e he').1, fun oe hoe => ?_⟩
    have hen : e.2 ≠ n := by
      intro hen
      rw [hen] at hoe
      simp only [setCell_same] at hoe
      cases hoe
    simp only [setCell_other _ _ _ _ hen] at hoe
    have hv := (hl.2.2.1 e he').2 oe hoe
    have hoen : oe ≠ n := by
      rintro rfl
      rcases hx with hx | hx
      · rw [hx] at he'
        exact absurd he' (List.not_mem_nil _)
      · exact hx hv
    simp only [setCell_other _ _ _ _ hoen]
    exact hv
  · rcases List.mem_cons.mp hs with rfl | hs
    · exact hn
    · exact hl.2.2.2 s hs
  · have hq' : m.isCellValid q = true := hq
    by_cases hqn : q = n
    · subst hqn
      exact ⟨fun hc => by simp [SparseDistanceMap.setCell] at hc,
        fun hc => absurd rfl hc.2⟩
    · simp only [setCell_other _ _ _ _ hqn]
      rw [hocc q hq']
      exact ⟨fun h => ⟨h, hqn⟩, fun h => h.1⟩
  · have hs' : m.isCellValid s = true := hs
    by_cases hsn : s = n
    · subst hsn
      simp only [setCell_same] at hos
      cases hos
    · simp only [setCell_other _ _ _ _ hsn] at hos ⊢
      rcases hh s hs' os hos with h | h | h
      · exact Or.inl h
      · exact Or.inr (Or.inl h)
      · refine Or.inr (Or.inr fun offset hoff hv => ?_)
        by_cases hnn : neighborCell s offset = n
        · exact Or.inr (Or.inl (hnn ▸ List.mem_cons_self _ _))
        · simp only [setCell_other _ _ _ _ hnn]
          rcases h offset hoff hv with h | h | h | h
          · exact Or.inl h
          · exact Or.inr (Or.inl (List.mem_cons_of_mem _ h))
          · exact Or.inr (Or.inr (Or.inl h))
          · exact Or.inr (Or.inr (Or.inr h))

/-- Putting a cell on the open list keeps the invariants when the obstacle it
names, if any, is an obstacle still. -/
theorem consistent_waveout (m : SparseDistanceMap)
    (occupied ever hole raised : Vector3i → Prop) (n : Vector3i)
    (h : m.Consistent occupied ever hole raised) (hn : m.isCellValid n = true)
    (hlab : ∀ o, (m.m_cells n).obs = some o → (m.m_cells o).obs = some o) :
    (m.waveout n).Consistent occupied ever hole raised := by
  obtain ⟨hl, hocc, hh⟩ := h
  unfold SparseDistanceMap.waveout
  refine ⟨⟨hl.1, hl.2.1, fun e he => ?_, hl.2.2.2⟩, hocc, fun s hs os hos => ?_⟩
  · rcases mem_updateVertex he with rfl | he'
    · exact ⟨hn, hlab⟩
    · exact hl.2.2.1 e he'
  · rcases hh s hs os hos with h | h | h
    · exact Or.inl h
    · exact Or.inr (Or.inl (updateVertex_mem_of_mem _ _ h))
    · exact Or.inr (Or.inr h)

/-- Taking the first entry off the open list keeps the invariants when the
cell of the entry, if the entry is in the bucket of its distance, is exempt. -/
theorem consistent_pop_open (m : SparseDistanceMap)
    (occupied ever hole raised : Vector3i → Prop) (e : Nat × Vector3i)
    (es : List (Nat × Vector3i)) (h : m.Consistent occupied ever hole raised)
    (he : m.m_open = e :: es) :
    SparseDistanceMap.Consistent { m with m_open := es } occupied ever
      (fun s => hole s ∨ (s = e.2 ∧ (m.m_cells s).dist = e.1)) raised := by
  obtain ⟨hl, hocc, hh⟩ := h
  refine ⟨⟨hl.1, hl.2.1, fun x hx => hl.2.2.1 x (he ▸ List.mem_cons_of_mem _ hx),
    hl.2.2.2⟩, hocc, fun s hs os hos => ?_⟩
  rcases hh s hs os hos with h | h | h
  · exact Or.inl (Or.inl h)
  · rw [he] at h
    rcases List.mem_cons.mp h with h | h
    · exact Or.inl (Or.inr ⟨by rw [← h], by rw [← h]⟩)
    · exact Or.inr (Or.inl h)
  · exact Or.inr (Or.inr h)

/-- Taking the top off the raise stack keeps the invariants when the cell taken
off counts as raised. -/
theorem consistent_pop_stack (m : SparseDistanceMap)
    (occupied ever hole raised : Vector3i → Prop) (c : Vector3i)
    (rest : List Vector3i) (h : m.Consistent occupied ever hole raised)
    (hc : m.m_rem_stack = c :: rest) :
    SparseDistanceMap.Consistent { m with m_rem_stack := rest } occupied ever hole
      (fun n => raised n ∨ n = c) := by
  obtain ⟨hl, hocc, hh⟩ := h
  refine ⟨⟨hl.1, hl.2.1, hl.2.2.1,
    fun x hx => hl.2.2.2 x (hc ▸ List.mem_cons_of_mem _ hx)⟩, hocc,
    fun s hs os hos => ?_⟩
  rcases hh s hs os hos with h | h | h
  · exact Or.inl h
  · exact Or.inr (Or.inl h)
  · refine Or.inr (Or.inr fun offset hoff hv => ?_)
    rcases h offset hoff hv with h | h | h | h
    · exact Or.inl (Or.inl h)
    · rw [hc] at h
      rcases List.mem_cons.mp h with h | h
      · exact Or.inl (Or.inr h)
      · exact Or.inr (Or.inl h)
    · exact Or.inr (Or.inr (Or.inl h))
    · exact Or.inr (Or.inr (Or.inr h))

/-- The invariants depend on the sets only through their members. -/
theorem consistent_congr (m : SparseDistanceMap)
    (occupied occupied' ever ever' hole hole' raised raised' : Vector3i → Prop)
    (hocc : ∀ p, m.isCellValid p = true → (occupied p ↔ occupied' p))
    (hev : ∀ p, ever p → ever' p) (hhole : ∀ p, hole p → hole' p)
    (hraised : ∀ p, raised p → raised' p)
    (h : m.Consistent occupied ever hole raised) :
    m.Consistent occupied' ever' hole' raised' := by
  obtain ⟨hl, ho, hh⟩ := h
  refine ⟨⟨hl.1, fun p hp => ?_, hl.2.2.1, hl.2.2.2⟩,
    fun p hp => (ho p hp).trans (hocc p hp), fun s hs os hos => ?_⟩
  · rcases hl.2.1 p hp with h | ⟨o, h1, h2, h3, h4, h5⟩
    · exact Or.inl h
    · exact Or.inr ⟨o, h1, h2, hev o h3, h4, h5⟩
  · rcases hh s hs os hos with h | h | h
    · exact Or.inl (hhole s h)
    · exact Or.inr (Or.inl h)
    · refine Or.inr (Or.inr fun offset hoff hv => ?_)
      rcases h offset hoff hv with h | h
      · exact Or.inl (hraised _ h)
      · exact Or.inr h

/-- What `lowerNeighbor` does: nothing, or it writes the neighbour, which lies
in the grid, is nearer to `o` than the distance it stored and nearer than
`m_dmax_sqrd_int`. -/
theorem lowerNeighbor_cases (s o : Vector3i) (m : SparseDistanceMap)
    (offset : Vector3i) :
    SparseDistanceMap.lowerNeighbor s o m offset = m ∨
      (m.isCellValid (neighborCell s offset) = true ∧
        sqrdCellDistance (neighborCell s offset) o
          < (m.m_cells (neighborCell s offset)).dist ∧
        sqrdCellDistance (neighborCell s offset) o < m.m_dmax_sqrd_int ∧
        SparseDistanceMap.lowerNeighbor s o m offset =
          { m with
            m_cells := SparseDistanceMap.setCell m.m_cells (neighborCell s offset)
              { obs := some o, dist := sqrdCellDistance (neighborCell s offset) o,
                dir := offset }
            m_open := SparseDistanceMap.updateVertex m.m_open
              (sqrdCellDistance (neighborCell s offset) o) (neighborCell s offset) }) := by
  unfold SparseDistanceMap.lowerNeighbor neighborCell
  simp only
  split
  · rename_i hn
    split
    · rename_i hlt
      exact Or.inr ⟨hn, hlt.1, hlt.2, rfl⟩
    · exact Or.inl rfl
  · exact Or.inl rfl

theorem lowerNeighbor_consistent (s o : Vector3i) (m : SparseDistanceMap)
    (offset : Vector3i) (occupied ever hole raised : Vector3i → Prop)
    (h : m.Consistent occupied ever hole raised) (ho : m.isCellValid o = true)
    (hev : ever o) (hobs : (m.m_cells o).obs = some o) :
    (SparseDistanceMap.lowerNeighbor s o m offset).Consistent occupied ever hole
      raised := by
  rcases lowerNeighbor_cases s o m offset with e | ⟨hn, h1, h2, e⟩
  · rw [e]
    exact h
  · rw [e]
    exact consistent_lowerCell m occupied ever hole raised _ o offset h hn ho hev hobs
      h1 h2

/-- What `lowerNeighbor` leaves as it is, and what the neighbour stores
afterwards. -/
theorem lowerNeighbor_keeps (s o : Vector3i) (m : SparseDistanceMap)
    (offset : Vector3i) :
    (∀ p, ((SparseDistanceMap.lowerNeighbor s o m offset).m_cells p).dist
        ≤ (m.m_cells p).dist) ∧
      (∀ p, (m.m_cells p).dist ≤ sqrdCellDistance p o →
        (SparseDistanceMap.lowerNeighbor s o m offset).m_cells p = m.m_cells p) ∧
      (m.isCellValid (neighborCell s offset) = true →
        ((SparseDistanceMap.lowerNeighbor s o m offset).m_cells
            (neighborCell s offset)).dist
          ≤ sqrdCellDistance (neighborCell s offset) o ∨
        m.m_dmax_sqrd_int ≤ sqrdCellDistance (neighborCell s offset) o) ∧
      (SparseDistanceMap.lowerNeighbor s o m offset).m_rem_stack = m.m_rem_stack := by
  rcases lowerNeighbor_cases s o m offset with e | ⟨hn, h1, h2, e⟩
  · rw [e]
    refine ⟨fun p => le_refl _, fun p _ => rfl, fun hn => ?_, rfl⟩
    by_contra hc
    push_neg at hc
    have : SparseDistanceMap.lowerNeighbor s o m offset ≠ m := by
      unfold SparseDistanceMap.lowerNeighbor
      simp only
      have hn' : m.isCellValid (s.1 + offset.1, s.2.1 + offset.2.1, s.2.2 + offset.2.2)
          = true := hn
      rw [if_pos hn', if_pos ⟨hc.1, hc.2⟩]
      intro heq
      have := congrArg (fun x => (x.m_cells (neighborCell s offset)).dist) heq
      simp only [neighborCell, SparseDistanceMap.setCell, if_true] at this
      have h3 := hc.1
      simp only [neighborCell] at h3
      omega
    exact this e
  · rw [e]
    refine ⟨fun p => ?_, fun p hp => ?_, fun _ => Or.inl ?_, rfl⟩
    · by_cases hpn : p = neighborCell s offset
      · rw [hpn]
        simp only [setCell_same]
        exact le_of_lt h1
      · simp only [setCell_other _ _ _ _ hpn]
        exact le_refl _
    · have hpn : p ≠ neighborCell s offset := by
        rintro rfl
        omega
      simp only [setCell_other _ _ _ _ hpn]
    · simp only [setCell_same]
      exact le_refl _

theorem lowerNeighbor_valid (s o : Vector3i) (m : SparseDistanceMap)
    (offset p : Vector3i) :
    (SparseDistanceMap.lowerNeighbor s o m offset).isCellValid p = m.isCellValid p := by
  obtain ⟨hx, hy, hz, _, _⟩ := lowerNeighbor_frame s o m offset
  exact isCellValid_congr _ _ hx hy hz p

/-- The loop of `lower` keeps the invariants, leaves the cells alone that are
no farther from `o` than the distance they store, and leaves every neighbour it
has visited with a distance of at most the squared distance to `o`, unless that
is `m_dmax_sqrd_int` or more. -/
theorem lowerNeighbor_foldl_consistent (s o : Vector3i) (offsets : List Vector3i)
    (m : SparseDistanceMap) (occupied ever hole raised : Vector3i → Prop)
    (h : m.Consistent occupied ever hole raised) (ho : m.isCellValid o = true)
    (hev : ever o) (hobs : (m.m_cells o).obs = some o) :
    (offsets.foldl (SparseDistanceMap.lowerNeighbor s o) m).Consistent occupied ever
        hole raised ∧
      (∀ p, ((offsets.foldl (SparseDistanceMap.lowerNeighbor s o) m).m_cells p).dist
        ≤ (m.m_cells p).dist) ∧
      (∀ p, (m.m_cells p).dist ≤ sqrdCellDistance p o →
        (offsets.foldl (SparseDistanceMap.lowerNeighbor s o) m).m_cells p
          = m.m_cells p) ∧
      (∀ offset ∈ offsets, m.isCellValid (neighborCell s offset) = true →
        ((offsets.foldl (SparseDistanceMap.lowerNeighbor s o) m).m_cells
            (neighborCell s offset)).dist
          ≤ sqrdCellDistance (neighborCell s offset) o ∨
        m.m_dmax_sqrd_int ≤ sqrdCellDistance (neighborCell s offset) o) ∧
      (offsets.foldl (SparseDistanceMap.lowerNeighbor s o) m).m_rem_stack
        = m.m_rem_stack := by
  induction offsets generalizing m with
  | nil =>
    exact ⟨h, fun p => le_refl _, fun p _ => rfl,
      fun x hx => absurd hx (List.not_mem_nil _), rfl⟩
  | cons x xs ih =>
    simp only [List.foldl_cons]
    obtain ⟨k1, k2, k3, k4⟩ := lowerNeighbor_keeps s o m x
    have hodist := labelled_obstacle_dist h.1 ho hobs
    have hocell : (SparseDistanceMap.lowerNeighbor s o m x).m_cells o = m.m_cells o :=
      k2 o (by rw [hodist]; exact Nat.zero_le _)
    obtain ⟨i0, i1, i2, i3, i4⟩ := ih (SparseDistanceMap.lowerNeighbor s o m x)
      (lowerNeighbor_consistent s o m x occupied ever hole raised h ho hev hobs)
      (by rw [lowerNeighbor_valid]; exact ho) (by rw [hocell]; exact hobs)
    obtain ⟨_, _, _, hdm, _⟩ := lowerNeighbor_frame s o m x
    refine ⟨i0, fun p => le_trans (i1 p) (k1 p), fun p hp => ?_, fun off hoff hv => ?_,
      i4.trans k4⟩
    · have e1 := k2 p hp
      rw [i2 p (by rw [e1]; exact hp), e1]
    · rcases List.mem_cons.mp hoff with rfl | hoff
      · rcases k3 hv with h3 | h3
        · exact Or.inl (le_trans (i1 _) h3)
        · exact Or.inr h3
      · have := i3 off hoff (by rw [lowerNeighbor_valid]; exact hv)
        rw [hdm] at this
        exact this

/-- Member `lower` keeps the invariants and takes the cell it works on out of
the exempt cells, when the obstacle that the cell names is an obstacle
still. -/
theorem lower_consistent (m : SparseDistanceMap) (s : Vector3i)
    (occupied ever hole raised : Vector3i → Prop)
    (h : m.Consistent occupied ever (fun t => hole t ∨ t = s) raised)
    (hs : m.isCellValid s = true)
    (hlive : ∀ o, (m.m_cells s).obs = some o → (m.m_cells o).obs = some o) :
    (m.lower s).Consistent occupied ever hole raised := by
  unfold SparseDistanceMap.lower
  split
  · rename_i hnone
    refine ⟨h.1, h.2.1, fun t ht ot hot => ?_⟩
    rcases h.2.2 t ht ot hot with (h1 | h1) | h1
    · exact Or.inl h1
    · rw [h1, hnone] at hot
      cases hot
    · exact Or.inr h1
  · rename_i o hso
    obtain ⟨hov, hev, hsd, _⟩ := labelled_dist_eq h.1 hs hso
    obtain ⟨i0, i1, i2, i3, i4⟩ := lowerNeighbor_foldl_consistent s o
      (m.neighborOffsets (m.m_cells s).dir) m occupied ever _ raised h hov hev
      (hlive o hso)
    obtain ⟨fx, fy, fz, fd⟩ := lowerNeighbor_foldl_frame s o
      (m.neighborOffsets (m.m_cells s).dir) m
    have hcell := i2 s (le_of_eq hsd)
    have htable : ∀ (l : List Vector3i) (m : SparseDistanceMap),
        (l.foldl (SparseDistanceMap.lowerNeighbor s o) m).neighborOffsets
          = m.neighborOffsets := by
      intro l
      induction l with
      | nil => exact fun _ => rfl
      | cons x xs ih =>
        intro m
        simp only [List.foldl_cons]
        rw [ih, (lowerNeighbor_frame s o m x).2.2.2.2]
    refine ⟨i0.1, i0.2.1, fun t ht ot hot => ?_⟩
    rcases i0.2.2 t ht ot hot with (h1 | h1) | h1
    · exact Or.inl h1
    · subst h1
      rw [hcell, hso] at hot
      cases hot
      refine Or.inr (Or.inr fun offset hoff hv => ?_)
      rw [htable, hcell] at hoff
      rw [isCellValid_congr _ _ fx fy fz] at hv
      rw [fd]
      exact Or.inr (Or.inr (i3 offset hoff hv))
    · exact Or.inr h1

theorem propagateStep_consistent (m : SparseDistanceMap)
    (occupied ever hole raised : Vector3i → Prop)
    (h : m.Consistent occupied ever hole raised) :
    m.propagateStep.Consistent occupied ever hole raised := by
  unfold SparseDistanceMap.propagateStep
  split
  · exact h
  · rename_i e es he
    have hpop := consistent_pop_open m occupied ever hole raised e es h he
    have hlive := h.1.2.2.1 e (he ▸ List.mem_cons_self _ _)
    split
    · refine lower_consistent _ e.2 occupied ever hole raised ?_ hlive.1 hlive.2
      exact consistent_congr _ _ _ _ _ _ _ _ _ (fun _ _ => Iff.rfl) (fun _ h => h)
        (fun p hp => hp.elim Or.inl (fun hp => Or.inr hp.1)) (fun _ h => h) hpop
    · rename_i hne
      exact consistent_congr _ _ _ _ _ _ _ _ _ (fun _ _ => Iff.rfl) (fun _ h => h)
        (fun p hp => hp.elim id (fun hp => absurd (hp.1 ▸ hp.2) hne)) (fun _ h => h)
        hpop

theorem propagateFuel_consistent (fuel : Nat) (m : SparseDistanceMap)
    (occupied ever hole raised : Vector3i → Prop)
    (h : m.Consistent occupied ever hole raised) :
    (SparseDistanceMap.propagateFuel fuel m).Consistent occupied ever hole raised := by
  induction fuel generalizing m with
  | zero => exact h
  | succ fuel ih =>
    unfold SparseDistanceMap.propagateFuel
    split
    · exact h
    · exact ih _ (propagateStep_consistent m occupied ever hole raised h)

theorem addPoint_consistent (m : SparseDistanceMap) (p : Vector3i)
    (occupied ever hole raised : Vector3i → Prop)
    (h : m.Consistent occupied ever hole raised) :
    (m.addPoint p).Consistent (fun q => occupied q ∨ q = p) (fun q => ever q ∨ q = p)
      hole raised := by
  unfold SparseDistanceMap.addPoint
  split
  · rename_i hp
    exact consistent_addCell m occupied ever hole raised p h hp
  · rename_i hp
    refine consistent_congr m occupied _ ever _ hole hole raised raised ?_
      (fun _ h => Or.inl h) (fun _ h => h) (fun _ h => h) h
    intro q hq
    refine ⟨fun h => Or.inl h, fun h => h.elim id fun hqp => ?_⟩
    rw [hqp] at hq
    exact absurd hq hp

theorem addPoint_foldl_consistent (points : List Vector3i) (m : SparseDistanceMap)
    (occupied ever hole raised : Vector3i → Prop)
    (h : m.Consistent occupied ever hole raised) :
    (points.foldl SparseDistanceMap.addPoint m).Consistent
      (fun q => occupied q ∨ q ∈ points) (fun q => ever q ∨ q ∈ points) hole raised := by
  induction points generalizing m occupied ever with
  | nil =>
    exact consistent_congr m occupied _ ever _ hole hole raised raised
      (fun q _ => ⟨fun h => Or.inl h,
        fun h => h.elim id (fun h => absurd h (List.not_mem_nil _))⟩)
      (fun _ h => Or.inl h) (fun _ h => h) (fun _ h => h) h
  | cons x xs ih =>
    simp only [List.foldl_cons]
    have := ih (m.addPoint x) _ _ (addPoint_consistent m x occupied ever hole raised h)
    refine consistent_congr _ _ _ _ _ hole hole raised raised ?_ ?_ (fun _ h => h)
      (fun _ h => h) this
    · intro q _
      simp only [List.mem_cons]
      tauto
    · intro q
      simp only [List.mem_cons]
      tauto

theorem propagate_consistent (m : SparseDistanceMap)
    (occupied ever hole raised : Vector3i → Prop)
    (h : m.Consistent occupied ever hole raised) :
    m.propagate.Consistent occupied ever hole raised :=
  propagateFuel_consistent _ m occupied ever hole raised h

theorem addPointsToMap_consistent (m : SparseDistanceMap) (points : List Vector3i)
    (occupied ever hole raised : Vector3i → Prop)
    (h : m.Consistent occupied ever hole raised) :
    (m.addPointsToMap points).Consistent (fun q => occupied q ∨ q ∈ points)
      (fun q => ever q ∨ q ∈ points) hole raised :=
  propagate_consistent _ _ _ _ _ (addPoint_foldl_consistent points m occupied ever hole
    raised h)

theorem removePoint_consistent (m : SparseDistanceMap) (p : Vector3i)
    (occupied ever hole raised : Vector3i → Prop)
    (h : m.Consistent occupied ever hole raised) (hopen : m.m_open = []) :
    (m.removePoint p).Consistent (fun q => occupied q ∧ q ≠ p) ever hole raised ∧
      (m.removePoint p).m_open = [] := by
  unfold SparseDistanceMap.removePoint
  split
  · rename_i hp
    exact ⟨consistent_raiseCell m occupied ever hole raised p h hp (Or.inl hopen), hopen⟩
  · rename_i hp
    refine ⟨consistent_congr m occupied _ ever ever hole hole raised raised ?_
      (fun _ h => h) (fun _ h => h) (fun _ h => h) h, hopen⟩
    intro q hq
    refine ⟨fun h => ⟨h, fun hqp => ?_⟩, fun h => h.1⟩
    rw [hqp] at hq
    exact absurd hq hp

theorem removePoint_foldl_consistent (points : List Vector3i) (m : SparseDistanceMap)
    (occupied ever hole raised : Vector3i → Prop)
    (h : m.Consistent occupied ever hole raised) (hopen : m.m_open = []) :
    (points.foldl SparseDistanceMap.removePoint m).Consistent
        (fun q => occupied q ∧ q ∉ points) ever hole raised ∧
      (points.foldl SparseDistanceMap.removePoint m).m_open = [] := by
  induction points generalizing m occupied with
  | nil =>
    exact ⟨consistent_congr m occupied _ ever ever hole hole raised raised
      (fun q _ => ⟨fun h => ⟨h, List.not_mem_nil _⟩, fun h => h.1⟩)
      (fun _ h => h) (fun _ h => h) (fun _ h => h) h, hopen⟩
  | cons x xs ih =>
    simp only [List.foldl_cons]
    obtain ⟨h1, h2⟩ := removePoint_consistent m x occupied ever hole raised h hopen
    obtain ⟨i1, i2⟩ := ih (m.removePoint x) _ h1 h2
    refine ⟨consistent_congr _ _ _ _ _ hole hole raised raised ?_ (fun _ h => h)
      (fun _ h => h) (fun _ h => h) i1, i2⟩
    intro q _
    simp only [List.mem_cons]
    tauto

theorem pointsIntoRemoved_true {m : SparseDistanceMap} {n : Vector3i}
    (h : m.pointsIntoRemoved n = true) :
    ∃ o, (m.m_cells n).obs = some o ∧ (m.m_cells o).obs ≠ some o := by
  unfold SparseDistanceMap.pointsIntoRemoved at h
  split at h
  · cases h
  · rename_i o ho
    exact ⟨o, ho, of_decide_eq_true h⟩

theorem pointsIntoRemoved_false {m : SparseDistanceMap} {n : Vector3i}
    (h : ¬ m.pointsIntoRemoved n = true) :
    ∀ o, (m.m_cells n).obs = some o → (m.m_cells o).obs = some o := by
  intro o ho
  unfold SparseDistanceMap.pointsIntoRemoved at h
  rw [ho] at h
  simp only [ne_eq, decide_not, Bool.not_eq_true', decide_eq_false_iff_not,
    not_not] at h
  exact h

/-- What `raiseNeighbor` does: nothing for a neighbour outside the grid; else
it raises the neighbour, which names a cell that is no obstacle, or puts the
neighbour on the open list. -/
theorem raiseNeighbor_cases (s : Vector3i) (m : SparseDistanceMap)
    (offset : Vector3i) :
    (m.isCellValid (neighborCell s offset) ≠ true ∧
        SparseDistanceMap.raiseNeighbor s m offset = m) ∨
      (m.isCellValid (neighborCell s offset) = true ∧
        m.pointsIntoRemoved (neighborCell s offset) = true ∧
        SparseDistanceMap.raiseNeighbor s m offset
          = m.raiseCell (neighborCell s offset)) ∨
      (m.isCellValid (neighborCell s offset) = true ∧
        ¬ m.pointsIntoRemoved (neighborCell s offset) = true ∧
        SparseDistanceMap.raiseNeighbor s m offset
          = m.waveout (neighborCell s offset)) := by
  unfold SparseDistanceMap.raiseNeighbor neighborCell
  simp only
  split
  · rename_i hn
    split
    · rename_i hp
      exact Or.inr (Or.inl ⟨hn, hp, rfl⟩)
    · rename_i hp
      exact Or.inr (Or.inr ⟨hn, hp, rfl⟩)
  · rename_i hn
    exact Or.inl ⟨hn, rfl⟩

theorem raiseNeighbor_frame (s : Vector3i) (m : SparseDistanceMap)
    (offset : Vector3i) :
    (SparseDistanceMap.raiseNeighbor s m offset).m_cell_count_x = m.m_cell_count_x ∧
      (SparseDistanceMap.raiseNeighbor s m offset).m_cell_count_y
        = m.m_cell_count_y ∧
      (SparseDistanceMap.raiseNeighbor s m offset).m_cell_count_z
        = m.m_cell_count_z ∧
      (SparseDistanceMap.raiseNeighbor s m offset).m_dmax_sqrd_int
        = m.m_dmax_sqrd_int ∧
      (SparseDistanceMap.raiseNeighbor s m offset).neighborOffsets
        = m.neighborOffsets := by
  rcases raiseNeighbor_cases s m offset with ⟨_, e⟩ | ⟨_, _, e⟩ | ⟨_, _, e⟩ <;> rw [e] <;>
    exact ⟨rfl, rfl, rfl, rfl, rfl⟩

theorem raiseNeighbor_valid (s : Vector3i) (m : SparseDistanceMap)
    (offset p : Vector3i) :
    (SparseDistanceMap.raiseNeighbor s m offset).isCellValid p = m.isCellValid p := by
  obtain ⟨hx, hy, hz, _, _⟩ := raiseNeighbor_frame s m offset
  exact isCellValid_congr _ _ hx hy hz p

theorem raiseNeighbor_consistent (s : Vector3i) (m : SparseDistanceMap)
    (offset : Vector3i) (occupied ever hole raised : Vector3i → Prop)
    (h : m.Consistent occupied ever hole raised) :
    (SparseDistanceMap.raiseNeighbor s m offset).Consistent occupied ever hole
      raised := by
  rcases raiseNeighbor_cases s m offset with ⟨_, e⟩ | ⟨hn, hp, e⟩ | ⟨hn, hp, e⟩
  · rw [e]
    exact h
  · rw [e]
    obtain ⟨o, ho, hoo⟩ := pointsIntoRemoved_true hp
    have hnot : (m.m_cells (neighborCell s offset)).obs
        ≠ some (neighborCell s offset) := by
      intro hc
      rw [hc] at ho
      cases ho
      exact hoo hc
    refine consistent_congr _ _ _ _ _ hole hole raised raised ?_ (fun _ h => h)
      (fun _ h => h) (fun _ h => h)
      (consistent_raiseCell m occupied ever hole raised _ h hn (Or.inr hnot))
    intro q hq
    refine ⟨fun h => h.1, fun hocc => ⟨hocc, fun hqn => ?_⟩⟩
    rw [hqn] at hocc
    exact hnot ((h.2.1 _ hn).mpr hocc)
  · rw [e]
    exact consistent_waveout m occupied ever hole raised _ h hn
      (pointsIntoRemoved_false hp)

/-- The neighbour that `raiseNeighbor` has examined is raised or on the open
list, and a cell that was raised or on the open list remains so. -/
theorem raiseNeighbor_waiting (s : Vector3i) (m : SparseDistanceMap)
    (offset : Vector3i) :
    (m.isCellValid (neighborCell s offset) = true →
        (SparseDistanceMap.raiseNeighbor s m offset).Waiting (neighborCell s offset)) ∧
      ∀ t, m.Waiting t → (SparseDistanceMap.raiseNeighbor s m offset).Waiting t := by
  rcases raiseNeighbor_cases s m offset with ⟨hn, e⟩ | ⟨hn, hp, e⟩ | ⟨hn, hp, e⟩
  · rw [e]
    exact ⟨fun h => absurd h hn, fun t ht => ht⟩
  · rw [e]
    refine ⟨fun _ o ho => ?_, fun t ht o ho => ?_⟩
    · simp [SparseDistanceMap.raiseCell, SparseDistanceMap.setCell] at ho
    · by_cases htn : t = neighborCell s offset
      · rw [htn] at ho
        simp [SparseDistanceMap.raiseCell, SparseDistanceMap.setCell] at ho
      · simp only [SparseDistanceMap.raiseCell, setCell_other _ _ _ _ htn] at ho ⊢
        exact ht o ho
  · rw [e]
    refine ⟨fun _ o _ => updateVertex_mem_self _ _ _, fun t ht o ho => ?_⟩
    exact updateVertex_mem_of_mem _ _ (ht o ho)

theorem raiseNeighbor_foldl_consistent (s : Vector3i) (offsets : List Vector3i)
    (m : SparseDistanceMap) (occupied ever hole raised : Vector3i → Prop)
    (h : m.Consistent occupied ever hole raised) :
    (offsets.foldl (SparseDistanceMap.raiseNeighbor s) m).Consistent occupied ever hole
        raised ∧
      (∀ offset ∈ offsets, m.isCellValid (neighborCell s offset) = true →
        (offsets.foldl (SparseDistanceMap.raiseNeighbor s) m).Waiting
          (neighborCell s offset)) ∧
      (∀ t, m.Waiting t →
        (offsets.foldl (SparseDistanceMap.raiseNeighbor s) m).Waiting t) ∧
      (∀ p, (offsets.foldl (SparseDistanceMap.raiseNeighbor s) m).isCellValid p
        = m.isCellValid p) ∧
      (offsets.foldl (SparseDistanceMap.raiseNeighbor s) m).neighborOffsets
        = m.neighborOffsets ∧
      (offsets.foldl (SparseDistanceMap.raiseNeighbor s) m).m_dmax_sqrd_int
        = m.m_dmax_sqrd_int := by
  induction offsets generalizing m with
  | nil =>
    exact ⟨h, fun x hx => absurd hx (List.not_mem_nil _), fun t ht => ht, fun p => rfl,
      rfl, rfl⟩
  | cons x xs ih =>
    simp only [List.foldl_cons]
    obtain ⟨i0, i1, i2, i3, i4, i5⟩ := ih (SparseDistanceMap.raiseNeighbor s m x)
      (raiseNeighbor_consistent s m x occupied ever hole raised h)
    obtain ⟨w1, w2⟩ := raiseNeighbor_waiting s m x
    obtain ⟨_, _, _, fd, ft⟩ := raiseNeighbor_frame s m x
    refine ⟨i0, fun off hoff hv => ?_, fun t ht => i2 t (w2 t ht),
      fun p => (i3 p).trans (raiseNeighbor_valid s m x p), i4.trans ft, i5.trans fd⟩
    rcases List.mem_cons.mp hoff with rfl | hoff
    · exact i2 _ (w1 hv)
    · exact i1 off hoff (by rw [raiseNeighbor_valid]; exact hv)

theorem neighbors26_neg :
    ∀ offset ∈ neighbors26, ((-offset.1, -offset.2.1, -offset.2.2) : Vector3i)
      ∈ neighbors26 := by
  decide

theorem neighborCell_zero (s : Vector3i) : neighborCell s (0, 0, 0) = s := by
  obtain ⟨a, b, c⟩ := s
  simp [neighborCell]

theorem neighborCell_neg (s offset : Vector3i) :
    neighborCell (neighborCell s offset) (-offset.1, -offset.2.1, -offset.2.2) = s := by
  obtain ⟨a, b, c⟩ := s
  simp [neighborCell]

/-- Member `raise` keeps the invariants and takes the cell it works on out of
the cells that count as raised, when the table of offsets holds none but the
26 offsets to the neighbours. -/
theorem raise_consistent (m : SparseDistanceMap) (c : Vector3i)
    (occupied ever hole raised : Vector3i → Prop)
    (h : m.Consistent occupied ever hole (fun n => raised n ∨ n = c))
    (htable : ∀ dir offset, offset ∈ m.neighborOffsets dir →
      offset = (0, 0, 0) ∨ offset ∈ neighbors26) :
    (m.raise c).Consistent occupied ever hole raised := by
  unfold SparseDistanceMap.raise
  obtain ⟨i0, i1, _, i3, i4, _⟩ := raiseNeighbor_foldl_consistent c neighbors26 m
    occupied ever hole _ h
  refine ⟨i0.1, i0.2.1, fun s hs os hos => ?_⟩
  by_cases hnb : ∃ offset ∈ neighbors26, neighborCell c offset = s
  · obtain ⟨offset, hoff, rfl⟩ := hnb
    exact Or.inr (Or.inl (i1 offset hoff (by rw [← i3]; exact hs) os hos))
  · rcases i0.2.2 s hs os hos with h1 | h1 | h1
    · exact Or.inl h1
    · exact Or.inr (Or.inl h1)
    · refine Or.inr (Or.inr fun offset hoff hv => ?_)
      rcases h1 offset hoff hv with (h2 | h2) | h2
      · exact Or.inl h2
      · rw [i4] at hoff
        rcases htable _ _ hoff with h0 | h26
        · subst h0
          rw [neighborCell_zero]
          exact Or.inr (Or.inr (Or.inl (le_of_eq (labelled_dist_eq i0.1 hs hos).2.2.1)))
        · exfalso
          refine hnb ⟨_, neighbors26_neg offset h26, ?_⟩
          rw [← h2]
          exact neighborCell_neg s offset
      · exact Or.inr h2

theorem sameGrid_refl (m : SparseDistanceMap) : m.SameGrid m :=
  ⟨rfl, rfl, rfl, rfl, rfl⟩

theorem sameGrid_trans {m m' m'' : SparseDistanceMap} (h : m.SameGrid m')
    (h' : m'.SameGrid m'') : m.SameGrid m'' :=
  ⟨h'.1.trans h.1, h'.2.1.trans h.2.1, h'.2.2.1.trans h.2.2.1,
    h'.2.2.2.1.trans h.2.2.2.1, h'.2.2.2.2.trans h.2.2.2.2⟩

theorem sameGrid_valid {m m' : SparseDistanceMap} (h : m.SameGrid m') (p : Vector3i) :
    m'.isCellValid p = m.isCellValid p :=
  isCellValid_congr _ _ h.1 h.2.1 h.2.2.1 p

theorem sameGrid_foldl {α : Type} (f : SparseDistanceMap → α → SparseDistanceMap)
    (hf : ∀ (m : SparseDistanceMap) (a : α), m.SameGrid (f m a)) (l : List α) (m : SparseDistanceMap) :
    m.SameGrid (l.foldl f m) := by
  induction l generalizing m with
  | nil => exact sameGrid_refl m
  | cons x xs ih =>
    simp only [List.foldl_cons]
    exact sameGrid_trans (hf m x) (ih _)

theorem lowerNeighbor_sameGrid (s o : Vector3i) (m : SparseDistanceMap)
    (offset : Vector3i) : m.SameGrid (SparseDistanceMap.lowerNeighbor s o m offset) :=
  lowerNeighbor_frame s o m offset

theorem lower_sameGrid (m : SparseDistanceMap) (s : Vector3i) :
    m.SameGrid (m.lower s) := by
  unfold SparseDistanceMap.lower
  split
  · exact sameGrid_refl m
  · rename_i o ho
    exact sameGrid_foldl _ (fun m a => lowerNeighbor_sameGrid s o m a) _ _

theorem propagateStep_sameGrid (m : SparseDistanceMap) : m.SameGrid m.propagateStep := by
  unfold SparseDistanceMap.propagateStep
  split
  · exact sameGrid_refl m
  · rename_i e es he
    have h1 : m.SameGrid { m with m_open := es } := ⟨rfl, rfl, rfl, rfl, rfl⟩
    split
    · exact sameGrid_trans h1 (lower_sameGrid _ _)
    · exact h1

theorem propagateFuel_sameGrid (fuel : Nat) (m : SparseDistanceMap) :
    m.SameGrid (SparseDistanceMap.propagateFuel fuel m) := by
  induction fuel generalizing m with
  | zero => exact sameGrid_refl m
  | succ fuel ih =>
    unfold SparseDistanceMap.propagateFuel
    split
    · exact sameGrid_refl m
    · exact sameGrid_trans (propagateStep_sameGrid m) (ih _)

theorem addPoint_sameGrid (m : SparseDistanceMap) (p : Vector3i) :
    m.SameGrid (m.addPoint p) := by
  unfold SparseDistanceMap.addPoint
  split <;> exact ⟨rfl, rfl, rfl, rfl, rfl⟩

theorem addPointsToMap_sameGrid (m : SparseDistanceMap) (points : List Vector3i) :
    m.SameGrid (m.addPointsToMap points) :=
  sameGrid_trans (sameGrid_foldl _ addPoint_sameGrid points m)
    (propagateFuel_sameGrid _ _)

theorem removePoint_sameGrid (m : SparseDistanceMap) (p : Vector3i) :
    m.SameGrid (m.removePoint p) := by
  unfold SparseDistanceMap.removePoint
  split <;> exact ⟨rfl, rfl, rfl, rfl, rfl⟩

theorem raise_sameGrid (m : SparseDistanceMap) (s : Vector3i) :
    m.SameGrid (m.raise s) :=
  sameGrid_foldl _ (fun m a => raiseNeighbor_frame s m a) _ _

theorem propagateRemovalsFuel_sameGrid (fuel : Nat) (m : SparseDistanceMap) :
    m.SameGrid (SparseDistanceMap.propagateRemovalsFuel fuel m) := by
  induction fuel generalizing m with
  | zero => exact sameGrid_refl m
  | succ fuel ih =>
    unfold SparseDistanceMap.propagateRemovalsFuel
    split
    · exact sameGrid_refl m
    · rename_i s rest he
      have h1 : m.SameGrid { m with m_rem_stack := rest } := ⟨rfl, rfl, rfl, rfl, rfl⟩
      exact sameGrid_trans (sameGrid_trans h1 (raise_sameGrid _ s)) (ih _)

theorem removePointsFromMap_sameGrid (m : SparseDistanceMap) (points : List Vector3i) :
    m.SameGrid (m.removePointsFromMap points) :=
  sameGrid_trans
    (sameGrid_trans (sameGrid_foldl _ removePoint_sameGrid points m)
      (propagateRemovalsFuel_sameGrid _ _))
    (propagateFuel_sameGrid _ _)

theorem call_sameGrid (m : SparseDistanceMap) (c : SparseDistanceMap.Call) :
    m.SameGrid (m.call c) := by
  cases c with
  | addPointsToMap points => exact addPointsToMap_sameGrid m points
  | removePointsFromMap points => exact removePointsFromMap_sameGrid m points
  | updatePointsInMap old_points new_points =>
    exact sameGrid_trans (removePointsFromMap_sameGrid m old_points)
      (addPointsToMap_sameGrid _ new_points)

/-! ### The raise stack -/

theorem lowerNeighbor_foldl_stack (s o : Vector3i) (offsets : List Vector3i)
    (m : SparseDistanceMap) :
    (offsets.foldl (SparseDistanceMap.lowerNeighbor s o) m).m_rem_stack
      = m.m_rem_stack := by
  induction offsets generalizing m with
  | nil => rfl
  | cons x xs ih =>
    simp only [List.foldl_cons]
    rw [ih, (lowerNeighbor_keeps s o m x).2.2.2]

theorem propagateStep_stack (m : SparseDistanceMap) :
    m.propagateStep.m_rem_stack = m.m_rem_stack := by
  unfold SparseDistanceMap.propagateStep
  split
  · rfl
  · split
    · unfold SparseDistanceMap.lower
      split
      · rfl
      · rw [lowerNeighbor_foldl_stack]
    · rfl

theorem propagateFuel_stack (fuel : Nat) (m : SparseDistanceMap) :
    (SparseDistanceMap.propagateFuel fuel m).m_rem_stack = m.m_rem_stack := by
  induction fuel generalizing m with
  | zero => rfl
  | succ fuel ih =>
    unfold SparseDistanceMap.propagateFuel
    split
    · rfl
    · rw [ih, propagateStep_stack]

theorem addPointsToMap_stack (m : SparseDistanceMap) (points : List Vector3i) :
    (m.addPointsToMap points).m_rem_stack = m.m_rem_stack := by
  unfold SparseDistanceMap.addPointsToMap SparseDistanceMap.propagate
  rw [propagateFuel_stack]
  induction points generalizing m with
  | nil => rfl
  | cons x xs ih =>
    simp only [List.foldl_cons]
    rw [ih]
    unfold SparseDistanceMap.addPoint
    split <;> rfl

theorem sum_setCell_map (f : SparseDistanceMap.Cell → Nat)
    (cells : Vector3i → SparseDistanceMap.Cell) (n : Vector3i)
    (c : SparseDistanceMap.Cell) (l : List Vector3i) (hl : l.Nodup) (hn : n ∈ l) :
    (l.map fun p => f (SparseDistanceMap.setCell cells n c p)).sum + f (cells n)
      = (l.map fun p => f (cells p)).sum + f c := by
  induction l with
  | nil => simp at hn
  | cons x xs ih =>
    have hx : x ∉ xs := (List.nodup_cons.mp hl).1
    have hxs : xs.Nodup := (List.nodup_cons.mp hl).2
    simp only [List.map_cons, List.sum_cons]
    by_cases hxn : x = n
    · subst hxn
      have hrest : (xs.map fun p => f (SparseDistanceMap.setCell cells x c p))
          = xs.map fun p => f (cells p) := by
        refine List.map_congr_left fun p hp => ?_
        have : p ≠ x := fun h => hx (h ▸ hp)
        simp [SparseDistanceMap.setCell, this]
      rw [hrest]
      simp only [SparseDistanceMap.setCell, if_true]
      omega
    · have hn' : n ∈ xs := by
        rcases List.mem_cons.mp hn with h | h
        · exact absurd h.symm hxn
        · exact h
      have := ih hxs hn'
      simp only [SparseDistanceMap.setCell, if_neg hxn]
      simp only [SparseDistanceMap.setCell] at this
      omega

theorem raiseNeighbor_raiseBound (s : Vector3i) (m : SparseDistanceMap)
    (offset : Vector3i) :
    (SparseDistanceMap.raiseNeighbor s m offset).raiseBound ≤ m.raiseBound := by
  rcases raiseNeighbor_cases s m offset with ⟨_, e⟩ | ⟨hn, hp, e⟩ | ⟨hn, hp, e⟩
  · rw [e]
  · rw [e]
    obtain ⟨o, ho, _⟩ := pointsIntoRemoved_true hp
    have hsum := sum_setCell_map (fun c => if c.obs.isSome then 1 else 0) m.m_cells
      (neighborCell s offset)
      { obs := none, dist := m.m_dmax_sqrd_int,
        dir := (m.m_cells (neighborCell s offset)).dir }
      m.cellList (cellList_nodup m) ((mem_cellList m _).mpr hn)
    simp only [ho, Option.isSome_some, if_true, Option.isSome_none,
      Bool.false_eq_true, if_false] at hsum
    unfold SparseDistanceMap.raiseBound
    have hcl : (m.raiseCell (neighborCell s offset)).cellList = m.cellList := rfl
    rw [hcl]
    simp only [SparseDistanceMap.raiseCell, List.length_cons]
    omega
  · rw [e]
    exact le_refl _

theorem raise_raiseBound (m : SparseDistanceMap) (s : Vector3i) :
    (m.raise s).raiseBound ≤ m.raiseBound := by
  unfold SparseDistanceMap.raise
  generalize neighbors26 = l
  induction l generalizing m with
  | nil => exact le_refl _
  | cons x xs ih =>
    simp only [List.foldl_cons]
    exact le_trans (ih _) (raiseNeighbor_raiseBound s m x)

theorem propagateRemovalsFuel_stack (fuel : Nat) (m : SparseDistanceMap)
    (h : m.raiseBound ≤ fuel) :
    (SparseDistanceMap.propagateRemovalsFuel fuel m).m_rem_stack = [] := by
  induction fuel generalizing m with
  | zero =>
    unfold SparseDistanceMap.propagateRemovalsFuel
    unfold SparseDistanceMap.raiseBound at h
    exact List.length_eq_zero.mp (by omega)
  | succ fuel ih =>
    unfold SparseDistanceMap.propagateRemovalsFuel
    split
    · rename_i he
      exact he
    · rename_i s rest he
      refine ih _ ?_
      have h1 := raise_raiseBound { m with m_rem_stack := rest } s
      have h2 : SparseDistanceMap.raiseBound { m with m_rem_stack := rest } + 1
          = m.raiseBound := by
        unfold SparseDistanceMap.raiseBound
        have hcl : SparseDistanceMap.cellList { m with m_rem_stack := rest }
            = m.cellList := rfl
        rw [hcl, he]
        simp only [List.length_cons]
        omega
      omega

/-- The loop of `propagateRemovals()` ends: the bound is enough fuel. -/
theorem propagateRemovals_stack (m : SparseDistanceMap) :
    m.propagateRemovals.m_rem_stack = [] :=
  propagateRemovalsFuel_stack _ m (le_refl _)

theorem propagateRemovalsFuel_consistent (fuel : Nat) (m : SparseDistanceMap)
    (occupied ever hole raised : Vector3i → Prop)
    (h : m.Consistent occupied ever hole raised)
    (htable : ∀ dir offset, offset ∈ m.neighborOffsets dir →
      offset = (0, 0, 0) ∨ offset ∈ neighbors26) :
    (SparseDistanceMap.propagateRemovalsFuel fuel m).Consistent occupied ever hole
      raised := by
  induction fuel generalizing m with
  | zero => exact h
  | succ fuel ih =>
    unfold SparseDistanceMap.propagateRemovalsFuel
    split
    · exact h
    · rename_i s rest he
      refine ih _ (raise_consistent _ s occupied ever hole raised
        (consistent_pop_stack m occupied ever hole raised s rest h he) htable) ?_
      rw [(raise_sameGrid _ s).2.2.2.2]
      exact htable

/-- Member `removePointsFromMap` keeps the invariants, the cells of the points
being occupied no longer. -/
theorem removePointsFromMap_consistent (m : SparseDistanceMap)
    (points : List Vector3i) (occupied ever hole raised : Vector3i → Prop)
    (h : m.Consistent occupied ever hole raised) (hopen : m.m_open = [])
    (htable : ∀ dir offset, offset ∈ m.neighborOffsets dir →
      offset = (0, 0, 0) ∨ offset ∈ neighbors26) :
    (m.removePointsFromMap points).Consistent (fun q => occupied q ∧ q ∉ points) ever
      hole raised := by
  unfold SparseDistanceMap.removePointsFromMap SparseDistanceMap.propagateRemovals
  refine propagate_consistent _ _ _ _ _ (propagateRemovalsFuel_consistent _ _ _ _ _ _
    (removePoint_foldl_consistent points m occupied ever hole raised h hopen).1 ?_)
  rw [(sameGrid_foldl _ removePoint_sameGrid points m).2.2.2.2]
  exact htable

theorem removePointsFromMap_stack (m : SparseDistanceMap) (points : List Vector3i) :
    (m.removePointsFromMap points).m_rem_stack = [] := by
  unfold SparseDistanceMap.removePointsFromMap SparseDistanceMap.propagate
  rw [propagateFuel_stack]
  exact propagateRemovals_stack _

/-- Every call keeps the invariants, with the occupied cells and the cells that
have held a point changed as the call says, and returns with the open list and
the raise stack empty. -/
theorem call_consistent (m : SparseDistanceMap) (c : SparseDistanceMap.Call)
    (occupied ever : List Vector3i)
    (h : m.Consistent (fun q => q ∈ occupied) (fun q => q ∈ ever) (fun _ => False)
      (fun _ => False))
    (hopen : m.m_open = []) (hstack : m.m_rem_stack = [])
    (htable : ∀ dir offset, offset ∈ m.neighborOffsets dir →
      offset = (0, 0, 0) ∨ offset ∈ neighbors26) :
    (m.call c).Consistent (fun q => q ∈ c.occupied occupied)
        (fun q => q ∈ ever ++ c.added) (fun _ => False) (fun _ => False) ∧
      (m.call c).m_open = [] ∧ (m.call c).m_rem_stack = [] := by
  cases c with
  | addPointsToMap points =>
    refine ⟨?_, propagate_open _, (addPointsToMap_stack m points).trans hstack⟩
    refine consistent_congr _ _ _ _ _ _ _ _ _ ?_ ?_ (fun _ h => h) (fun _ h => h)
      (addPointsToMap_consistent m points _ _ _ _ h)
    · intro q _
      simp [SparseDistanceMap.Call.occupied]
    · intro q hq
      simpa [SparseDistanceMap.Call.added] using hq
  | removePointsFromMap points =>
    refine ⟨?_, propagate_open _, removePointsFromMap_stack m points⟩
    refine consistent_congr _ _ _ _ _ _ _ _ _ ?_ ?_ (fun _ h => h) (fun _ h => h)
      (removePointsFromMap_consistent m points _ _ _ _ h hopen htable)
    · intro q _
      simp [SparseDistanceMap.Call.occupied]
    · intro q hq
      simpa [SparseDistanceMap.Call.added] using hq
  | updatePointsInMap old_points new_points =>
    refine ⟨?_, propagate_open _,
      (addPointsToMap_stack _ new_points).trans (removePointsFromMap_stack m old_points)⟩
    refine consistent_congr _ _ _ _ _ _ _ _ _ ?_ ?_ (fun _ h => h) (fun _ h => h)
      (addPointsToMap_consistent _ new_points _ _ _ _
        (removePointsFromMap_consistent m old_points _ _ _ _ h hopen htable))
    · intro q _
      simp [SparseDistanceMap.Call.occupied]
    · intro q hq
      simpa [SparseDistanceMap.Call.added] using hq

/-- Any sequence of calls keeps the invariants. -/
theorem call_foldl_consistent (calls : List SparseDistanceMap.Call)
    (m : SparseDistanceMap) (occupied ever : List Vector3i)
    (h : m.Consistent (fun q => q ∈ occupied) (fun q => q ∈ ever) (fun _ => False)
      (fun _ => False))
    (hopen : m.m_open = []) (hstack : m.m_rem_stack = [])
    (htable : ∀ dir offset, offset ∈ m.neighborOffsets dir →
      offset = (0, 0, 0) ∨ offset ∈ neighbors26) :
    (calls.foldl SparseDistanceMap.call m).Consistent
        (fun q => q ∈ calls.foldl SparseDistanceMap.Call.occupied occupied)
        (fun q => q ∈ ever ++ calls.flatMap SparseDistanceMap.Call.added)
        (fun _ => False) (fun _ => False) ∧
      (calls.foldl SparseDistanceMap.call m).m_open = [] ∧
      (calls.foldl SparseDistanceMap.call m).m_rem_stack = [] ∧
      m.SameGrid (calls.foldl SparseDistanceMap.call m) := by
  induction calls generalizing m occupied ever with
  | nil =>
    refine ⟨?_, hopen, hstack, sameGrid_refl m⟩
    simpa using h
  | cons c cs ih =>
    simp only [List.foldl_cons, List.flatMap_cons]
    obtain ⟨h1, h2, h3⟩ := call_consistent m c occupied ever h hopen hstack htable
    have hg := call_sameGrid m c
    obtain ⟨i1, i2, i3, i4⟩ := ih (m.call c) _ _ h1 h2 h3
      (by rw [hg.2.2.2.2]; exact htable)
    refine ⟨?_, i2, i3, sameGrid_trans hg i4⟩
    simpa [List.append_assoc] using i1

theorem create_consistent (cell_count_x cell_count_y cell_count_z dmax_int : Nat)
    (neighborOffsets : Vector3i → List Vector3i) (hd : 0 < dmax_int) :
    (SparseDistanceMap.create cell_count_x cell_count_y cell_count_z dmax_int
      neighborOffsets).Consistent (fun q => q ∈ ([] : List Vector3i))
      (fun q => q ∈ ([] : List Vector3i)) (fun _ => False) (fun _ => False) := by
  refine ⟨⟨Nat.mul_pos hd hd, fun p _ => Or.inl ⟨rfl, rfl⟩,
    fun e he => absurd he (List.not_mem_nil _),
    fun s hs => absurd hs (List.not_mem_nil _)⟩, fun p _ => ?_, fun s _ o ho => ?_⟩
  · simp [SparseDistanceMap.create]
  · simp [SparseDistanceMap.create] at ho

/-! ### Steps towards an obstacle -/

theorem mem_neighbors26 (offset : Vector3i)
    (h1 : -1 ≤ offset.1 ∧ offset.1 ≤ 1) (h2 : -1 ≤ offset.2.1 ∧ offset.2.1 ≤ 1)
    (h3 : -1 ≤ offset.2.2 ∧ offset.2.2 ≤ 1) (h0 : offset ≠ (0, 0, 0)) :
    offset ∈ neighbors26 := by
  obtain ⟨a, b, c⟩ := offset
  simp only at h1 h2 h3
  have ha : a = -1 ∨ a = 0 ∨ a = 1 := by omega
  have hb : b = -1 ∨ b = 0 ∨ b = 1 := by omega
  have hc : c = -1 ∨ c = 0 ∨ c = 1 := by omega
  rcases ha with rfl | rfl | rfl <;> rcases hb with rfl | rfl | rfl <;>
    rcases hc with rfl | rfl | rfl <;> first | exact absurd rfl h0 | decide

theorem sign_step (a b : Int) :
    (-1 ≤ (b - a).sign ∧ (b - a).sign ≤ 1) ∧ ((b - a).sign = 0 → a = b) ∧
      (∀ n : Int, 0 ≤ a → a < n → 0 ≤ b → b < n →
        0 ≤ a + (b - a).sign ∧ a + (b - a).sign < n) ∧
      (a + (b - a).sign - b) * (a + (b - a).sign - b) ≤ (a - b) * (a - b) ∧
      (a ≠ b → (a + (b - a).sign - b) * (a + (b - a).sign - b) < (a - b) * (a - b)) := by
  rcases lt_trichotomy a b with h | h | h
  · have hs : (b - a).sign = 1 := Int.sign_eq_one_of_pos (by omega)
    rw [hs]
    refine ⟨by omega, by omega, fun n _ _ _ _ => by omega, by nlinarith, fun _ => by nlinarith⟩
  · subst h
    refine ⟨by simp, by simp, fun n h1 h2 _ _ => ?_, by simp, fun hc => absurd rfl hc⟩
    simp only [sub_self, Int.sign_zero, add_zero]
    exact ⟨h1, h2⟩
  · have hs : (b - a).sign = -1 := Int.sign_eq_neg_one_of_neg (by omega)
    rw [hs]
    refine ⟨by omega, by omega, fun n _ _ _ _ => by omega, by nlinarith, fun _ => by nlinarith⟩

theorem sqrdCellDistance_cast (a b : Vector3i) :
    (sqrdCellDistance a b : Int)
      = (a.1 - b.1) * (a.1 - b.1) + (a.2.1 - b.2.1) * (a.2.1 - b.2.1)
        + (a.2.2 - b.2.2) * (a.2.2 - b.2.2) := by
  unfold sqrdCellDistance
  have h1 := mul_self_nonneg (a.1 - b.1)
  have h2 := mul_self_nonneg (a.2.1 - b.2.1)
  have h3 := mul_self_nonneg (a.2.2 - b.2.2)
  exact Int.toNat_of_nonneg (by omega)

theorem isCellValid_iff (m : SparseDistanceMap) (p : Vector3i) :
    m.isCellValid p = true ↔
      (0 ≤ p.1 ∧ p.1 < m.m_cell_count_x) ∧ (0 ≤ p.2.1 ∧ p.2.1 < m.m_cell_count_y) ∧
        (0 ≤ p.2.2 ∧ p.2.2 < m.m_cell_count_z) := by
  simp only [SparseDistanceMap.isCellValid, Bool.and_eq_true, decide_eq_true_eq]
  tauto

/-- The neighbour of a cell `p` in the direction of another cell `o` of the
grid is one of the 26 neighbours, lies in the grid and is nearer to `o`. -/
theorem offsetTowards_spec (m : SparseDistanceMap) (p o : Vector3i)
    (hp : m.isCellValid p = true) (ho : m.isCellValid o = true) (hne : p ≠ o) :
    offsetTowards p o ∈ neighbors26 ∧
      m.isCellValid (neighborCell p (offsetTowards p o)) = true ∧
      sqrdCellDistance (neighborCell p (offsetTowards p o)) o < sqrdCellDistance p o := by
  obtain ⟨p1, p2, p3⟩ := p
  obtain ⟨o1, o2, o3⟩ := o
  rw [isCellValid_iff] at hp ho
  simp only at hp ho
  obtain ⟨a1, a2, a3, a4, a5⟩ := sign_step p1 o1
  obtain ⟨b1, b2, b3, b4, b5⟩ := sign_step p2 o2
  obtain ⟨c1, c2, c3, c4, c5⟩ := sign_step p3 o3
  refine ⟨mem_neighbors26 _ a1 b1 c1 ?_, ?_, ?_⟩
  · intro h0
    simp only [offsetTowards, Prod.mk.injEq] at h0
    exact hne (by rw [a2 h0.1, b2 h0.2.1, c2 h0.2.2])
  · rw [isCellValid_iff]
    exact ⟨a3 _ hp.1.1 hp.1.2 ho.1.1 ho.1.2, b3 _ hp.2.1.1 hp.2.1.2 ho.2.1.1 ho.2.1.2,
      c3 _ hp.2.2.1 hp.2.2.2 ho.2.2.1 ho.2.2.2⟩
  · have h1 := sqrdCellDistance_cast (neighborCell (p1, p2, p3)
      (offsetTowards (p1, p2, p3) (o1, o2, o3))) (o1, o2, o3)
    have h2 := sqrdCellDistance_cast (p1, p2, p3) (o1, o2, o3)
    simp only [neighborCell, offsetTowards] at h1 h2 ⊢
    have hcase : p1 ≠ o1 ∨ p2 ≠ o2 ∨ p3 ≠ o3 := by
      by_contra hc
      push_neg at hc
      exact hne (by rw [hc.1, hc.2.1, hc.2.2])
    have : ((sqrdCellDistance (p1 + (o1 - p1).sign, p2 + (o2 - p2).sign,
        p3 + (o3 - p3).sign) (o1, o2, o3) : Nat) : Int)
        < (sqrdCellDistance (p1, p2, p3) (o1, o2, o3) : Nat) := by
      rw [h1, h2]
      rcases hcase with h | h | h
      · have := a5 h
        omega
      · have := b5 h
        omega
      · have := c5 h
        omega
    exact_mod_cast this

/-! ### The map between two calls -/

/-- When the open list and the raise stack are empty, every cell that names an
obstacle has handed it on to the neighbours that its update direction
allows. -/
theorem handed_final (m : SparseDistanceMap)
    (h : m.Handed (fun _ => False) (fun _ => False)) (hopen : m.m_open = [])
    (hstack : m.m_rem_stack = []) (s o : Vector3i) (hs : m.isCellValid s = true)
    (hso : (m.m_cells s).obs = some o) (offset : Vector3i)
    (hoff : offset ∈ m.neighborOffsets (m.m_cells s).dir)
    (hn : m.isCellValid (neighborCell s offset) = true) :
    (m.m_cells (neighborCell s offset)).dist ≤ sqrdCellDistance (neighborCell s offset) o ∨
      m.m_dmax_sqrd_int ≤ sqrdCellDistance (neighborCell s offset) o := by
  rcases h s hs o hso with h1 | h1 | h1
  · exact absurd h1 id
  · rw [hopen] at h1
    exact absurd h1 (List.not_mem_nil _)
  · rcases h1 offset hoff hn with h2 | h2 | h2
    · exact absurd h2 id
    · rw [hstack] at h2
      exact absurd h2 (List.not_mem_nil _)
    · exact h2

/-- With all the 26 neighbours in the table: when no cell of the grid is
occupied, no cell of the grid names an obstacle. -/
theorem final_empty (m : SparseDistanceMap) (occupied ever : Vector3i → Prop)
    (h : m.Consistent occupied ever (fun _ => False) (fun _ => False))
    (hopen : m.m_open = []) (hstack : m.m_rem_stack = [])
    (hfull : ∀ dir offset, offset ∈ neighbors26 → offset ∈ m.neighborOffsets dir)
    (hocc : ∀ q, m.isCellValid q = true → ¬ occupied q) (p : Vector3i)
    (hp : m.isCellValid p = true) :
    (m.m_cells p).obs = none ∧ (m.m_cells p).dist = m.m_dmax_sqrd_int := by
  have key : ∀ k : Nat, ∀ p, m.isCellValid p = true → (m.m_cells p).dist < k →
      (m.m_cells p).obs = none := by
    intro k
    induction k with
    | zero => exact fun p _ hk => absurd hk (Nat.not_lt_zero _)
    | succ k ih =>
      intro p hp hk
      rcases h.1.2.1 p hp with ⟨hn, _⟩ | ⟨o, ho, hov, _, hd, hlt⟩
      · exact hn
      · exfalso
        by_cases hpo : p = o
        · subst hpo
          exact hocc p hp ((h.2.1 p hp).mp ho)
        · obtain ⟨t1, t2, t3⟩ := offsetTowards_spec m p o hp hov hpo
          have hq := handed_final m h.2.2 hopen hstack p o hp ho _ (hfull _ _ t1) t2
          have hqd : (m.m_cells (neighborCell p (offsetTowards p o))).dist < k := by
            rcases hq with hq | hq <;> omega
          have hnone := ih _ t2 hqd
          rcases h.1.2.1 _ t2 with ⟨_, hdq⟩ | ⟨oq, hoq, _⟩
          · omega
          · rw [hnone] at hoq
            cases hoq
  rcases h.1.2.1 p hp with hn | ⟨o, ho, _⟩
  · exact hn
  · have := key ((m.m_cells p).dist + 1) p hp (Nat.lt_succ_self _)
    rw [this] at ho
    cases ho

/-- With all the 26 neighbours in the table: when the occupied cell `o` is the
only cell of the grid that has ever held a point, every cell of the grid stores
the squared distance to `o`, clamped at `m_dmax_sqrd_int`. -/
theorem final_single (m : SparseDistanceMap) (occupied ever : Vector3i → Prop)
    (h : m.Consistent occupied ever (fun _ => False) (fun _ => False))
    (hopen : m.m_open = []) (hstack : m.m_rem_stack = [])
    (hfull : ∀ dir offset, offset ∈ neighbors26 → offset ∈ m.neighborOffsets dir)
    (o : Vector3i) (ho : m.isCellValid o = true) (hocc : occupied o)
    (hever : ∀ a, m.isCellValid a = true → ever a → a = o) (p : Vector3i)
    (hp : m.isCellValid p = true) :
    (m.m_cells p).dist = min (sqrdCellDistance p o) m.m_dmax_sqrd_int := by
  have hlabel : ∀ q o', m.isCellValid q = true → (m.m_cells q).obs = some o' → o' = o := by
    intro q o' hq hqo
    obtain ⟨h1, h2, _, _⟩ := labelled_dist_eq h.1 hq hqo
    exact hever o' h1 h2
  have key : ∀ k : Nat, ∀ p, m.isCellValid p = true → sqrdCellDistance p o < k →
      sqrdCellDistance p o < m.m_dmax_sqrd_int →
      (m.m_cells p).obs = some o ∧ (m.m_cells p).dist = sqrdCellDistance p o := by
    intro k
    induction k with
    | zero => exact fun p _ hk => absurd hk (Nat.not_lt_zero _)
    | succ k ih =>
      intro p hp hk hlt
      by_cases hpo : p = o
      · subst hpo
        have hobs := (h.2.1 p hp).mpr hocc
        exact ⟨hobs, by rw [labelled_obstacle_dist h.1 hp hobs, sqrdCellDistance_self]⟩
      · obtain ⟨t1, t2, t3⟩ := offsetTowards_spec m p o hp ho hpo
        obtain ⟨hq1, _⟩ := ih _ t2 (by omega) (by omega)
        have hback := neighborCell_neg p (offsetTowards p o)
        have hq := handed_final m h.2.2 hopen hstack _ o t2 hq1 _
          (hfull _ _ (neighbors26_neg _ t1)) (by rw [hback]; exact hp)
        rw [hback] at hq
        have hle : (m.m_cells p).dist ≤ sqrdCellDistance p o := by
          rcases hq with hq | hq <;> omega
        rcases h.1.2.1 p hp with ⟨_, hd⟩ | ⟨o', ho', _, _, hd, _⟩
        · omega
        · have := hlabel p o' hp ho'
          subst this
          exact ⟨ho', hd⟩
  by_cases hlt : sqrdCellDistance p o < m.m_dmax_sqrd_int
  · rw [(key _ p hp (Nat.lt_succ_self _) hlt).2]
    exact (min_eq_left (le_of_lt hlt)).symm
  · rcases h.1.2.1 p hp with ⟨_, hd⟩ | ⟨o', ho', _, _, hd, hlt'⟩
    · rw [hd]
      exact (min_eq_right (not_lt.mp hlt)).symm
    · have := hlabel p o' hp ho'
      subst this
      omega

/-- Any sequence of `addPointsToMap` calls keeps the invariant of insertion. -/
theorem call_foldl_sound (calls : List SparseDistanceMap.Call) (m : SparseDistanceMap)
    (occupied : List Vector3i) (hall : ∀ c ∈ calls, c.isAdd = true)
    (h : m.Sound (fun q => q ∈ occupied)) :
    (calls.foldl SparseDistanceMap.call m).Sound
      (fun q => q ∈ calls.foldl SparseDistanceMap.Call.occupied occupied) := by
  induction calls generalizing m occupied with
  | nil => exact h
  | cons c cs ih =>
    simp only [List.foldl_cons]
    have hc := hall c (List.mem_cons_self _ _)
    refine ih _ _ (fun c' hc' => hall c' (List.mem_cons_of_mem _ hc')) ?_
    cases c with
    | addPointsToMap points =>
      refine sound_mono _ _ _ ?_ ?_ (addPointsToMap_sound m points _ h)
      · intro q hq
        simpa [SparseDistanceMap.Call.occupied] using hq
      · intro q _ hq
        simpa [SparseDistanceMap.Call.occupied] using hq
    | removePointsFromMap points => cases hc
    | updatePointsInMap old_points new_points => cases hc

/-! ### Distances never grow while points are added -/

theorem lowerNeighbor_foldl_dist_le (s o : Vector3i) (offsets : List Vector3i)
    (m : SparseDistanceMap) (p : Vector3i) :
    ((offsets.foldl (SparseDistanceMap.lowerNeighbor s o) m).m_cells p).dist
      ≤ (m.m_cells p).dist := by
  induction offsets generalizing m with
  | nil => exact le_refl _
  | cons x xs ih =>
    simp only [List.foldl_cons]
    exact le_trans (ih _) ((lowerNeighbor_keeps s o m x).1 p)

theorem propagateStep_dist_le (m : SparseDistanceMap) (p : Vector3i) :
    (m.propagateStep.m_cells p).dist ≤ (m.m_cells p).dist := by
  unfold SparseDistanceMap.propagateStep
  split
  · exact le_refl _
  · split
    · unfold SparseDistanceMap.lower
      split
      · exact le_refl _
      · exact lowerNeighbor_foldl_dist_le _ _ _ _ p
    · exact le_refl _

theorem propagateFuel_dist_le (fuel : Nat) (m : SparseDistanceMap) (p : Vector3i) :
    ((SparseDistanceMap.propagateFuel fuel m).m_cells p).dist ≤ (m.m_cells p).dist := by
  induction fuel generalizing m with
  | zero => exact le_refl _
  | succ fuel ih =>
    unfold SparseDistanceMap.propagateFuel
    split
    · exact le_refl _
    · exact le_trans (ih _) (propagateStep_dist_le m p)

theorem addPoint_foldl_dist_le (points : List Vector3i) (m : SparseDistanceMap)
    (p : Vector3i) :
    ((points.foldl SparseDistanceMap.addPoint m).m_cells p).dist ≤ (m.m_cells p).dist := by
  induction points generalizing m with
  | nil => exact le_refl _
  | cons x xs ih =>
    simp only [List.foldl_cons]
    refine le_trans (ih _) ?_
    unfold SparseDistanceMap.addPoint
    split
    · by_cases hpx : p = x
      · subst hpx
        simp only [setCell_same]
        exact Nat.zero_le _
      · simp only [setCell_other _ _ _ _ hpx]
        exact le_refl _
    · exact le_refl _

/-- Member `addPointsToMap` never makes a stored distance larger. -/
theorem addPointsToMap_dist_le (m : SparseDistanceMap) (points : List Vector3i)
    (p : Vector3i) :
    ((m.addPointsToMap points).m_cells p).dist ≤ (m.m_cells p).dist :=
  le_trans (propagateFuel_dist_le _ _ p) (addPoint_foldl_dist_le points m p)

/-! ### Exactness along a path -/

/-- With all the 26 neighbours in the table: along a path of neighbouring cells
of the grid that starts at a cell naming the obstacle `o`, every cell names `o`
and stores the squared distance to it, when every cell of the path is nearer
to `o` than `m_dmax_sqrd_int` and than to any other cell that has ever held a
point. -/
theorem final_path (m : SparseDistanceMap) (occupied ever : Vector3i → Prop)
    (h : m.Consistent occupied ever (fun _ => False) (fun _ => False))
    (hopen : m.m_open = []) (hstack : m.m_rem_stack = [])
    (hfull : ∀ dir offset, offset ∈ neighbors26 → offset ∈ m.neighborOffsets dir)
    (o : Vector3i) (path : List Vector3i) (s : Vector3i)
    (hs : m.isCellValid s = true) (hso : (m.m_cells s).obs = some o)
    (hchain : isNeighborPath s path = true)
    (hgood : ∀ q ∈ path, m.isCellValid q = true ∧
      sqrdCellDistance q o < m.m_dmax_sqrd_int ∧
      ∀ a, m.isCellValid a = true → ever a → a ≠ o →
        sqrdCellDistance q o < sqrdCellDistance q a) :
    ∀ q ∈ path, (m.m_cells q).obs = some o ∧
      (m.m_cells q).dist = sqrdCellDistance q o := by
  induction path generalizing s with
  | nil => exact fun q hq => absurd hq (List.not_mem_nil _)
  | cons x xs ih =>
    simp only [isNeighborPath, Bool.and_eq_true, List.any_eq_true,
      decide_eq_true_eq] at hchain
    obtain ⟨⟨offset, hoff, hx⟩, hrest⟩ := hchain
    obtain ⟨hxv, hxd, hxa⟩ := hgood x (List.mem_cons_self _ _)
    have hq := handed_final m h.2.2 hopen hstack s o hs hso offset (hfull _ _ hoff)
      (by rw [← hx]; exact hxv)
    rw [← hx] at hq
    have hle : (m.m_cells x).dist ≤ sqrdCellDistance x o := by
      rcases hq with hq | hq <;> omega
    have hxo : (m.m_cells x).obs = some o ∧ (m.m_cells x).dist = sqrdCellDistance x o := by
      rcases h.1.2.1 x hxv with ⟨_, hd⟩ | ⟨o', ho', hov', hev', hd, _⟩
      · omega
      · by_cases hoo : o' = o
        · subst hoo
          exact ⟨ho', hd⟩
        · have := hxa o' hov' hev' hoo
          omega
    intro q hq'
    rcases List.mem_cons.mp hq' with rfl | hq'
    · exact hxo
    · exact ih x hxv hxo.1 hrest
        (fun q hq => hgood q (List.mem_cons_of_mem _ hq)) q hq'

/-! ### Cells that the raise pass does not reach -/

theorem pointsIntoRemoved_congr (m m' : SparseDistanceMap) (c : Vector3i)
    (hc : m'.m_cells c = m.m_cells c)
    (ha : ∀ a, (m.m_cells c).obs = some a → (m.m_cells a).obs = some a →
      (m'.m_cells a).obs = some a)
    (h : ¬ m.pointsIntoRemoved c = true) : ¬ m'.pointsIntoRemoved c = true := by
  intro h'
  obtain ⟨a, h1, h2⟩ := pointsIntoRemoved_true h'
  rw [hc] at h1
  exact h2 (ha a h1 (pointsIntoRemoved_false h a h1))

theorem raiseNeighbor_shielded (s : Vector3i) (m : SparseDistanceMap)
    (offset p : Vector3i) (hk : m.Shielded p) (hoff : offset ∈ neighbors26)
    (hs : ∀ offset ∈ neighbors26, neighborCell s offset ≠ p) :
    (SparseDistanceMap.raiseNeighbor s m offset).Shielded p ∧
      (SparseDistanceMap.raiseNeighbor s m offset).m_cells p = m.m_cells p := by
  rcases raiseNeighbor_cases s m offset with ⟨_, e⟩ | ⟨hn, hp, e⟩ | ⟨hn, hp, e⟩
  · rw [e]
    exact ⟨hk, rfl⟩
  · rw [e]
    have hnp : p ≠ neighborCell s offset := fun h => hs offset hoff h.symm
    have hnadj : ¬ ∃ off ∈ neighbors26, neighborCell (neighborCell s offset) off = p :=
      fun hc => hk.2 _ hc hn hp
    obtain ⟨o1, ho1, ho1'⟩ := pointsIntoRemoved_true hp
    refine ⟨⟨fun c hc off hoff' => ?_, fun c hc hv => ?_⟩, ?_⟩
    · rcases List.mem_cons.mp hc with rfl | hc
      · exact fun h => hnadj ⟨off, hoff', h⟩
      · exact hk.1 c hc off hoff'
    · have hcn : c ≠ neighborCell s offset := by
        rintro rfl
        exact hnadj hc
      refine pointsIntoRemoved_congr m _ c ?_ ?_ (hk.2 c hc hv)
      · simp only [SparseDistanceMap.raiseCell, setCell_other _ _ _ _ hcn]
      · intro a _ haa
        have han : a ≠ neighborCell s offset := by
          rintro rfl
          rw [haa] at ho1
          cases ho1
          exact ho1' haa
        simp only [SparseDistanceMap.raiseCell, setCell_other _ _ _ _ han]
        exact haa
    · simp only [SparseDistanceMap.raiseCell, setCell_other _ _ _ _ hnp]
  · rw [e]
    exact ⟨⟨hk.1, fun c hc hv => pointsIntoRemoved_congr m _ c rfl (fun _ _ h => h)
      (hk.2 c hc hv)⟩, rfl⟩

theorem raiseNeighbor_foldl_shielded (s : Vector3i) (offsets : List Vector3i)
    (m : SparseDistanceMap) (p : Vector3i) (hk : m.Shielded p)
    (hoffs : ∀ offset ∈ offsets, offset ∈ neighbors26)
    (hs : ∀ offset ∈ neighbors26, neighborCell s offset ≠ p) :
    (offsets.foldl (SparseDistanceMap.raiseNeighbor s) m).Shielded p ∧
      (offsets.foldl (SparseDistanceMap.raiseNeighbor s) m).m_cells p = m.m_cells p := by
  induction offsets generalizing m with
  | nil => exact ⟨hk, rfl⟩
  | cons x xs ih =>
    simp only [List.foldl_cons]
    obtain ⟨h1, h2⟩ := raiseNeighbor_shielded s m x p hk
      (hoffs x (List.mem_cons_self _ _)) hs
    obtain ⟨i1, i2⟩ := ih _ h1 (fun off hoff => hoffs off (List.mem_cons_of_mem _ hoff))
    exact ⟨i1, i2.trans h2⟩

theorem propagateRemovalsFuel_shielded (fuel : Nat) (m : SparseDistanceMap)
    (p : Vector3i) (hk : m.Shielded p) :
    (SparseDistanceMap.propagateRemovalsFuel fuel m).m_cells p = m.m_cells p := by
  induction fuel generalizing m with
  | zero => rfl
  | succ fuel ih =>
    unfold SparseDistanceMap.propagateRemovalsFuel
    split
    · rfl
    · rename_i s rest he
      have hpop : SparseDistanceMap.Shielded { m with m_rem_stack := rest } p :=
        ⟨fun c hc => hk.1 c (he ▸ List.mem_cons_of_mem _ hc),
          fun c hc hv => pointsIntoRemoved_congr m _ c rfl (fun _ _ h => h)
            (hk.2 c hc hv)⟩
      obtain ⟨h1, h2⟩ := raiseNeighbor_foldl_shielded s neighbors26 _ p hpop
        (fun _ h => h) (hk.1 s (he ▸ List.mem_cons_self _ _))
      exact (ih _ h1).trans h2

theorem removePoint_foldl_cells (points : List Vector3i) (m : SparseDistanceMap) :
    (∀ q, q ∉ points →
        (points.foldl SparseDistanceMap.removePoint m).m_cells q = m.m_cells q) ∧
      ∀ c ∈ (points.foldl SparseDistanceMap.removePoint m).m_rem_stack,
        c ∈ points ∨ c ∈ m.m_rem_stack := by
  induction points generalizing m with
  | nil => exact ⟨fun _ _ => rfl, fun c hc => Or.inr hc⟩
  | cons x xs ih =>
    simp only [List.foldl_cons]
    obtain ⟨i1, i2⟩ := ih (m.removePoint x)
    have hx : (∀ q, q ≠ x → (m.removePoint x).m_cells q = m.m_cells q) ∧
        ∀ c ∈ (m.removePoint x).m_rem_stack, c = x ∨ c ∈ m.m_rem_stack := by
      unfold SparseDistanceMap.removePoint
      split
      · refine ⟨fun q hq => ?_, fun c hc => ?_⟩
        · simp only [SparseDistanceMap.raiseCell, setCell_other _ _ _ _ hq]
        · exact List.mem_cons.mp hc
      · exact ⟨fun _ _ => rfl, fun c hc => Or.inr hc⟩
    refine ⟨fun q hq => ?_, fun c hc => ?_⟩
    · rw [i1 q (fun h => hq (List.mem_cons_of_mem _ h)),
        hx.1 q (fun h => hq (h ▸ List.mem_cons_self _ _))]
    · rcases i2 c hc with h | h
      · exact Or.inl (List.mem_cons_of_mem _ h)
      · rcases hx.2 c h with h | h
        · exact Or.inl (h ▸ List.mem_cons_self _ _)
        · exact Or.inr h

/-- Member `removePointsFromMap` does not make the distance of a cell larger
when the cell is not among the points, no point is one of its neighbours, and
every neighbour of the cell in the grid is not among the points and names no
obstacle, or a cell that is an obstacle and not among the points. -/
theorem removePointsFromMap_dist_le (m : SparseDistanceMap) (points : List Vector3i)
    (p : Vector3i) (hstack : m.m_rem_stack = []) (hp : p ∉ points)
    (hfar : ∀ x ∈ points, ∀ offset ∈ neighbors26, neighborCell x offset ≠ p)
    (hadj : ∀ c, (∃ offset ∈ neighbors26, neighborCell c offset = p) →
      m.isCellValid c = true →
      c ∉ points ∧ ∀ a, (m.m_cells c).obs = some a →
        (m.m_cells a).obs = some a ∧ a ∉ points) :
    ((m.removePointsFromMap points).m_cells p).dist ≤ (m.m_cells p).dist := by
  unfold SparseDistanceMap.removePointsFromMap SparseDistanceMap.propagate
    SparseDistanceMap.propagateRemovals
  refine le_trans (propagateFuel_dist_le _ _ p) (le_of_eq ?_)
  obtain ⟨h1, h2⟩ := removePoint_foldl_cells points m
  have hk : (points.foldl SparseDistanceMap.removePoint m).Shielded p := by
    refine ⟨fun c hc => ?_, fun c hc hv => ?_⟩
    · rcases h2 c hc with h | h
      · exact hfar c h
      · rw [hstack] at h
        exact absurd h (List.not_mem_nil _)
    · have hv' : m.isCellValid c = true := by
        rw [← sameGrid_valid (sameGrid_foldl _ removePoint_sameGrid points m)]
        exact hv
      obtain ⟨hcp, hlab⟩ := hadj c hc hv'
      intro hpr
      obtain ⟨a, ha1, ha2⟩ := pointsIntoRemoved_true hpr
      rw [h1 c hcp] at ha1
      obtain ⟨ha3, ha4⟩ := hlab a ha1
      rw [h1 a ha4] at ha2
      exact ha2 ha3
  rw [propagateRemovalsFuel_shielded _ _ p hk, h1 p hp]

/-! ### A removed obstacle that stays in the map -/

/-- On a map of 8 x 14 x 1 cells with `m_dmax_sqrd_int` = 196 and all 26
neighbours in the table, on which no cell has ever held a point: after
`addPointsToMap` with (5, 1, 0), `addPointsToMap` with (1, 0, 0) and (7, 2, 0),
and `removePointsFromMap` with (5, 1, 0), the cell (0, 13, 0) stores 169, the
squared distance to the removed cell. -/
theorem removed_obstacle_stays_on (m0 : SparseDistanceMap)
    (h0 : m0.Consistent (fun q => q ∈ ([] : List Vector3i))
      (fun q => q ∈ ([] : List Vector3i)) (fun _ => False) (fun _ => False))
    (hopen0 : m0.m_open = []) (hstack0 : m0.m_rem_stack = [])
    (hg : (SparseDistanceMap.create 8 14 1 14 fun _ => neighbors26).SameGrid m0) :
    ([SparseDistanceMap.Call.addPointsToMap [(5, 1, 0)],
        SparseDistanceMap.Call.addPointsToMap [(1, 0, 0), (7, 2, 0)],
        SparseDistanceMap.Call.removePointsFromMap [(5, 1, 0)]].foldl
        SparseDistanceMap.call m0).getCellSquaredDistance (0, 13, 0) = 169 := by
  have htable : ∀ dir offset : Vector3i, offset ∈ m0.neighborOffsets dir →
      offset = (0, 0, 0) ∨ offset ∈ neighbors26 := by
    rw [hg.2.2.2.2]
    exact fun _ _ h => Or.inr h
  -- the map after the first call
  obtain ⟨c1, open1, stack1, g1'⟩ := call_foldl_consistent
    [SparseDistanceMap.Call.addPointsToMap [(5, 1, 0)]] m0 [] [] h0 hopen0 hstack0 htable
  -- the map after the second call
  obtain ⟨c2, open2, stack2, g2'⟩ := call_foldl_consistent
    [SparseDistanceMap.Call.addPointsToMap [(5, 1, 0)],
      SparseDistanceMap.Call.addPointsToMap [(1, 0, 0), (7, 2, 0)]] m0 [] [] h0 hopen0
    hstack0 htable
  -- the map after the third call
  obtain ⟨c3, -, -, g3'⟩ := call_foldl_consistent
    [SparseDistanceMap.Call.addPointsToMap [(5, 1, 0)],
      SparseDistanceMap.Call.addPointsToMap [(1, 0, 0), (7, 2, 0)],
      SparseDistanceMap.Call.removePointsFromMap [(5, 1, 0)]] m0 [] [] h0 hopen0 hstack0
    htable
  have g1 := sameGrid_trans hg g1'
  have g2 := sameGrid_trans hg g2'
  have g3 := sameGrid_trans hg g3'
  clear g1' g2' g3'
  simp only [List.foldl_cons, List.foldl_nil, SparseDistanceMap.call] at c1 open1 stack1 g1
  simp only [List.foldl_cons, List.foldl_nil, SparseDistanceMap.call] at c2 open2 stack2 g2
  simp only [List.foldl_cons, List.foldl_nil, SparseDistanceMap.call] at c3 g3 ⊢
  generalize hm1 : m0.addPointsToMap [(5, 1, 0)] = m1
    at c1 open1 stack1 g1 c2 open2 stack2 g2 c3 g3 ⊢
  generalize hm2 : m1.addPointsToMap [(1, 0, 0), (7, 2, 0)] = m2 at c2 open2 stack2 g2 c3 g3 ⊢
  generalize hm3 : m2.removePointsFromMap [(5, 1, 0)] = m3 at c3 g3 ⊢
  have v0 : ∀ q, (SparseDistanceMap.create 8 14 1 14 fun _ => neighbors26).isCellValid q
      = true ↔ (0 ≤ q.1 ∧ q.1 < 8) ∧ (0 ≤ q.2.1 ∧ q.2.1 < 14) ∧ (0 ≤ q.2.2 ∧ q.2.2 < 1) :=
    fun q => isCellValid_iff _ q
  have full1 : ∀ dir offset, offset ∈ neighbors26 → offset ∈ m1.neighborOffsets dir := by
    rw [g1.2.2.2.2]
    exact fun _ _ h => h
  have full2 : ∀ dir offset, offset ∈ neighbors26 → offset ∈ m2.neighborOffsets dir := by
    rw [g2.2.2.2.2]
    exact fun _ _ h => h
  have d1 : m1.m_dmax_sqrd_int = 196 := g1.2.2.2.1
  have d2 : m2.m_dmax_sqrd_int = 196 := g2.2.2.2.1
  have d3 : m3.m_dmax_sqrd_int = 196 := g3.2.2.2.1
  have valid1 : ∀ q, m1.isCellValid q
      = (SparseDistanceMap.create 8 14 1 14 fun _ => neighbors26).isCellValid q :=
    fun q => sameGrid_valid g1 q
  have valid2 : ∀ q, m2.isCellValid q
      = (SparseDistanceMap.create 8 14 1 14 fun _ => neighbors26).isCellValid q :=
    fun q => sameGrid_valid g2 q
  have valid3 : ∀ q, m3.isCellValid q
      = (SparseDistanceMap.create 8 14 1 14 fun _ => neighbors26).isCellValid q :=
    fun q => sameGrid_valid g3 q
  -- after the first call the cell stores 169
  have p1 : (m1.m_cells (0, 13, 0)).dist = 169 := by
    have := final_single m1 _ _ c1 open1 stack1 full1 (5, 1, 0)
      (by rw [valid1]; decide) (by decide)
      (fun a _ ha => by simpa [SparseDistanceMap.Call.added] using ha) (0, 13, 0)
      (by rw [valid1]; decide)
    rw [this, d1]
    decide
  -- after the second call it stores at most 169, hence 169
  have p2le : (m2.m_cells (0, 13, 0)).dist ≤ 169 := by
    rw [← hm2, ← p1]
    exact addPointsToMap_dist_le m1 _ _
  -- the neighbours of the cell name (7, 2, 0) and (1, 0, 0)
  have occ2 : ∀ a, a ∈ [((1 : Int), (0 : Int), (0 : Int)), (7, 2, 0)] →
      (m2.m_cells a).obs = some a := by
    have key : ∀ a ∈ [((1 : Int), (0 : Int), (0 : Int)), (7, 2, 0)],
        (SparseDistanceMap.create 8 14 1 14 fun _ => neighbors26).isCellValid a = true ∧
          a ∈ SparseDistanceMap.Call.occupied
            (SparseDistanceMap.Call.occupied []
              (SparseDistanceMap.Call.addPointsToMap [(5, 1, 0)]))
            (SparseDistanceMap.Call.addPointsToMap [(1, 0, 0), (7, 2, 0)]) := by
      decide
    intro a ha
    exact (c2.2.1 a (by rw [valid2]; exact (key a ha).1)).mpr (key a ha).2
  have ever2 : ∀ a, a ∈ ([] : List Vector3i) ++
      [SparseDistanceMap.Call.addPointsToMap [(5, 1, 0)],
        SparseDistanceMap.Call.addPointsToMap [(1, 0, 0), (7, 2, 0)]].flatMap
        SparseDistanceMap.Call.added →
      a ∈ [((5 : Int), (1 : Int), (0 : Int)), (1, 0, 0), (7, 2, 0)] := by
    intro a ha
    simpa [SparseDistanceMap.Call.added] using ha
  have near72 : ∀ q ∈ [((7 : Int), (3 : Int), (0 : Int)), (7, 4, 0), (7, 5, 0), (7, 6, 0),
      (7, 7, 0), (7, 8, 0), (7, 9, 0), (7, 10, 0), (7, 11, 0), (7, 12, 0), (6, 13, 0),
      (5, 13, 0), (4, 13, 0), (3, 13, 0), (2, 13, 0), (1, 13, 0), (1, 12, 0)],
      (SparseDistanceMap.create 8 14 1 14 fun _ => neighbors26).isCellValid q = true ∧
        sqrdCellDistance q (7, 2, 0) < 196 ∧
        ∀ a ∈ [((5 : Int), (1 : Int), (0 : Int)), (1, 0, 0), (7, 2, 0)], a ≠ (7, 2, 0) →
          sqrdCellDistance q (7, 2, 0) < sqrdCellDistance q a := by
    decide
  have near10 : ∀ q ∈ [((0 : Int), (1 : Int), (0 : Int)), (0, 2, 0), (0, 3, 0), (0, 4, 0),
      (0, 5, 0), (0, 6, 0), (0, 7, 0), (0, 8, 0), (0, 9, 0), (0, 10, 0), (0, 11, 0),
      (0, 12, 0)],
      (SparseDistanceMap.create 8 14 1 14 fun _ => neighbors26).isCellValid q = true ∧
        sqrdCellDistance q (1, 0, 0) < 196 ∧
        ∀ a ∈ [((5 : Int), (1 : Int), (0 : Int)), (1, 0, 0), (7, 2, 0)], a ≠ (1, 0, 0) →
          sqrdCellDistance q (1, 0, 0) < sqrdCellDistance q a := by
    decide
  have path72 := final_path m2 _ _ c2 open2 stack2 full2 (7, 2, 0)
    [(7, 3, 0), (7, 4, 0), (7, 5, 0), (7, 6, 0), (7, 7, 0), (7, 8, 0), (7, 9, 0),
      (7, 10, 0), (7, 11, 0), (7, 12, 0), (6, 13, 0), (5, 13, 0), (4, 13, 0), (3, 13, 0),
      (2, 13, 0), (1, 13, 0), (1, 12, 0)] (7, 2, 0) (by rw [valid2]; decide)
    (occ2 _ (by decide)) (by decide)
    (fun q hq => ⟨by rw [valid2]; exact (near72 q hq).1, by rw [d2]; exact (near72 q hq).2.1,
      fun a _ ha hne => (near72 q hq).2.2 a (ever2 a ha) hne⟩)
  have path10 := final_path m2 _ _ c2 open2 stack2 full2 (1, 0, 0)
    [(0, 1, 0), (0, 2, 0), (0, 3, 0), (0, 4, 0), (0, 5, 0), (0, 6, 0), (0, 7, 0),
      (0, 8, 0), (0, 9, 0), (0, 10, 0), (0, 11, 0), (0, 12, 0)] (1, 0, 0)
    (by rw [valid2]; decide) (occ2 _ (by decide)) (by decide)
    (fun q hq => ⟨by rw [valid2]; exact (near10 q hq).1, by rw [d2]; exact (near10 q hq).2.1,
      fun a _ ha hne => (near10 q hq).2.2 a (ever2 a ha) hne⟩)
  -- the removal does not reach the cell
  have p3le : (m3.m_cells (0, 13, 0)).dist ≤ 169 := by
    rw [← hm3]
    refine le_trans (removePointsFromMap_dist_le m2 _ _ stack2 (by decide) (by decide) ?_)
      p2le
    intro c hc hv
    obtain ⟨offset, hoff, hcp⟩ := hc
    have hc' : c = neighborCell (0, 13, 0) (-offset.1, -offset.2.1, -offset.2.2) := by
      rw [← hcp]
      exact (neighborCell_neg c offset).symm
    have hmem : c ∈ [((1 : Int), (13 : Int), (0 : Int)), (0, 12, 0), (1, 12, 0)] := by
      rw [valid2, hc'] at hv
      rw [hc']
      have key : ∀ off ∈ neighbors26,
          (SparseDistanceMap.create 8 14 1 14 fun _ => neighbors26).isCellValid
            (neighborCell (0, 13, 0) off) = true →
          neighborCell (0, 13, 0) off
            ∈ [((1 : Int), (13 : Int), (0 : Int)), (0, 12, 0), (1, 12, 0)] := by
        decide
      exact key _ (neighbors26_neg offset hoff) hv
    have hlab : ∃ a ∈ [((1 : Int), (0 : Int), (0 : Int)), (7, 2, 0)],
        (m2.m_cells c).obs = some a := by
      simp only [List.mem_cons, List.mem_singleton, List.not_mem_nil, or_false] at hmem
      rcases hmem with rfl | rfl | rfl
      · exact ⟨(7, 2, 0), by decide, (path72 _ (by decide)).1⟩
      · exact ⟨(1, 0, 0), by decide, (path10 _ (by decide)).1⟩
      · exact ⟨(7, 2, 0), by decide, (path72 _ (by decide)).1⟩
    obtain ⟨a, ha, hca⟩ := hlab
    have key1 : ∀ c ∈ [((1 : Int), (13 : Int), (0 : Int)), (0, 12, 0), (1, 12, 0)],
        c ∉ [((5 : Int), (1 : Int), (0 : Int))] := by
      decide
    have key2 : ∀ a ∈ [((1 : Int), (0 : Int), (0 : Int)), (7, 2, 0)],
        a ∉ [((5 : Int), (1 : Int), (0 : Int))] := by
      decide
    refine ⟨key1 c hmem, fun a' ha' => ?_⟩
    rw [hca] at ha'
    cases ha'
    exact ⟨occ2 a ha, key2 a ha⟩
  -- the distance stored is that to a cell that has held a point
  unfold SparseDistanceMap.getCellSquaredDistance
  rcases c3.1.2.1 (0, 13, 0) (by rw [valid3]; decide) with ⟨_, h⟩ | ⟨a, _, _, ha, h, _⟩
  · omega
  · have key : ∀ a ∈ ([] : List Vector3i) ++
        [SparseDistanceMap.Call.addPointsToMap [(5, 1, 0)],
          SparseDistanceMap.Call.addPointsToMap [(1, 0, 0), (7, 2, 0)],
          SparseDistanceMap.Call.removePointsFromMap [(5, 1, 0)]].flatMap
          SparseDistanceMap.Call.added, 169 ≤ sqrdCellDistance (0, 13, 0) a := by
      decide
    have := key a ha
    omega

theorem removed_obstacle_stays :
    ([SparseDistanceMap.Call.addPointsToMap [(5, 1, 0)],
        SparseDistanceMap.Call.addPointsToMap [(1, 0, 0), (7, 2, 0)],
        SparseDistanceMap.Call.removePointsFromMap [(5, 1, 0)]].foldl
        SparseDistanceMap.call
        (SparseDistanceMap.create 8 14 1 14 fun _ => neighbors26)).getCellSquaredDistance
        (0, 13, 0) = 169 :=
  removed_obstacle_stays_on _
    (create_consistent 8 14 1 14 (fun _ => neighbors26) (by decide)) rfl rfl
    (sameGrid_refl _)

/-! ## C14 -/

set_option maxRecDepth 1000000 in
/-- C14, counterexample: a map of 8 x 14 x 1 cells that propagates up to 14
cells (`m_dmax_sqrd_int` = 196) with every one of the 26 neighbours allowed for
every update direction.
After `addPointsToMap` with the cells (1, 0, 0), (5, 1, 0) and (7, 2, 0) on the
fresh map, the squared distance stored for the cell (0, 13, 0) is 170, although
the occupied cell (5, 1, 0) is at the squared distance 169, below the clamp
196: none of the neighbours of (0, 13, 0) has (5, 1, 0) as its nearest
obstacle, so that obstacle is never handed on to the cell.
After `addPointsToMap` with (5, 1, 0), `addPointsToMap` with (1, 0, 0) and
(7, 2, 0), and `removePointsFromMap` with (5, 1, 0), the cells (1, 0, 0) and
(7, 2, 0) are occupied, both at the squared distance 170 from (0, 13, 0), but
the cell still stores 169, the distance to the removed cell: the raise pass
goes from neighbour to neighbour and no neighbour of (0, 13, 0) named
(5, 1, 0). -/
theorem distance_map_not_minimum :
    (([SparseDistanceMap.Call.addPointsToMap [(1, 0, 0), (5, 1, 0), (7, 2, 0)]].foldl
          SparseDistanceMap.call
          (SparseDistanceMap.create 8 14 1 14 fun _ => neighbors26)).getCellSquaredDistance
          (0, 13, 0) = 170 ∧
        occupiedCells [SparseDistanceMap.Call.addPointsToMap
          [(1, 0, 0), (5, 1, 0), (7, 2, 0)]] = [(1, 0, 0), (5, 1, 0), (7, 2, 0)] ∧
        (SparseDistanceMap.create 8 14 1 14 fun _ => neighbors26).isCellValid (0, 13, 0)
          = true ∧
        (SparseDistanceMap.create 8 14 1 14 fun _ => neighbors26).isCellValid (5, 1, 0)
          = true ∧
        sqrdCellDistance (0, 13, 0) (5, 1, 0) = 169 ∧
        (SparseDistanceMap.create 8 14 1 14 fun _ => neighbors26).m_dmax_sqrd_int = 196) ∧
      (([SparseDistanceMap.Call.addPointsToMap [(5, 1, 0)],
          SparseDistanceMap.Call.addPointsToMap [(1, 0, 0), (7, 2, 0)],
          SparseDistanceMap.Call.removePointsFromMap [(5, 1, 0)]].foldl
          SparseDistanceMap.call
          (SparseDistanceMap.create 8 14 1 14 fun _ => neighbors26)).getCellSquaredDistance
          (0, 13, 0) = 169 ∧
        occupiedCells [SparseDistanceMap.Call.addPointsToMap [(5, 1, 0)],
          SparseDistanceMap.Call.addPointsToMap [(1, 0, 0), (7, 2, 0)],
          SparseDistanceMap.Call.removePointsFromMap [(5, 1, 0)]]
          = [(1, 0, 0), (7, 2, 0)] ∧
        sqrdCellDistance (0, 13, 0) (1, 0, 0) = 170 ∧
        sqrdCellDistance (0, 13, 0) (7, 2, 0) = 170) :=
  ⟨by decide!, removed_obstacle_stays, by decide, by decide, by decide⟩

/-- C14, amended: let `m` be the map after any sequence of `addPointsToMap`,
`removePointsFromMap` and `updatePointsInMap` calls on a fresh map that
propagates over at least one cell, with a table of neighbour offsets that holds
none but the offsets to the 26 neighbours (and possibly the offset 0). Then
every call has returned with the open list and the raise stack empty, and for
every cell `p` of the grid:
the stored squared distance is at most `dmax_int²`; it is 0 exactly when `p`
is occupied (holds a point that was added and not removed since); it is
`dmax_int²` or the squared distance from `p` to a cell of the grid that has
held a point at some time; when `p` names an obstacle `o`, it stores the squared
distance to `o` and has handed `o` on: every neighbour `n` that the table allows
for the update direction of `p` stores at most the squared distance from `n` to
`o`, unless that is `dmax_int²` or more.
After additions only, the stored distance is not below any number that bounds
`dmax_int²` and the squared distances to all occupied cells from below, in
particular not below the clamped minimum.
When the table holds all 26 offsets for every update direction: a cell next to
an occupied cell `o` stores at most the squared distance to `o` (unless that is
`dmax_int²` or more); when no cell of the grid is occupied, the stored distance
is `dmax_int²`; and when an occupied cell `o` is the only cell of the grid that
has ever held a point, the stored distance is the squared distance to `o`
clamped at `dmax_int²`, which is the clamped minimum of the claim; and when a
path of neighbouring cells of the grid leads from an occupied cell `o` to `p`
and every cell of the path is nearer to `o` than `dmax_int²` and than to any
other cell of the grid that has ever held a point, the stored distance is the
squared distance to `o`, again the clamped minimum of the claim. -/
theorem distance_map_after_calls
    (cell_count_x cell_count_y cell_count_z dmax_int : Nat)
    (neighborOffsets : Vector3i → List Vector3i)
    (calls : List SparseDistanceMap.Call) (m : SparseDistanceMap)
    (hm : m = calls.foldl SparseDistanceMap.call
      (SparseDistanceMap.create cell_count_x cell_count_y cell_count_z dmax_int
        neighborOffsets))
    (hd : 0 < dmax_int)
    (htable : ∀ dir offset, offset ∈ neighborOffsets dir →
      offset = (0, 0, 0) ∨ offset ∈ neighbors26)
    (p : Vector3i)
    (hp : (SparseDistanceMap.create cell_count_x cell_count_y cell_count_z dmax_int
      neighborOffsets).isCellValid p = true) :
    m.m_open = [] ∧ m.m_rem_stack = [] ∧
      m.getCellSquaredDistance p ≤ dmax_int * dmax_int ∧
      (m.getCellSquaredDistance p = 0 ↔ p ∈ occupiedCells calls) ∧
      (m.getCellSquaredDistance p = dmax_int * dmax_int ∨
        ∃ o ∈ addedCells calls,
          (SparseDistanceMap.create cell_count_x cell_count_y cell_count_z dmax_int
            neighborOffsets).isCellValid o = true ∧
          m.getCellSquaredDistance p = sqrdCellDistance p o) ∧
      (∀ o, (m.m_cells p).obs = some o →
        m.getCellSquaredDistance p = sqrdCellDistance p o ∧
        ∀ offset ∈ neighborOffsets (m.m_cells p).dir,
          (SparseDistanceMap.create cell_count_x cell_count_y cell_count_z dmax_int
            neighborOffsets).isCellValid (neighborCell p offset) = true →
          m.getCellSquaredDistance (neighborCell p offset)
              ≤ sqrdCellDistance (neighborCell p offset) o ∨
            dmax_int * dmax_int ≤ sqrdCellDistance (neighborCell p offset) o) ∧
      ((∀ c ∈ calls, c.isAdd = true) →
        ∀ b : Nat, b ≤ dmax_int * dmax_int →
          (∀ o ∈ occupiedCells calls,
            (SparseDistanceMap.create cell_count_x cell_count_y cell_count_z dmax_int
              neighborOffsets).isCellValid o = true → b ≤ sqrdCellDistance p o) →
          b ≤ m.getCellSquaredDistance p) ∧
      ((∀ dir offset, offset ∈ neighbors26 → offset ∈ neighborOffsets dir) →
        (∀ o ∈ occupiedCells calls,
          (SparseDistanceMap.create cell_count_x cell_count_y cell_count_z dmax_int
            neighborOffsets).isCellValid o = true →
          ∀ offset ∈ neighbors26, p = neighborCell o offset →
            m.getCellSquaredDistance p ≤ sqrdCellDistance p o ∨
              dmax_int * dmax_int ≤ sqrdCellDistance p o) ∧
        ((∀ o ∈ occupiedCells calls,
            (SparseDistanceMap.create cell_count_x cell_count_y cell_count_z dmax_int
              neighborOffsets).isCellValid o ≠ true) →
          m.getCellSquaredDistance p = dmax_int * dmax_int) ∧
        (∀ o ∈ occupiedCells calls,
          (SparseDistanceMap.create cell_count_x cell_count_y cell_count_z dmax_int
            neighborOffsets).isCellValid o = true →
          (∀ a ∈ addedCells calls,
            (SparseDistanceMap.create cell_count_x cell_count_y cell_count_z dmax_int
              neighborOffsets).isCellValid a = true → a = o) →
          m.getCellSquaredDistance p = min (sqrdCellDistance p o) (dmax_int * dmax_int)) ∧
        ∀ o ∈ occupiedCells calls,
          (SparseDistanceMap.create cell_count_x cell_count_y cell_count_z dmax_int
            neighborOffsets).isCellValid o = true →
          ∀ path : List Vector3i, isNeighborPath o path = true →
            (∀ q ∈ path,
              (SparseDistanceMap.create cell_count_x cell_count_y cell_count_z dmax_int
                neighborOffsets).isCellValid q = true ∧
              sqrdCellDistance q o < dmax_int * dmax_int ∧
              ∀ a ∈ addedCells calls,
                (SparseDistanceMap.create cell_count_x cell_count_y cell_count_z
                  dmax_int neighborOffsets).isCellValid a = true →
                a ≠ o → sqrdCellDistance q o < sqrdCellDistance q a) →
            p ∈ path → m.getCellSquaredDistance p = sqrdCellDistance p o) := by
  obtain ⟨hc, hopen, hstack, hg⟩ := call_foldl_consistent calls _ [] []
    (create_consistent cell_count_x cell_count_y cell_count_z dmax_int neighborOffsets hd)
    rfl rfl htable
  rw [← hm] at hc hopen hstack hg
  have hv : ∀ q, m.isCellValid q
      = (SparseDistanceMap.create cell_count_x cell_count_y cell_count_z dmax_int
        neighborOffsets).isCellValid q := fun q => sameGrid_valid hg q
  have hdm : m.m_dmax_sqrd_int = dmax_int * dmax_int := hg.2.2.2.1
  have htab : m.neighborOffsets = neighborOffsets := hg.2.2.2.2
  have hp' : m.isCellValid p = true := by rw [hv]; exact hp
  have hever : ∀ q, q ∈ ([] : List Vector3i) ++ calls.flatMap SparseDistanceMap.Call.added
      ↔ q ∈ addedCells calls := fun q => by simp [addedCells]
  unfold SparseDistanceMap.getCellSquaredDistance
  refine ⟨hopen, hstack, ?_, ?_, ?_, ?_, ?_, ?_⟩
  · rcases hc.1.2.1 p hp' with ⟨_, h⟩ | ⟨o, _, _, _, _, h⟩ <;> omega
  · constructor
    · intro h0
      rcases hc.1.2.1 p hp' with ⟨_, h⟩ | ⟨o, ho, _, _, h, _⟩
      · have := hc.1.1
        omega
      · have hpo := sqrdCellDistance_eq_zero (h ▸ h0)
        subst hpo
        exact (hc.2.1 p hp').mp ho
    · intro hocc
      exact labelled_obstacle_dist hc.1 hp' ((hc.2.1 p hp').mpr hocc)
  · rcases hc.1.2.1 p hp' with ⟨_, h⟩ | ⟨o, _, hov, hev, h, _⟩
    · exact Or.inl (h.trans hdm)
    · exact Or.inr ⟨o, (hever o).mp hev, by rw [← hv]; exact hov, h⟩
  · intro o ho
    refine ⟨(labelled_dist_eq hc.1 hp' ho).2.2.1, fun offset hoff hn => ?_⟩
    rw [← hdm]
    exact handed_final m hc.2.2 hopen hstack p o hp' ho offset (by rw [htab]; exact hoff)
      (by rw [hv]; exact hn)
  · intro hall b hb1 hb2
    have hs := call_foldl_sound calls _ [] hall
      (sound_mono _ _ _ (fun _ h => absurd h id)
        (fun q _ h => absurd h (List.not_mem_nil q))
        (create_sound cell_count_x cell_count_y cell_count_z dmax_int neighborOffsets hd))
    rw [← hm] at hs
    rcases (hs.1 p hp').2 with ⟨_, h⟩ | ⟨o, _, hov, hocc, h⟩
    · omega
    · rw [h]
      exact hb2 o hocc (by rw [← hv]; exact hov)
  · intro hfull
    have hfull' : ∀ dir offset, offset ∈ neighbors26 → offset ∈ m.neighborOffsets dir := by
      rw [htab]
      exact hfull
    refine ⟨fun o hocc hov offset hoff hpo => ?_, fun hnone => ?_,
      fun o hocc hov hone => ?_, fun o hocc hov path hpath hgood hpp => ?_⟩
    · have hov' : m.isCellValid o = true := by rw [hv]; exact hov
      have hobs := (hc.2.1 o hov').mpr hocc
      have := handed_final m hc.2.2 hopen hstack o o hov' hobs offset (hfull' _ _ hoff)
        (by rw [← hpo]; exact hp')
      rw [← hpo, hdm] at this
      exact this
    · rw [← hdm]
      exact (final_empty m _ _ hc hopen hstack hfull'
        (fun q hq hocc => hnone q hocc (by rw [← hv]; exact hq)) p hp').2
    · rw [← hdm]
      exact final_single m _ _ hc hopen hstack hfull' o (by rw [hv]; exact hov) hocc
        (fun a ha hev => hone a ((hever a).mp hev) (by rw [← hv]; exact ha)) p hp'
    · have hov' : m.isCellValid o = true := by rw [hv]; exact hov
      exact (final_path m _ _ hc hopen hstack hfull' o path o hov'
        ((hc.2.1 o hov').mpr hocc) hpath
        (fun q hq => ⟨by rw [hv]; exact (hgood q hq).1, by rw [hdm]; exact (hgood q hq).2.1,
          fun a ha hev hne => (hgood q hq).2.2 a ((hever a).mp hev)
            (by rw [← hv]; exact ha) hne⟩) p hpp).2

theorem distance_map_after_calls_witness :
    0 < 5 ∧
      (SparseDistanceMap.create 10 10 10 5 fun _ => neighbors26).isCellValid (5, 5, 5)
        = true ∧
      (SparseDistanceMap.create 10 10 10 5 fun _ => neighbors26).isCellValid (5, 5, 6)
        = true ∧
      (SparseDistanceMap.create 10 10 10 5 fun _ => neighbors26).isCellValid (3, 5, 5)
        = true ∧
      (SparseDistanceMap.create 10 10 10 5 fun _ => neighbors26).isCellValid (0, 0, 0)
        = true ∧
      ([SparseDistanceMap.Call.addPointsToMap [(5, 5, 5)]].foldl SparseDistanceMap.call
        (SparseDistanceMap.create 10 10 10 5 fun _ => neighbors26)).getCellSquaredDistance
        (5, 5, 5) = 0 ∧
      ([SparseDistanceMap.Call.addPointsToMap [(5, 5, 5)]].foldl SparseDistanceMap.call
        (SparseDistanceMap.create 10 10 10 5 fun _ => neighbors26)).getCellSquaredDistance
        (5, 5, 6) = 1 ∧
      ([SparseDistanceMap.Call.addPointsToMap [(5, 5, 5)]].foldl SparseDistanceMap.call
        (SparseDistanceMap.create 10 10 10 5 fun _ => neighbors26)).getCellSquaredDistance
        (3, 5, 5) = 4 ∧
      ([SparseDistanceMap.Call.addPointsToMap [(5, 5, 5)]].foldl SparseDistanceMap.call
        (SparseDistanceMap.create 10 10 10 5 fun _ => neighbors26)).getCellSquaredDistance
        (0, 0, 0) = 25 ∧
      ([SparseDistanceMap.Call.addPointsToMap [(5, 5, 5)],
        SparseDistanceMap.Call.removePointsFromMap [(5, 5, 5)]].foldl
        SparseDistanceMap.call
        (SparseDistanceMap.create 10 10 10 5 fun _ => neighbors26)).getCellSquaredDistance
        (5, 5, 5) = 25 ∧
      ([SparseDistanceMap.Call.addPointsToMap [(5, 5, 5)],
        SparseDistanceMap.Call.removePointsFromMap [(5, 5, 5)]].foldl
        SparseDistanceMap.call
        (SparseDistanceMap.create 10 10 10 5 fun _ => neighbors26)).getCellSquaredDistance
        (5, 5, 6) = 25 :=
  have single : ∀ p : Vector3i,
      (SparseDistanceMap.create 10 10 10 5 fun _ => neighbors26).isCellValid p = true →
      ([SparseDistanceMap.Call.addPointsToMap [(5, 5, 5)]].foldl SparseDistanceMap.call
        (SparseDistanceMap.create 10 10 10 5 fun _ => neighbors26)).getCellSquaredDistance p
        = min (sqrdCellDistance p (5, 5, 5)) (5 * 5) := fun p hp =>
    ((distance_map_after_calls 10 10 10 5 (fun _ => neighbors26)
      [SparseDistanceMap.Call.addPointsToMap [(5, 5, 5)]] _ rfl (by decide)
      (fun _ _ h => Or.inr h) p hp).2.2.2.2.2.2.2 (fun _ _ h => h)).2.2.1 (5, 5, 5)
      (by decide) (by decide) (by decide)
  have emptied : ∀ p : Vector3i,
      (SparseDistanceMap.create 10 10 10 5 fun _ => neighbors26).isCellValid p = true →
      ([SparseDistanceMap.Call.addPointsToMap [(5, 5, 5)],
        SparseDistanceMap.Call.removePointsFromMap [(5, 5, 5)]].foldl
        SparseDistanceMap.call
        (SparseDistanceMap.create 10 10 10 5 fun _ => neighbors26)).getCellSquaredDistance p
        = 5 * 5 := fun p hp =>
    ((distance_map_after_calls 10 10 10 5 (fun _ => neighbors26)
      [SparseDistanceMap.Call.addPointsToMap [(5, 5, 5)],
        SparseDistanceMap.Call.removePointsFromMap [(5, 5, 5)]] _ rfl (by decide)
      (fun _ _ h => Or.inr h) p hp).2.2.2.2.2.2.2 (fun _ _ h => h)).2.1 (by decide)
  ⟨by decide, by decide, by decide, by decide, by decide,
    (single (5, 5, 5) (by decide)).trans (by decide),
    (single (5, 5, 6) (by decide)).trans (by decide),
    (single (3, 5, 5) (by decide)).trans (by decide),
    (single (0, 0, 0) (by decide)).trans (by decide),
    emptied (5, 5, 5) (by decide), emptied (5, 5, 6) (by decide)⟩

namespace call_planner

/-! ## C15 -/

/-- C15, failing input: the robot model fails to initialise (`rm->init`
returns false). `main` leaves through `return false`, which is the exit code
0, the same code as after a successful plan. More generally the value returned
by `main` is 0 whatever the steps report: a failed initialisation of the robot
model, of the collision space or of the planner, a missing initial
configuration and a failed `solve` all end in exit code 0. -/
theorem main_exit_code_zero :
    main { rm_init := false, cc_init := true, cc_setPlanningJoints := true,
           planner_init := true, getInitialConfiguration := true, solve := true } = 0 ∧
      main { rm_init := true, cc_init := true, cc_setPlanningJoints := true,
             planner_init := true, getInitialConfiguration := true, solve := false }
        = 0 ∧
      main { rm_init := true, cc_init := true, cc_setPlanningJoints := true,
             planner_init := true, getInitialConfiguration := true, solve := true }
        = 0 ∧
      ∀ steps : MainSteps, main steps = 0 := by
  refine ⟨rfl, rfl, rfl, fun steps => ?_⟩
  unfold main
  split_ifs <;> rfl

/-! ## C16 -/

/-- C16, failing input: the file holds `1`, a line break and the record
`box 1 2 3 4 5 6`, with no character behind the last token. The count, the
identifier and the first five numbers are read as written, but reading the
token `6` runs into the end of the file and sets the end-of-file indicator, so
the test `!feof(fCfg)` fails and the value is not stored: the box comes back
with the dimensions (4, 5, 0) instead of (4, 5, 6). With a line break behind
the last token the same record is returned in full. -/
theorem getCollisionObjects_drops_last_value :
    getCollisionObjects (some "1\nbox 1 2 3 4 5 6".data) [] "map"
        = some [{ id := "box", frame_id := "map",
                  primitives := [{ type := PrimitiveType.BOX,
                                   dimensions := [4, 5, 0] }],
                  primitive_poses := [{ position := { x := 1, y := 2, z := 3 },
                                        orientation := { x := 0, y := 0, z := 0, w := 1 } }] }] ∧
      getCollisionObjects (some "1\nbox 1 2 3 4 5 6\n".data) [] "map"
        = some [{ id := "box", frame_id := "map",
                  primitives := [{ type := PrimitiveType.BOX,
                                   dimensions := [4, 5, 6] }],
                  primitive_poses := [{ position := { x := 1, y := 2, z := 3 },
                                        orientation := { x := 0, y := 0, z := 0, w := 1 } }] }] ∧
      (fscanf_s { rest := "6".data, eof := false } "5".data).2.2.eof = true ∧
      (fscanf_s { rest := "6\n".data, eof := false } "5".data).2.2.eof = false := by
  refine ⟨by decide, by decide, by decide, by decide⟩

end call_planner

namespace motion

/-! ## C17 -/

/-- C17, failing input: the list of solutions holds one solution on entry, the
option is `UNRESTRICTED` and the search fails. The call appends nothing, yet it
returns true, because the returned value is `solutions.size() > 0`. In general
the flag returned for an option other than `RESTRICT_XYZ` is true exactly when
the search succeeds or the list was not empty on entry; the list itself is as
the claim says (one solution appended on success, unchanged otherwise), and
for `RESTRICT_XYZ` the call returns false and leaves the list alone. -/
theorem computeIKSolutions_true_after_failed_search :
    computeIKSolutions (fun _ _ solution _ => (false, solution)) [0, 0, 0, 0, 0, 0]
        [0] [[1]] IkOption.UNRESTRICTED = (true, [[1]]) ∧
      (∀ (computeIKSearch : List ℚ → List ℚ → List ℚ → ℚ → Bool × List ℚ)
          (pose start : List ℚ) (solutions : List (List ℚ)),
        (computeIKSolutions computeIKSearch pose start solutions
            IkOption.UNRESTRICTED).1
          = ((computeIKSearch pose start [] (5 / 1000)).1
            || decide (solutions ≠ [])) ∧
        (computeIKSolutions computeIKSearch pose start solutions
            IkOption.UNRESTRICTED).2
          = (if (computeIKSearch pose start [] (5 / 1000)).1 then
              solutions ++ [(computeIKSearch pose start [] (5 / 1000)).2]
            else solutions) ∧
        computeIKSolutions computeIKSearch pose start solutions
            IkOption.RESTRICT_XYZ = (false, solutions)) := by
  refine ⟨by simp [computeIKSolutions], fun search pose start solutions => ⟨?_, rfl, rfl⟩⟩
  unfold computeIKSolutions
  cases h : (search pose start [] (5 / 1000)).1 <;> cases solutions <;> simp [h]

/-! ## Joint limits of the KDL robot model -/

/-- A joint that is found and can move is flagged continuous exactly when its
type is `CONTINUOUS`. -/
theorem getJointLimits_continuous (chain : List Joint) (joint_name : String)
    (out out' : JointLimitsOut) (joint : Joint)
    (hfind : chain.find? (fun j => decide (j.name = joint_name)) = some joint)
    (hmov : joint.type ≠ JointType.UNKNOWN ∧ joint.type ≠ JointType.FIXED)
    (h : getJointLimits chain joint_name out = some (true, out')) :
    out'.continuous = decide (joint.type = JointType.CONTINUOUS) := by
  induction chain with
  | nil => simp at hfind
  | cons j rest ih =>
    unfold getJointLimits at h
    by_cases hn : j.name = joint_name
    · have hj : j = joint := by
        simpa [List.find?, hn] using hfind
      subst hj
      rw [if_pos hn, if_pos hmov] at h
      by_cases hc : j.type = JointType.CONTINUOUS
      · simp only [hc, ne_eq, not_true_eq_false, if_false] at h
        cases hl : j.limits with
        | none => simp [hl] at h
        | some l =>
          simp only [hl, Option.some.injEq, Prod.mk.injEq, true_and] at h
          subst h
          simp [hc]
      · simp only [ne_eq, hc, not_false_eq_true, if_true] at h
        cases hl : j.limits with
        | none => cases hs : j.safety <;> simp [hl, hs] at h
        | some l =>
          cases hs : j.safety with
          | none =>
            simp only [hl, hs, Option.map_some', Option.some.injEq, Prod.mk.injEq,
              true_and] at h
            subst h
            simp [hc]
          | some s =>
            simp only [hl, hs, Option.some.injEq, Prod.mk.injEq, true_and] at h
            subst h
            simp [hc]
    · rw [if_neg hn] at h
      refine ih ?_ h
      simpa [List.find?, hn] using hfind

theorem getJointLimitsLoop_continuous (chain : List Joint) (c : Bool)
    (names : List String) (outs outs' : List JointLimitsOut)
    (h : getJointLimitsLoop chain c names outs = some (true, outs'))
    (i : Nat) (hi : i < names.length) (joint : Joint)
    (hfind : chain.find? (fun j => decide (j.name = names.getD i "")) = some joint)
    (hmov : joint.type ≠ JointType.UNKNOWN ∧ joint.type ≠ JointType.FIXED) :
    (outs'.map fun o => o.continuous)[i]?
      = some (decide (joint.type = JointType.CONTINUOUS)) := by
  induction names generalizing outs outs' i with
  | nil => simp at hi
  | cons name names ih =>
    unfold getJointLimitsLoop at h
    simp only at h
    split at h
    · simp at h
    · split at h
      · simp at h
      · simp at h
      · rename_i out hout
        split at h
        · simp at h
        · rename_i ok rest hrest
          simp only [Option.some.injEq, Prod.mk.injEq] at h
          obtain ⟨rfl, rfl⟩ := h
          cases i with
          | zero =>
            simp only [List.getD_cons_zero] at hfind
            simp only [List.map_cons, List.getElem?_cons_zero, Option.some.injEq]
            exact getJointLimits_continuous chain name _ out joint hfind hmov hout
          | succ i =>
            simp only [List.getD_cons_succ] at hfind
            simp only [List.map_cons, List.getElem?_cons_succ]
            exact ih _ _ hrest i (by simpa using hi) hfind

/-- After a successful `init`, `hasPosLimit` of a planning joint that can move
is true exactly when the joint is continuous. -/
theorem hasPosLimit_eq_continuous (chain : List Joint) (chain_ok c : Bool)
    (planning_joints : List String) (model : KDLRobotModel)
    (h : KDLRobotModel.init chain chain_ok c planning_joints = some (true, model))
    (i : Nat) (hi : i < planning_joints.length) (joint : Joint)
    (hfind : chain.find? (fun j => decide (j.name = planning_joints.getD i ""))
      = some joint)
    (hmov : joint.type ≠ JointType.UNKNOWN ∧ joint.type ≠ JointType.FIXED) :
    model.hasPosLimit i = some (decide (joint.type = JointType.CONTINUOUS)) := by
  unfold KDLRobotModel.init at h
  split at h
  · simp at h
  · split at h
    · simp at h
    · rename_i ok outs hloop
      simp only [Option.some.injEq, Prod.mk.injEq] at h
      obtain ⟨rfl, rfl⟩ := h
      exact getJointLimitsLoop_continuous chain c planning_joints _ outs hloop i hi
        joint hfind hmov

/-! ## C18 -/

/-- C18, failing input: the chain has the continuous joint `wrist_roll` and the
revolute joint `elbow` with the position limits -1 and 1, and both are planning
joints. `init` succeeds and stores the limits -1 and 1 for `elbow`, yet
`hasPosLimit` returns false for `elbow`, which has position limits, and true
for `wrist_roll`, which has none: the function returns the flag `continuous_`
of the joint. -/
theorem hasPosLimit_inverted :
    (KDLRobotModel.init
        [{ name := "wrist_roll", type := JointType.CONTINUOUS,
           limits := some { lower := 0, upper := 0, effort := 10, velocity := 2 },
           safety := none },
         { name := "elbow", type := JointType.REVOLUTE,
           limits := some { lower := -1, upper := 1, effort := 10, velocity := 2 },
           safety := none }]
        true false ["elbow", "wrist_roll"]).map
        (fun r => (r.1, r.2.min_limits_, r.2.max_limits_, r.2.continuous_,
          r.2.hasPosLimit 0, r.2.hasPosLimit 1))
      = some (true, [-1, -M_PI], [1, M_PI], [false, true], some false,
          some true) := by
  simp [KDLRobotModel.init, getJointLimitsLoop, getJointLimits,
    KDLRobotModel.hasPosLimit]

end motion

namespace manip

/-! ## PlanningParams::init -/

theorem fillCoordDelta_error (coord_vals : List ℚ) (n i : Nat)
    (coord_delta : List ℚ) (outcome : InitOutcome)
    (h : fillCoordDelta coord_vals n i coord_delta = .error outcome) :
    (∃ k, outcome = InitOutcome.outOfRange k) ∨
      ∃ k, outcome = InitOutcome.zeroDivide k := by
  induction n generalizing i coord_delta with
  | zero => simp [fillCoordDelta] at h
  | succ n ih =>
    unfold fillCoordDelta at h
    split at h
    · simp only [Except.error.injEq] at h
      exact Or.inl ⟨i, h.symm⟩
    · split at h
      · simp only [Except.error.injEq] at h
        exact Or.inr ⟨i, h.symm⟩
      · exact ih _ _ h

theorem init_returned_false_iff (self : PlanningParams)
    (planning_joints : List String) (discretization : Option (List ℚ)) :
    (∃ self', self.init planning_joints discretization
        = InitOutcome.returned false self') ↔ discretization = none := by
  cases discretization with
  | none => exact ⟨fun _ => rfl, fun _ => ⟨_, rfl⟩⟩
  | some vals =>
    constructor
    · rintro ⟨self', h⟩
      exfalso
      unfold PlanningParams.init at h
      simp only at h
      split at h
      · rename_i outcome he
        rcases fillCoordDelta_error _ _ _ _ _ he with ⟨k, rfl⟩ | ⟨k, rfl⟩ <;>
          simp at h
      · simp at h
    · intro h
      cases h

/-! ## C19 -/

/-- C19, failing inputs, on freshly constructed parameters. With one planning
joint and the two discretization values 1 and 2 the counts differ, yet `init`
runs to the end and returns true. With two planning joints and the single
value 1 the loop reads `coord_vals_[1]` and writes `coord_delta_[1]` although
both vectors have size 1. With one planning joint and the value 0 the loop
divides by zero. In general `init` returns false only when the parameter
`planning/discretization` is not set. -/
theorem init_ignores_count_mismatch :
    (∃ self',
        PlanningParams.init
            { planning_joints_ := [], num_joints_ := 0, coord_vals_ := [],
              coord_delta_ := [] } ["j1"] (some [1, 2])
          = InitOutcome.returned true self' ∧
        self'.num_joints_ = 1 ∧ self'.coord_vals_ = [1, 2] ∧
        self'.coord_delta_ = [2 * M_PI / 1, 0]) ∧
      PlanningParams.init
          { planning_joints_ := [], num_joints_ := 0, coord_vals_ := [],
            coord_delta_ := [] } ["j1", "j2"] (some [1])
        = InitOutcome.outOfRange 1 ∧
      PlanningParams.init
          { planning_joints_ := [], num_joints_ := 0, coord_vals_ := [],
            coord_delta_ := [] } ["j1"] (some [0])
        = InitOutcome.zeroDivide 0 ∧
      ∀ (self : PlanningParams) (planning_joints : List String)
        (discretization : Option (List ℚ)),
        (∃ self', self.init planning_joints discretization
            = InitOutcome.returned false self') ↔ discretization = none := by
  refine ⟨⟨{ planning_joints_ := ["j1"], num_joints_ := 1, coord_vals_ := [1, 2],
             coord_delta_ := [2 * M_PI / 1, 0] }, ?_, rfl, rfl, rfl⟩, ?_, ?_,
    init_returned_false_iff⟩
  · simp [PlanningParams.init, fillCoordDelta, resize]
    decide
  · simp [PlanningParams.init, fillCoordDelta, resize]
  · simp [PlanningParams.init, fillCoordDelta, resize]

end manip

namespace collision

/-! ## C20 -/

/-- C20: in the loop of the environment check, let the sphere state `s` on top
of the stack fail the clearance test and have the two children `sl` and `sr`
(those of an interior node, or those of the root of the link tree when `s` is
a meta leaf) with different radii. Then the loop continues on the stack that
holds the child with the larger radius on top, the child with the smaller
radius right below it and then the rest of the old stack, so the tighter child
is popped after the larger one. -/
theorem voxelsLoop_larger_child_on_top (getDistance : Vector3d → ℚ)
    (padding : ℚ) (s : SphereRef) (q : List SphereRef) (dist : ℚ)
    (sl sr : SphereRef)
    (hfail : failsClearance getDistance padding s.sphere)
    (hch : s.children = some (sl, sr))
    (hne : sl.sphere.radius ≠ sr.sphere.radius) :
    ∃ big small : SphereRef,
      ((big = sl ∧ small = sr) ∨ (big = sr ∧ small = sl)) ∧
        small.sphere.radius < big.sphere.radius ∧
        voxelsLoop getDistance padding (s :: q) dist
          = VoxelsCheck.observe (getDistance s.sphere.pos)
              (voxelsLoop getDistance padding (big :: small :: q) dist) := by
  have hclear : ¬ (CheckSphereCollision getDistance s.sphere padding).1 = true :=
    fun h => (CheckSphereCollision_clear_iff _ _ _).mp h hfail
  by_cases hgt : sl.sphere.radius > sr.sphere.radius
  · refine ⟨sl, sr, Or.inl ⟨rfl, rfl⟩, hgt, ?_⟩
    match s, hch with
    | .ofMeta (.leaf _ (.node _ l r)), hch =>
      simp only [SphereRef.children, Option.some.injEq, Prod.mk.injEq] at hch
      obtain ⟨rfl, rfl⟩ := hch
      simp only [SphereRef.sphere] at hgt
      rw [voxelsLoop, if_neg hclear, pushLinkChildren, if_pos hgt]
      rfl
    | .ofMeta (.node _ l r), hch =>
      simp only [SphereRef.children, Option.some.injEq, Prod.mk.injEq] at hch
      obtain ⟨rfl, rfl⟩ := hch
      simp only [SphereRef.sphere] at hgt
      rw [voxelsLoop, if_neg hclear, pushMetaChildren, if_pos hgt]
      rfl
    | .ofLink (.node _ l r), hch =>
      simp only [SphereRef.children, Option.some.injEq, Prod.mk.injEq] at hch
      obtain ⟨rfl, rfl⟩ := hch
      simp only [SphereRef.sphere] at hgt
      rw [voxelsLoop, if_neg hclear, pushLinkChildren, if_pos hgt]
      rfl
  · have hlt : sl.sphere.radius < sr.sphere.radius :=
      lt_of_le_of_ne (not_lt.mp hgt) hne
    refine ⟨sr, sl, Or.inr ⟨rfl, rfl⟩, hlt, ?_⟩
    match s, hch with
    | .ofMeta (.leaf _ (.node _ l r)), hch =>
      simp only [SphereRef.children, Option.some.injEq, Prod.mk.injEq] at hch
      obtain ⟨rfl, rfl⟩ := hch
      simp only [SphereRef.sphere] at hgt
      rw [voxelsLoop, if_neg hclear, pushLinkChildren, if_neg hgt]
      rfl
    | .ofMeta (.node _ l r), hch =>
      simp only [SphereRef.children, Option.some.injEq, Prod.mk.injEq] at hch
      obtain ⟨rfl, rfl⟩ := hch
      simp only [SphereRef.sphere] at hgt
      rw [voxelsLoop, if_neg hclear, pushMetaChildren, if_neg hgt]
      rfl
    | .ofLink (.node _ l r), hch =>
      simp only [SphereRef.children, Option.some.injEq, Prod.mk.injEq] at hch
      obtain ⟨rfl, rfl⟩ := hch
      simp only [SphereRef.sphere] at hgt
      rw [voxelsLoop, if_neg hclear, pushLinkChildren, if_neg hgt]
      rfl

theorem voxelsLoop_larger_child_on_top_witness :
    failsClearance (fun _ => 0) 0
        (SphereRef.ofLink
          (.node { name := "w", radius := 2, pos := ⟨0, 0, 0⟩ }
            (.leaf { name := "w0", radius := 1 / 2, pos := ⟨-1, 0, 0⟩ })
            (.leaf { name := "w1", radius := 1, pos := ⟨1, 0, 0⟩ }))).sphere ∧
      ∃ big small : SphereRef,
        ((big = .ofLink (.leaf { name := "w0", radius := 1 / 2, pos := ⟨-1, 0, 0⟩ }) ∧
            small = .ofLink (.leaf { name := "w1", radius := 1, pos := ⟨1, 0, 0⟩ })) ∨
          (big = .ofLink (.leaf { name := "w1", radius := 1, pos := ⟨1, 0, 0⟩ }) ∧
            small
              = .ofLink (.leaf { name := "w0", radius := 1 / 2, pos := ⟨-1, 0, 0⟩ }))) ∧
          small.sphere.radius < big.sphere.radius ∧
          voxelsLoop (fun _ => 0) 0
              [SphereRef.ofLink
                (.node { name := "w", radius := 2, pos := ⟨0, 0, 0⟩ }
                  (.leaf { name := "w0", radius := 1 / 2, pos := ⟨-1, 0, 0⟩ })
                  (.leaf { name := "w1", radius := 1, pos := ⟨1, 0, 0⟩ }))] 42
            = VoxelsCheck.observe
                ((fun _ => 0)
                  (SphereRef.ofLink
                    (.node { name := "w", radius := 2, pos := ⟨0, 0, 0⟩ }
                      (.leaf { name := "w0", radius := 1 / 2, pos := ⟨-1, 0, 0⟩ })
                      (.leaf { name := "w1", radius := 1, pos := ⟨1, 0, 0⟩ }))).sphere.pos)
                (voxelsLoop (fun _ => 0) 0 [big, small] 42) :=
  have hf : failsClearance (fun _ => 0) 0
      (SphereRef.ofLink
        (.node { name := "w", radius := 2, pos := ⟨0, 0, 0⟩ }
          (.leaf { name := "w0", radius := 1 / 2, pos := ⟨-1, 0, 0⟩ })
          (.leaf { name := "w1", radius := 1, pos := ⟨1, 0, 0⟩ }))).sphere := by
    norm_num [failsClearance, SphereRef.sphere, SphereStateTree.sphere]
  ⟨hf, voxelsLoop_larger_child_on_top (fun _ => 0) 0 _ [] 42 _ _ hf rfl
    (by norm_num [SphereRef.sphere, SphereStateTree.sphere])⟩

/-! ## Padding and the environment check -/

theorem failsClearance_mono {getDistance : Vector3d → ℚ} {p p' : ℚ}
    (hp : p' ≤ p) {s : CollisionSphereState}
    (h : failsClearance getDistance p' s) : failsClearance getDistance p s := by
  unfold failsClearance at *
  linarith

theorem linkTree_hit_mono {getDistance : Vector3d → ℚ} {p p' : ℚ} (hp : p' ≤ p)
    (t : SphereStateTree) (h : t.hit getDistance p') : t.hit getDistance p := by
  induction t with
  | leaf s => exact failsClearance_mono hp h
  | node s l r ihl ihr =>
    exact ⟨failsClearance_mono hp h.1, h.2.imp ihl ihr⟩

theorem metaTree_found_mono {getDistance : Vector3d → ℚ} {p p' : ℚ} (hp : p' ≤ p)
    (t : MetaStateTree) (h : t.found getDistance p') : t.found getDistance p := by
  induction t with
  | leaf s link =>
    cases link with
    | leaf _ => exact h
    | node _ l r =>
      exact ⟨failsClearance_mono hp h.1,
        h.2.imp (linkTree_hit_mono hp l) (linkTree_hit_mono hp r)⟩
  | node s l r ihl ihr =>
    exact ⟨failsClearance_mono hp h.1, h.2.imp ihl ihr⟩

theorem sphereRef_found_mono {getDistance : Vector3d → ℚ} {p p' : ℚ} (hp : p' ≤ p)
    (s : SphereRef) (h : s.found getDistance p') : s.found getDistance p := by
  cases s with
  | ofMeta t => exact metaTree_found_mono hp t h
  | ofLink t => exact linkTree_hit_mono hp t h

theorem voxelsLoop_ok_mono (getDistance : Vector3d → ℚ) (p p' : ℚ) (hp : p' ≤ p)
    (q : List SphereRef) (dist dist' : ℚ)
    (h : (voxelsLoop getDistance p q dist).ok = true) :
    (voxelsLoop getDistance p' q dist').ok = true := by
  by_contra hc
  have hf : (voxelsLoop getDistance p' q dist').ok = false := by
    simpa using hc
  obtain ⟨s, hs, hfound⟩ := (voxelsLoop_ok_false_iff getDistance p' q dist').mp hf
  have := (voxelsLoop_ok_false_iff getDistance p q dist).mpr
    ⟨s, hs, sphereRef_found_mono hp s hfound⟩
  rw [this] at h
  exact absurd h (by simp)

/-! ## C25 -/

/-- C25: the environment check is monotone in the padding. For the same model
(robot state, group and field), if `checkVoxelsStateCollisions` reports no
collision after `setPadding(p)`, then it reports no collision after
`setPadding(p')` for every `p' ≤ p`. -/
theorem checkVoxelsStateCollisions_padding_mono (rcm : RobotCollisionModel)
    (self : SelfCollisionModelImpl) (dist dist' p p' : ℚ) (hp : p' ≤ p)
    (h : (checkVoxelsStateCollisions rcm (setPadding self p) dist).1.ok = true) :
    (checkVoxelsStateCollisions rcm (setPadding self p') dist').1.ok = true :=
  voxelsLoop_ok_mono _ p p' hp _ dist dist' h

theorem checkVoxelsStateCollisions_padding_mono_witness :
    (-1 : ℚ) ≤ 0 ∧
      (checkVoxelsStateCollisions exampleRobotAB
        (setPadding (copyState exampleRobotAB
          (updateGroup exampleRobotAB (exampleSelf exampleAcm) 0)
          (exampleState 1 (9 / 5))) 0) 42).1.ok = true ∧
      (checkVoxelsStateCollisions exampleRobotAB
        (setPadding (copyState exampleRobotAB
          (updateGroup exampleRobotAB (exampleSelf exampleAcm) 0)
          (exampleState 1 (9 / 5))) (-1)) 7).1.ok = true :=
  have h0 : (checkVoxelsStateCollisions exampleRobotAB
        (setPadding (copyState exampleRobotAB
          (updateGroup exampleRobotAB (exampleSelf exampleAcm) 0)
          (exampleState 1 (9 / 5))) 0) 42).1.ok = true := by
    have e : setPadding (copyState exampleRobotAB
          (updateGroup exampleRobotAB (exampleSelf exampleAcm) 0)
          (exampleState 1 (9 / 5))) 0 = copyState exampleRobotAB
          (updateGroup exampleRobotAB (exampleSelf exampleAcm) 0)
          (exampleState 1 (9 / 5)) := rfl
    rw [e, exampleRobotAB_groupA_voxels]
  ⟨by norm_num, h0,
    checkVoxelsStateCollisions_padding_mono exampleRobotAB _ 42 7 0 (-1)
      (by norm_num) h0⟩

/-! ## The pair stack loop, one iteration at a time -/

theorem squaredNorm_sub_comm (a b : Vector3d) :
    (a.sub b).squaredNorm = (b.sub a).squaredNorm := by
  simp only [Vector3d.sub, Vector3d.squaredNorm]
  ring

/-- The loop is the iteration of its body. -/
theorem spherePairLoop_eq_step (acm : AllowedCollisionMatrix)
    (q : List (SphereStateTree × SphereStateTree)) :
    spherePairLoop acm q =
      match spherePairStep acm q with
      | .done result => result
      | .next q' => spherePairLoop acm q' := by
  match q with
  | [] => rw [spherePairLoop.eq_def]; rfl
  | (s1s, s2s) :: q =>
    rw [spherePairLoop.eq_def]
    simp only [spherePairStep]
    split_ifs with h
    · rfl
    · cases s1s with
      | leaf s1m =>
        cases s2s with
        | leaf s2m =>
          simp only
          cases acm.getEntry s1m.name s2m.name with
          | none => rfl
          | some t =>
            simp only
            split_ifs <;> rfl
        | node s2m l2 r2 => rfl
      | node s1m l1 r1 =>
        cases s2s with
        | leaf s2m => rfl
        | node s2m l2 r2 =>
          simp only
          split_ifs <;> rfl

theorem pushSplit1_spec (sl sr s2s : SphereStateTree)
    (q : List (SphereStateTree × SphereStateTree)) :
    (pushSplit1 sl sr s2s q = (sl, s2s) :: (sr, s2s) :: q ∧
        pairCentreDist (sl, s2s) < pairCentreDist (sr, s2s)) ∨
      (pushSplit1 sl sr s2s q = (sr, s2s) :: (sl, s2s) :: q ∧
        pairCentreDist (sr, s2s) ≤ pairCentreDist (sl, s2s)) := by
  simp only [pushSplit1, pairCentreDist]
  split_ifs with h
  · exact Or.inl ⟨rfl, h⟩
  · exact Or.inr ⟨rfl, not_lt.mp h⟩

theorem pushSplit2_spec (s1s sl sr : SphereStateTree)
    (q : List (SphereStateTree × SphereStateTree)) :
    (pushSplit2 s1s sl sr q = (s1s, sl) :: (s1s, sr) :: q ∧
        pairCentreDist (s1s, sl) < pairCentreDist (s1s, sr)) ∨
      (pushSplit2 s1s sl sr q = (s1s, sr) :: (s1s, sl) :: q ∧
        pairCentreDist (s1s, sr) ≤ pairCentreDist (s1s, sl)) := by
  simp only [pushSplit2, pairCentreDist]
  rw [squaredNorm_sub_comm sl.sphere.pos, squaredNorm_sub_comm sr.sphere.pos]
  split_ifs with h
  · exact Or.inl ⟨rfl, h⟩
  · exact Or.inr ⟨rfl, not_lt.mp h⟩

/-! ## C21 -/

theorem pairDepthWeight_pair_pos (a b : SphereStateTree) :
    1 ≤ 2 ^ (a.depth + b.depth + 1) - 1 := by
  have : 2 ^ 1 ≤ 2 ^ (a.depth + b.depth + 1) :=
    Nat.pow_le_pow_right (by decide) (by omega)
  omega

theorem pairDepthWeight_two_children (dl dr d : Nat) (hl : dl + 1 ≤ d)
    (hr : dr + 1 ≤ d) :
    (2 ^ (dl + 1) - 1) + ((2 ^ (dr + 1) - 1) + 0) < 2 ^ (d + 1) - 1 := by
  have h1 : 2 ^ (dl + 1) ≤ 2 ^ d := Nat.pow_le_pow_right (by decide) hl
  have h2 : 2 ^ (dr + 1) ≤ 2 ^ d := Nat.pow_le_pow_right (by decide) hr
  have h3 : 2 ^ (d + 1) = 2 * 2 ^ d := by rw [pow_succ]; ring
  have h4 : 1 ≤ 2 ^ (dl + 1) := Nat.one_le_two_pow
  have h5 : 1 ≤ 2 ^ (dr + 1) := Nat.one_le_two_pow
  omega

theorem pairDepthWeight_append (p q : List (SphereStateTree × SphereStateTree)) :
    pairDepthWeight (p ++ q) = pairDepthWeight p + pairDepthWeight q := by
  induction p with
  | nil => simp [pairDepthWeight]
  | cons x p ih =>
    obtain ⟨a, b⟩ := x
    show 2 ^ (a.depth + b.depth + 1) - 1 + pairDepthWeight (p ++ q) = _
    rw [ih]
    simp only [pairDepthWeight]
    omega

/-- The pairs pushed by `pushSplit1` pair a child of the first sphere with the
second sphere. -/
theorem pushSplit1_pushed (s : CollisionSphereState)
    (sl sr s2s : SphereStateTree)
    (q : List (SphereStateTree × SphereStateTree)) :
    ∃ pushed, pushSplit1 sl sr s2s q = pushed ++ q ∧
      pairDepthWeight pushed < 2 ^ ((SphereStateTree.node s sl sr).depth + s2s.depth + 1) - 1 ∧
      ∀ p ∈ pushed, p.1 ∈ (SphereStateTree.node s sl sr).children ∧ p.2 = s2s ∧
        p.1.depth + p.2.depth < (SphereStateTree.node s sl sr).depth + s2s.depth := by
  have hl : sl.depth + 1 ≤ (SphereStateTree.node s sl sr).depth := by
    simp [SphereStateTree.depth]
  have hr : sr.depth + 1 ≤ (SphereStateTree.node s sl sr).depth := by
    simp [SphereStateTree.depth]
  have hw := pairDepthWeight_two_children (sl.depth + s2s.depth)
    (sr.depth + s2s.depth) ((SphereStateTree.node s sl sr).depth + s2s.depth)
    (by omega) (by omega)
  have hw' := pairDepthWeight_two_children (sr.depth + s2s.depth)
    (sl.depth + s2s.depth) ((SphereStateTree.node s sl sr).depth + s2s.depth)
    (by omega) (by omega)
  simp only [pushSplit1]
  split_ifs
  · refine ⟨[(sl, s2s), (sr, s2s)], rfl, hw, ?_⟩
    intro p hp
    simp only [List.mem_cons, List.mem_singleton, List.not_mem_nil, or_false] at hp
    rcases hp with rfl | rfl
    · exact ⟨by simp [SphereStateTree.children], rfl, by simp only; omega⟩
    · exact ⟨by simp [SphereStateTree.children], rfl, by simp only; omega⟩
  · refine ⟨[(sr, s2s), (sl, s2s)], rfl, hw', ?_⟩
    intro p hp
    simp only [List.mem_cons, List.mem_singleton, List.not_mem_nil, or_false] at hp
    rcases hp with rfl | rfl
    · exact ⟨by simp [SphereStateTree.children], rfl, by simp only; omega⟩
    · exact ⟨by simp [SphereStateTree.children], rfl, by simp only; omega⟩

/-- The pairs pushed by `pushSplit2` pair the first sphere with a child of the
second sphere. -/
theorem pushSplit2_pushed (s : CollisionSphereState)
    (s1s sl sr : SphereStateTree)
    (q : List (SphereStateTree × SphereStateTree)) :
    ∃ pushed, pushSplit2 s1s sl sr q = pushed ++ q ∧
      pairDepthWeight pushed < 2 ^ (s1s.depth + (SphereStateTree.node s sl sr).depth + 1) - 1 ∧
      ∀ p ∈ pushed, p.1 = s1s ∧ p.2 ∈ (SphereStateTree.node s sl sr).children ∧
        p.1.depth + p.2.depth < s1s.depth + (SphereStateTree.node s sl sr).depth := by
  have hl : sl.depth + 1 ≤ (SphereStateTree.node s sl sr).depth := by
    simp [SphereStateTree.depth]
  have hr : sr.depth + 1 ≤ (SphereStateTree.node s sl sr).depth := by
    simp [SphereStateTree.depth]
  have hw := pairDepthWeight_two_children (s1s.depth + sl.depth)
    (s1s.depth + sr.depth) (s1s.depth + (SphereStateTree.node s sl sr).depth)
    (by omega) (by omega)
  have hw' := pairDepthWeight_two_children (s1s.depth + sr.depth)
    (s1s.depth + sl.depth) (s1s.depth + (SphereStateTree.node s sl sr).depth)
    (by omega) (by omega)
  simp only [pushSplit2]
  split_ifs
  · refine ⟨[(s1s, sl), (s1s, sr)], rfl, hw, ?_⟩
    intro p hp
    simp only [List.mem_cons, List.mem_singleton, List.not_mem_nil, or_false] at hp
    rcases hp with rfl | rfl
    · exact ⟨rfl, by simp [SphereStateTree.children], by simp only; omega⟩
    · exact ⟨rfl, by simp [SphereStateTree.children], by simp only; omega⟩
  · refine ⟨[(s1s, sr), (s1s, sl)], rfl, hw', ?_⟩
    intro p hp
    simp only [List.mem_cons, List.mem_singleton, List.not_mem_nil, or_false] at hp
    rcases hp with rfl | rfl
    · exact ⟨rfl, by simp [SphereStateTree.children], by simp only; omega⟩
    · exact ⟨rfl, by simp [SphereStateTree.children], by simp only; omega⟩

/-- What an iteration that does not return leaves on the stack: the popped
pair is replaced by pairs in which one node is replaced by one of its
children. -/
theorem spherePairStep_next (acm : AllowedCollisionMatrix)
    (s1s s2s : SphereStateTree)
    (q q' : List (SphereStateTree × SphereStateTree))
    (h : spherePairStep acm ((s1s, s2s) :: q) = .next q') :
    ∃ pushed, q' = pushed ++ q ∧
      pairDepthWeight pushed < 2 ^ (s1s.depth + s2s.depth + 1) - 1 ∧
      ∀ p ∈ pushed,
        ((p.1 ∈ s1s.children ∧ p.2 = s2s) ∨
          (p.1 = s1s ∧ p.2 ∈ s2s.children)) ∧
        p.1.depth + p.2.depth < s1s.depth + s2s.depth := by
  have hnil : ∃ pushed, q = pushed ++ q ∧
      pairDepthWeight pushed < 2 ^ (s1s.depth + s2s.depth + 1) - 1 ∧
      ∀ p ∈ pushed,
        ((p.1 ∈ s1s.children ∧ p.2 = s2s) ∨
          (p.1 = s1s ∧ p.2 ∈ s2s.children)) ∧
        p.1.depth + p.2.depth < s1s.depth + s2s.depth :=
    ⟨[], rfl, pairDepthWeight_pair_pos s1s s2s, fun p hp => by simp at hp⟩
  simp only [spherePairStep] at h
  split_ifs at h with hp
  · cases h
    exact hnil
  · cases s1s with
    | leaf s1m =>
      cases s2s with
      | leaf s2m =>
        simp only at h
        cases he : acm.getEntry s1m.name s2m.name with
        | none => rw [he] at h; cases h
        | some t =>
          rw [he] at h
          simp only at h
          split_ifs at h
          cases h
          exact hnil
      | node s2m l2 r2 =>
        simp only [PairStep.next.injEq] at h
        subst h
        obtain ⟨pushed, e, hw, hc⟩ := pushSplit2_pushed s2m (.leaf s1m) l2 r2 q
        exact ⟨pushed, e, hw, fun p hp =>
          ⟨Or.inr ⟨(hc p hp).1, (hc p hp).2.1⟩, (hc p hp).2.2⟩⟩
    | node s1m l1 r1 =>
      cases s2s with
      | leaf s2m =>
        simp only [PairStep.next.injEq] at h
        subst h
        obtain ⟨pushed, e, hw, hc⟩ := pushSplit1_pushed s1m l1 r1 (.leaf s2m) q
        exact ⟨pushed, e, hw, fun p hp =>
          ⟨Or.inl ⟨(hc p hp).1, (hc p hp).2.1⟩, (hc p hp).2.2⟩⟩
      | node s2m l2 r2 =>
        simp only at h
        split_ifs at h
        · simp only [PairStep.next.injEq] at h
          subst h
          obtain ⟨pushed, e, hw, hc⟩ :=
            pushSplit1_pushed s1m l1 r1 (.node s2m l2 r2) q
          exact ⟨pushed, e, hw, fun p hp =>
            ⟨Or.inl ⟨(hc p hp).1, (hc p hp).2.1⟩, (hc p hp).2.2⟩⟩
        · simp only [PairStep.next.injEq] at h
          subst h
          obtain ⟨pushed, e, hw, hc⟩ :=
            pushSplit2_pushed s2m (.node s1m l1 r1) l2 r2 q
          exact ⟨pushed, e, hw, fun p hp =>
            ⟨Or.inr ⟨(hc p hp).1, (hc p hp).2.1⟩, (hc p hp).2.2⟩⟩

theorem spherePairStep_nil (acm : AllowedCollisionMatrix) :
    spherePairStep acm [] = .done true := rfl

/-- An iteration that does not return lowers the combined remaining depth. -/
theorem spherePairStep_next_weight (acm : AllowedCollisionMatrix)
    (q q' : List (SphereStateTree × SphereStateTree))
    (h : spherePairStep acm q = .next q') :
    pairDepthWeight q' < pairDepthWeight q := by
  match q with
  | [] => rw [spherePairStep_nil] at h; cases h
  | (s1s, s2s) :: q =>
    obtain ⟨pushed, e, hw, _⟩ := spherePairStep_next acm s1s s2s q q' h
    rw [e, pairDepthWeight_append]
    simp only [pairDepthWeight]
    omega

/-- With fuel at least the combined remaining depth of the stack, the bounded
loop ends with the value of the loop. -/
theorem spherePairLoopFuel_enough (acm : AllowedCollisionMatrix) :
    ∀ (fuel : Nat) (q : List (SphereStateTree × SphereStateTree)),
      pairDepthWeight q ≤ fuel →
      spherePairLoopFuel acm fuel q = some (spherePairLoop acm q) := by
  intro fuel
  induction fuel with
  | zero =>
    intro q hq
    rw [spherePairLoop_eq_step, spherePairLoopFuel]
    cases hs : spherePairStep acm q with
    | done b => rfl
    | next q' =>
      have := spherePairStep_next_weight acm q q' hs
      omega
  | succ n ih =>
    intro q hq
    rw [spherePairLoop_eq_step, spherePairLoopFuel]
    cases hs : spherePairStep acm q with
    | done b => rfl
    | next q' =>
      have := spherePairStep_next_weight acm q q' hs
      exact ih q' (by omega)

/-! ## C22 -/

/-- C22: for every pair of sphere trees the pair stack loop of
`checkSpheresStateCollision` terminates. Run for the number of iterations given
by the combined depth of the two trees, or for any larger number, the loop has
ended and has returned the value of the embedding `checkSpheresStateCollision`,
which is total. Every iteration that goes on replaces the popped pair by pairs
that put a child in the place of one of its two nodes, of smaller combined
depth, so that the combined remaining depth of the stack decreases. -/
theorem checkSpheresStateCollision_terminates (acm : AllowedCollisionMatrix)
    (ss1 ss2 : SphereStateTree) (extra : Nat) :
    spherePairLoopFuel acm (pairDepthWeight [(ss1, ss2)] + extra) [(ss1, ss2)]
        = some (checkSpheresStateCollision acm ss1 ss2) ∧
      ∀ (s1s s2s : SphereStateTree)
        (q q' : List (SphereStateTree × SphereStateTree)),
        spherePairStep acm ((s1s, s2s) :: q) = .next q' →
        pairDepthWeight q' < pairDepthWeight ((s1s, s2s) :: q) ∧
        ∃ pushed, q' = pushed ++ q ∧
          ∀ p ∈ pushed,
            ((p.1 ∈ s1s.children ∧ p.2 = s2s) ∨
              (p.1 = s1s ∧ p.2 ∈ s2s.children)) ∧
            p.1.depth + p.2.depth < s1s.depth + s2s.depth := by
  refine ⟨spherePairLoopFuel_enough acm _ _ (by omega), ?_⟩
  intro s1s s2s q q' h
  refine ⟨spherePairStep_next_weight acm _ _ h, ?_⟩
  obtain ⟨pushed, e, _, hc⟩ := spherePairStep_next acm s1s s2s q q' h
  exact ⟨pushed, e, hc⟩

theorem checkSpheresStateCollision_terminates_witness :
    spherePairLoopFuel exampleAcm
        (pairDepthWeight [(exampleUpperArm, exampleTwinArm)] + 0)
        [(exampleUpperArm, exampleTwinArm)]
        = some (checkSpheresStateCollision exampleAcm exampleUpperArm
            exampleTwinArm) ∧
      pairDepthWeight
          [(exampleUpperArm,
              .leaf { name := "tw0", radius := 1 / 2, pos := ⟨0, 0, 0⟩ }),
            (exampleUpperArm,
              .leaf { name := "tw1", radius := 1 / 2, pos := ⟨2, 0, 0⟩ })]
        < pairDepthWeight [(exampleUpperArm, exampleTwinArm)] :=
  ⟨(checkSpheresStateCollision_terminates exampleAcm exampleUpperArm
      exampleTwinArm 0).1,
    ((checkSpheresStateCollision_terminates exampleAcm exampleUpperArm
      exampleTwinArm 0).2 exampleUpperArm exampleTwinArm [] _
        (by
          norm_num [spherePairStep, pushSplit2, exampleUpperArm,
            exampleTwinArm, SphereStateTree.sphere, Vector3d.sub,
            Vector3d.squaredNorm, sqrd])).1⟩

/-! ## Entries written by updateAllowedCollisionMatrix -/

/-- The body of the loops of `updateAllowedCollisionMatrix` stores `NEVER` for
a pair whose entry in `acm` is not `NEVER`, and `ALWAYS` for a pair whose
entry in `acm` is `NEVER`. -/
theorem updateAllowedCollisionMatrixStep_entry (acm m : AllowedCollisionMatrix)
    (entry1 entry2 : String) (type : AllowedCollisionType)
    (h : acm.getEntry entry1 entry2 = some type) :
    (updateAllowedCollisionMatrixStep acm m entry1 entry2).getEntry entry1 entry2
      = some (if type = AllowedCollisionType.NEVER then
          AllowedCollisionType.ALWAYS else AllowedCollisionType.NEVER) := by
  unfold updateAllowedCollisionMatrixStep
  rw [h]
  by_cases ht : type = AllowedCollisionType.NEVER
  · simp [ht, getEntry_setEntry]
  · simp [ht, getEntry_setEntry]

/-! ## C23 -/

/-- C23, failing input: the model's matrix and `acm` are both `exampleAcm`, in
which the pair of "fa0" and "ua0" is `ALWAYS`. After
`updateAllowedCollisionMatrix(acm)` the model's matrix has `NEVER` for the pair,
in both orders. With an `acm` in which the pair is `NEVER`, the model's matrix
has `ALWAYS` for it afterwards. -/
theorem updateAllowedCollisionMatrix_inverts_entries :
    exampleAcm.getEntry "fa0" "ua0" = some AllowedCollisionType.ALWAYS ∧
      (exampleSelf exampleAcm).m_acm.getEntry "fa0" "ua0"
        = some AllowedCollisionType.ALWAYS ∧
      (updateAllowedCollisionMatrix exampleRobotAB (exampleSelf exampleAcm)
          exampleAcm).m_acm.getEntry "fa0" "ua0"
        = some AllowedCollisionType.NEVER ∧
      (updateAllowedCollisionMatrix exampleRobotAB (exampleSelf exampleAcm)
          exampleAcm).m_acm.getEntry "ua0" "fa0"
        = some AllowedCollisionType.NEVER ∧
      (updateAllowedCollisionMatrix exampleRobotAB (exampleSelf exampleAcm)
          { entries :=
              [(("ua0", "fa0"), AllowedCollisionType.NEVER),
               (("fa0", "ua0"), AllowedCollisionType.NEVER)] }).m_acm.getEntry
          "fa0" "ua0"
        = some AllowedCollisionType.ALWAYS := by
  refine ⟨by decide, by decide, ?_, ?_, ?_⟩
  · rw [updateAllowedCollisionMatrix,
      (updateCheckedSpheresIndices_frame _ _).2.2.2.2.2.1]
    decide
  · rw [updateAllowedCollisionMatrix,
      (updateCheckedSpheresIndices_frame _ _).2.2.2.2.2.1]
    decide
  · rw [updateAllowedCollisionMatrix,
      (updateCheckedSpheresIndices_frame _ _).2.2.2.2.2.1]
    decide

end collision

/-! ## Cells visited by getOccupiedVoxels -/

theorem mem_intRange (lo hi v : Int) : v ∈ intRange lo hi ↔ lo ≤ v ∧ v < hi := by
  simp only [intRange, List.mem_map, List.mem_range]
  constructor
  · rintro ⟨i, hi', rfl⟩
    omega
  · intro h
    exact ⟨(v - lo).toNat, by omega, by omega⟩

/-- The points appended by `getOccupiedVoxels`: the world centres of the
occupied cells whose index is at least the centre's minus `radius_c` and less
than the centre's plus `radius_c` along each axis. -/
theorem mem_getOccupiedVoxels (getResolution : ℚ)
    (worldToGrid : ℚ → ℚ → ℚ → Int × Int × Int)
    (gridToWorld : Int → Int → Int → ℚ × ℚ × ℚ)
    (getCell : Int → Int → Int → Nat)
    (x_center y_center z_center radius : ℚ) (voxels : List (ℚ × ℚ × ℚ))
    (v : ℚ × ℚ × ℚ) :
    v ∈ OccupancyGrid.getOccupiedVoxels getResolution worldToGrid gridToWorld
        getCell x_center y_center z_center radius voxels ↔
      v ∈ voxels ∨ ∃ x y z : Int,
        (worldToGrid x_center y_center z_center).1
            - truncToInt (radius / getResolution + 1 / 2) ≤ x ∧
          x < (worldToGrid x_center y_center z_center).1
            + truncToInt (radius / getResolution + 1 / 2) ∧
        (worldToGrid x_center y_center z_center).2.1
            - truncToInt (radius / getResolution + 1 / 2) ≤ y ∧
          y < (worldToGrid x_center y_center z_center).2.1
            + truncToInt (radius / getResolution + 1 / 2) ∧
        (worldToGrid x_center y_center z_center).2.2
            - truncToInt (radius / getResolution + 1 / 2) ≤ z ∧
          z < (worldToGrid x_center y_center z_center).2.2
            + truncToInt (radius / getResolution + 1 / 2) ∧
        getCell x y z = 0 ∧ v = gridToWorld x y z := by
  simp only [OccupancyGrid.getOccupiedVoxels, List.mem_append, List.mem_flatMap,
    List.mem_filterMap, mem_intRange]
  constructor
  · rintro (h | ⟨z, hz, y, hy, x, hx, hv⟩)
    · exact Or.inl h
    · right
      refine ⟨x, y, z, hx.1, hx.2, hy.1, hy.2, hz.1, hz.2, ?_⟩
      split_ifs at hv with hc
      · exact ⟨hc, (Option.some.inj hv).symm⟩
  · rintro (h | ⟨x, y, z, hx1, hx2, hy1, hy2, hz1, hz2, hc, hv⟩)
    · exact Or.inl h
    · right
      exact ⟨z, ⟨hz1, hz2⟩, y, ⟨hy1, hy2⟩, x, ⟨hx1, hx2⟩, by rw [if_pos hc, hv]⟩

/-! ## C30 -/

/-- C30, failing input: a grid of resolution 1 in which every cell has value
0, the centre (1/2, 1/2, 1/2) of cell (0, 0, 0) and radius 1, so that
`radius_c` is 1. `getOccupiedVoxels` appends the centres of the 8 cells with
indices -1 and 0 along each axis. The cell (1, 0, 0), whose index differs from
the centre cell's by `radius_c` along x, is occupied and its centre
(3/2, 1/2, 1/2) is not appended, while the centre of the cell (-1, 0, 0) is. -/
theorem getOccupiedVoxels_misses_upper_cells :
    exampleWorldToGrid (1 / 2) (1 / 2) (1 / 2) = (0, 0, 0) ∧
      truncToInt (1 / 1 + 1 / 2) = 1 ∧
      OccupancyGrid.getOccupiedVoxels 1 exampleWorldToGrid exampleGridToWorld
          (fun _ _ _ => 0) (1 / 2) (1 / 2) (1 / 2) 1 []
        = [(-1 / 2, -1 / 2, -1 / 2), (1 / 2, -1 / 2, -1 / 2),
            (-1 / 2, 1 / 2, -1 / 2), (1 / 2, 1 / 2, -1 / 2),
            (-1 / 2, -1 / 2, 1 / 2), (1 / 2, -1 / 2, 1 / 2),
            (-1 / 2, 1 / 2, 1 / 2), (1 / 2, 1 / 2, 1 / 2)] ∧
      exampleGridToWorld 1 0 0 = (3 / 2, 1 / 2, 1 / 2) ∧
      exampleGridToWorld 1 0 0 ∉
        OccupancyGrid.getOccupiedVoxels 1 exampleWorldToGrid exampleGridToWorld
          (fun _ _ _ => 0) (1 / 2) (1 / 2) (1 / 2) 1 [] ∧
      exampleGridToWorld (-1) 0 0 ∈
        OccupancyGrid.getOccupiedVoxels 1 exampleWorldToGrid exampleGridToWorld
          (fun _ _ _ => 0) (1 / 2) (1 / 2) (1 / 2) 1 [] := by
  have hc : exampleWorldToGrid (1 / 2) (1 / 2) (1 / 2) = (0, 0, 0) := by
    have : ⌊(1 / 2 : ℚ)⌋ = 0 := by
      rw [Int.floor_eq_iff]; norm_num
    simp only [exampleWorldToGrid, this]
  have hr : truncToInt (1 / 1 + 1 / 2) = 1 := by
    have : ⌊(1 / 1 + 1 / 2 : ℚ)⌋ = 1 := by
      rw [Int.floor_eq_iff]; norm_num
    rw [truncToInt, if_pos (by norm_num), this]
  have hl : OccupancyGrid.getOccupiedVoxels 1 exampleWorldToGrid exampleGridToWorld
          (fun _ _ _ => 0) (1 / 2) (1 / 2) (1 / 2) 1 []
        = [(-1 / 2, -1 / 2, -1 / 2), (1 / 2, -1 / 2, -1 / 2),
            (-1 / 2, 1 / 2, -1 / 2), (1 / 2, 1 / 2, -1 / 2),
            (-1 / 2, -1 / 2, 1 / 2), (1 / 2, -1 / 2, 1 / 2),
            (-1 / 2, 1 / 2, 1 / 2), (1 / 2, 1 / 2, 1 / 2)] := by
    simp only [OccupancyGrid.getOccupiedVoxels, hc]
    rw [show ((1 : ℚ) / 1 + 1 / 2) = 1 / 1 + 1 / 2 from rfl, hr]
    norm_num [intRange, List.range, List.range.loop, exampleGridToWorld,
      List.flatMap, List.filterMap]
  refine ⟨hc, hr, hl, ?_, ?_, ?_⟩
  · norm_num [exampleGridToWorld]
  · rw [hl]
    norm_num [exampleGridToWorld]
  · rw [hl]
    norm_num [exampleGridToWorld]

namespace motion

/-! ## The order in which getCount visits the counts -/

/-- The cases of `getCount` for a count between the bounds. -/
theorem getCount_cases (count max_count min_count : Int) :
    (getCount count max_count min_count = (true, -count) ∧ count > 0 ∧
        -count ≥ min_count) ∨
      (getCount count max_count min_count = (true, count + 1) ∧ count > 0 ∧
        -count < min_count ∧ count + 1 ≤ max_count) ∨
      (getCount count max_count min_count = (true, 1 - count) ∧ count ≤ 0 ∧
        1 - count ≤ max_count) ∨
      (getCount count max_count min_count = (true, count - 1) ∧ count ≤ 0 ∧
        1 - count > max_count ∧ count - 1 ≥ min_count) ∨
      (getCount count max_count min_count = (false, count) ∧
        ((count > 0 ∧ -count < min_count ∧ count + 1 > max_count) ∨
          (count ≤ 0 ∧ 1 - count > max_count ∧ count - 1 < min_count))) := by
  unfold getCount
  split_ifs <;> simp <;> omega

/-- A call that returns true moves `count` forward in the order of
`getCountRank`, to a count allowed by one of the bounds. -/
theorem getCount_true_rank (count max_count min_count : Int)
    (h : (getCount count max_count min_count).1 = true) :
    getCountRank count < getCountRank (getCount count max_count min_count).2 ∧
      getCountRank (getCount count max_count min_count).2
        ≤ max (2 * max_count - 1) (-2 * min_count) := by
  rcases getCount_cases count max_count min_count with
    ⟨e, h1⟩ | ⟨e, h1⟩ | ⟨e, h1⟩ | ⟨e, h1⟩ | ⟨e, h1⟩
  · rw [e]
    simp only [getCountRank]
    split_ifs <;> omega
  · rw [e]
    simp only [getCountRank]
    split_ifs <;> omega
  · rw [e]
    simp only [getCountRank]
    split_ifs <;> omega
  · rw [e]
    simp only [getCountRank]
    split_ifs <;> omega
  · rw [e] at h
    exact absurd h Bool.false_ne_true

theorem getCountCalls_false (max_count min_count count : Int)
    (h : getCount count max_count min_count = (false, count)) (n : Nat) :
    getCountCalls max_count min_count n count
      = List.replicate n (false, count) := by
  induction n with
  | zero => rfl
  | succ n ih =>
    rw [getCountCalls, h, ih]
    rfl

/-- The trace of the calls that return true, for a count between the bounds
that include 0, with enough calls. -/
theorem getCountTrace_spec (max_count min_count : Int)
    (hmin : min_count ≤ 0) (hmax : 0 ≤ max_count) :
    ∀ (m : Nat) (count : Int), min_count ≤ count → count ≤ max_count →
      getCountLeft count max_count min_count = m →
      (getCountTrace max_count min_count m count).length = m ∧
      (∀ v, v ∈ getCountTrace max_count min_count m count ↔
        v ≠ 0 ∧ min_count ≤ v ∧ v ≤ max_count ∧
          getCountRank count < getCountRank v) ∧
      List.Chain (fun a b => getCountRank a < getCountRank b) count
        (getCountTrace max_count min_count m count) ∧
      ∀ n, getCountCalls max_count min_count (m + n) count
        = (getCountTrace max_count min_count m count).map (fun c => (true, c))
          ++ List.replicate n
            (false, (getCountTrace max_count min_count m count).getLastD count) := by
  intro m
  induction m with
  | zero =>
    intro count hlo hhi hleft
    have hfalse : getCount count max_count min_count = (false, count) := by
      rcases getCount_cases count max_count min_count with
        ⟨e, h1⟩ | ⟨e, h1⟩ | ⟨e, h1⟩ | ⟨e, h1⟩ | ⟨e, h1⟩
      all_goals first
        | exact e
        | (exfalso
           simp only [getCountLeft] at hleft
           split_ifs at hleft <;> omega)
    refine ⟨rfl, ?_, List.Chain.nil, ?_⟩
    · intro v
      simp only [getCountTrace, List.not_mem_nil, false_iff, not_and, not_lt]
      intro hv0 hvlo hvhi
      simp only [getCountLeft] at hleft
      simp only [getCountRank]
      split_ifs at hleft ⊢ <;> omega
    · intro n
      rw [Nat.zero_add, getCountCalls_false _ _ _ hfalse]
      rfl
  | succ m ih =>
    intro count hlo hhi hleft
    have hstep : ∃ c', getCount count max_count min_count = (true, c') ∧
        min_count ≤ c' ∧ c' ≤ max_count ∧ c' ≠ 0 ∧
        getCountLeft c' max_count min_count = m ∧
        getCountRank count < getCountRank c' ∧
        ∀ v, v ≠ 0 → min_count ≤ v → v ≤ max_count →
          getCountRank count < getCountRank v →
          v = c' ∨ getCountRank c' < getCountRank v := by
      rcases getCount_cases count max_count min_count with
        ⟨e, h1⟩ | ⟨e, h1⟩ | ⟨e, h1⟩ | ⟨e, h1⟩ | ⟨e, h1⟩
      · refine ⟨_, e, by omega, by omega, by omega, ?_, ?_, ?_⟩
        · simp only [getCountLeft] at hleft ⊢
          split_ifs at hleft ⊢ <;> omega
        · simp only [getCountRank]
          split_ifs <;> omega
        · intro v hv0 hvlo hvhi
          simp only [getCountRank]
          split_ifs <;> omega
      · refine ⟨_, e, by omega, by omega, by omega, ?_, ?_, ?_⟩
        · simp only [getCountLeft] at hleft ⊢
          split_ifs at hleft ⊢ <;> omega
        · simp only [getCountRank]
          split_ifs <;> omega
        · intro v hv0 hvlo hvhi
          simp only [getCountRank]
          split_ifs <;> omega
      · refine ⟨_, e, by omega, by omega, by omega, ?_, ?_, ?_⟩
        · simp only [getCountLeft] at hleft ⊢
          split_ifs at hleft ⊢ <;> omega
        · simp only [getCountRank]
          split_ifs <;> omega
        · intro v hv0 hvlo hvhi
          simp only [getCountRank]
          split_ifs <;> omega
      · refine ⟨_, e, by omega, by omega, by omega, ?_, ?_, ?_⟩
        · simp only [getCountLeft] at hleft ⊢
          split_ifs at hleft ⊢ <;> omega
        · simp only [getCountRank]
          split_ifs <;> omega
        · intro v hv0 hvlo hvhi
          simp only [getCountRank]
          split_ifs <;> omega
      · exfalso
        simp only [getCountLeft] at hleft
        split_ifs at hleft <;> omega
    obtain ⟨c', e, hlo', hhi', hc0, hleft', hrank, hgap⟩ := hstep
    obtain ⟨ihlen, ihmem, ihchain, ihcalls⟩ := ih c' hlo' hhi' hleft'
    have htrace : getCountTrace max_count min_count (m + 1) count
        = c' :: getCountTrace max_count min_count m c' := by
      rw [getCountTrace, e]
      rfl
    refine ⟨?_, ?_, ?_, ?_⟩
    · rw [htrace, List.length_cons, ihlen]
    · intro v
      rw [htrace, List.mem_cons, ihmem]
      constructor
      · rintro (rfl | ⟨h0, h1, h2, h3⟩)
        · exact ⟨hc0, hlo', hhi', hrank⟩
        · exact ⟨h0, h1, h2, lt_trans hrank h3⟩
      · rintro ⟨h0, h1, h2, h3⟩
        rcases hgap v h0 h1 h2 h3 with h | h
        · exact Or.inl h
        · exact Or.inr ⟨h0, h1, h2, h⟩
    · rw [htrace]
      exact List.Chain.cons hrank ihchain
    · intro n
      rw [htrace, show m + 1 + n = (m + n) + 1 by omega, getCountCalls, e]
      simp only
      rw [ihcalls n, List.map_cons, List.cons_append, List.getLastD_cons]

theorem getCountRank_lt_abs (a b : Int)
    (h : getCountRank a < getCountRank b) : |a| ≤ |b| := by
  simp only [getCountRank] at h
  rw [abs_le]
  rcases abs_cases b with ⟨hb, _⟩ | ⟨hb, _⟩ <;> rw [hb] <;>
    split_ifs at h <;> constructor <;> omega

/-! ## The free-angle loop of computeIKSearch -/

/-- The loop of `computeIKSearch` returns within a number of iterations that
the bounds of `getCount` determine, whatever the solver and the clock do. -/
theorem computeIKSearchLoop_returns (self : KDLRobotModel)
    (CartToJnt : List ℚ → List ℚ → Int × List ℚ) (elapsed : Nat → ℚ)
    (free_angle_ : Nat) (pose start solution : List ℚ)
    (timeout initial_guess : ℚ)
    (num_positive_increments num_negative_increments : Int) :
    ∀ (fuel i : Nat) (jnt_pos_in_ : List ℚ) (count : Int) (loop_time : ℚ),
      (max (2 * num_positive_increments - 1) (-2 * -num_negative_increments)
          - getCountRank count).toNat < fuel →
      (computeIKSearchLoop self CartToJnt elapsed free_angle_ pose start
        solution timeout initial_guess num_positive_increments
        num_negative_increments fuel i jnt_pos_in_ count loop_time).isSome
        = true := by
  intro fuel
  induction fuel with
  | zero => intro i j c t h; omega
  | succ fuel ih =>
    intro i j c t h
    rw [computeIKSearchLoop]
    split_ifs with h1 h2 h3
    · rfl
    · rfl
    · apply ih
      have htrue : (getCount c num_positive_increments
          (-num_negative_increments)).1 = true := by
        simpa using h3
      have := getCount_true_rank c num_positive_increments
        (-num_negative_increments) htrue
      omega
    · rfl

/-! ## C27 -/

/-- C27: for all integers `min_count ≤ 0 ≤ max_count`, repeated calls of
`getCount` that start from `count = 0` return true exactly
`max_count - min_count` times and false in every call after that, leaving
`count` unchanged. The values `t` that `count` takes in the calls that return
true are the integers of [`min_count`, `max_count`] other than 0, each exactly
once, in order of non-decreasing absolute value. The free-angle loop of
`computeIKSearch` returns within a number of iterations fixed before the
solver and the clock are chosen. -/
theorem getCount_enumerates (max_count min_count : Int)
    (hmin : min_count ≤ 0) (hmax : 0 ≤ max_count) :
    (∃ t : List Int,
      (∀ n, getCountCalls max_count min_count
          ((max_count - min_count).toNat + n) 0
        = t.map (fun c => (true, c))
          ++ List.replicate n (false, t.getLastD 0)) ∧
      t.length = (max_count - min_count).toNat ∧
      t.Nodup ∧
      (∀ v, v ∈ t ↔ v ≠ 0 ∧ min_count ≤ v ∧ v ≤ max_count) ∧
      t.Pairwise (fun a b => |a| ≤ |b|)) ∧
    ∀ (self : KDLRobotModel) (free_angle_ : Nat)
      (jnt_pos_in_ pose start solution : List ℚ) (timeout : ℚ),
      ∃ bound, ∀ (CartToJnt : List ℚ → List ℚ → Int × List ℚ)
        (elapsed : Nat → ℚ) (extra : Nat),
        (computeIKSearch self CartToJnt elapsed free_angle_ jnt_pos_in_
          (bound + extra) pose start solution timeout).isSome = true := by
  constructor
  · have hleft : getCountLeft 0 max_count min_count
        = (max_count - min_count).toNat := by
      simp only [getCountLeft]
      split_ifs <;> omega
    obtain ⟨hlen, hmem, hchain, hcalls⟩ :=
      getCountTrace_spec max_count min_count hmin hmax _ 0 hmin hmax hleft
    have hpair : List.Pairwise (fun a b => getCountRank a < getCountRank b)
        (getCountTrace max_count min_count (max_count - min_count).toNat 0) :=
      haveI : IsTrans Int (fun a b => getCountRank a < getCountRank b) :=
        ⟨fun _ _ _ => lt_trans⟩
      (List.pairwise_cons.mp (List.chain_iff_pairwise.mp hchain)).2
    refine ⟨_, hcalls, hlen, ?_, ?_, ?_⟩
    · exact hpair.imp fun h => fun e => by rw [e] at h; exact lt_irrefl _ h
    · intro v
      rw [hmem]
      constructor
      · rintro ⟨h0, h1, h2, _⟩
        exact ⟨h0, h1, h2⟩
      · rintro ⟨h0, h1, h2⟩
        refine ⟨h0, h1, h2, ?_⟩
        simp only [getCountRank]
        split_ifs <;> omega
    · exact hpair.imp fun h => getCountRank_lt_abs _ _ h
  · intro self free_angle_ jnt_pos_in_ pose start solution timeout
    refine ⟨(max (2 * truncToInt ((self.max_limits_.getD free_angle_ 0
        - (seedJntPosIn self jnt_pos_in_ start).getD free_angle_ 0)
        / search_discretization_angle) - 1)
      (-2 * -truncToInt (((seedJntPosIn self jnt_pos_in_ start).getD
        free_angle_ 0 - self.min_limits_.getD free_angle_ 0)
        / search_discretization_angle)) - getCountRank 0).toNat + 1, ?_⟩
    intro CartToJnt elapsed extra
    unfold computeIKSearch
    exact computeIKSearchLoop_returns _ _ _ _ _ _ _ _ _ _ _ _ _ _ _ _ (by omega)

theorem getCount_enumerates_witness :
    (-1 : Int) ≤ 0 ∧ (0 : Int) ≤ 3 ∧
      getCountCalls 3 (-1) 6 0
        = [(true, 1), (true, -1), (true, 2), (true, 3), (false, 3),
            (false, 3)] ∧
      ∃ t : List Int,
        (∀ n, getCountCalls 3 (-1) ((3 - (-1) : Int).toNat + n) 0
          = t.map (fun c => (true, c))
            ++ List.replicate n (false, t.getLastD 0)) ∧
        t.length = (3 - (-1) : Int).toNat :=
  ⟨by decide, by decide, by decide,
    (getCount_enumerates 3 (-1) (by decide) (by decide)).1.imp
      fun _ h => ⟨h.1, h.2.1⟩⟩

/-! ## Angles normalized into the range of a joint -/

theorem normalizeAngleDown_done (fl : ℚ → ℚ) (fuel : Nat) (a a_max : ℚ)
    (h : a ≤ a_max) : normalizeAngleDown fl fuel a a_max = some a := by
  cases fuel <;> rw [normalizeAngleDown, if_neg (not_lt.mpr h)]

theorem normalizeAngleUp_done (fl : ℚ → ℚ) (fuel : Nat) (a a_min : ℚ)
    (h : a_min ≤ a) : normalizeAngleUp fl fuel a a_min = some a := by
  cases fuel <;> rw [normalizeAngleUp, if_neg (not_lt.mpr h)]

/-- An angle of [-2π, 2π] between the two bounds is returned as it is, without
any arithmetic. -/
theorem normalizeAngle_fixed (fl : ℚ → ℚ) (fuel : Nat) (a a_min a_max : ℚ)
    (h0 : |a| ≤ 2 * M_PI) (h1 : a_min ≤ a) (h2 : a ≤ a_max) :
    normalizeAngle fl fuel a a_min a_max = some a := by
  rw [normalizeAngle]
  simp only [if_neg (not_lt.mpr h0), normalizeAngleDown_done fl fuel a a_max h2,
    Option.some_bind, normalizeAngleUp_done fl fuel a a_min h1]

/-- An angle of [-2π, 2π] above `a_max` that one subtraction takes below
`a_min` and one addition takes back comes back as the double addition rounds
it, which need not be the angle that went in. -/
theorem normalizeAngle_round_trip (fl : ℚ → ℚ) (fuel : Nat) (a a_min a_max : ℚ)
    (h0 : |a| ≤ 2 * M_PI) (h1 : a_max < a) (h2 : fl (a - 2 * M_PI) ≤ a_max)
    (h3 : fl (a - 2 * M_PI) < a_min)
    (h4 : a_min ≤ fl (fl (a - 2 * M_PI) + 2 * M_PI)) :
    normalizeAngle fl (fuel + 1) a a_min a_max
      = some (fl (fl (a - 2 * M_PI) + 2 * M_PI)) := by
  rw [normalizeAngle]
  simp only [if_neg (not_lt.mpr h0)]
  rw [normalizeAngleDown, if_pos h1, normalizeAngleDown_done fl fuel _ a_max h2,
    Option.some_bind, normalizeAngleUp, if_pos h3,
    normalizeAngleUp_done fl fuel _ a_min h4]

theorem fmod_turned : fmod (-19 / 2) (2 * M_PI) = -19 / 2 + 2 * M_PI := by
  have : ⌈(-19 / 2 : ℚ) / (2 * M_PI)⌉ = -1 := by
    rw [Int.ceil_eq_iff]
    constructor <;> norm_num [M_PI]
  rw [fmod, truncToInt, if_neg (by norm_num [M_PI]), this]
  push_cast
  ring

theorem normalize_angle_wide :
    sbpl.angles.normalize_angle (-10) = -10 + 4 * M_PI := by
  have : ⌈((-10 : ℚ) - M_PI) / (2 * M_PI)⌉ = -2 := by
    rw [Int.ceil_eq_iff]
    constructor <;> norm_num [M_PI]
  rw [sbpl.angles.normalize_angle, this]
  push_cast
  ring

/-! ## C26 -/

/-- C26 (code bug): `checkJointLimits` rejects angles that the joint limits
admit. Whatever the rounding `fl` of the double additions and subtractions and
whatever the number of loop rounds allowed, and for every `normalize_angle`
that maps the lower limit -10 to at least 9/4 (the function of `smpl/angles.h`
gives -10 + 4π, about 2.566):
with the limits -10 and 2 and the angle 9/4 the vector has one entry per limit,
the lower limit is below the upper one and 9/4 - 2π lies between the limits
(`k = -1`, for the double `M_PI` and for the real π), yet the call returns
false, leaving the caller's vector as it was, because `normalizeAngle`, called
with the normalized lower limit as its upper bound, hands 9/4 back unchanged;
with the limits -10 and -9 the angle -19/2, which lies between the limits as it
is (`k = 0`), is rejected too, because `std::fmod` turns it into -19/2 + 2π and
neither loop brings it back. -/
theorem checkJointLimits_rejects_angle_in_range (fl normalize_angle : ℚ → ℚ)
    (fuel : Nat) (h : 9 / 4 ≤ normalize_angle (-10)) :
    ([(9 / 4 : ℚ)].length = exampleWideJoint.min_limits_.length ∧
        [(9 / 4 : ℚ)].length = exampleWideJoint.max_limits_.length ∧
        exampleWideJoint.min_limits_.getD 0 0 ≤ exampleWideJoint.max_limits_.getD 0 0 ∧
        (∃ k : Int,
          exampleWideJoint.min_limits_.getD 0 0 ≤ 9 / 4 + 2 * M_PI * k ∧
          9 / 4 + 2 * M_PI * k ≤ exampleWideJoint.max_limits_.getD 0 0) ∧
        (∃ k : Int,
          ((exampleWideJoint.min_limits_.getD 0 0 : ℚ) : ℝ) ≤ 9 / 4 + 2 * Real.pi * k ∧
          9 / 4 + 2 * Real.pi * k ≤ ((exampleWideJoint.max_limits_.getD 0 0 : ℚ) : ℝ)) ∧
        normalizeAngle fl fuel (9 / 4) (-10) (normalize_angle (-10)) = some (9 / 4) ∧
        exampleWideJoint.checkJointLimits fl normalize_angle fuel [9 / 4]
          = some (false, [9 / 4])) ∧
      ([(-19 / 2 : ℚ)].length = exampleTurnedJoint.min_limits_.length ∧
        [(-19 / 2 : ℚ)].length = exampleTurnedJoint.max_limits_.length ∧
        exampleTurnedJoint.min_limits_.getD 0 0 ≤ -19 / 2 ∧
        -19 / 2 ≤ exampleTurnedJoint.max_limits_.getD 0 0 ∧
        normalizeAngle fl fuel (-19 / 2) (-10) (normalize_angle (-10))
          = some (-19 / 2 + 2 * M_PI) ∧
        exampleTurnedJoint.checkJointLimits fl normalize_angle fuel [-19 / 2]
          = some (false, [-19 / 2])) := by
  have hr : List.range 1 = [0] := rfl
  have hang : normalizeAngle fl fuel (9 / 4) (-10) (normalize_angle (-10))
      = some (9 / 4) :=
    normalizeAngle_fixed fl fuel _ _ _
      (by rw [abs_of_pos (by norm_num)]; norm_num [M_PI]) (by norm_num) h
  have hang2 : normalizeAngle fl fuel (-19 / 2) (-10) (normalize_angle (-10))
      = some (-19 / 2 + 2 * M_PI) := by
    rw [normalizeAngle]
    simp only [if_pos (show |(-19 / 2 : ℚ)| > 2 * M_PI by
      rw [abs_of_neg (by norm_num)]; norm_num [M_PI]), fmod_turned]
    rw [normalizeAngleDown_done fl fuel _ _ (le_trans (by norm_num [M_PI]) h),
      Option.some_bind, normalizeAngleUp_done fl fuel _ _ (by norm_num [M_PI])]
  refine ⟨⟨rfl, rfl, by norm_num [exampleWideJoint],
    ⟨-1, by norm_num [exampleWideJoint, M_PI],
      by norm_num [exampleWideJoint, M_PI]⟩,
    ⟨-1, ?_, ?_⟩, hang, ?_⟩,
    ⟨rfl, rfl, by norm_num [exampleTurnedJoint],
      by norm_num [exampleTurnedJoint], hang2, ?_⟩⟩
  · have := Real.pi_lt_four
    simp only [exampleWideJoint, List.getD_cons_zero]
    push_cast
    linarith
  · have := Real.pi_gt_three
    simp only [exampleWideJoint, List.getD_cons_zero]
    push_cast
    linarith
  · simp only [KDLRobotModel.checkJointLimits, exampleWideJoint,
      normalizeAnglesIntoRange, List.length_singleton, ne_eq,
      not_true_eq_false, or_self, if_false, hr, List.any_cons,
      List.any_nil, List.getD_cons_zero, Bool.or_false]
    rw [if_neg (by norm_num)]
    simp only [normalizeAnglesIntoRangeLoop, List.getD_cons_zero, hang,
      Option.some_bind, List.set_cons_zero]
    rw [if_pos (Or.inr (by norm_num))]
    rfl
  · simp only [KDLRobotModel.checkJointLimits, exampleTurnedJoint,
      normalizeAnglesIntoRange, List.length_singleton, ne_eq,
      not_true_eq_false, or_self, if_false, hr, List.any_cons,
      List.any_nil, List.getD_cons_zero, Bool.or_false]
    rw [if_neg (by norm_num)]
    simp only [normalizeAnglesIntoRangeLoop, List.getD_cons_zero, hang2,
      Option.some_bind, List.set_cons_zero]
    rw [if_pos (Or.inr (by norm_num [M_PI]))]
    rfl

theorem checkJointLimits_rejects_angle_in_range_witness :
    (9 / 4 : ℚ) ≤ sbpl.angles.normalize_angle (-10) ∧
      exampleWideJoint.checkJointLimits id sbpl.angles.normalize_angle 0 [9 / 4]
        = some (false, [9 / 4]) ∧
      exampleTurnedJoint.checkJointLimits id sbpl.angles.normalize_angle 0 [-19 / 2]
        = some (false, [-19 / 2]) :=
  have h : (9 / 4 : ℚ) ≤ sbpl.angles.normalize_angle (-10) := by
    rw [normalize_angle_wide]
    norm_num [M_PI]
  ⟨h, (checkJointLimits_rejects_angle_in_range id sbpl.angles.normalize_angle 0 h).1.2.2.2.2.2.2,
    (checkJointLimits_rejects_angle_in_range id sbpl.angles.normalize_angle 0 h).2.2.2.2.2.2⟩

end motion

namespace viz

/-! ## Lines of the visualization configuration -/

theorem findFirstIn_none (chars : List Char) (s : List Char)
    (h : ∀ c ∈ s, c ∉ chars) : findFirstIn chars s = none := by
  induction s with
  | nil => rfl
  | cons c rest ih =>
    rw [findFirstIn, if_neg (h c (List.mem_cons_self _ _)),
      ih (fun x hx => h x (List.mem_cons_of_mem _ hx))]
    rfl

theorem findFirstIn_some (chars : List Char) :
    ∀ (s : List Char) (k : Nat), findFirstIn chars s = some k →
      ∃ w c rest, s = w ++ c :: rest ∧ w.length = k ∧ c ∈ chars ∧
        ∀ x ∈ w, x ∉ chars := by
  intro s
  induction s with
  | nil => intro k h; cases h
  | cons c rest ih =>
    intro k h
    rw [findFirstIn] at h
    split_ifs at h with hc
    · cases h
      exact ⟨[], c, rest, rfl, rfl, hc, fun x hx => by cases hx⟩
    · cases hf : findFirstIn chars rest with
      | none => rw [hf] at h; cases h
      | some j =>
        rw [hf] at h
        cases h
        obtain ⟨w, d, rest', e, hl, hd, hw⟩ := ih j hf
        refine ⟨c :: w, d, rest', by rw [e]; rfl, by simp [hl], hd, ?_⟩
        intro x hx
        rcases List.mem_cons.mp hx with rfl | hx'
        · exact hc
        · exact hw x hx'

theorem findFirstIn_append (chars : List Char) (w : List Char) (c : Char)
    (rest : List Char) (hw : ∀ x ∈ w, x ∉ chars) (hc : c ∈ chars) :
    findFirstIn chars (w ++ c :: rest) = some w.length := by
  induction w with
  | nil => simp [findFirstIn, hc]
  | cons x w ih =>
    rw [List.cons_append, findFirstIn, if_neg (hw x (List.mem_cons_self _ _)),
      ih (fun y hy => hw y (List.mem_cons_of_mem _ hy))]
    rfl

/-- What a decomposition of the rest of the line at `last` says about the
indices that the loop uses. -/
theorem drop_eq_append_cons (line : List Char) (last : Nat) (w : List Char)
    (c : Char) (rest : List Char) (h : line.drop last = w ++ c :: rest) :
    last + w.length < line.length ∧
      line.getD (last + w.length) ' ' = c ∧
      substr line last (last + w.length - last) = w ∧
      line.drop (last + w.length + 1) = rest := by
  have hlen : (line.drop last).length = w.length + (rest.length + 1) := by
    rw [h]; simp
  rw [List.length_drop] at hlen
  refine ⟨by omega, ?_, ?_, ?_⟩
  · rw [List.getD_eq_getElem?_getD, ← List.getElem?_drop, h,
      List.getElem?_append_right (le_refl _)]
    simp
  · rw [substr, h, Nat.add_sub_cancel_left]
    simp
  · rw [show last + w.length + 1 = last + (w.length + 1) by omega,
      ← List.drop_drop, h]
    simp

theorem configLine_single (w : List Char) (level : Level) :
    configLine [w] level = w ++ '=' :: to_cstring level := by
  simp [configLine, List.intercalate]

theorem configLine_cons (w w2 : List Char) (ws : List (List Char))
    (level : Level) :
    configLine (w :: w2 :: ws) level
      = w ++ '.' :: configLine (w2 :: ws) level := by
  simp [configLine, List.intercalate, List.intersperse]

theorem to_cstring_branch (split1 : List (List Char)) (level0 L : Level) :
    (if to_cstring L = "DEBUG".toList then some (split1, Level.Debug)
      else if to_cstring L = "INFO".toList then some (split1, Level.Info)
      else if to_cstring L = "WARN".toList then some (split1, Level.Warn)
      else if to_cstring L = "ERROR".toList then some (split1, Level.Error)
      else if to_cstring L = "FATAL".toList then some (split1, Level.Fatal)
      else some (([] : List (List Char)), level0)) = some (split1, L) := by
  cases L <;> simp [to_cstring]

theorem delimiter_cases (c : Char) (h : c ∈ ['.', '=']) : c = '.' ∨ c = '=' := by
  simpa using h

/-- The loop ends within one iteration per remaining character and one more,
and what it leaves is either the cleared `split` with `level` as it was, or
the words and the level of a line of the form `w1.w2. ... .wn=L`. -/
theorem parseLoop_sound (line : List Char) (level0 : Level) :
    ∀ (fuel : Nat) (split : List (List Char)) (last : Nat),
      last ≤ line.length → line.length - last < fuel →
      ∃ r, ParseVisualizationConfigLineLoop line fuel split level0 last = some r ∧
        (r = ([], level0) ∨
          ∃ ws L, ws ≠ [] ∧ (∀ w ∈ ws, isWord w) ∧
            line.drop last = configLine ws L ∧ r = (split ++ ws, L)) := by
  intro fuel
  induction fuel with
  | zero => intro split last _ h; omega
  | succ fuel ih =>
    intro split last hlast hfuel
    rw [ParseVisualizationConfigLineLoop]
    cases hf : findFirstIn ['.', '='] (line.drop last) with
    | none =>
      have hfind : find_first_of line ['.', '='] last = none := by
        rw [find_first_of, hf]; rfl
      rw [hfind]
      exact ⟨_, rfl, Or.inl rfl⟩
    | some k =>
      obtain ⟨w, c, rest, e, hk, hc, hw⟩ := findFirstIn_some _ _ _ hf
      have hfind : find_first_of line ['.', '='] last = some (last + w.length) := by
        rw [find_first_of, hf, hk]; rfl
      obtain ⟨hlt, hget, hsub, hdrop⟩ := drop_eq_append_cons line last w c rest e
      rw [hfind]
      simp only [hget, hsub, hdrop]
      have hlast_iff : last = last + w.length ↔ w = [] := by
        rw [← List.length_eq_zero]; omega
      rcases delimiter_cases c hc with rfl | rfl
      · rw [if_pos rfl]
        by_cases hwe : w = []
        · rw [if_pos (hlast_iff.mpr hwe)]
          exact ⟨_, rfl, Or.inl rfl⟩
        · rw [if_neg (fun h => hwe (hlast_iff.mp h))]
          obtain ⟨r, hr, hcase⟩ := ih (split ++ [w]) (last + w.length + 1)
            (by omega) (by omega)
          refine ⟨r, hr, ?_⟩
          rcases hcase with h0 | ⟨ws, L, hne, hws, hline, hres⟩
          · exact Or.inl h0
          · right
            refine ⟨w :: ws, L, List.cons_ne_nil _ _, ?_, ?_, ?_⟩
            · intro x hx
              rcases List.mem_cons.mp hx with rfl | hx'
              · exact ⟨hwe, hw⟩
              · exact hws x hx'
            · cases ws with
              | nil => exact absurd rfl hne
              | cons w2 ws2 =>
                rw [configLine_cons, e, ← hline, hdrop]
            · rw [hres, List.append_assoc]
              rfl
      · rw [if_neg (by decide), if_pos rfl]
        by_cases hwe : w = []
        · rw [if_pos (hlast_iff.mpr hwe)]
          exact ⟨_, rfl, Or.inl rfl⟩
        · rw [if_neg (fun h => hwe (hlast_iff.mp h))]
          have hword : ∀ x ∈ [w], isWord x := by
            intro x hx
            rw [List.mem_singleton.mp hx]
            exact ⟨hwe, hw⟩
          split_ifs with h1 h2 h3 h4 h5
          · exact ⟨_, rfl, Or.inr ⟨[w], Level.Debug, by simp, hword,
              by rw [configLine_single, e, h1]; rfl, rfl⟩⟩
          · exact ⟨_, rfl, Or.inr ⟨[w], Level.Info, by simp, hword,
              by rw [configLine_single, e, h2]; rfl, rfl⟩⟩
          · exact ⟨_, rfl, Or.inr ⟨[w], Level.Warn, by simp, hword,
              by rw [configLine_single, e, h3]; rfl, rfl⟩⟩
          · exact ⟨_, rfl, Or.inr ⟨[w], Level.Error, by simp, hword,
              by rw [configLine_single, e, h4]; rfl, rfl⟩⟩
          · exact ⟨_, rfl, Or.inr ⟨[w], Level.Fatal, by simp, hword,
              by rw [configLine_single, e, h5]; rfl, rfl⟩⟩
          · exact ⟨_, rfl, Or.inl rfl⟩

/-- On the rest of a line of the form `w1.w2. ... .wn=L` the loop appends the
words to `split` and sets the level named `L`. -/
theorem parseLoop_complete (line : List Char) (level0 L : Level) :
    ∀ (ws : List (List Char)), ws ≠ [] → (∀ w ∈ ws, isWord w) →
      ∀ (fuel : Nat) (split : List (List Char)) (last : Nat),
        line.drop last = configLine ws L → line.length - last < fuel →
        ParseVisualizationConfigLineLoop line fuel split level0 last
          = some (split ++ ws, L) := by
  intro ws
  induction ws with
  | nil => intro h; exact absurd rfl h
  | cons w ws ih =>
    intro _ hws fuel split last hline hfuel
    have hw := hws w (List.mem_cons_self _ _)
    have hlast_ne : ¬ last = last + w.length := by
      intro h
      have : w.length = 0 := by omega
      exact hw.1 (List.length_eq_zero.mp this)
    cases fuel with
    | zero => omega
    | succ fuel =>
      rw [ParseVisualizationConfigLineLoop]
      cases ws with
      | nil =>
        rw [configLine_single] at hline
        have hfind : find_first_of line ['.', '='] last
            = some (last + w.length) := by
          rw [find_first_of, hline,
            findFirstIn_append _ w '=' _ hw.2 (by simp)]
          rfl
        obtain ⟨hlt, hget, hsub, hdrop⟩ :=
          drop_eq_append_cons line last w '=' _ hline
        rw [hfind]
        simp only [hget, hsub, hdrop]
        rw [if_neg (by decide), if_pos trivial, if_neg hlast_ne]
        exact to_cstring_branch _ _ _
      | cons w2 ws2 =>
        rw [configLine_cons] at hline
        have hfind : find_first_of line ['.', '='] last
            = some (last + w.length) := by
          rw [find_first_of, hline,
            findFirstIn_append _ w '.' _ hw.2 (by simp)]
          rfl
        obtain ⟨hlt, hget, hsub, hdrop⟩ :=
          drop_eq_append_cons line last w '.' _ hline
        rw [hfind]
        simp only [hget, hsub]
        rw [if_pos trivial, if_neg hlast_ne,
          ih (List.cons_ne_nil _ _)
            (fun x hx => hws x (List.mem_cons_of_mem _ hx)) fuel
            (split ++ [w]) (last + w.length + 1) hdrop
            (by omega),
          List.append_assoc]
        rfl

/-! ## C28 -/

/-- C28: `ParseVisualizationConfigLine` terminates on every string: the loop
ends within one iteration per character and one more, and more iterations
change nothing. It returns true if and only if the line has the form
`w1.w2. ... .wn=L` with `n ≥ 1`, every `wi` non-empty and without '.' and '=',
and `L` the name that `to_cstring` gives one of the five levels. On such a line
`split` is `[w1, ..., wn]` and `level` is the level named `L`, so that joining
`split` with '.' and appending '=' and `to_cstring(level)` gives the line
back. When it returns false `split` is empty and `level` is unchanged. -/
theorem ParseVisualizationConfigLine_spec (line : List Char)
    (split0 : List (List Char)) (level0 : Level) :
    ∃ r, ParseVisualizationConfigLine line split0 level0 = some r ∧
      (∀ extra, ParseVisualizationConfigLineLoop line
        (line.length + 1 + extra) [] level0 0 = some (r.2.1, r.2.2)) ∧
      (r.1 = true ↔
        ∃ ws L, ws ≠ [] ∧ (∀ w ∈ ws, isWord w) ∧ line = configLine ws L) ∧
      (∀ ws L, ws ≠ [] → (∀ w ∈ ws, isWord w) → line = configLine ws L →
        r = (true, ws, L)) ∧
      (r.1 = true → line = configLine r.2.1 r.2.2) ∧
      (r.1 = false → r.2.1 = [] ∧ r.2.2 = level0) := by
  obtain ⟨r0, hr0, hcase⟩ := parseLoop_sound line level0 (line.length + 1) [] 0
    (Nat.zero_le _) (by omega)
  have hmore : ∀ extra, ParseVisualizationConfigLineLoop line
      (line.length + 1 + extra) [] level0 0 = some r0 := by
    intro extra
    obtain ⟨r1, hr1, hcase1⟩ := parseLoop_sound line level0
      (line.length + 1 + extra) [] 0 (Nat.zero_le _) (by omega)
    rw [hr1]
    rcases hcase with h0 | ⟨ws, L, hne, hws, hline, hres⟩
    · rcases hcase1 with h1 | ⟨ws1, L1, hne1, hws1, hline1, hres1⟩
      · rw [h0, h1]
      · exfalso
        have := parseLoop_complete line level0 L1 ws1 hne1 hws1
          (line.length + 1) [] 0 hline1 (by omega)
        rw [hr0, h0] at this
        have h2 := congrArg (fun o => o.map Prod.fst) this
        simp only [Option.map, List.nil_append, Option.some.injEq] at h2
        exact hne1 h2.symm
    · have := parseLoop_complete line level0 L ws hne hws
        (line.length + 1 + extra) [] 0 hline (by omega)
      rw [hr1] at this
      rw [this, hres]
  have hcomplete : ∀ ws L, ws ≠ [] → (∀ w ∈ ws, isWord w) →
      line = configLine ws L → r0 = (ws, L) := by
    intro ws L hne hws hline
    have := parseLoop_complete line level0 L ws hne hws (line.length + 1) [] 0
      (by rw [List.drop_zero]; exact hline) (by omega)
    rw [hr0] at this
    simpa using this
  refine ⟨(!r0.1.isEmpty, r0.1, r0.2), ?_, hmore, ?_, ?_, ?_, ?_⟩
  · rw [ParseVisualizationConfigLine, hr0]
    rfl
  · constructor
    · intro hret
      rcases hcase with h0 | ⟨ws, L, hne, hws, hline, hres⟩
      · rw [h0] at hret
        exact absurd hret Bool.false_ne_true
      · exact ⟨ws, L, hne, hws, by rw [← hline, List.drop_zero]⟩
    · rintro ⟨ws, L, hne, hws, hline⟩
      rw [hcomplete ws L hne hws hline]
      cases ws with
      | nil => exact absurd rfl hne
      | cons w ws => rfl
  · intro ws L hne hws hline
    rw [hcomplete ws L hne hws hline]
    cases ws with
    | nil => exact absurd rfl hne
    | cons w ws => rfl
  · intro hret
    rcases hcase with h0 | ⟨ws, L, hne, hws, hline, hres⟩
    · rw [h0] at hret
      exact absurd hret Bool.false_ne_true
    · rw [hres]
      simpa using hline
  · intro hret
    rcases hcase with h0 | ⟨ws, L, hne, hws, hline, hres⟩
    · rw [h0]
      exact ⟨rfl, rfl⟩
    · exfalso
      rw [hres] at hret
      cases ws with
      | nil => exact hne rfl
      | cons w ws => exact absurd hret (by simp)

theorem ParseVisualizationConfigLine_spec_witness :
    ParseVisualizationConfigLine "a.b=WARN".toList [] Level.Info
        = some (true, ["a".toList, "b".toList], Level.Warn) ∧
      ParseVisualizationConfigLine "a..b=WARN".toList [] Level.Info
        = some (false, [], Level.Info) ∧
      ∃ r, ParseVisualizationConfigLine "a.b=WARN".toList [] Level.Info = some r ∧
        (r.1 = true → "a.b=WARN".toList = configLine r.2.1 r.2.2) :=
  ⟨by decide, by decide,
    (ParseVisualizationConfigLine_spec "a.b=WARN".toList [] Level.Info).imp
      fun _ h => ⟨h.1, h.2.2.2.2.1⟩⟩

/-! ## The registry of visualization locations -/

theorem Initialize_of_initialized (config : Option (List (List Char)))
    (s : VizGlobals) (h : s.g_initialized = true) : Initialize config s = s := by
  rw [Initialize.eq_def, if_pos h]

theorem Initialize_frame (config : Option (List (List Char))) (s : VizGlobals) :
    (Initialize config s).g_initialized = true ∧
      (Initialize config s).locations = s.locations ∧
      (Initialize config s).registry = s.registry := by
  rw [Initialize.eq_def]
  split_ifs with h
  · exact ⟨h, rfl, rfl⟩
  · cases config <;> exact ⟨rfl, rfl, rfl⟩

theorem index_frame (s : VizGlobals) (name : List Char) :
    (s.index name).g_initialized = s.g_initialized ∧
      (s.index name).locations = s.locations ∧
      (s.index name).registry = s.registry ∧
      ∀ n, (s.index name).levelOf n = s.levelOf n := by
  rw [VizGlobals.index]
  cases h : s.g_visualizations name with
  | some l => exact ⟨rfl, rfl, rfl, fun _ => rfl⟩
  | none =>
    refine ⟨rfl, rfl, rfl, fun n => ?_⟩
    simp only [VizGlobals.levelOf]
    by_cases e : n = name
    · rw [e, Function.update_same, h]
      rfl
    · rw [Function.update_noteq e]

theorem locationCurrent_congr (s s' : VizGlobals) (loc : Nat)
    (hloc : s'.locations loc = s.locations loc)
    (hlev : ∀ n, s'.levelOf n = s.levelOf n) :
    s'.locationCurrent loc ↔ s.locationCurrent loc := by
  simp only [VizGlobals.locationCurrent, hloc, hlev]

/-- What `CheckLocationEnabledNoLock` does once the levels are initialized: it
sets the flag of the location and nothing else. -/
theorem CheckLocationEnabledNoLock_spec (config : Option (List (List Char)))
    (s : VizGlobals) (loc : Nat) (h : s.g_initialized = true) :
    (CheckLocationEnabledNoLock config s loc).g_initialized = true ∧
      (CheckLocationEnabledNoLock config s loc).g_visualizations
        = s.g_visualizations ∧
      (CheckLocationEnabledNoLock config s loc).registry = s.registry ∧
      (CheckLocationEnabledNoLock config s loc).locationCurrent loc ∧
      (∀ other, other ≠ loc →
        (CheckLocationEnabledNoLock config s loc).locations other
          = s.locations other) ∧
      ((CheckLocationEnabledNoLock config s loc).locations loc).handle
        = (s.locations loc).handle ∧
      ((CheckLocationEnabledNoLock config s loc).locations loc).level
        = (s.locations loc).level ∧
      ((CheckLocationEnabledNoLock config s loc).locations loc).initialized
        = (s.locations loc).initialized := by
  have e : CheckLocationEnabledNoLock config s loc
      = { s with
          locations := Function.update s.locations loc
            { s.locations loc with
              enabled := decide ((s.levelOf (s.locations loc).handle).toNat
                ≤ (s.locations loc).level.toNat) } } := by
    simp only [CheckLocationEnabledNoLock, IsEnabledFor,
      Initialize_of_initialized config s h]
  rw [e]
  refine ⟨h, rfl, rfl, ?_, ?_, ?_, ?_, ?_⟩
  · simp [VizGlobals.locationCurrent, VizGlobals.levelOf]
  · intro other hne
    simp [Function.update_noteq hne]
  · simp
  · simp
  · simp

theorem CheckLocationEnabledNoLock_keeps (config : Option (List (List Char)))
    (s : VizGlobals) (loc other : Nat) (h : s.g_initialized = true)
    (hc : s.locationCurrent other) :
    (CheckLocationEnabledNoLock config s loc).locationCurrent other := by
  obtain ⟨_, hm, _, hcur, hoth, _, _, _⟩ :=
    CheckLocationEnabledNoLock_spec config s loc h
  by_cases e : other = loc
  · rw [e]
    exact hcur
  · exact (locationCurrent_congr s _ other (hoth other e)
      (fun n => by simp only [VizGlobals.levelOf, hm])).mpr hc

theorem NotifyLevelsChanged_foldl (config : Option (List (List Char))) :
    ∀ (l : List Nat) (s : VizGlobals), s.g_initialized = true →
      (l.foldl (CheckLocationEnabledNoLock config) s).g_initialized = true ∧
      (l.foldl (CheckLocationEnabledNoLock config) s).g_visualizations
        = s.g_visualizations ∧
      (l.foldl (CheckLocationEnabledNoLock config) s).registry = s.registry ∧
      ∀ loc, (loc ∈ l ∨ s.locationCurrent loc) →
        (l.foldl (CheckLocationEnabledNoLock config) s).locationCurrent loc := by
  intro l
  induction l with
  | nil =>
    intro s h
    refine ⟨h, rfl, rfl, fun loc hl => ?_⟩
    rcases hl with hl | hl
    · cases hl
    · exact hl
  | cons a l ih =>
    intro s h
    obtain ⟨h1, hm, hr, hcur, _⟩ := CheckLocationEnabledNoLock_spec config s a h
    obtain ⟨i1, i2, i3, i4⟩ := ih (CheckLocationEnabledNoLock config s a) h1
    rw [List.foldl_cons]
    refine ⟨i1, i2.trans hm, i3.trans hr, fun loc hl => ?_⟩
    apply i4
    rcases hl with hl | hl
    · rcases List.mem_cons.mp hl with rfl | hl'
      · exact Or.inr hcur
      · exact Or.inl hl'
    · exact Or.inr (CheckLocationEnabledNoLock_keeps config s a loc h hl)

theorem set_visualization_level_eq (config : Option (List (List Char)))
    (s : VizGlobals) (name : List Char) (level : Level) :
    set_visualization_level config s name level
      = if (Initialize config s).levelOf name ≠ level then
          (true, NotifyLevelsChanged config
            { (Initialize config s).index name with
              g_visualizations := Function.update
                ((Initialize config s).index name).g_visualizations name
                (some level) })
        else (false, (Initialize config s).index name) := by
  have g4 := (index_frame (Initialize config s) name).2.2.2 name
  by_cases hne : (Initialize config s).levelOf name ≠ level
  · have h1 : SetVisualizationLevel config s name level
        = (true,
            { (Initialize config s).index name with
              g_visualizations := Function.update
                ((Initialize config s).index name).g_visualizations name
                (some level) }) := by
      simp only [SetVisualizationLevel]
      rw [g4, if_pos hne]
    rw [if_pos hne, set_visualization_level, h1]
    rfl
  · have h1 : SetVisualizationLevel config s name level
        = (false, (Initialize config s).index name) := by
      simp only [SetVisualizationLevel]
      rw [g4, if_neg hne]
    rw [if_neg hne, set_visualization_level, h1]
    rfl

/-- The condition that the calls keep: every registered location is current,
and no location is registered before the levels are initialized. -/
theorem set_visualization_level_keeps (config : Option (List (List Char)))
    (s : VizGlobals) (name : List Char) (level : Level)
    (hinv : ∀ loc ∈ s.registry, s.locationCurrent loc)
    (hreg : s.g_initialized = false → s.registry = []) :
    (∀ loc ∈ (set_visualization_level config s name level).2.registry,
        (set_visualization_level config s name level).2.locationCurrent loc) ∧
      (set_visualization_level config s name level).2.g_initialized = true := by
  obtain ⟨f1, f2, f3⟩ := Initialize_frame config s
  obtain ⟨g1, g2, g3, g4⟩ := index_frame (Initialize config s) name
  rw [set_visualization_level_eq]
  split_ifs with hne
  · simp only [NotifyLevelsChanged]
    obtain ⟨i1, _, i3, i4⟩ := NotifyLevelsChanged_foldl config
      ((Initialize config s).index name).registry
      { (Initialize config s).index name with
        g_visualizations := Function.update
          ((Initialize config s).index name).g_visualizations name (some level) }
      (by rw [← f1, ← g1])
    refine ⟨fun loc hloc => i4 loc (Or.inl ?_), i1⟩
    rw [i3] at hloc
    exact hloc
  · simp only
    refine ⟨fun loc hloc => ?_, by rw [g1, f1]⟩
    rw [g3, f3] at hloc
    cases hi : s.g_initialized with
    | false =>
      rw [hreg hi] at hloc
      cases hloc
    | true =>
      have e := Initialize_of_initialized config s hi
      refine (locationCurrent_congr s _ loc ?_ ?_).mpr (hinv loc hloc)
      · rw [g2, e]
      · intro n
        rw [g4, e]

theorem InitializeVizLocation_keeps (config : Option (List (List Char)))
    (s : VizGlobals) (loc : Nat) (name : List Char) (level : Level)
    (hinv : ∀ l ∈ s.registry, s.locationCurrent l)
    (hreg : s.g_initialized = false → s.registry = []) :
    (∀ l ∈ (InitializeVizLocation config s loc name level).registry,
        (InitializeVizLocation config s loc name level).locationCurrent l) ∧
      ((InitializeVizLocation config s loc name level).g_initialized = false →
        (InitializeVizLocation config s loc name level).registry = []) := by
  rw [InitializeVizLocation]
  split_ifs with hinit
  · exact ⟨hinv, hreg⟩
  · obtain ⟨f1, f2, f3⟩ := Initialize_frame config s
    obtain ⟨g1, g2, g3, g4⟩ := index_frame (Initialize config s) name
    simp only [GetHandle]
    have h1 : ({ (Initialize config s).index name with
        locations := Function.update ((Initialize config s).index name).locations
          loc { ((Initialize config s).index name).locations loc with
            handle := name, level := level }
        registry := ((Initialize config s).index name).registry ++ [loc] }
          : VizGlobals).g_initialized = true := by
      show ((Initialize config s).index name).g_initialized = true
      rw [g1, f1]
    obtain ⟨c1, c2, c3, c4, c5, c6, c7, c8⟩ :=
      CheckLocationEnabledNoLock_spec config _ loc h1
    refine ⟨fun l hl => ?_, fun h => ?_⟩
    · simp only at hl
      rw [c3] at hl
      simp only [g3, f3] at hl
      by_cases e : l = loc
      · subst e
        simp only [VizGlobals.locationCurrent, VizGlobals.levelOf,
          Function.update_same] at c4 ⊢
        exact c4
      · have hl' : l ∈ s.registry := by
          rcases List.mem_append.mp hl with h | h
          · exact h
          · exact absurd (List.mem_singleton.mp h) e
        have hi : s.g_initialized = true := by
          cases hs : s.g_initialized with
          | true => rfl
          | false =>
            rw [hreg hs] at hl'
            cases hl'
        have e0 := Initialize_of_initialized config s hi
        refine (locationCurrent_congr s _ l ?_ ?_).mpr (hinv l hl')
        · dsimp only
          rw [Function.update_noteq e, c5 l e]
          dsimp only
          rw [Function.update_noteq e, g2, f2]
        · intro n
          have g4n := g4 n
          simp only [VizGlobals.levelOf] at g4n ⊢
          rw [c2]
          dsimp only
          rw [g4n, e0]
    · simp only at h
      rw [c1] at h
      cases h

theorem run_keeps (config : Option (List (List Char))) :
    ∀ (calls : List VizCall) (s : VizGlobals),
      (∀ l ∈ s.registry, s.locationCurrent l) →
      (s.g_initialized = false → s.registry = []) →
      (∀ l ∈ (calls.foldl (VizCall.run config) s).registry,
        (calls.foldl (VizCall.run config) s).locationCurrent l) ∧
      ((calls.foldl (VizCall.run config) s).g_initialized = false →
        (calls.foldl (VizCall.run config) s).registry = []) := by
  intro calls
  induction calls with
  | nil => intro s h1 h2; exact ⟨h1, h2⟩
  | cons c calls ih =>
    intro s h1 h2
    rw [List.foldl_cons]
    cases c with
    | InitializeVizLocation loc name level =>
      obtain ⟨k1, k2⟩ := InitializeVizLocation_keeps config s loc name level h1 h2
      exact ih _ k1 k2
    | set_visualization_level name level =>
      obtain ⟨k1, k2⟩ := set_visualization_level_keeps config s name level h1 h2
      exact ih _ k1 (fun h => by rw [VizCall.run, k2] at h; cases h)

theorem set_visualization_level_ret (config : Option (List (List Char)))
    (s : VizGlobals) (name : List Char) (level : Level) :
    (set_visualization_level config s name level).1
        = decide ((Initialize config s).levelOf name ≠ level) ∧
      (set_visualization_level config s name level).2.g_initialized = true ∧
      (set_visualization_level config s name level).2.levelOf name = level := by
  obtain ⟨f1, f2, f3⟩ := Initialize_frame config s
  obtain ⟨g1, g2, g3, g4⟩ := index_frame (Initialize config s) name
  rw [set_visualization_level_eq]
  split_ifs with hne
  · simp only [NotifyLevelsChanged]
    obtain ⟨i1, i2, _, _⟩ := NotifyLevelsChanged_foldl config
      ((Initialize config s).index name).registry
      { (Initialize config s).index name with
        g_visualizations := Function.update
          ((Initialize config s).index name).g_visualizations name (some level) }
      (by rw [← f1, ← g1])
    refine ⟨(decide_eq_true hne).symm, i1, ?_⟩
    simp only [VizGlobals.levelOf, i2, Function.update_same]
    rfl
  · simp only
    refine ⟨(decide_eq_false hne).symm, by rw [g1, f1], ?_⟩
    rw [g4]
    exact not_not.mp hne

/-! ## C29 -/

end viz

namespace collision

/-! ## The two enumerations of the link pairs -/

theorem pairCheck_comm (acm : AllowedCollisionMatrix) (hsym : acm.Symmetric)
    (ss1 ss2 : SphereStateTree) (h1 : ss1.Enclosed) (h2 : ss2.Enclosed) :
    checkSpheresStateCollision acm ss1 ss2
      = checkSpheresStateCollision acm ss2 ss1 := by
  have hswap : ∀ t1 t2 : SphereStateTree,
      treesCollide acm t1 t2 → treesCollide acm t2 t1 := by
    rintro t1 t2 ⟨a, ha, b, hb, hov, hacm⟩
    exact ⟨b, hb, a, ha, spheresOverlap_comm.mp hov,
      by rw [hsym b.name a.name]; exact hacm⟩
  have hiff : checkSpheresStateCollision acm ss1 ss2 = false ↔
      checkSpheresStateCollision acm ss2 ss1 = false := by
    rw [pairCheck_false_iff_treesCollide acm ss1 ss2 h1 h2,
      pairCheck_false_iff_treesCollide acm ss2 ss1 h2 h1]
    exact ⟨hswap ss1 ss2, hswap ss2 ss1⟩
  cases h : checkSpheresStateCollision acm ss1 ss2 with
  | false => exact (hiff.mp h).symm
  | true =>
    cases h' : checkSpheresStateCollision acm ss2 ss1 with
    | true => rfl
    | false => rw [hiff.mpr h'] at h; exact absurd h (by simp)

/-- The check with an `AllowedCollisionsInterface` passes exactly when every
pair of positions `p1 < p2` of the group's link list whose links have spheres
and no `ALWAYS` entry in `aci` passes the pair check. -/
theorem checkSpheresStateCollisionsWith_true_iff (rcm : RobotCollisionModel)
    (self : SelfCollisionModelImpl) (aci : AllowedCollisionMatrix) :
    checkSpheresStateCollisionsWith rcm self aci = true ↔
      ∀ p1 p2, p1 < p2 → p2 < (rcm.groupLinkIndices self.m_gidx).length →
        rcm.hasSpheresModel ((rcm.groupLinkIndices self.m_gidx).getD p1 0) = true →
        rcm.hasSpheresModel ((rcm.groupLinkIndices self.m_gidx).getD p2 0) = true →
        aci.getEntry (rcm.linkName ((rcm.groupLinkIndices self.m_gidx).getD p2 0))
            (rcm.linkName ((rcm.groupLinkIndices self.m_gidx).getD p1 0))
          ≠ some AllowedCollisionType.ALWAYS →
        checkSpheresStateCollision self.m_acm
          (rcm.spheresState self.m_rcs.jointVarPositions
            (rcm.linkSpheresStateIndex
              ((rcm.groupLinkIndices self.m_gidx).getD p1 0)))
          (rcm.spheresState self.m_rcs.jointVarPositions
            (rcm.linkSpheresStateIndex
              ((rcm.groupLinkIndices self.m_gidx).getD p2 0))) = true := by
  simp only [checkSpheresStateCollisionsWith, List.all_eq_true, List.mem_range,
    List.mem_range'_1]
  constructor
  · intro h p1 p2 h12 h2 hs1 hs2 hacm
    have a := h p1 (by omega)
    rw [hs1] at a
    simp only [Bool.not_true, Bool.false_eq_true, if_false] at a
    rw [List.all_eq_true] at a
    have b := a p2 (List.mem_range'_1.mpr ⟨by omega, by omega⟩)
    rw [hs2] at b
    simp only [Bool.not_true, Bool.false_eq_true, if_false] at b
    rw [if_neg hacm] at b
    exact b
  · intro h p1 hp1
    split_ifs with hs1
    · rfl
    · rw [List.all_eq_true]
      intro p2 hp2
      rw [List.mem_range'_1] at hp2
      split_ifs with hs2 hacm
      · rfl
      · rfl
      · exact h p1 p2 (by omega) (by omega) (by simpa using hs1)
          (by simpa using hs2) hacm

/-- The check over the precomputed list passes exactly when every link pair
that has to be tested passes the pair check. -/
theorem checkSpheresStateCollisions_true_iff (rcm : RobotCollisionModel)
    (self : SelfCollisionModelImpl) (hg : self.m_gidx ≠ -1)
    (hcur : checkedPairsCurrent rcm self) :
    checkSpheresStateCollisions rcm self = true ↔
      ∀ l1 l2, checkedLinkPair rcm self l1 l2 →
        checkSpheresStateCollision self.m_acm
          (rcm.spheresState self.m_rcs.jointVarPositions
            (rcm.linkSpheresStateIndex l1))
          (rcm.spheresState self.m_rcs.jointVarPositions
            (rcm.linkSpheresStateIndex l2)) = true := by
  obtain ⟨lps, _, hmem, hlist⟩ := hcur.2 hg
  simp only [checkSpheresStateCollisions, hlist, List.all_eq_true, List.mem_map]
  constructor
  · intro h l1 l2 hp
    exact h _ ⟨(l1, l2), (hmem l1 l2).mpr hp, rfl⟩
  · rintro h _ ⟨⟨l1, l2⟩, hp, rfl⟩
    exact h l1 l2 ((hmem l1 l2).mp hp)

/-- On a model whose checked pairs are up to date, the two overloads of
`checkSpheresStateCollisions` agree. -/
theorem spheresChecks_agree (rcm : RobotCollisionModel)
    (self : SelfCollisionModelImpl) (aci : AllowedCollisionMatrix)
    (hg : self.m_gidx ≠ -1) (hcur : checkedPairsCurrent rcm self)
    (hsym : self.m_acm.Symmetric)
    (haci : ∀ n1 n2, aci.getEntry n1 n2 = self.m_acm.getEntry n1 n2)
    (hnd : (rcm.groupLinkIndices self.m_gidx).Nodup)
    (hidx : ∀ l ∈ rcm.groupLinkIndices self.m_gidx, l < rcm.linkCount)
    (henc : ∀ ssidx,
      (rcm.spheresState self.m_rcs.jointVarPositions ssidx).Enclosed) :
    checkSpheresStateCollisionsWith rcm self aci
      = checkSpheresStateCollisions rcm self := by
  have hiff : checkSpheresStateCollisionsWith rcm self aci = true ↔
      checkSpheresStateCollisions rcm self = true := by
    rw [checkSpheresStateCollisionsWith_true_iff,
      checkSpheresStateCollisions_true_iff rcm self hg hcur]
    have hget : ∀ (p : Nat) (hp : p < (rcm.groupLinkIndices self.m_gidx).length),
        (rcm.groupLinkIndices self.m_gidx).getD p 0
          = (rcm.groupLinkIndices self.m_gidx).get ⟨p, hp⟩ := by
      intro p hp
      rw [List.getD_eq_getElem _ _ hp]
      rfl
    constructor
    · intro h l1 l2 ⟨h12, hl2, hm1, hm2, hs1, hs2, hacm⟩
      obtain ⟨⟨p1, hp1⟩, e1⟩ := List.mem_iff_get.mp hm1
      obtain ⟨⟨p2, hp2⟩, e2⟩ := List.mem_iff_get.mp hm2
      have g1 := hget p1 hp1
      have g2 := hget p2 hp2
      rw [e1] at g1
      rw [e2] at g2
      have hne : p1 ≠ p2 := by
        intro e
        subst e
        rw [g1] at g2
        omega
      rcases Nat.lt_or_gt_of_ne hne with hlt | hgt
      · have := h p1 p2 hlt hp2 (by rw [g1]; exact hs1) (by rw [g2]; exact hs2)
          (by rw [g1, g2, haci, hsym]; exact hacm)
        rw [g1, g2] at this
        exact this
      · have := h p2 p1 hgt hp1 (by rw [g2]; exact hs2) (by rw [g1]; exact hs1)
          (by rw [g1, g2, haci]; exact hacm)
        rw [g1, g2] at this
        rw [pairCheck_comm _ hsym _ _ (henc _) (henc _)]
        exact this
    · intro h p1 p2 h12 hp2 hs1 hs2 hacm
      have hp1 : p1 < (rcm.groupLinkIndices self.m_gidx).length := by omega
      have g1 := hget p1 hp1
      have g2 := hget p2 hp2
      have hm1 : (rcm.groupLinkIndices self.m_gidx).getD p1 0
          ∈ rcm.groupLinkIndices self.m_gidx := by
        rw [g1]; exact List.get_mem _ _ _
      have hm2 : (rcm.groupLinkIndices self.m_gidx).getD p2 0
          ∈ rcm.groupLinkIndices self.m_gidx := by
        rw [g2]; exact List.get_mem _ _ _
      have hne : (rcm.groupLinkIndices self.m_gidx).getD p1 0
          ≠ (rcm.groupLinkIndices self.m_gidx).getD p2 0 := by
        rw [g1, g2]
        intro e
        have := (List.Nodup.get_inj_iff hnd).mp e
        simp only [Fin.mk.injEq] at this
        omega
      rw [haci] at hacm
      rcases Nat.lt_or_gt_of_ne hne with hlt | hgt
      · exact h _ _ ⟨hlt, hidx _ hm2, hm1, hm2, hs1, hs2,
          by rw [hsym]; exact hacm⟩
      · rw [pairCheck_comm _ hsym _ _ (henc _) (henc _)]
        exact h _ _ ⟨hgt, hidx _ hm1, hm2, hm1, hs2, hs1, hacm⟩
  cases h1 : checkSpheresStateCollisionsWith rcm self aci with
  | true => exact (hiff.mp h1).symm
  | false =>
    cases h2 : checkSpheresStateCollisions rcm self with
    | false => rfl
    | true => rw [hiff.mpr h2] at h1; exact absurd h1 (by simp)

theorem exampleSpheres_enclosed (jp : Nat → ℚ) (ssidx : Nat) :
    (exampleSpheres jp ssidx).Enclosed := by
  unfold exampleSpheres
  split_ifs
  · norm_num [SphereStateTree.Enclosed]
  · exact exampleUpperArm_enclosed
  · norm_num [SphereStateTree.Enclosed]

/-! ## C24 -/

end collision
end sbpl
